import Mathlib

/-!
# TMVA transpose-convolution layer: CPU kernels

A shallow embedding of the CPU tensor kernels of `Propagation.cxx`
(`TCpu<AFloat>`) and of the layer object of `TransConvLayer.h`
(`TTransConvLayer<Architecture_t>`), followed by the properties proved
about them.

Conventions of the embedding.

* `size_t` is unsigned 64-bit and `int` is signed 32-bit (LP64).  A
  `size_t` parameter is a `Nat`; where the source subtracts in `size_t` or
  converts a `size_t` value to `int`, the wrap is explicit (`sizeT`,
  `toInt`).  Sums and products of sizes and buffer indices are not reduced:
  they are below `2^64` for every buffer that exists.
* `AFloat` is an arbitrary scalar type `α` with `0`, `+` and `*`; results
  that need algebra are stated over a semiring (exact arithmetic).
* `Fatal` and `R__ASSERT` terminate the process; a kernel that can reach
  one returns `Except Failure _`.
-/

set_option autoImplicit false

namespace TMVA
namespace DNN

/-! ## Machine integers and failures -/

/-- Value of an integer expression evaluated in `size_t` (unsigned 64-bit). -/
def sizeT (x : Int) : Nat := (x % 18446744073709551616).toNat

/-- Value of an integer after conversion to `int` (32-bit two's complement). -/
def toInt (x : Int) : Int := (x + 2147483648) % 4294967296 - 2147483648

/-- Ways in which a kernel stops the process instead of returning. -/
inductive Failure where
  /-- The call `Fatal(...)`: incompatible hyper parameters. -/
  | Fatal : Failure
  /-- A failed `R__ASSERT`. -/
  | Assert : Failure
  /-- An access past the end of a `std::vector` (undefined behaviour). -/
  | OutOfRange : Failure
deriving DecidableEq, Repr

deriving instance DecidableEq for Except

/-! ## Matrix primitive -/

/-- Modelled from the spec: the matrix primitive `TCpuMatrix` (`CpuMatrix.h`
is not part of the sources): a dense 2-D buffer with row/column indexing and
raw access to its flat buffer, stored column-major, so that element `(i, j)`
is cell `j * nRows + i` of the buffer. -/
structure TCpuMatrix (α : Type) where
  /-- Number of rows. -/
  fNRows : Nat
  /-- Number of columns. -/
  fNCols : Nat
  /-- The flat buffer behind `GetRawDataPointer()`. -/
  fBuffer : List α
deriving DecidableEq, Repr

namespace TCpuMatrix

variable {α : Type}

/-- The call `GetNrows()`. -/
def GetNrows (A : TCpuMatrix α) : Nat := A.fNRows

/-- The call `GetNcols()`. -/
def GetNcols (A : TCpuMatrix α) : Nat := A.fNCols

/-- The call `GetNoElements()`. -/
def GetNoElements (A : TCpuMatrix α) : Nat := A.fNRows * A.fNCols

/-- Constructor `TCpuMatrix(nRows, nCols)`: a zero-filled matrix. -/
def zeros [Zero α] (nRows nCols : Nat) : TCpuMatrix α :=
  { fNRows := nRows, fNCols := nCols, fBuffer := List.replicate (nRows * nCols) 0 }

/-- Read access `A(i, j)`; a cell outside the buffer reads as `0`. -/
def elem [Zero α] (A : TCpuMatrix α) (i j : Nat) : α :=
  A.fBuffer.getD (j * A.fNRows + i) 0

/-- Write access `A(i, j) = v`: cell `j * nRows + i` of the buffer. -/
def setElem (A : TCpuMatrix α) (i j : Nat) (v : α) : TCpuMatrix α :=
  { A with fBuffer := A.fBuffer.set (j * A.fNRows + i) v }

/-- A matrix whose buffer has exactly `nRows * nCols` cells. -/
def WellFormed (A : TCpuMatrix α) : Prop := A.fBuffer.length = A.fNRows * A.fNCols

/-- Build a matrix from its rows (used to write down fixtures). -/
def ofRows [Zero α] (nRows nCols : Nat) (rows : List (List α)) : TCpuMatrix α :=
  { fNRows := nRows, fNCols := nCols,
    fBuffer := (List.range (nRows * nCols)).map
      (fun c => (rows.getD (c % nRows) []).getD (c / nRows) 0) }

/-- The rows of a matrix, read through `elem`. -/
def toRows [Zero α] (A : TCpuMatrix α) : List (List α) :=
  (List.range A.fNRows).map (fun i => (List.range A.fNCols).map (fun j => A.elem i j))

end TCpuMatrix

/-! ## Loops -/

/-- The loop `for (int i = start; i <= bound; i += stride) body`, cut off
after `fuel` iterations.  The increment adds a `size_t` to an `int` and
stores the sum in the `int` again. -/
def forIntLoop {σ : Type} (stride : Nat) (bound : Int) (body : Int → σ → σ) :
    Nat → Int → σ → σ
  | 0, _, s => s
  | fuel + 1, i, s =>
    if i ≤ bound then
      forIntLoop stride bound body fuel (toInt (sizeT (i + stride))) (body i s)
    else s

/-- The loop `for (int i = start; i <= bound; i += stride) body`.  With
`stride ≥ 1` and no wrap of `i` the loop makes at most `bound - start + 1`
iterations, which is the fuel given here; with `stride = 0` the source does
not terminate and the model stops after that many iterations. -/
def forInt {σ : Type} (start bound : Int) (stride : Nat) (body : Int → σ → σ) (s : σ) : σ :=
  forIntLoop stride bound body (bound - start + 1).toNat start s

/-- The sum `f 0 + f 1 + ... + f (n - 1)`, accumulated from the left. -/
def sumRange {α : Type} [Zero α] [Add α] (n : Nat) (f : Nat → α) : α :=
  (List.range n).foldl (fun acc l => acc + f l) 0

/-! ## Numeric backend -/

namespace Blas

variable {α : Type} [Zero α] [Add α] [Mul α]

/-- Modelled from the spec: the general matrix-multiply primitive with the
classic `(transA, transB, M, N, K, alpha, A, lda, B, ldb, beta, C, ldc)`
contract on column-major buffers (`Blas.h` is not part of the sources): for
`i < m`, `j < n` cell `i + j * ldc` of `C` becomes
`alpha * Σ_{l<k} op(A)(i,l) * op(B)(l,j) + beta * C(i,j)`, every other cell
of `C` is kept.  A `true` flag stands for `'T'`. -/
def Gemm (transa transb : Bool) (m n k : Int) (alpha : α) (A : List α) (lda : Int)
    (B : List α) (ldb : Int) (beta : α) (C : List α) (ldc : Int) : List α :=
  (List.range C.length).map (fun c =>
    let i := c % ldc.toNat
    let j := c / ldc.toNat
    if i < m.toNat ∧ j < n.toNat then
      alpha * sumRange k.toNat (fun l =>
          (if transa then A.getD (l + i * lda.toNat) 0 else A.getD (i + l * lda.toNat) 0) *
          (if transb then B.getD (j + l * ldb.toNat) 0 else B.getD (l + j * ldb.toNat) 0))
        + beta * C.getD c 0
    else C.getD c 0)

/-- Modelled from the spec: the rank-1 update primitive (outer-product
accumulate) `A := alpha * x * yᵀ + A` on a column-major buffer (`Blas.h` is
not part of the sources): for `i < m`, `j < n` cell `i + j * lda` of `A`
grows by `alpha * x[i * incx] * y[j * incy]`, every other cell is kept. -/
def Ger (m n : Int) (alpha : α) (x : List α) (incx : Int) (y : List α) (incy : Int)
    (A : List α) (lda : Int) : List α :=
  (List.range A.length).map (fun c =>
    let i := c % lda.toNat
    let j := c / lda.toNat
    if i < m.toNat ∧ j < n.toNat then
      A.getD c 0 + alpha * x.getD (i * incx.toNat) 0 * y.getD (j * incy.toNat) 0
    else A.getD c 0)

end Blas

/-! ## Activation functions -/

/-- The activation selector; the names are those listed by
`TTransConvLayer::Print`. -/
inductive EActivationFunction where
  | kIdentity | kRelu | kSigmoid | kTanh | kSymmRelu | kSoftSign | kGauss
deriving DecidableEq, Repr

/-- Modelled from the spec: the activation function and its first derivative
selected by an `EActivationFunction` (`Functions.h` is not part of the
sources); both act on one scalar. -/
structure Activations (α : Type) where
  /-- The activation function of a selector. -/
  f : EActivationFunction → α → α
  /-- The first derivative of the activation function of a selector. -/
  df : EActivationFunction → α → α

/-- Modelled from the spec: `evaluate(A, f)` evaluates the activation
function in place on every cell of `A`. -/
def evaluate {α : Type} (act : Activations α) (A : TCpuMatrix α) (f : EActivationFunction) :
    TCpuMatrix α :=
  { A with fBuffer := A.fBuffer.map (act.f f) }

/-- Modelled from the spec: `evaluateDerivative(B, f, A)` evaluates the
derivative of the activation function on every cell of `A` into the slot
`B`. -/
def evaluateDerivative {α : Type} [Zero α] (act : Activations α) (B : TCpuMatrix α)
    (f : EActivationFunction) (A : TCpuMatrix α) : TCpuMatrix α :=
  { B with fBuffer := (List.range B.fBuffer.length).map (fun c => act.df f (A.fBuffer.getD c 0)) }

/-- The interpretation of the selectors used by the fixtures, which select
`kIdentity`: every selector is the identity function, of derivative `1`. -/
def identityActivations : Activations Int :=
  { f := fun _ x => x, df := fun _ _ => 1 }

/-! ## Output dimension -/

namespace TCpu

/-- `TCpu::calculateDimension` (Propagation.cxx:281-290).  `temp` is computed
in `size_t`; `temp + stride <= 0` is an unsigned comparison.  `stride = 0`
divides by zero in the source and is outside the model. -/
def calculateDimension (imgDim fltDim padding stride : Nat) : Except Failure Nat :=
  let temp : Nat := sizeT ((imgDim : Int) - fltDim + 2 * padding)
  if temp % stride ≠ 0 ∨ sizeT ((temp : Int) + stride) ≤ 0 then
    Except.error Failure.Fatal
  else
    Except.ok (sizeT (((temp / stride : Nat) : Int) + 1))

end TCpu

/-- The geometry record `TConvParams` handed to the forward kernels; its
fields are those of `TTransConvParams` (TransConvLayer.h:155-181). -/
structure TConvParams where
  batchSize : Nat
  inputDepth : Nat
  inputHeight : Nat
  inputWidth : Nat
  numberFilters : Nat
  filterHeight : Nat
  filterWidth : Nat
  strideRows : Nat
  strideCols : Nat
  paddingHeight : Nat
  paddingWidth : Nat
deriving DecidableEq, Repr

/-- Element `v[i]` of a `std::vector`; an index past the end is undefined
behaviour and reported as `Failure.OutOfRange`. -/
def vecAt {β : Type} (v : List β) (i : Nat) : Except Failure β :=
  match v[i]? with
  | some x => Except.ok x
  | none => Except.error Failure.OutOfRange

/-- The loop `while (cond) body`, cut off after `fuel` iterations. -/
def whileLoop {σ : Type} (cond : σ → Bool) (body : σ → σ) : Nat → σ → σ
  | 0, s => s
  | fuel + 1, s => if cond s then whileLoop cond body fuel (body s) else s

/-! ## Gather kernels -/

namespace TCpu

variable {α : Type} [Zero α]

/-- `TCpu::Im2col` (Propagation.cxx:98-146), the direct gather.  The state of
the two centre loops is `((a, ok), currLocalView)`, that of the three loops
within a local view is `((a, ok), currLocalViewPixel)`; `a` is the flat
buffer of `A`, in which `A(currLocalView, currLocalViewPixel)` is cell
`currLocalViewPixel * A.GetNrows() + currLocalView`, and `ok` records that no
`R__ASSERT` has failed so far. -/
def Im2col (A B : TCpuMatrix α) (imgHeight imgWidth fltHeight fltWidth strideRows strideCols
    zeroPaddingHeight zeroPaddingWidth : Nat) : Except Failure (TCpuMatrix α) :=
  let imgHeightBound : Int :=
    toInt (sizeT ((imgHeight : Int) + zeroPaddingHeight - (sizeT ((fltHeight : Int) - 1) / 2 : Nat) - 1))
  let imgWidthBound : Int :=
    toInt (sizeT ((imgWidth : Int) + zeroPaddingWidth - (sizeT ((fltWidth : Int) - 1) / 2 : Nat) - 1))
  let halfFltHeight : Int := toInt (fltHeight / 2 : Nat)
  let halfFltWidth : Int := toInt (fltWidth / 2 : Nat)
  let halfFltHeightM1 : Int := toInt (sizeT ((fltHeight : Int) - 1) / 2 : Nat)
  let halfFltWidthM1 : Int := toInt (sizeT ((fltWidth : Int) - 1) / 2 : Nat)
  let nRowsInput : Int := toInt B.GetNrows
  let nColsInput : Int := toInt B.GetNcols
  let nRowsOutput : Int := toInt A.GetNrows
  let nColsOutput : Int := toInt A.GetNcols
  let r := forInt (toInt (sizeT (halfFltHeight - zeroPaddingHeight))) imgHeightBound strideRows
    (fun (i : Int) (s : (List α × Bool) × Nat) =>
      forInt (toInt (sizeT (halfFltWidth - zeroPaddingWidth))) imgWidthBound strideCols
        (fun (j : Int) (s : (List α × Bool) × Nat) =>
          let currLocalView := s.2
          let inner := forInt 0 (nRowsInput - 1) 1
            (fun (m : Int) (sp : (List α × Bool) × Nat) =>
              forInt (i - halfFltHeight) (toInt (i + halfFltHeightM1)) 1
                (fun (k : Int) (sp : (List α × Bool) × Nat) =>
                  let kstep : Int := toInt (sizeT (k * imgWidth))
                  forInt (j - halfFltWidth) (toInt (j + halfFltWidthM1)) 1
                    (fun (l : Int) (sp : (List α × Bool) × Nat) =>
                      let currLocalViewPixel := sp.2
                      ((sp.1.1.set (currLocalViewPixel * A.GetNrows + currLocalView)
                          (if k < 0 ∨ k ≥ toInt imgHeight ∨ l < 0 ∨ l ≥ toInt imgWidth
                              ∨ kstep + l ≥ nColsInput then 0
                            else B.elem (sizeT m) (sizeT (kstep + l))),
                        sp.1.2 && decide (toInt currLocalViewPixel < nColsOutput)),
                       currLocalViewPixel + 1))
                    sp)
                sp)
            ((s.1.1, s.1.2 && decide (toInt currLocalView < nRowsOutput)), 0)
          (inner.1, currLocalView + 1))
        s)
    ((A.fBuffer, true), 0)
  if r.1.2 then Except.ok { A with fBuffer := r.1.1 } else Except.error Failure.Assert

/-- `TCpu::Im2colIndices` (Propagation.cxx:149-200), the index precomputation.
The loop nest and its state are those of `Im2col`, with the index vector `V`
in the place of the buffer of `A`. -/
def Im2colIndices (V : List Int) (B : TCpuMatrix α) (nLocalViews imgHeight imgWidth fltHeight
    fltWidth strideRows strideCols zeroPaddingHeight zeroPaddingWidth : Nat) :
    Except Failure (List Int) :=
  let imgHeightBound : Int :=
    toInt (sizeT ((imgHeight : Int) + zeroPaddingHeight - (sizeT ((fltHeight : Int) - 1) / 2 : Nat) - 1))
  let imgWidthBound : Int :=
    toInt (sizeT ((imgWidth : Int) + zeroPaddingWidth - (sizeT ((fltWidth : Int) - 1) / 2 : Nat) - 1))
  let halfFltHeight : Int := toInt (fltHeight / 2 : Nat)
  let halfFltWidth : Int := toInt (fltWidth / 2 : Nat)
  let halfFltHeightM1 : Int := toInt (sizeT ((fltHeight : Int) - 1) / 2 : Nat)
  let halfFltWidthM1 : Int := toInt (sizeT ((fltWidth : Int) - 1) / 2 : Nat)
  let nRowsInput : Int := toInt B.GetNrows
  let nColsInput : Int := toInt B.GetNcols
  let nSizeOutput : Nat := V.length
  let npixels : Int := toInt (sizeT (nRowsInput * fltHeight * fltWidth))
  let r := forInt (toInt (sizeT (halfFltHeight - zeroPaddingHeight))) imgHeightBound strideRows
    (fun (i : Int) (s : (List Int × Bool) × Nat) =>
      forInt (toInt (sizeT (halfFltWidth - zeroPaddingWidth))) imgWidthBound strideCols
        (fun (j : Int) (s : (List Int × Bool) × Nat) =>
          let currLocalView := s.2
          let inner := forInt 0 (nRowsInput - 1) 1
            (fun (m : Int) (sp : (List Int × Bool) × Nat) =>
              forInt (i - halfFltHeight) (toInt (i + halfFltHeightM1)) 1
                (fun (k : Int) (sp : (List Int × Bool) × Nat) =>
                  let kstep : Int := toInt (sizeT (k * imgWidth))
                  forInt (j - halfFltWidth) (toInt (j + halfFltWidthM1)) 1
                    (fun (l : Int) (sp : (List Int × Bool) × Nat) =>
                      let currLocalViewPixel := sp.2
                      ((sp.1.1.set (currLocalViewPixel * nLocalViews + currLocalView)
                          (if k < 0 ∨ k ≥ toInt imgHeight ∨ l < 0 ∨ l ≥ toInt imgWidth
                              ∨ kstep + l ≥ nColsInput then -1
                            else toInt ((kstep + l) * nRowsInput + m)),
                        sp.1.2 && decide
                          (sizeT ((currLocalView : Int) * npixels + currLocalViewPixel) < nSizeOutput)),
                       currLocalViewPixel + 1))
                    sp)
                sp)
            ((s.1.1, s.1.2), 0)
          (inner.1, currLocalView + 1))
        s)
    ((V, true), 0)
  if r.1.2 then Except.ok r.1.1 else Except.error Failure.Assert

/-- `TCpu::Im2colFast` (Propagation.cxx:201-244), serial branch: the gather
through a precomputed index map, on the flat buffers of `A` and `B`. -/
def Im2colFast (A B : TCpuMatrix α) (V : List Int) : Except Failure (TCpuMatrix α) :=
  let n := V.length
  if n ≠ A.GetNcols * A.GetNrows then Except.error Failure.Assert
  else
    Except.ok { A with fBuffer := ((List.range n).foldl
      (fun (a : List α) (ii : Nat) =>
        let idx := V.getD ii 0
        if idx ≥ 0 then a.set ii (B.fBuffer.getD idx.toNat 0) else a.set ii 0)
      A.fBuffer) }

end TCpu

/-! ## Multiplication and bias kernels -/

namespace TCpu

variable {α : Type} [Zero α] [One α] [Add α] [Mul α]

/-- `TCpu::MultiplyTranspose` (Propagation.cxx:24-57): the three dimension
checks on the `int` casts of the sizes, then `Gemm` with flags `'N'`, `'T'`
and leading dimensions `m`, `n`, `m`. -/
def MultiplyTranspose (output input Weights : TCpuMatrix α) : Except Failure (TCpuMatrix α) :=
  let m : Int := toInt input.GetNrows
  let k : Int := toInt input.GetNcols
  let n : Int := toInt Weights.GetNrows
  if toInt output.GetNrows ≠ m then Except.error Failure.Assert
  else if toInt output.GetNcols ≠ n then Except.error Failure.Assert
  else if toInt Weights.GetNcols ≠ k then Except.error Failure.Assert
  else
    Except.ok { output with
      fBuffer := (Blas.Gemm false true m n k 1 input.fBuffer m Weights.fBuffer n 0 output.fBuffer m) }

/-- Modelled from the spec: `TCpu::Multiply(C, A, B)` (`Arithmetic.cxx` is not
part of the sources), the GEMM-based multiply `C = A · B`: `A` is `m × k`,
`B` is `k × n`, `C` is `m × n`, a mismatch is a fatal assertion raised before
the multiply. -/
def Multiply (C A B : TCpuMatrix α) : Except Failure (TCpuMatrix α) :=
  let m : Int := toInt A.GetNrows
  let k : Int := toInt A.GetNcols
  let n : Int := toInt B.GetNcols
  if toInt C.GetNrows ≠ m then Except.error Failure.Assert
  else if toInt C.GetNcols ≠ n then Except.error Failure.Assert
  else if toInt B.GetNrows ≠ k then Except.error Failure.Assert
  else
    Except.ok { C with
      fBuffer := (Blas.Gemm false false m n k 1 A.fBuffer m B.fBuffer k 0 C.fBuffer m) }

/-- Modelled from the spec: `TCpuMatrix::InitializeOneVector(n)` makes the
shared constant ones-vector at least `n` long. -/
def InitializeOneVector (fOnes : List α) (n : Nat) : List α :=
  fOnes ++ List.replicate (n - fOnes.length) 1

/-- `TCpu::AddConvBiases` (Propagation.cxx:262-279).  `fOnes` is the shared
ones-vector behind `GetOnePointer()`, of length `GetOnePointerSize()`. -/
def AddConvBiases (fOnes : List α) (output biases : TCpuMatrix α) :
    Except Failure (TCpuMatrix α) :=
  let m : Int := toInt output.GetNrows
  let n : Int := toInt output.GetNcols
  let inc : Int := 1
  if ¬ (m ≤ toInt biases.GetNoElements) then Except.error Failure.Assert
  else if ¬ (n ≤ toInt fOnes.length) then Except.error Failure.Assert
  else
    Except.ok { output with
      fBuffer := (Blas.Ger m n 1 biases.fBuffer inc fOnes inc output.fBuffer m) }

/-- The body `f(i)` of `TCpu::ConvLayerForward` for one batch element
(Propagation.cxx:316-334); the result is `(output, derivatives)`. -/
def ConvLayerForward.f (act : Activations α) (fOnes : List α) (input : List (TCpuMatrix α))
    (weights biases : TCpuMatrix α) (activFunc : EActivationFunction)
    (nLocalViews nLocalViewPixels : Nat) (forwardIndices : List Int)
    (s : List (TCpuMatrix α) × List (TCpuMatrix α)) (i : Nat) :
    Except Failure (List (TCpuMatrix α) × List (TCpuMatrix α)) := do
  let inputTr : TCpuMatrix α := TCpuMatrix.zeros nLocalViews nLocalViewPixels
  let input_i ← vecAt input i
  let inputTr ← Im2colFast inputTr input_i forwardIndices
  let output_i ← vecAt s.1 i
  let output_i ← MultiplyTranspose output_i weights inputTr
  let output_i ← AddConvBiases fOnes output_i biases
  let derivatives_i ← vecAt s.2 i
  let derivatives_i := evaluateDerivative act derivatives_i activFunc output_i
  let output_i := evaluate act output_i activFunc
  pure (s.1.set i output_i, s.2.set i derivatives_i)

/-- `TCpu::ConvLayerForward` (Propagation.cxx:293-337).  The batch elements,
which the source hands to the thread executor, are processed in order; the
result is `(output, derivatives)`. -/
def ConvLayerForward (act : Activations α) (fOnes : List α)
    (output derivatives input : List (TCpuMatrix α)) (weights biases : TCpuMatrix α)
    (params : TConvParams) (activFunc : EActivationFunction) :
    Except Failure (List (TCpuMatrix α) × List (TCpuMatrix α)) := do
  let height ← calculateDimension params.inputHeight params.filterHeight params.paddingHeight
    params.strideRows
  let width ← calculateDimension params.inputWidth params.filterWidth params.paddingWidth
    params.strideCols
  let nLocalViews := height * width
  let nLocalViewPixels := params.inputDepth * params.filterHeight * params.filterWidth
  if ¬ (input.length > 0) then Except.error Failure.Assert
  else do
    let input0 ← vecAt input 0
    let forwardIndices ← Im2colIndices (List.replicate (nLocalViews * nLocalViewPixels) 0) input0
      nLocalViews params.inputHeight params.inputWidth params.filterHeight params.filterWidth
      params.strideRows params.strideCols params.paddingHeight params.paddingWidth
    let fOnes := InitializeOneVector fOnes nLocalViews
    let output0 ← vecAt output 0
    let fOnes := InitializeOneVector fOnes output0.GetNcols
    (List.range input.length).foldlM
      (ConvLayerForward.f act fOnes input weights biases activFunc nLocalViews nLocalViewPixels
        forwardIndices)
      (output, derivatives)

/-! ## Transpose-convolution kernels -/

/-- `TCpu::GenerateColumnarMatrix` (Propagation.cxx:512-530): the row-major
flattening of `input` into the column `inputColumnar[0]`. -/
def GenerateColumnarMatrix (input : TCpuMatrix α) (inputColumnar : List (TCpuMatrix α)) :
    Except Failure (List (TCpuMatrix α)) := do
  let c0 ← vecAt inputColumnar 0
  let c := (List.range input.GetNrows).foldl
    (fun (c : TCpuMatrix α) (i : Nat) =>
      (List.range input.GetNcols).foldl
        (fun (c : TCpuMatrix α) (j : Nat) => c.setElem (i * input.GetNcols + j) 0 (input.elem i j))
        c)
    c0
  pure (inputColumnar.set 0 c)

/-- The state of one column of `GenerateConvMatrix`: the matrix being filled
and the counters `j`, `count`, `weightIndex`. -/
structure ConvColumnState (α : Type) where
  M : TCpuMatrix α
  j : Nat
  count : Nat
  weightIndex : Nat

/-- One pass of the loop `while (j < rows)` of `TCpu::GenerateConvMatrix`
(Propagation.cxx:365-393) for column `i`: `padRow` zeros, the interleaved
weights, then zeros down to the last row.  The weight loop advances `j` in
every iteration and stops at `j = rows`, so `rows` iterations of fuel are
enough for it. -/
def GenerateConvMatrix.pass (weights columnarVector0 : TCpuMatrix α) (rows i padRow : Nat)
    (s : ConvColumnState α) : ConvColumnState α :=
  let s : ConvColumnState α := { s with count := 1 }
  let s : ConvColumnState α := (List.range padRow).foldl
    (fun (s : ConvColumnState α) (k : Nat) => { s with M := s.M.setElem k i 0, j := s.j + 1 }) s
  let s : ConvColumnState α := { s with weightIndex := 0 }
  let s : ConvColumnState α := whileLoop
    (fun (s : ConvColumnState α) => decide (s.weightIndex < columnarVector0.GetNrows ∧ s.j < rows))
    (fun (s : ConvColumnState α) =>
      let s : ConvColumnState α :=
        if s.count % (weights.GetNcols + 1) = 0 then { s with M := s.M.setElem s.j i 0 }
        else { s with M := s.M.setElem s.j i (columnarVector0.elem s.weightIndex 0),
                      weightIndex := s.weightIndex + 1 }
      { s with j := s.j + 1, count := s.count + 1 })
    rows s
  (List.range (rows - s.j)).foldl
    (fun (s : ConvColumnState α) (_ : Nat) => { s with M := s.M.setElem s.j i 0, j := s.j + 1 }) s

/-- `TCpu::GenerateConvMatrix` (Propagation.cxx:339-409): the dense
convolution matrix built from the weights into `modifiedWeightMatrix[0]`.
The state of the column loop is the matrix and `padRow`; the column index
`i` is incremented once, at the end of every iteration.  A pass of
`while (j < rows)` leaves `j ≥ rows`, so `rows` passes of fuel are enough. -/
def GenerateConvMatrix (weights : TCpuMatrix α) (modifiedWeightMatrix : List (TCpuMatrix α)) :
    Except Failure (List (TCpuMatrix α)) := do
  let M0 ← vecAt modifiedWeightMatrix 0
  let rows := M0.GetNrows
  let cols := M0.GetNcols
  let columnarWeightMatrix : TCpuMatrix α :=
    TCpuMatrix.zeros (weights.GetNrows * weights.GetNcols) 1
  let columnarVector ← GenerateColumnarMatrix weights [columnarWeightMatrix]
  let columnarVector0 ← vecAt columnarVector 0
  let r := (List.range cols).foldl
    (fun (s : TCpuMatrix α × Nat) (i : Nat) =>
      let padRow := s.2
      let c := whileLoop (fun (c : ConvColumnState α) => decide (c.j < rows))
        (GenerateConvMatrix.pass weights columnarVector0 rows i padRow) rows
        { M := s.1, j := 0, count := 1, weightIndex := 0 }
      let i := i + 1
      if i ≥ cols / 2 then
        let newPadRow : Int := toInt (sizeT (((rows : Int) - 1 - columnarVector0.GetNrows
          - ((weights.GetNrows : Int) - 1)) - ((cols : Int) - 1 - i)))
        let newPadRow : Int := if newPadRow < 0 then 0 else newPadRow
        (c.M, sizeT newPadRow)
      else (c.M, i))
    (M0, 0)
  pure (modifiedWeightMatrix.set 0 r.1)

/-- The matrix `convMatrix` that `TCpu::TransConvLayerForward` allocates for
one batch element (Propagation.cxx:589). -/
def TransConvLayerForward.convMatrix (output_i inputTr : TCpuMatrix α) : TCpuMatrix α :=
  TCpuMatrix.zeros output_i.GetNcols inputTr.GetNrows

/-- The body of the batch loop of `TCpu::TransConvLayerForward`
(Propagation.cxx:542-648) for element `i`.  A copy of a `TCpuMatrix` shares
the buffer of the original, so the columns filled through `inputTrVector`
and `convMatrices` are read back from their element 0.  The diagnostic
printing is left out, except for its accesses to `input[i]` and
`convMatrices[i]`. -/
def TransConvLayerForward.body (fOnes : List α) (input : List (TCpuMatrix α))
    (weights biases : TCpuMatrix α) (output : List (TCpuMatrix α)) (i : Nat) :
    Except Failure (List (TCpuMatrix α)) := do
  let output_i ← vecAt output i
  let outputTr : TCpuMatrix α := TCpuMatrix.zeros (output_i.GetNcols * output_i.GetNrows) 1
  let input_i ← vecAt input i
  let inputTr : TCpuMatrix α := TCpuMatrix.zeros (input_i.GetNrows * input_i.GetNcols) 1
  let inputTrVector ← GenerateColumnarMatrix input_i [inputTr]
  let inputTr ← vecAt inputTrVector 0
  let convMatrices := [TransConvLayerForward.convMatrix output_i inputTr]
  let _ ← vecAt convMatrices i
  let convMatrices ← GenerateConvMatrix weights convMatrices
  let convMatrix_i ← vecAt convMatrices i
  let outputTr ← Multiply outputTr convMatrix_i inputTr
  let output_i := (List.range output_i.GetNrows).foldl
    (fun (o : TCpuMatrix α) (j : Nat) =>
      (List.range output_i.GetNcols).foldl
        (fun (o : TCpuMatrix α) (k : Nat) => o.setElem j k (outputTr.elem (j * output_i.GetNcols + k) 0))
        o)
    output_i
  let output_i ← AddConvBiases fOnes output_i biases
  pure (output.set i output_i)

/-- `TCpu::TransConvLayerForward` (Propagation.cxx:533-654); the result is
`(output, derivatives)`.  Neither `params` nor `activFunc` nor `derivatives`
is used by the source. -/
def TransConvLayerForward (fOnes : List α) (output derivatives input : List (TCpuMatrix α))
    (weights biases : TCpuMatrix α) (_params : TConvParams) (_activFunc : EActivationFunction) :
    Except Failure (List (TCpuMatrix α) × List (TCpuMatrix α)) := do
  let output ← (List.range output.length).foldlM
    (TransConvLayerForward.body fOnes input weights biases) output
  pure (output, derivatives)

end TCpu

namespace CNN
namespace TTransConvLayer

/-- `TTransConvLayer::calculateDimension` (TransConvLayer.h:404-413), the
private copy of the dimension formula used by the constructor. -/
def calculateDimension (imgDim fltDim padding stride : Nat) : Except Failure Nat :=
  let temp : Nat := sizeT ((imgDim : Int) - fltDim + 2 * padding)
  if temp % stride ≠ 0 ∨ sizeT ((temp : Int) + stride) ≤ 0 then
    Except.error Failure.Fatal
  else
    Except.ok (sizeT (((temp / stride : Nat) : Int) + 1))

/-- `TTransConvLayer::calculateNLocalViewPixels`. -/
def calculateNLocalViewPixels (depth height width : Nat) : Nat := depth * height * width

/-- `TTransConvLayer::calculateNLocalViews` (TransConvLayer.h:415-424): both
dimensions are stored in `int` before they are multiplied. -/
def calculateNLocalViews (inputHeight filterHeight paddingHeight strideRows
    inputWidth filterWidth paddingWidth strideCols : Nat) : Except Failure Nat := do
  let height ← calculateDimension inputHeight filterHeight paddingHeight strideRows
  let width ← calculateDimension inputWidth filterWidth paddingWidth strideCols
  pure (sizeT (toInt height * toInt width))

end TTransConvLayer

/-- The layer object `TTransConvLayer<TCpu<AFloat>>` (TransConvLayer.h:42-153)
with the state of its base `VGeneralLayer` that the kernels use.  Modelled
from the spec: the base class (`GeneralLayer.h` is not part of the sources)
owns the geometry, one weight matrix, one bias vector and the output batch.
The initialisation method, the dropout probability, the regularisation and
the weight decay take no part in the kernels and are left out. -/
structure TTransConvLayer (α : Type) where
  fBatchSize : Nat
  fInputDepth : Nat
  fInputHeight : Nat
  fInputWidth : Nat
  fDepth : Nat
  fHeight : Nat
  fWidth : Nat
  fWeights : List (TCpuMatrix α)
  fBiases : List (TCpuMatrix α)
  fOutput : List (TCpuMatrix α)
  fFilterDepth : Nat
  fFilterHeight : Nat
  fFilterWidth : Nat
  fStrideRows : Nat
  fStrideCols : Nat
  fNLocalViewPixels : Nat
  fNLocalViews : Nat
  fPaddingHeight : Nat
  fPaddingWidth : Nat
  fDerivatives : List (TCpuMatrix α)
  fF : EActivationFunction
  fForwardMatrices : List (TCpuMatrix α)
deriving DecidableEq, Repr

namespace TTransConvLayer

variable {α : Type} [Zero α] [One α] [Add α] [Mul α]

/-- The constructor `TTransConvLayer::TTransConvLayer` (TransConvLayer.h:188-219):
the base is built from the two output dimensions, the pixel count and the
local-view count, then one derivative matrix and one forward matrix are
allocated per batch element. -/
def construct (batchSize inputDepth inputHeight inputWidth depth filterHeight filterWidth
    strideRows strideCols paddingHeight paddingWidth : Nat) (f : EActivationFunction) :
    Except Failure (TTransConvLayer α) := do
  let height ← calculateDimension inputHeight filterHeight paddingHeight strideRows
  let width ← calculateDimension inputWidth filterWidth paddingWidth strideCols
  let nLocalViewPixels := calculateNLocalViewPixels inputDepth filterHeight filterWidth
  let nLocalViews ← calculateNLocalViews inputHeight filterHeight paddingHeight strideRows
    inputWidth filterWidth paddingWidth strideCols
  pure
    { fBatchSize := batchSize, fInputDepth := inputDepth, fInputHeight := inputHeight,
      fInputWidth := inputWidth, fDepth := depth, fHeight := height, fWidth := width,
      fWeights := [TCpuMatrix.zeros depth nLocalViewPixels],
      fBiases := [TCpuMatrix.zeros depth 1],
      fOutput := List.replicate batchSize (TCpuMatrix.zeros depth nLocalViews),
      fFilterDepth := inputDepth, fFilterHeight := filterHeight, fFilterWidth := filterWidth,
      fStrideRows := strideRows, fStrideCols := strideCols,
      fNLocalViewPixels := nLocalViewPixels, fNLocalViews := nLocalViews,
      fPaddingHeight := paddingHeight, fPaddingWidth := paddingWidth,
      fDerivatives := List.replicate batchSize (TCpuMatrix.zeros depth nLocalViews),
      fF := f,
      fForwardMatrices := List.replicate batchSize (TCpuMatrix.zeros nLocalViews nLocalViewPixels) }

/-- `TTransConvLayer::Forward` (TransConvLayer.h:271-282) on the CPU
architecture; `fOnes` is the shared ones-vector of the matrix primitive. -/
def Forward (fOnes : List α) (self : TTransConvLayer α) (input : List (TCpuMatrix α)) :
    Except Failure (TTransConvLayer α) := do
  let params : TConvParams :=
    { batchSize := self.fBatchSize, inputDepth := self.fInputDepth,
      inputHeight := self.fInputHeight, inputWidth := self.fInputWidth,
      numberFilters := self.fDepth, filterHeight := self.fFilterHeight,
      filterWidth := self.fFilterWidth, strideRows := self.fStrideRows,
      strideCols := self.fStrideCols, paddingHeight := self.fPaddingHeight,
      paddingWidth := self.fPaddingWidth }
  if ¬ (input.length > 0) then Except.error Failure.Assert
  else do
    let weights ← vecAt self.fWeights 0
    let biases ← vecAt self.fBiases 0
    let r ← TCpu.TransConvLayerForward fOnes self.fOutput self.fDerivatives input weights biases
      params self.fF
    pure { self with fOutput := r.1, fDerivatives := r.2 }

end TTransConvLayer
end CNN

/-! ## Reference definitions and fixtures -/

/-- The full transposed convolution as the test states it: output pixel
`(r, c)` of the `(h+fh-1) × (w+fw-1)` image is the sum over the input pixels
`(a, b)` with `0 ≤ r-a < fh` and `0 ≤ c-b < fw` of
`input(0, a*w+b) * weights(0, (r-a)*fw + (c-b))`. -/
def fullTransposedConvolution {α : Type} [Zero α] [Add α] [Mul α] (h w fh fw : Nat)
    (input weights : TCpuMatrix α) (r c : Nat) : α :=
  sumRange h (fun a => sumRange w (fun b =>
    if a ≤ r ∧ r - a < fh ∧ b ≤ c ∧ c - b < fw then
      input.elem 0 (a * w + b) * weights.elem 0 ((r - a) * fw + (c - b))
    else 0))

/-- The input image of `testForward1`: `[2, 1, 4, 4]`, one channel of 2 × 2. -/
def fixtureInput : TCpuMatrix Int := TCpuMatrix.ofRows 1 4 [[2, 1, 4, 4]]

/-- The weights of `testForward1`: one 3 × 3 filter. -/
def fixtureWeights : TCpuMatrix Int := TCpuMatrix.ofRows 1 9 [[1, 4, 1, 1, 4, 3, 3, 3, 1]]

/-- The expected output of `testForward1`, a 4 × 4 image. -/
def fixtureExpected : TCpuMatrix Int :=
  TCpuMatrix.ofRows 1 16 [[2, 9, 6, 1, 6, 29, 30, 7, 10, 29, 33, 13, 12, 24, 16, 4]]

/-- The geometry of `testForward1` for one channel and one filter. -/
def fixtureParams : TConvParams :=
  { batchSize := 1, inputDepth := 1, inputHeight := 2, inputWidth := 2, numberFilters := 1,
    filterHeight := 3, filterWidth := 3, strideRows := 1, strideCols := 1,
    paddingHeight := 0, paddingWidth := 0 }

/-- The loop nest that `TCpu::Im2col` and `TCpu::Im2colIndices` share
(Propagation.cxx:119-144 and 172-199): two loops over the convolution
centres, three loops within a local view, and one write per pixel into cell
`currLocalViewPixel * ld + currLocalView` of the buffer.  `enter` is what
the nest does to the assertion flag when it enters a local view, `chkPixel`
is the assertion checked at every pixel, `value m k l` the value written. -/
def gatherLoops {β : Type} (enter : Nat → Bool → Bool) (chkPixel : Nat → Nat → Bool)
    (value : Int → Int → Int → β) (ld : Nat)
    (startRow boundRow : Int) (strideRows : Nat) (startCol boundCol : Int) (strideCols : Nat)
    (nRowsInput halfFltHeight halfFltHeightM1 halfFltWidth halfFltWidthM1 : Int)
    (s0 : (List β × Bool) × Nat) : (List β × Bool) × Nat :=
  forInt startRow boundRow strideRows
    (fun (i : Int) (s : (List β × Bool) × Nat) =>
      forInt startCol boundCol strideCols
        (fun (j : Int) (s : (List β × Bool) × Nat) =>
          let currLocalView := s.2
          let inner := forInt 0 (nRowsInput - 1) 1
            (fun (m : Int) (sp : (List β × Bool) × Nat) =>
              forInt (i - halfFltHeight) (toInt (i + halfFltHeightM1)) 1
                (fun (k : Int) (sp : (List β × Bool) × Nat) =>
                  forInt (j - halfFltWidth) (toInt (j + halfFltWidthM1)) 1
                    (fun (l : Int) (sp : (List β × Bool) × Nat) =>
                      let currLocalViewPixel := sp.2
                      ((sp.1.1.set (currLocalViewPixel * ld + currLocalView) (value m k l),
                        sp.1.2 && chkPixel currLocalView currLocalViewPixel),
                       currLocalViewPixel + 1))
                    sp)
                sp)
            ((s.1.1, enter currLocalView s.1.2), 0)
          (inner.1, currLocalView + 1))
        s)
    s0

/-- The cells of the buffer that the loop nest writes: cell
`pixel * ld + view` for every local view `view = vr * outW + vc` and every
pixel `pixel = (m * fH + u) * fW + w` of the view. -/
def gatherPos (outH outW D fH fW ld : Nat) (idx : Nat) : Prop :=
  ∃ vr, vr < outH ∧ ∃ vc, vc < outW ∧ ∃ m, m < D ∧ ∃ u, u < fH ∧ ∃ w, w < fW ∧
    idx = ((m * fH + u) * fW + w) * ld + (vr * outW + vc)

/-- The side conditions under which no `int` of `Im2col` and `Im2colIndices`
wraps, for an image of `D` channels of `H × W` pixels: the loop counters,
the depth, the column count of the source, the largest offset into the
source and the pixel count of a local view all fit in 32 bits. -/
structure IntRange (D H W fH fW sR sC pH pW : Nat) : Prop where
  rows : H + pH + sR < 2 ^ 31
  cols : W + pW + sC < 2 ^ 31
  depth : D < 2 ^ 31
  image : H * W < 2 ^ 31
  offsets : H * W * D < 2 ^ 31
  pixels : D * fH * fW < 2 ^ 31

/-- The value that `Im2colIndices` writes for channel `m` and image
coordinates `(k, l)`. -/
def indexValue (imgHeight imgWidth : Nat) (nRowsInput nColsInput : Int) (m k l : Int) : Int :=
  if k < 0 ∨ k ≥ toInt imgHeight ∨ l < 0 ∨ l ≥ toInt imgWidth
      ∨ toInt (sizeT (k * imgWidth)) + l ≥ nColsInput then -1
  else toInt ((toInt (sizeT (k * imgWidth)) + l) * nRowsInput + m)

/-- The value that `Im2col` writes for channel `m` and image coordinates
`(k, l)`. -/
def gatherValue {α : Type} [Zero α] (B : TCpuMatrix α) (imgHeight imgWidth : Nat)
    (nColsInput : Int) (m k l : Int) : α :=
  if k < 0 ∨ k ≥ toInt imgHeight ∨ l < 0 ∨ l ≥ toInt imgWidth
      ∨ toInt (sizeT (k * imgWidth)) + l ≥ nColsInput then 0
  else B.elem (sizeT m) (sizeT (toInt (sizeT (k * imgWidth)) + l))

/-! ## Definitions used by the proofs about the loop nest -/

/-- Number of iterations of `for (i = start; i <= bound; i += stride)`. -/
def iterCount (start bound : Int) (stride : Nat) : Nat :=
  if start ≤ bound then ((bound - start) / stride).toNat + 1 else 0

/-- `Fills N c d pos G F`: started on a buffer of `N` cells with no failed
assertion and counter `c`, the loop `F` ends with counter `c + d`, still no
failed assertion, and a buffer of `N` cells that holds `G idx` at every
position `idx` of `pos` and its former content everywhere else. -/
def Fills {β : Type} (N c d : Nat) (pos : Nat → Prop) (G : Nat → β)
    (F : (List β × Bool) × Nat → (List β × Bool) × Nat) : Prop :=
  ∀ L : List β, L.length = N →
    (F ((L, true), c)).2 = c + d ∧ (F ((L, true), c)).1.2 = true ∧
    (F ((L, true), c)).1.1.length = N ∧
    ∀ idx, idx < N →
      (pos idx → (F ((L, true), c)).1.1[idx]? = some (G idx)) ∧
      (¬ pos idx → (F ((L, true), c)).1.1[idx]? = L[idx]?)

/-- The value that the loop nest leaves in cell `idx`, read off the
coordinates of the cell. -/
def gatherCell {β : Type} (value : Int → Int → Int → β) (ld outW fH fW : Nat)
    (startRow : Int) (strideRows : Nat) (halfFltHeight startCol : Int) (strideCols : Nat)
    (halfFltWidth : Int) (idx : Nat) : β :=
  value ((idx / ld / fW / fH : Nat) : Int)
    (startRow + ((idx % ld / outW : Nat) : Int) * strideRows - halfFltHeight
      + ((idx / ld / fW % fH : Nat) : Int))
    (startCol + ((idx % ld % outW : Nat) : Int) * strideCols - halfFltWidth
      + ((idx / ld % fW : Nat) : Int))

/-- The pre-activation value of filter `f` at local view `v`: the product of
row `f` of the weights with row `v` of the gathered matrix, plus the bias of
the filter. -/
def preActivation {α : Type} [Semiring α] (weights biases G : TCpuMatrix α) (P f v : Nat) : α :=
  (∑ p in Finset.range P, weights.elem f p * G.elem v p) + biases.elem f 0

/-- A matrix of `M × N` cells with a buffer of that size. -/
def HasShape {α : Type} (A : TCpuMatrix α) (M N : Nat) : Prop :=
  A.GetNrows = M ∧ A.GetNcols = N ∧ A.WellFormed

/-! ## Backward kernels -/

/-- Modelled from the spec: `TCpuMatrix::Zero()`, the zeroing of the matrix
primitive (`CpuMatrix.h` is not part of the sources): every cell becomes
`0`. -/
def TCpuMatrix.Zero {α : Type} [Zero α] (A : TCpuMatrix α) : TCpuMatrix α :=
  { A with fBuffer := List.replicate A.fBuffer.length 0 }

/-- The value of `(size_t)(floor(x))` for a `size_t` value `x`
(Propagation.cxx:837-838): the argument is converted to `double`, which
keeps 53 significant bits and rounds to nearest, ties to even; a value below
`2^53` is kept as it is. -/
def floorOfSizeT (x : Nat) : Nat :=
  if x < 9007199254740992 then x
  else
    let e := Nat.log2 x - 52
    let q := x / 2 ^ e
    let r := x % 2 ^ e
    let q := if 2 * r > 2 ^ e ∨ (2 * r = 2 ^ e ∧ q % 2 = 1) then q + 1 else q
    sizeT (q * 2 ^ e)

/-- Element `i` of a batch of matrices, and the empty matrix past its end;
used to state properties of a batch. -/
def batchAt {α : Type} [Zero α] (batch : List (TCpuMatrix α)) (i : Nat) : TCpuMatrix α :=
  batch.getD i (TCpuMatrix.zeros 0 0)

namespace TCpu

variable {α : Type} [Zero α] [One α] [Add α] [Mul α]

/-- The content of `output` when control leaves `TCpu::MultiplyTranspose`
(Propagation.cxx:24-57), and the failure that ended the call, if any: the
three checks come first and `Gemm`, the only statement that writes to
`output`, comes last. -/
def MultiplyTranspose.trace (output input Weights : TCpuMatrix α) :
    TCpuMatrix α × Option Failure :=
  let m : Int := toInt input.GetNrows
  let k : Int := toInt input.GetNcols
  let n : Int := toInt Weights.GetNrows
  if toInt output.GetNrows ≠ m then (output, some Failure.Assert)
  else if toInt output.GetNcols ≠ n then (output, some Failure.Assert)
  else if toInt Weights.GetNcols ≠ k then (output, some Failure.Assert)
  else
    ({ output with
        fBuffer := (Blas.Gemm false true m n k 1 input.fBuffer m Weights.fBuffer n 0
          output.fBuffer m) }, none)

/-- Modelled from the spec: `TCpu::Hadamard(B, A)` (`Arithmetic.cxx` is not
part of the sources), the elementwise product in place: every cell of `B` is
multiplied by the cell of `A` at the same place of the flat buffer. -/
def Hadamard (B A : TCpuMatrix α) : TCpuMatrix α :=
  { B with
    fBuffer := ((List.range B.fBuffer.length).map
      (fun c => B.fBuffer.getD c 0 * A.fBuffer.getD c 0)) }

/-- `TCpu::RotateWeights` (Propagation.cxx:246-259).  Inside the innermost
loop `i < jump`, so the `size_t` expression `((j + 1) * jump - 1) - i` does
not wrap. -/
def RotateWeights (A B : TCpuMatrix α) (filterDepth filterHeight filterWidth numFilters : Nat) :
    TCpuMatrix α :=
  let jump := filterHeight * filterWidth
  (List.range filterDepth).foldl
    (fun (A : TCpuMatrix α) (j : Nat) =>
      (List.range numFilters).foldl
        (fun (A : TCpuMatrix α) (k : Nat) =>
          (List.range jump).foldl
            (fun (A : TCpuMatrix α) (i : Nat) =>
              A.setElem j (k * jump + i) (B.elem k (((j + 1) * jump - 1) - i)))
            A)
        A)
    A

/-- The zero padding of one direction computed by
`TCpu::CalculateConvActivationGradients` (Propagation.cxx:837-838):
`(size_t)(floor((inputDim - dim + filterDim - 1) / 2))`, a `size_t`
division. -/
def CalculateConvActivationGradients.tempZeroPadding (inputDim dim filterDim : Nat) : Nat :=
  floorOfSizeT (sizeT ((inputDim : Int) - dim + filterDim - 1) / 2)

/-- The index map `vIndices` of `TCpu::CalculateConvActivationGradients`
(Propagation.cxx:844-854): the stride-1 convolution over the
`height × width` image of `df[0]`, with the computed zero padding and
`inputHeight * inputWidth` local views. -/
def CalculateConvActivationGradients.vIndices (df : List (TCpuMatrix α))
    (inputHeight inputWidth depth height width filterHeight filterWidth : Nat) :
    Except Failure (List Int) := do
  let tempZeroPaddingHeight :=
    CalculateConvActivationGradients.tempZeroPadding inputHeight height filterHeight
  let tempZeroPaddingWidth :=
    CalculateConvActivationGradients.tempZeroPadding inputWidth width filterWidth
  let tempNLocalViews := inputHeight * inputWidth
  let tempNLocalViewPixels := depth * filterHeight * filterWidth
  let tempStrideRows := 1
  let tempStrideCols := 1
  let df0 ← vecAt df 0
  Im2colIndices (List.replicate (tempNLocalViews * tempNLocalViewPixels) 0) df0 tempNLocalViews
    height width filterHeight filterWidth tempStrideRows tempStrideCols tempZeroPaddingHeight
    tempZeroPaddingWidth

/-- The body `f(i)` of `TCpu::CalculateConvActivationGradients` for one batch
element (Propagation.cxx:860-877). -/
def CalculateConvActivationGradients.f (df : List (TCpuMatrix α)) (rotWeights : TCpuMatrix α)
    (tempNLocalViews tempNLocalViewPixels : Nat) (vIndices : List Int)
    (activationGradientsBackward : List (TCpuMatrix α)) (i : Nat) :
    Except Failure (List (TCpuMatrix α)) := do
  let dfTr : TCpuMatrix α := TCpuMatrix.zeros tempNLocalViews tempNLocalViewPixels
  let df_i ← vecAt df i
  let dfTr ← Im2colFast dfTr df_i vIndices
  let agb_i ← vecAt activationGradientsBackward i
  let agb_i ← MultiplyTranspose agb_i rotWeights dfTr
  pure (activationGradientsBackward.set i agb_i)

/-- `TCpu::CalculateConvActivationGradients` (Propagation.cxx:814-880).  The
batch elements, which the source hands to the thread executor, are processed
in order. -/
def CalculateConvActivationGradients (activationGradientsBackward df : List (TCpuMatrix α))
    (weights : TCpuMatrix α) (batchSize inputHeight inputWidth depth height width filterDepth
      filterHeight filterWidth : Nat) : Except Failure (List (TCpuMatrix α)) :=
  if activationGradientsBackward.length = 0 then Except.ok activationGradientsBackward
  else do
    let activationGradientsBackward := activationGradientsBackward.map TCpuMatrix.Zero
    let rotWeights : TCpuMatrix α :=
      TCpuMatrix.zeros filterDepth (depth * filterHeight * filterWidth)
    let rotWeights :=
      RotateWeights rotWeights weights filterDepth filterHeight filterWidth weights.GetNrows
    let tempNLocalViews := inputHeight * inputWidth
    let tempNLocalViewPixels := depth * filterHeight * filterWidth
    let vIndices ← CalculateConvActivationGradients.vIndices df inputHeight inputWidth depth
      height width filterHeight filterWidth
    if batchSize ≠ df.length then Except.error Failure.Assert
    else if batchSize ≠ activationGradientsBackward.length then Except.error Failure.Assert
    else
      (List.range batchSize).foldlM
        (CalculateConvActivationGradients.f df rotWeights tempNLocalViews tempNLocalViewPixels
          vIndices)
        activationGradientsBackward

/-- The index map `vIndices` of `TCpu::CalculateConvWeightGradients`
(Propagation.cxx:898-912): the stride-1 convolution over the input image of
`activationsBackward[0]`, with the zero padding computed from the two image
sizes in `size_t`. -/
def CalculateConvWeightGradients.vIndices (activationsBackward : List (TCpuMatrix α))
    (inputHeight inputWidth height width filterDepth filterHeight filterWidth nLocalViews : Nat) :
    Except Failure (List Int) := do
  let nLocalViewPixels := filterDepth * filterHeight * filterWidth
  let tempStrideRows := 1
  let tempStrideCols := 1
  let tempZeroPaddingHeight := sizeT ((height : Int) - inputHeight + filterHeight - 1) / 2
  let tempZeroPaddingWidth := sizeT ((width : Int) - inputWidth + filterWidth - 1) / 2
  let ab0 ← vecAt activationsBackward 0
  Im2colIndices (List.replicate (nLocalViews * nLocalViewPixels) 0) ab0 nLocalViews inputHeight
    inputWidth filterHeight filterWidth tempStrideRows tempStrideCols tempZeroPaddingHeight
    tempZeroPaddingWidth

/-- The body `fmap(i)` of `TCpu::CalculateConvWeightGradients` for one batch
element (Propagation.cxx:924-946): the gather of `activationsBackward[i]` and
its product with `df[i]`, stored in `vres[i]`. -/
def CalculateConvWeightGradients.fmap (df activationsBackward : List (TCpuMatrix α))
    (nLocalViews nLocalViewPixels : Nat) (vIndices : List Int) (vres : List (TCpuMatrix α))
    (i : Nat) : Except Failure (List (TCpuMatrix α)) := do
  let xTr : TCpuMatrix α := TCpuMatrix.zeros nLocalViews nLocalViewPixels
  let ab_i ← vecAt activationsBackward i
  let xTr ← Im2colFast xTr ab_i vIndices
  let vres_i ← vecAt vres i
  let df_i ← vecAt df i
  let vres_i ← Multiply vres_i df_i xTr
  pure (vres.set i vres_i)

/-- The reduction step of `TCpu::CalculateConvWeightGradients` for one batch
element (Propagation.cxx:952-964): `vres[i]` is added to `weightGradients`
cell by cell. -/
def CalculateConvWeightGradients.reduce (vres : List (TCpuMatrix α))
    (depth filterDepth filterSize : Nat) (weightGradients : TCpuMatrix α) (i : Nat) :
    Except Failure (TCpuMatrix α) := do
  let vres_i ← vecAt vres i
  pure ((List.range depth).foldl
    (fun (weightGradients : TCpuMatrix α) (j : Nat) =>
      (List.range filterDepth).foldl
        (fun (weightGradients : TCpuMatrix α) (k : Nat) =>
          let kOffset := k * filterSize
          (List.range filterSize).foldl
            (fun (weightGradients : TCpuMatrix α) (l : Nat) =>
              weightGradients.setElem j (kOffset + l)
                (weightGradients.elem j (kOffset + l) + vres_i.elem j (kOffset + l)))
            weightGradients)
        weightGradients)
    weightGradients)

/-- `TCpu::CalculateConvWeightGradients` (Propagation.cxx:883-969): the map
step over the batch, which the source hands to the thread executor and which
is processed in order here, then the serial reduction. -/
def CalculateConvWeightGradients (weightGradients : TCpuMatrix α)
    (df activationsBackward : List (TCpuMatrix α))
    (batchSize inputHeight inputWidth depth height width filterDepth filterHeight filterWidth
      nLocalViews : Nat) : Except Failure (TCpuMatrix α) := do
  let weightGradients := weightGradients.Zero
  let filterSize := filterHeight * filterWidth
  let nLocalViewPixels := filterDepth * filterHeight * filterWidth
  if weightGradients.GetNcols ≠ filterDepth * filterHeight * filterWidth then
    Except.error Failure.Assert
  else do
    let vIndices ← CalculateConvWeightGradients.vIndices activationsBackward inputHeight
      inputWidth height width filterDepth filterHeight filterWidth nLocalViews
    let vres : List (TCpuMatrix α) :=
      List.replicate batchSize (TCpuMatrix.zeros depth nLocalViewPixels)
    let vres ← (List.range batchSize).foldlM
      (CalculateConvWeightGradients.fmap df activationsBackward nLocalViews nLocalViewPixels
        vIndices)
      vres
    if vres.length ≠ batchSize then Except.error Failure.Assert
    else
      (List.range batchSize).foldlM
        (CalculateConvWeightGradients.reduce vres depth filterDepth filterSize) weightGradients

/-- `TCpu::CalculateConvBiasGradients` (Propagation.cxx:971-986). -/
def CalculateConvBiasGradients (biasGradients : TCpuMatrix α) (df : List (TCpuMatrix α))
    (batchSize depth nLocalViews : Nat) : Except Failure (TCpuMatrix α) :=
  (List.range depth).foldlM
    (fun (biasGradients : TCpuMatrix α) (i : Nat) => do
      let sum ← (List.range nLocalViews).foldlM
        (fun (sum : α) (j : Nat) =>
          (List.range batchSize).foldlM
            (fun (sum : α) (k : Nat) => do
              let df_k ← vecAt df k
              pure (sum + df_k.elem i j))
            sum)
        (0 : α)
      pure (biasGradients.setElem i 0 sum))
    biasGradients.Zero

/-- The loop of `TCpu::ConvLayerBackward` that updates the derivatives
(Propagation.cxx:796-799): `Hadamard(df[i], activationGradients[i])` for
every `i < batchSize`. -/
def ConvLayerBackward.updateDerivatives (df activationGradients : List (TCpuMatrix α))
    (batchSize : Nat) : Except Failure (List (TCpuMatrix α)) :=
  (List.range batchSize).foldlM
    (fun (df : List (TCpuMatrix α)) (i : Nat) => do
      let df_i ← vecAt df i
      let ag_i ← vecAt activationGradients i
      pure (df.set i (Hadamard df_i ag_i)))
    df

/-- `TCpu::ConvLayerBackward` (Propagation.cxx:781-811); the result is
`(activationGradientsBackward, weightGradients, biasGradients, df)`. -/
def ConvLayerBackward (activationGradientsBackward : List (TCpuMatrix α))
    (weightGradients biasGradients : TCpuMatrix α)
    (df activationGradients : List (TCpuMatrix α)) (weights : TCpuMatrix α)
    (activationsBackward : List (TCpuMatrix α))
    (batchSize inputHeight inputWidth depth height width filterDepth filterHeight filterWidth
      nLocalViews : Nat) :
    Except Failure (List (TCpuMatrix α) × TCpuMatrix α × TCpuMatrix α × List (TCpuMatrix α)) := do
  let df ← ConvLayerBackward.updateDerivatives df activationGradients batchSize
  let activationGradientsBackward ← CalculateConvActivationGradients activationGradientsBackward
    df weights batchSize inputHeight inputWidth depth height width filterDepth filterHeight
    filterWidth
  let weightGradients ← CalculateConvWeightGradients weightGradients df activationsBackward
    batchSize inputHeight inputWidth depth height width filterDepth filterHeight filterWidth
    nLocalViews
  let biasGradients ← CalculateConvBiasGradients biasGradients df batchSize depth nLocalViews
  pure (activationGradientsBackward, weightGradients, biasGradients, df)

end TCpu

/-- The local-view matrix of one batch element `B`: what `Im2colFast` leaves
in a fresh `nLocalViews × nLocalViewPixels` matrix for the index map `V` (and
the fresh matrix itself if the call fails); used to state properties of the
gradients. -/
def gatherOf {α : Type} [Zero α] (nLocalViews nLocalViewPixels : Nat) (V : List Int)
    (B : TCpuMatrix α) : TCpuMatrix α :=
  match TCpu.Im2colFast (TCpuMatrix.zeros nLocalViews nLocalViewPixels) B V with
  | Except.ok G => G
  | Except.error _ => TCpuMatrix.zeros nLocalViews nLocalViewPixels

/-! ## Scheduling, traces and the backward pass of the layer -/

namespace TCpu

variable {α : Type} [Zero α] [One α] [Add α] [Mul α]

/-- The content of `A` when control leaves `TCpu::Im2colFast`
(Propagation.cxx:201-244, serial branch), and the failure that ended the
call, if any: the assertion on the size of `V` comes before the loop, the
only statement that writes to `A`. -/
def Im2colFast.trace (A B : TCpuMatrix α) (V : List Int) : TCpuMatrix α × Option Failure :=
  let n := V.length
  if n ≠ A.GetNcols * A.GetNrows then (A, some Failure.Assert)
  else
    ({ A with fBuffer := ((List.range n).foldl
        (fun (a : List α) (ii : Nat) =>
          let idx := V.getD ii 0
          if idx ≥ 0 then a.set ii (B.fBuffer.getD idx.toNat 0) else a.set ii 0)
        A.fBuffer) }, none)

/-- `TCpu::ConvLayerForward` (Propagation.cxx:293-337) with the batch
elements processed in the order `order`: the source hands the body `f` and
the sequence `0, ..., input.size() - 1` to the thread executor, which gives
no ordering guarantee.  `ConvLayerForward` is the schedule
`List.range input.length`. -/
def ConvLayerForward.scheduled (order : List Nat) (act : Activations α) (fOnes : List α)
    (output derivatives input : List (TCpuMatrix α)) (weights biases : TCpuMatrix α)
    (params : TConvParams) (activFunc : EActivationFunction) :
    Except Failure (List (TCpuMatrix α) × List (TCpuMatrix α)) := do
  let height ← calculateDimension params.inputHeight params.filterHeight params.paddingHeight
    params.strideRows
  let width ← calculateDimension params.inputWidth params.filterWidth params.paddingWidth
    params.strideCols
  let nLocalViews := height * width
  let nLocalViewPixels := params.inputDepth * params.filterHeight * params.filterWidth
  if ¬ (input.length > 0) then Except.error Failure.Assert
  else do
    let input0 ← vecAt input 0
    let forwardIndices ← Im2colIndices (List.replicate (nLocalViews * nLocalViewPixels) 0) input0
      nLocalViews params.inputHeight params.inputWidth params.filterHeight params.filterWidth
      params.strideRows params.strideCols params.paddingHeight params.paddingWidth
    let fOnes := InitializeOneVector fOnes nLocalViews
    let output0 ← vecAt output 0
    let fOnes := InitializeOneVector fOnes output0.GetNcols
    order.foldlM
      (ConvLayerForward.f act fOnes input weights biases activFunc nLocalViews nLocalViewPixels
        forwardIndices)
      (output, derivatives)

end TCpu

namespace CNN

/-- Modelled from the spec: the state of the base layer that
`TTransConvLayer::Backward` uses beside the members of `TTransConvLayer`
(`GeneralLayer.h` is not part of the sources): one weight-gradient matrix,
one bias-gradient vector and the batch of incoming activation gradients. -/
structure VGeneralLayerGradients (α : Type) where
  fWeightGradients : List (TCpuMatrix α)
  fBiasGradients : List (TCpuMatrix α)
  fActivationGradients : List (TCpuMatrix α)
deriving DecidableEq, Repr

namespace TTransConvLayer

variable {α : Type} [Zero α] [One α] [Add α] [Mul α]

/-- `TTransConvLayer::Backward` (TransConvLayer.h:333-347) on the CPU
architecture; the result is the layer, the gradients of the base layer and
`gradients_backward`.  Modelled from the spec: `addRegularizationGradients`
(`Functions.h` is not part of the sources) is a parameter, a function of the
weight gradients and the weights that gives the new weight gradients; it
takes the weights by const reference. -/
def Backward (addRegularizationGradients : TCpuMatrix α → TCpuMatrix α → TCpuMatrix α)
    (self : TTransConvLayer α) (base : VGeneralLayerGradients α)
    (gradients_backward activations_backward : List (TCpuMatrix α)) :
    Except Failure (TTransConvLayer α × VGeneralLayerGradients α × List (TCpuMatrix α)) := do
  let weightGradients ← vecAt base.fWeightGradients 0
  let biasGradients ← vecAt base.fBiasGradients 0
  let weights ← vecAt self.fWeights 0
  let r ← TCpu.ConvLayerBackward gradients_backward weightGradients biasGradients
    self.fDerivatives base.fActivationGradients weights activations_backward self.fBatchSize
    self.fInputHeight self.fInputWidth self.fDepth self.fHeight self.fWidth self.fFilterDepth
    self.fFilterHeight self.fFilterWidth self.fNLocalViews
  let weightGradients := addRegularizationGradients r.2.1 weights
  pure ({ self with fDerivatives := r.2.2.2 },
    { base with
      fWeightGradients := (base.fWeightGradients.set 0 weightGradients),
      fBiasGradients := (base.fBiasGradients.set 0 r.2.2.1) },
    r.1)

end TTransConvLayer
end CNN

/-- The layer that the constructor builds for a `4 × 4` one-channel image,
one `3 × 3` filter, stride `1`, no padding and the identity activation, with
the weights of `testForward1` and a derivative cache of ones. -/
def fixtureLayer : CNN.TTransConvLayer Int :=
  { fBatchSize := 1, fInputDepth := 1, fInputHeight := 4, fInputWidth := 4, fDepth := 1,
    fHeight := 2, fWidth := 2, fWeights := [fixtureWeights],
    fBiases := [TCpuMatrix.zeros 1 1], fOutput := [TCpuMatrix.zeros 1 4], fFilterDepth := 1,
    fFilterHeight := 3, fFilterWidth := 3, fStrideRows := 1, fStrideCols := 1,
    fNLocalViewPixels := 9, fNLocalViews := 4, fPaddingHeight := 0, fPaddingWidth := 0,
    fDerivatives := [TCpuMatrix.ofRows 1 4 [[1, 1, 1, 1]]],
    fF := EActivationFunction.kIdentity, fForwardMatrices := [TCpuMatrix.zeros 4 9] }

/-- Gradients of the base layer for `fixtureLayer`: zero weight and bias
gradients and the incoming activation gradients `[5, 6, 7, 8]`. -/
def fixtureGradients : CNN.VGeneralLayerGradients Int :=
  { fWeightGradients := [TCpuMatrix.zeros 1 9], fBiasGradients := [TCpuMatrix.zeros 1 1],
    fActivationGradients := [TCpuMatrix.ofRows 1 4 [[5, 6, 7, 8]]] }

/-- The image `1, ..., 16`, one channel of `4 × 4` pixels. -/
def fixtureImage : TCpuMatrix Int :=
  TCpuMatrix.ofRows 1 16 [[1, 2, 3, 4, 5, 6, 7, 8, 9, 10, 11, 12, 13, 14, 15, 16]]

/-! ## The padding of the dense convolution matrix, and two batches -/

namespace TCpu

variable {α : Type} [Zero α] [One α] [Add α] [Mul α]

/-- The value of `padRow` when the column loop of `TCpu::GenerateConvMatrix`
enters column `c` of a target of `rows × cols` cells (Propagation.cxx:349
and 396-406): `0` for the first column; afterwards the value assigned at the
end of the iteration for column `c - 1`, when `i` has just been incremented
to `c`: `c` itself while `c < cols/2`, else the `int`
`(rows - 1 - L - (wRows - 1)) - (cols - 1 - c)` clamped at `0` from below,
`L = wRows * wCols` being the number of rows of the columnar weights. -/
def GenerateConvMatrix.padRowAt (weights : TCpuMatrix α) (rows cols c : Nat) : Nat :=
  if c = 0 then 0
  else if c ≥ cols / 2 then
    let newPadRow : Int := toInt (sizeT (((rows : Int) - 1
      - ((weights.GetNrows * weights.GetNcols : Nat) : Int)
      - ((weights.GetNrows : Int) - 1)) - ((cols : Int) - 1 - c)))
    let newPadRow : Int := if newPadRow < 0 then 0 else newPadRow
    sizeT newPadRow
  else c

/-- The cell that `TCpu::GenerateConvMatrix` leaves at row `row` of a column
entered with `padRow = p` (Propagation.cxx:365-393): the rows above `p` are
zeroed by the padding loop; `n = row - p` rows below, the weight loop is at
its step `n`, which writes weight `(n / (wCols+1), n % (wCols+1))` unless
`n % (wCols+1) = wCols`, the step that writes a `0`; after the last weight
the trailing loop writes zeros.  Used by the proofs about the column loop. -/
def GenerateConvMatrix.columnCell (weights : TCpuMatrix α) (p row : Nat) : α :=
  if p ≤ row ∧ (row - p) % (weights.GetNcols + 1) < weights.GetNcols
      ∧ (row - p) / (weights.GetNcols + 1) < weights.GetNrows
  then weights.elem ((row - p) / (weights.GetNcols + 1)) ((row - p) % (weights.GetNcols + 1))
  else 0

end TCpu

/-- The geometry of a batch of one-channel `3 × 3` images under one `2 × 2`
filter, stride `1`, no padding. -/
def batchParams : TConvParams :=
  { batchSize := 2, inputDepth := 1, inputHeight := 3, inputWidth := 3, numberFilters := 1,
    filterHeight := 2, filterWidth := 2, strideRows := 1, strideCols := 1, paddingHeight := 0,
    paddingWidth := 0 }

/-- A batch of two `3 × 3` images. -/
def batchA : List (TCpuMatrix Int) :=
  [TCpuMatrix.ofRows 1 9 [[1, 2, 3, 4, 5, 6, 7, 8, 9]],
   TCpuMatrix.ofRows 1 9 [[9, 8, 7, 6, 5, 4, 3, 2, 1]]]

/-- A batch of two `3 × 3` images with the second image of `batchA` and
another first image. -/
def batchB : List (TCpuMatrix Int) :=
  [TCpuMatrix.ofRows 1 9 [[0, 0, 0, 0, 5, 0, 0, 0, 0]],
   TCpuMatrix.ofRows 1 9 [[9, 8, 7, 6, 5, 4, 3, 2, 1]]]

/-! ## The transposed dense matrix and the backward pass of the transposed convolution -/

namespace TCpu

variable {α : Type} [Zero α] [One α] [Add α] [Mul α]

/-- One pass of the loop `while (j < cols)` of `TCpu::GenerateTransConvMatrix`
(Propagation.cxx:436-464) for row `i`: `padCol` zeros, the interleaved
weights, then zeros up to the last column.  The weight loop advances `j` in
every iteration and stops at `j = cols`, so `cols` iterations of fuel are
enough for it. -/
def GenerateTransConvMatrix.pass (weights columnarVector0 : TCpuMatrix α) (cols i padCol : Nat)
    (s : ConvColumnState α) : ConvColumnState α :=
  let s : ConvColumnState α := { s with count := 1 }
  let s : ConvColumnState α := (List.range padCol).foldl
    (fun (s : ConvColumnState α) (k : Nat) => { s with M := s.M.setElem i k 0, j := s.j + 1 }) s
  let s : ConvColumnState α := { s with weightIndex := 0 }
  let s : ConvColumnState α := whileLoop
    (fun (s : ConvColumnState α) => decide (s.weightIndex < columnarVector0.GetNrows ∧ s.j < cols))
    (fun (s : ConvColumnState α) =>
      let s : ConvColumnState α :=
        if s.count % (weights.GetNcols + 1) = 0 then { s with M := s.M.setElem i s.j 0 }
        else { s with M := s.M.setElem i s.j (columnarVector0.elem s.weightIndex 0),
                      weightIndex := s.weightIndex + 1 }
      { s with j := s.j + 1, count := s.count + 1 })
    cols s
  (List.range (cols - s.j)).foldl
    (fun (s : ConvColumnState α) (_ : Nat) => { s with M := s.M.setElem i s.j 0, j := s.j + 1 }) s

/-- `TCpu::GenerateTransConvMatrix` (Propagation.cxx:411-481): the loops of
`GenerateConvMatrix` with the roles of rows and columns exchanged.  The state
of the row loop is the matrix and `padCol`; the row index `i` is incremented
once, at the end of every iteration.  A pass of `while (j < cols)` leaves
`j ≥ cols`, so `cols` passes of fuel are enough. -/
def GenerateTransConvMatrix (weights : TCpuMatrix α) (modifiedWeightMatrix : List (TCpuMatrix α)) :
    Except Failure (List (TCpuMatrix α)) := do
  let M0 ← vecAt modifiedWeightMatrix 0
  let rows := M0.GetNrows
  let cols := M0.GetNcols
  let columnarWeightMatrix : TCpuMatrix α :=
    TCpuMatrix.zeros (weights.GetNrows * weights.GetNcols) 1
  let columnarVector ← GenerateColumnarMatrix weights [columnarWeightMatrix]
  let columnarVector0 ← vecAt columnarVector 0
  let r := (List.range rows).foldl
    (fun (s : TCpuMatrix α × Nat) (i : Nat) =>
      let padCol := s.2
      let c := whileLoop (fun (c : ConvColumnState α) => decide (c.j < cols))
        (GenerateTransConvMatrix.pass weights columnarVector0 cols i padCol) cols
        { M := s.1, j := 0, count := 1, weightIndex := 0 }
      let i := i + 1
      if i ≥ rows / 2 then
        let newPadCol : Int := toInt (sizeT (((cols : Int) - 1 - columnarVector0.GetNrows
          - ((weights.GetNrows : Int) - 1)) - ((rows : Int) - 1 - i)))
        let newPadCol : Int := if newPadCol < 0 then 0 else newPadCol
        (c.M, sizeT newPadCol)
      else (c.M, i))
    (M0, 0)
  pure (modifiedWeightMatrix.set 0 r.1)

/-- The body of the batch loop of `TCpu::TransConvLayerBackward`
(Propagation.cxx:664-771) for element `i`: the body of
`TransConvLayerForward` with `GenerateTransConvMatrix` in the place of
`GenerateConvMatrix`.  The diagnostic printing is left out, except for its
accesses to `input[i]` and `convMatrices[i]`. -/
def TransConvLayerBackward.body (fOnes : List α) (input : List (TCpuMatrix α))
    (weights biases : TCpuMatrix α) (output : List (TCpuMatrix α)) (i : Nat) :
    Except Failure (List (TCpuMatrix α)) := do
  let output_i ← vecAt output i
  let outputTr : TCpuMatrix α := TCpuMatrix.zeros (output_i.GetNcols * output_i.GetNrows) 1
  let input_i ← vecAt input i
  let inputTr : TCpuMatrix α := TCpuMatrix.zeros (input_i.GetNrows * input_i.GetNcols) 1
  let inputTrVector ← GenerateColumnarMatrix input_i [inputTr]
  let inputTr ← vecAt inputTrVector 0
  let convMatrices := [TransConvLayerForward.convMatrix output_i inputTr]
  let _ ← vecAt convMatrices i
  let convMatrices ← GenerateTransConvMatrix weights convMatrices
  let convMatrix_i ← vecAt convMatrices i
  let outputTr ← Multiply outputTr convMatrix_i inputTr
  let output_i := (List.range output_i.GetNrows).foldl
    (fun (o : TCpuMatrix α) (j : Nat) =>
      (List.range output_i.GetNcols).foldl
        (fun (o : TCpuMatrix α) (k : Nat) => o.setElem j k (outputTr.elem (j * output_i.GetNcols + k) 0))
        o)
    output_i
  let output_i ← AddConvBiases fOnes output_i biases
  pure (output.set i output_i)

/-- `TCpu::TransConvLayerBackward` (Propagation.cxx:657-777); the result is
`(output, derivatives)`.  Neither `params` nor `activFunc` nor `derivatives`
is used by the source. -/
def TransConvLayerBackward (fOnes : List α) (output derivatives input : List (TCpuMatrix α))
    (weights biases : TCpuMatrix α) (_params : TConvParams) (_activFunc : EActivationFunction) :
    Except Failure (List (TCpuMatrix α) × List (TCpuMatrix α)) := do
  let output ← (List.range output.length).foldlM
    (TransConvLayerBackward.body fOnes input weights biases) output
  pure (output, derivatives)

/-- The convolution centres `(i, j)` that the two outer loops of
`TCpu::Im2colIndices` (Propagation.cxx:172-173; the same two loops open
`TCpu::Im2col`, 119-120) visit, in the order of the visits, each with the
value of `currLocalView` at the visit. -/
def Im2colIndices.centres (imgHeight imgWidth fltHeight fltWidth strideRows strideCols
    zeroPaddingHeight zeroPaddingWidth : Nat) : List (Int × Int × Nat) :=
  let imgHeightBound : Int :=
    toInt (sizeT ((imgHeight : Int) + zeroPaddingHeight - (sizeT ((fltHeight : Int) - 1) / 2 : Nat) - 1))
  let imgWidthBound : Int :=
    toInt (sizeT ((imgWidth : Int) + zeroPaddingWidth - (sizeT ((fltWidth : Int) - 1) / 2 : Nat) - 1))
  let halfFltHeight : Int := toInt (fltHeight / 2 : Nat)
  let halfFltWidth : Int := toInt (fltWidth / 2 : Nat)
  (forInt (toInt (sizeT (halfFltHeight - zeroPaddingHeight))) imgHeightBound strideRows
    (fun (i : Int) (s : List (Int × Int × Nat) × Nat) =>
      forInt (toInt (sizeT (halfFltWidth - zeroPaddingWidth))) imgWidthBound strideCols
        (fun (j : Int) (s : List (Int × Int × Nat) × Nat) =>
          let currLocalView := s.2
          (s.1 ++ [(i, j, currLocalView)], currLocalView + 1))
        s)
    ([], 0)).1

/-- The positions of `V` that `TCpu::Im2colIndices` (Propagation.cxx:149-200)
writes, in the order of the writes: the loop nest of `Im2colIndices` with the
statement `V[currLocalViewPixel * nLocalViews + currLocalView] = ...` replaced
by the recording of its index. -/
def Im2colIndices.writes (B : TCpuMatrix α) (nLocalViews imgHeight imgWidth fltHeight
    fltWidth strideRows strideCols zeroPaddingHeight zeroPaddingWidth : Nat) : List Nat :=
  let imgHeightBound : Int :=
    toInt (sizeT ((imgHeight : Int) + zeroPaddingHeight - (sizeT ((fltHeight : Int) - 1) / 2 : Nat) - 1))
  let imgWidthBound : Int :=
    toInt (sizeT ((imgWidth : Int) + zeroPaddingWidth - (sizeT ((fltWidth : Int) - 1) / 2 : Nat) - 1))
  let halfFltHeight : Int := toInt (fltHeight / 2 : Nat)
  let halfFltWidth : Int := toInt (fltWidth / 2 : Nat)
  let halfFltHeightM1 : Int := toInt (sizeT ((fltHeight : Int) - 1) / 2 : Nat)
  let halfFltWidthM1 : Int := toInt (sizeT ((fltWidth : Int) - 1) / 2 : Nat)
  let nRowsInput : Int := toInt B.GetNrows
  (forInt (toInt (sizeT (halfFltHeight - zeroPaddingHeight))) imgHeightBound strideRows
    (fun (i : Int) (s : List Nat × Nat) =>
      forInt (toInt (sizeT (halfFltWidth - zeroPaddingWidth))) imgWidthBound strideCols
        (fun (j : Int) (s : List Nat × Nat) =>
          let currLocalView := s.2
          let inner := forInt 0 (nRowsInput - 1) 1
            (fun (_ : Int) (sp : List Nat × Nat) =>
              forInt (i - halfFltHeight) (toInt (i + halfFltHeightM1)) 1
                (fun (_ : Int) (sp : List Nat × Nat) =>
                  forInt (j - halfFltWidth) (toInt (j + halfFltWidthM1)) 1
                    (fun (_ : Int) (sp : List Nat × Nat) =>
                      let currLocalViewPixel := sp.2
                      (sp.1 ++ [currLocalViewPixel * nLocalViews + currLocalView],
                       currLocalViewPixel + 1))
                    sp)
                sp)
            (s.1, 0)
          (inner.1, currLocalView + 1))
        s)
    ([], 0)).1

end TCpu

/-! ## Loops as folds over ranges -/

theorem sizeT_natCast {n : Nat} (h : n < 18446744073709551616) : sizeT (n : Int) = n := by
  unfold sizeT
  omega

theorem toInt_natCast {n : Nat} (h : n < 2147483648) : toInt (n : Int) = n := by
  unfold toInt
  omega

theorem toInt_of_range {x : Int} (h0 : -2147483648 ≤ x) (h1 : x < 2147483648) : toInt x = x := by
  unfold toInt
  omega

theorem toInt_sizeT (x : Int) : toInt (sizeT x) = toInt x := by
  unfold toInt sizeT
  omega

theorem iterCount_step {i bound : Int} {stride : Nat} (hs : 1 ≤ stride) (hi : i ≤ bound) :
    iterCount i bound stride = iterCount (i + stride) bound stride + 1 := by
  unfold iterCount
  rw [if_pos hi]
  have hs0 : (stride : Int) ≠ 0 := by omega
  by_cases h : i + stride ≤ bound
  · rw [if_pos h]
    have e : bound - i = (bound - (i + stride)) + 1 * (stride : Int) := by ring
    rw [e, Int.add_mul_ediv_right _ _ hs0]
    have : 0 ≤ (bound - (i + stride)) / (stride : Int) :=
      Int.ediv_nonneg (by omega) (by omega)
    omega
  · rw [if_neg h]
    have : (bound - i) / (stride : Int) = 0 := Int.ediv_eq_zero_of_lt (by omega) (by omega)
    rw [this]
    rfl

theorem foldl_range_succ_shift {σ : Type} (f : Nat → σ → σ) (n : Nat) (s : σ) :
    (List.range (n + 1)).foldl (fun (s : σ) (t : Nat) => f t s) s
      = (List.range n).foldl (fun (s : σ) (t : Nat) => f (t + 1) s) (f 0 s) := by
  rw [List.range_succ_eq_map, List.foldl_cons, List.foldl_map]

theorem forIntLoop_eq_foldl {σ : Type} (stride : Nat) (bound : Int) (body : Int → σ → σ)
    (hs : 1 ≤ stride) (hb : bound + stride < 2147483648) :
    ∀ (fuel : Nat) (i : Int) (s : σ), (bound - i + 1).toNat ≤ fuel → -2147483648 ≤ i →
      forIntLoop stride bound body fuel i s
        = (List.range (iterCount i bound stride)).foldl
            (fun (s : σ) (t : Nat) => body (i + (t : Int) * stride) s) s := by
  intro fuel
  induction fuel with
  | zero =>
    intro i s hf _
    have hi : ¬ i ≤ bound := by omega
    simp [forIntLoop, iterCount, hi]
  | succ fuel ih =>
    intro i s hf hlo
    unfold forIntLoop
    by_cases hi : i ≤ bound
    · rw [if_pos hi, toInt_sizeT, toInt_of_range (by omega) (by omega),
        ih (i + stride) (body i s) (by omega) (by omega), iterCount_step hs hi,
        foldl_range_succ_shift]
      simp only [Nat.cast_zero, zero_mul, add_zero, Nat.cast_add, Nat.cast_one]
      congr 1
      funext s t
      congr 1
      ring
    · rw [if_neg hi]
      simp [iterCount, hi]

theorem forInt_eq_foldl {σ : Type} (start bound : Int) (stride : Nat) (body : Int → σ → σ)
    (s : σ) (hs : 1 ≤ stride) (hb : bound + stride < 2147483648) (hlo : -2147483648 ≤ start) :
    forInt start bound stride body s
      = (List.range (iterCount start bound stride)).foldl
          (fun (s : σ) (t : Nat) => body (start + (t : Int) * stride) s) s :=
  forIntLoop_eq_foldl stride bound body hs hb _ start s (le_refl _) hlo

theorem forInt_one_eq_foldl {σ : Type} (start bound : Int) (n : Nat) (body : Int → σ → σ)
    (s : σ) (hn : bound - start + 1 = n) (hb : bound + 1 < 2147483648)
    (hlo : -2147483648 ≤ start) :
    forInt start bound 1 body s
      = (List.range n).foldl (fun (s : σ) (t : Nat) => body (start + (t : Int)) s) s := by
  rw [forInt_eq_foldl start bound 1 body s (le_refl _) (by omega) hlo]
  have hc : iterCount start bound 1 = n := by
    unfold iterCount
    by_cases h : start ≤ bound
    · rw [if_pos h]
      simp only [Nat.cast_one, Int.ediv_one]
      omega
    · rw [if_neg h]
      omega
  rw [hc]
  simp

/-! ## Properties of the dimension formula -/

theorem sizeT_dim_temp {imgDim fltDim padding : Nat} (hge : fltDim ≤ imgDim + 2 * padding)
    (hlt : imgDim + 2 * padding - fltDim < 18446744073709551616) :
    sizeT ((imgDim : Int) - fltDim + 2 * padding) = imgDim + 2 * padding - fltDim := by
  unfold sizeT
  omega

theorem TCpu_calculateDimension_eq_layer (imgDim fltDim padding stride : Nat) :
    CNN.TTransConvLayer.calculateDimension imgDim fltDim padding stride
      = TCpu.calculateDimension imgDim fltDim padding stride := rfl

theorem calculateDimension_ok {imgDim fltDim padding stride : Nat} (hs : 1 ≤ stride)
    (hge : fltDim ≤ imgDim + 2 * padding)
    (hno : imgDim + 2 * padding - fltDim + stride < 18446744073709551616)
    (hdiv : (imgDim + 2 * padding - fltDim) % stride = 0) :
    TCpu.calculateDimension imgDim fltDim padding stride
      = Except.ok ((imgDim + 2 * padding - fltDim) / stride + 1) := by
  have hle : (imgDim + 2 * padding - fltDim) / stride ≤ imgDim + 2 * padding - fltDim :=
    Nat.div_le_self _ _
  unfold TCpu.calculateDimension
  simp only [sizeT_dim_temp hge (by omega)]
  have h1 : sizeT (((imgDim + 2 * padding - fltDim : Nat) : Int) + (stride : Int))
      = imgDim + 2 * padding - fltDim + stride := by
    unfold sizeT
    omega
  have h2 : sizeT ((((imgDim + 2 * padding - fltDim) / stride : Nat) : Int) + 1)
      = (imgDim + 2 * padding - fltDim) / stride + 1 := by
    generalize (imgDim + 2 * padding - fltDim) / stride = q at hle
    unfold sizeT
    omega
  rw [h1, h2, if_neg]
  omega

theorem calculateDimension_fatal {imgDim fltDim padding stride : Nat}
    (hge : fltDim ≤ imgDim + 2 * padding)
    (hlt : imgDim + 2 * padding - fltDim < 18446744073709551616)
    (hdiv : (imgDim + 2 * padding - fltDim) % stride ≠ 0) :
    TCpu.calculateDimension imgDim fltDim padding stride = Except.error Failure.Fatal := by
  unfold TCpu.calculateDimension
  simp only [sizeT_dim_temp hge hlt]
  rw [if_pos (Or.inl hdiv)]

/-- C6. Dimension formula: with `stride ≥ 1`, `imgDim + 2*padding ≥ fltDim`, no
machine overflow (the value `imgDim - fltDim + 2*padding + stride` fits in a
`size_t`) and `imgDim - fltDim + 2*padding` divisible by `stride`, both
`TCpu::calculateDimension` and `TTransConvLayer::calculateDimension` return
`(imgDim - fltDim + 2*padding)/stride + 1` and do not raise the fatal
error. -/
theorem C6_calculateDimension_formula (imgDim fltDim padding stride : Nat) (hs : 1 ≤ stride)
    (hge : fltDim ≤ imgDim + 2 * padding)
    (hno : imgDim + 2 * padding - fltDim + stride < 2 ^ 64)
    (hdiv : stride ∣ imgDim + 2 * padding - fltDim) :
    TCpu.calculateDimension imgDim fltDim padding stride
        = Except.ok ((imgDim + 2 * padding - fltDim) / stride + 1)
      ∧ CNN.TTransConvLayer.calculateDimension imgDim fltDim padding stride
        = Except.ok ((imgDim + 2 * padding - fltDim) / stride + 1) := by
  have hno2 : imgDim + 2 * padding - fltDim + stride < 18446744073709551616 := by
    norm_num at hno
    exact hno
  have h := calculateDimension_ok hs hge hno2 (Nat.mod_eq_zero_of_dvd hdiv)
  exact ⟨h, (TCpu_calculateDimension_eq_layer _ _ _ _).trans h⟩

theorem C6_calculateDimension_formula_witness :
    TCpu.calculateDimension 4 3 1 1 = Except.ok ((4 + 2 * 1 - 3) / 1 + 1)
      ∧ CNN.TTransConvLayer.calculateDimension 4 3 1 1 = Except.ok ((4 + 2 * 1 - 3) / 1 + 1) :=
  C6_calculateDimension_formula 4 3 1 1 (by decide) (by decide) (by norm_num) (by decide)

/-- C7. Non-integer output dimension is fatal: with `stride ≥ 1`,
`imgDim + 2*padding ≥ fltDim`, the value `imgDim - fltDim + 2*padding`
representable in a `size_t` and not divisible by `stride`, both
`calculateDimension` functions raise the fatal error, and the constructor of
`TTransConvLayer` fails when its height geometry, or its width geometry, is
such a combination. -/
theorem C7_noninteger_dimension_fatal (imgDim fltDim padding stride : Nat) (_hs : 1 ≤ stride)
    (hge : fltDim ≤ imgDim + 2 * padding)
    (hno : imgDim + 2 * padding - fltDim < 2 ^ 64)
    (hdiv : ¬ stride ∣ imgDim + 2 * padding - fltDim) :
    TCpu.calculateDimension imgDim fltDim padding stride = Except.error Failure.Fatal
      ∧ CNN.TTransConvLayer.calculateDimension imgDim fltDim padding stride
          = Except.error Failure.Fatal
      ∧ (∀ (batchSize inputDepth inputWidth depth filterWidth strideCols paddingWidth : Nat)
          (f : EActivationFunction),
          (CNN.TTransConvLayer.construct batchSize inputDepth imgDim inputWidth depth fltDim
            filterWidth stride strideCols padding paddingWidth f
              : Except Failure (CNN.TTransConvLayer Int)) = Except.error Failure.Fatal)
      ∧ (∀ (batchSize inputDepth inputHeight depth filterHeight strideRows paddingHeight : Nat)
          (f : EActivationFunction),
          (CNN.TTransConvLayer.construct batchSize inputDepth inputHeight imgDim depth
            filterHeight fltDim strideRows stride paddingHeight padding f
              : Except Failure (CNN.TTransConvLayer Int)) = Except.error Failure.Fatal) := by
  have hno2 : imgDim + 2 * padding - fltDim < 18446744073709551616 := by
    norm_num at hno
    exact hno
  have hmod : (imgDim + 2 * padding - fltDim) % stride ≠ 0 :=
    fun h => hdiv (Nat.dvd_of_mod_eq_zero h)
  have h := calculateDimension_fatal hge hno2 hmod
  have h2 : CNN.TTransConvLayer.calculateDimension imgDim fltDim padding stride
      = Except.error Failure.Fatal := (TCpu_calculateDimension_eq_layer _ _ _ _).trans h
  refine ⟨h, h2, ?_, ?_⟩
  · intro batchSize inputDepth inputWidth depth filterWidth strideCols paddingWidth f
    unfold CNN.TTransConvLayer.construct
    rw [h2]
    rfl
  · intro batchSize inputDepth inputHeight depth filterHeight strideRows paddingHeight f
    unfold CNN.TTransConvLayer.construct
    rw [h2]
    cases hh : CNN.TTransConvLayer.calculateDimension inputHeight filterHeight paddingHeight
      strideRows with
    | error e =>
      have he : e = Failure.Fatal := by
        simp only [CNN.TTransConvLayer.calculateDimension] at hh
        split at hh
        · exact (Except.error.inj hh).symm
        · exact absurd hh (by simp)
      subst he
      rfl
    | ok v => rfl

theorem C7_noninteger_dimension_fatal_witness :
    TCpu.calculateDimension 5 2 0 2 = Except.error Failure.Fatal
      ∧ CNN.TTransConvLayer.calculateDimension 5 2 0 2 = Except.error Failure.Fatal
      ∧ (∀ (batchSize inputDepth inputWidth depth filterWidth strideCols paddingWidth : Nat)
          (f : EActivationFunction),
          (CNN.TTransConvLayer.construct batchSize inputDepth 5 inputWidth depth 2
            filterWidth 2 strideCols 0 paddingWidth f
              : Except Failure (CNN.TTransConvLayer Int)) = Except.error Failure.Fatal)
      ∧ (∀ (batchSize inputDepth inputHeight depth filterHeight strideRows paddingHeight : Nat)
          (f : EActivationFunction),
          (CNN.TTransConvLayer.construct batchSize inputDepth inputHeight 5 depth
            filterHeight 2 strideRows 2 paddingHeight 0 f
              : Except Failure (CNN.TTransConvLayer Int)) = Except.error Failure.Fatal) :=
  C7_noninteger_dimension_fatal 5 2 0 2 (by decide) (by decide) (by norm_num) (by decide)

/-- C8. Failing input `(imgDim, fltDim, padding, stride) = (1, 3, 0, 1)`: here
`imgDim + 2*padding < fltDim`, yet neither `calculateDimension` raises the
fatal error; both return `2^64 - 1`, because `temp` wraps to `2^64 - 2` and
the unsigned test `temp + stride <= 0` only fires when the sum is exactly
`0`. -/
theorem C8_negative_quotient_not_fatal :
    1 + 2 * 0 < 3
      ∧ TCpu.calculateDimension 1 3 0 1 = Except.ok 18446744073709551615
      ∧ CNN.TTransConvLayer.calculateDimension 1 3 0 1 = Except.ok 18446744073709551615 := by
  decide

/-! ## The transpose-convolution forward kernel on the test fixture -/

/-- C1. On the fixture of `testForward1` (input `[2,1,4,4]`, weights
`[1,4,1,1,4,3,3,3,1]`, bias `0`, a `1 × 16` output) the expected output is
the full transposed convolution of the claim, but `TransConvLayerForward`
returns `[2,9,6,3,9,14,29,29,13,21,28,24,24,16,4,0]`: already output pixel
`(0, 3)` is `3` where the transposed convolution and the test have `1`. -/
theorem C1_transConvLayerForward_fixture :
    (∀ r < 4, ∀ c < 4,
        fixtureExpected.elem 0 (r * 4 + c)
          = fullTransposedConvolution 2 2 3 3 fixtureInput fixtureWeights r c)
      ∧ TCpu.TransConvLayerForward (List.replicate 16 1) [TCpuMatrix.zeros 1 16]
          [TCpuMatrix.zeros 1 16] [fixtureInput] fixtureWeights (TCpuMatrix.zeros 1 1)
          fixtureParams EActivationFunction.kIdentity
        = Except.ok
            ([TCpuMatrix.ofRows 1 16 [[2, 9, 6, 3, 9, 14, 29, 29, 13, 21, 28, 24, 24, 16, 4, 0]]],
             [TCpuMatrix.zeros 1 16])
      ∧ (TCpuMatrix.ofRows 1 16
            [[2, 9, 6, 3, 9, 14, 29, 29, 13, 21, 28, 24, 24, 16, 4, 0]] : TCpuMatrix Int).elem 0 3 = 3
      ∧ fullTransposedConvolution 2 2 3 3 fixtureInput fixtureWeights 0 3 = 1 := by
  decide

/-- C9. Failing input: one batch element with a `2 × 16` output and a
`2 × 4` input (the shapes `testForward1` declares: two filters, two
channels).  The convolution matrix that `TransConvLayerForward` allocates has
`16` rows, one per output column, where the output has `32` scalars; its `8`
columns do match the `8` input scalars.  The product column `outputTr` has
`32` rows, so the call stops at the dimension assertion of `Multiply`. -/
theorem C9_convMatrix_rows_fixture :
    (TCpu.TransConvLayerForward.convMatrix (TCpuMatrix.zeros 2 16 : TCpuMatrix Int)
        (TCpuMatrix.zeros (2 * 4) 1)).GetNrows = 16
      ∧ (TCpuMatrix.zeros 2 16 : TCpuMatrix Int).GetNrows
          * (TCpuMatrix.zeros 2 16 : TCpuMatrix Int).GetNcols = 32
      ∧ (TCpu.TransConvLayerForward.convMatrix (TCpuMatrix.zeros 2 16 : TCpuMatrix Int)
        (TCpuMatrix.zeros (2 * 4) 1)).GetNcols = 8
      ∧ TCpu.TransConvLayerForward (List.replicate 16 1) [TCpuMatrix.zeros 2 16]
          [TCpuMatrix.zeros 2 16] [TCpuMatrix.ofRows 2 4 [[2, 1, 4, 4], [2, 1, 4, 4]]]
          (TCpuMatrix.ofRows 2 18 [[1, 4, 1, 1, 4, 3, 3, 3, 1], [1, 4, 1, 1, 4, 3, 3, 3, 1]]
            : TCpuMatrix Int)
          (TCpuMatrix.zeros 2 1) fixtureParams EActivationFunction.kIdentity
        = Except.error Failure.Assert := by
  decide

/-- C10. Failing input: the layer built by the constructor for a `4 × 4`
one-channel image, one `3 × 3` filter, stride `1`, no padding and the
identity activation, and one call of `Forward` on the image `1, ..., 16`.
The call succeeds and leaves the derivative cache as the constructor made
it, all `0`, whereas the first derivative of the identity at the activations
of this call is `1` in every cell. -/
theorem C10_forward_leaves_derivatives_stale :
    ∃ layer after : CNN.TTransConvLayer Int,
      CNN.TTransConvLayer.construct 1 1 4 4 1 3 3 1 1 0 0 EActivationFunction.kIdentity
          = Except.ok layer
        ∧ CNN.TTransConvLayer.Forward (List.replicate 16 1) layer
            [TCpuMatrix.ofRows 1 16 [[1, 2, 3, 4, 5, 6, 7, 8, 9, 10, 11, 12, 13, 14, 15, 16]]]
          = Except.ok after
        ∧ after.fDerivatives = layer.fDerivatives
        ∧ after.fDerivatives = [TCpuMatrix.ofRows 1 4 [[0, 0, 0, 0]]]
        ∧ after.fOutput.map
            (fun o => evaluateDerivative identityActivations (TCpuMatrix.zeros 1 4)
              EActivationFunction.kIdentity o)
          = [TCpuMatrix.ofRows 1 4 [[1, 1, 1, 1]]] := by
  refine ⟨_, _, rfl, rfl, ?_, ?_, ?_⟩ <;> decide

/-! ## Loop nests that fill a buffer -/

theorem Fills.congr_pos {β : Type} {N c d : Nat} {pos pos2 : Nat → Prop} {G : Nat → β}
    {F : (List β × Bool) × Nat → (List β × Bool) × Nat} (h : Fills N c d pos G F)
    (hp : ∀ idx, idx < N → (pos idx ↔ pos2 idx)) : Fills N c d pos2 G F := by
  intro L hL
  obtain ⟨h1, h2, h3, h4⟩ := h L hL
  refine ⟨h1, h2, h3, fun idx hidx => ?_⟩
  obtain ⟨h5, h6⟩ := h4 idx hidx
  exact ⟨fun hq => h5 ((hp idx hidx).mpr hq), fun hq => h6 (fun hq2 => hq ((hp idx hidx).mp hq2))⟩

theorem Fills.congr_count {β : Type} {N c d d2 : Nat} {pos : Nat → Prop} {G : Nat → β}
    {F : (List β × Bool) × Nat → (List β × Bool) × Nat} (h : Fills N c d pos G F)
    (hd : d = d2) : Fills N c d2 pos G F := hd ▸ h

theorem Fills.foldl_range {β : Type} {N c d : Nat} {G : Nat → β} (pos : Nat → Nat → Prop)
    (step : Nat → (List β × Bool) × Nat → (List β × Bool) × Nat) :
    ∀ n : Nat, (∀ t, t < n → Fills N (c + t * d) d (pos t) G (step t)) →
      Fills N c (n * d) (fun idx => ∃ t, t < n ∧ pos t idx) G
        (fun s => (List.range n).foldl (fun (s : (List β × Bool) × Nat) (t : Nat) => step t s) s) := by
  intro n
  induction n with
  | zero =>
    intro _ L hL
    refine ⟨by simp, by simp, by simpa using hL, fun idx _ => ⟨?_, fun _ => by simp⟩⟩
    rintro ⟨t, ht, _⟩
    omega
  | succ n ih =>
    intro h L hL
    obtain ⟨h1, h2, h3, h4⟩ := ih (fun t ht => h t (by omega)) L hL
    simp only [List.range_succ, List.foldl_append, List.foldl_cons, List.foldl_nil] at h1 h2 h3 h4 ⊢
    generalize (List.range n).foldl
      (fun (s : (List β × Bool) × Nat) (t : Nat) => step t s) ((L, true), c) = r at h1 h2 h3 h4 ⊢
    obtain ⟨⟨L2, ok⟩, c2⟩ := r
    simp only at h1 h2 h3 h4
    subst h1 h2
    obtain ⟨g1, g2, g3, g4⟩ := h n (by omega) L2 h3
    refine ⟨by rw [g1]; ring, g2, g3, fun idx hidx => ?_⟩
    obtain ⟨g5, g6⟩ := g4 idx hidx
    obtain ⟨h5, h6⟩ := h4 idx hidx
    constructor
    · rintro ⟨t, ht, hp⟩
      by_cases hn : pos n idx
      · exact g5 hn
      · rw [g6 hn]
        have : t < n := by
          rcases Nat.lt_succ_iff_lt_or_eq.mp ht with h7 | h7
          · exact h7
          · subst h7
            exact absurd hp hn
        exact h5 ⟨t, this, hp⟩
    · intro hnp
      have hn : ¬ pos n idx := fun hp => hnp ⟨n, by omega, hp⟩
      rw [g6 hn]
      exact h6 (fun ⟨t, ht, hp⟩ => hnp ⟨t, by omega, hp⟩)

theorem Fills.of_forInt {β : Type} {N c d : Nat} {G : Nat → β} (pos : Nat → Nat → Prop)
    (start bound : Int) (stride n : Nat)
    (body : Int → (List β × Bool) × Nat → (List β × Bool) × Nat)
    (hs : 1 ≤ stride) (hb : bound + stride < 2147483648) (hlo : -2147483648 ≤ start)
    (hn : iterCount start bound stride = n)
    (h : ∀ t, t < n → Fills N (c + t * d) d (pos t) G (body (start + (t : Int) * stride))) :
    Fills N c (n * d) (fun idx => ∃ t, t < n ∧ pos t idx) G (forInt start bound stride body) := by
  have e : forInt start bound stride body
      = (fun s => (List.range n).foldl
          (fun (s : (List β × Bool) × Nat) (t : Nat) => body (start + (t : Int) * stride) s) s) := by
    funext s
    rw [forInt_eq_foldl start bound stride body s hs hb hlo, hn]
  rw [e]
  exact Fills.foldl_range pos (fun t => body (start + (t : Int) * stride)) n h

theorem Fills.of_forInt_one {β : Type} {N c d : Nat} {G : Nat → β} (pos : Nat → Nat → Prop)
    (start bound : Int) (n : Nat)
    (body : Int → (List β × Bool) × Nat → (List β × Bool) × Nat)
    (hn : bound - start + 1 = n) (hb : bound + 1 < 2147483648) (hlo : -2147483648 ≤ start)
    (h : ∀ t, t < n → Fills N (c + t * d) d (pos t) G (body (start + (t : Int)))) :
    Fills N c (n * d) (fun idx => ∃ t, t < n ∧ pos t idx) G (forInt start bound 1 body) := by
  have e : forInt start bound 1 body
      = (fun s => (List.range n).foldl
          (fun (s : (List β × Bool) × Nat) (t : Nat) => body (start + (t : Int)) s) s) := by
    funext s
    rw [forInt_one_eq_foldl start bound n body s hn hb hlo]
  rw [e]
  exact Fills.foldl_range pos (fun t => body (start + (t : Int))) n h

theorem Fills.write {β : Type} {N c : Nat} {G : Nat → β} (ld view : Nat) (v : β)
    (chk : Nat → Bool) (hpos : c * ld + view < N) (hG : G (c * ld + view) = v)
    (hchk : chk c = true) :
    Fills N c 1 (fun idx => idx = c * ld + view) G
      (fun sp => ((sp.1.1.set (sp.2 * ld + view) v, sp.1.2 && chk sp.2), sp.2 + 1)) := by
  intro L hL
  refine ⟨rfl, by simp [hchk], by simp [hL], fun idx _ => ⟨?_, ?_⟩⟩
  · intro hp
    subst hp
    have hlt : c * ld + view < L.length := by omega
    simp [List.getElem?_set, hlt, hG]
  · intro hp
    show (L.set (c * ld + view) v)[idx]? = L[idx]?
    rw [List.getElem?_set, if_neg (fun h => hp h.symm)]

theorem Fills.of_enter {β : Type} {N c d : Nat} {pos : Nat → Prop} {G : Nat → β}
    (enter : Nat → Bool → Bool)
    (inner : Nat → (List β × Bool) × Nat → (List β × Bool) × Nat)
    (h : Fills N 0 d pos G (inner c)) (he : enter c true = true) :
    Fills N c 1 pos G
      (fun s => ((inner s.2 ((s.1.1, enter s.2 s.1.2), 0)).1, s.2 + 1)) := by
  intro L hL
  obtain ⟨_, h2, h3, h4⟩ := h L hL
  refine ⟨rfl, ?_, ?_, ?_⟩
  · show (inner c ((L, enter c true), 0)).1.2 = true
    rw [he]
    exact h2
  · show (inner c ((L, enter c true), 0)).1.1.length = N
    rw [he]
    exact h3
  · show ∀ idx, idx < N →
      (pos idx → (inner c ((L, enter c true), 0)).1.1[idx]? = some (G idx)) ∧
      (¬ pos idx → (inner c ((L, enter c true), 0)).1.1[idx]? = L[idx]?)
    rw [he]
    exact h4

theorem iterCount_le {start bound : Int} {stride t : Nat} (hs : 1 ≤ stride)
    (ht : t < iterCount start bound stride) : start + (t : Int) * stride ≤ bound := by
  unfold iterCount at ht
  by_cases h : start ≤ bound
  · rw [if_pos h] at ht
    have hs0 : (0 : Int) < stride := by omega
    have h0 : 0 ≤ (bound - start) / (stride : Int) := Int.ediv_nonneg (by omega) (by omega)
    have h1 : (t : Int) ≤ (bound - start) / stride := by omega
    have h2 : (bound - start) / (stride : Int) * stride ≤ bound - start :=
      Int.ediv_mul_le _ (by omega)
    have h3 : (t : Int) * stride ≤ (bound - start) / (stride : Int) * stride :=
      Int.mul_le_mul_of_nonneg_right h1 (by omega)
    omega
  · rw [if_neg h] at ht
    omega

theorem pixel_lt {D fH fW m u w : Nat} (hm : m < D) (hu : u < fH) (hw : w < fW) :
    (m * fH + u) * fW + w < D * fH * fW := by
  have h1 : m * fH + u + 1 ≤ D * fH := by
    have : (m + 1) * fH ≤ D * fH := Nat.mul_le_mul_right _ hm
    rw [Nat.add_mul] at this
    omega
  have h2 : (m * fH + u + 1) * fW ≤ D * fH * fW := Nat.mul_le_mul_right _ h1
  rw [Nat.add_mul] at h2
  omega

theorem view_lt {outH outW vr vc : Nat} (hr : vr < outH) (hc : vc < outW) :
    vr * outW + vc < outH * outW := by
  have : (vr + 1) * outW ≤ outH * outW := Nat.mul_le_mul_right _ hr
  rw [Nat.add_mul] at this
  omega

theorem cell_lt {N ld npix nview p v : Nat} (hp : p < npix) (hv : v < nview) (hld : nview ≤ ld)
    (hN : npix * ld ≤ N) : p * ld + v < N := by
  have : (p + 1) * ld ≤ npix * ld := Nat.mul_le_mul_right _ hp
  rw [Nat.add_mul] at this
  omega

theorem gatherLoops_fills {β : Type} (enter : Nat → Bool → Bool) (chkPixel : Nat → Nat → Bool)
    (value : Int → Int → Int → β) (ld : Nat)
    (startRow boundRow : Int) (strideRows : Nat) (startCol boundCol : Int) (strideCols : Nat)
    (nRowsInput halfFltHeight halfFltHeightM1 halfFltWidth halfFltWidthM1 : Int)
    (outH outW D fH fW N : Nat) (G : Nat → β)
    (hsR : 1 ≤ strideRows) (hsC : 1 ≤ strideCols)
    (hrow : iterCount startRow boundRow strideRows = outH)
    (hcol : iterCount startCol boundCol strideCols = outW)
    (hbR : boundRow + strideRows < 2147483648) (hbC : boundCol + strideCols < 2147483648)
    (hloR : -2147483648 ≤ startRow) (hloC : -2147483648 ≤ startCol)
    (hD : nRowsInput = D) (hD2 : (D : Int) < 2147483648)
    (hfH : halfFltHeight + halfFltHeightM1 + 1 = fH) (hfW : halfFltWidth + halfFltWidthM1 + 1 = fW)
    (hkLo : -2147483648 ≤ startRow - halfFltHeight) (hkLo2 : -2147483648 ≤ startRow + halfFltHeightM1)
    (hkHi : boundRow + halfFltHeightM1 + 1 < 2147483648)
    (hlLo : -2147483648 ≤ startCol - halfFltWidth) (hlLo2 : -2147483648 ≤ startCol + halfFltWidthM1)
    (hlHi : boundCol + halfFltWidthM1 + 1 < 2147483648)
    (hld : outH * outW ≤ ld) (hN : D * fH * fW * ld ≤ N)
    (hent : ∀ v, v < outH * outW → enter v true = true)
    (hchk : ∀ v, v < outH * outW → ∀ p, p < D * fH * fW → chkPixel v p = true)
    (hG : ∀ vr, vr < outH → ∀ vc, vc < outW → ∀ m, m < D → ∀ u, u < fH → ∀ w, w < fW →
      G (((m * fH + u) * fW + w) * ld + (vr * outW + vc))
        = value (m : Int) (startRow + (vr : Int) * strideRows - halfFltHeight + (u : Int))
            (startCol + (vc : Int) * strideCols - halfFltWidth + (w : Int))) :
    Fills N 0 (outH * outW) (gatherPos outH outW D fH fW ld) G
      (gatherLoops enter chkPixel value ld startRow boundRow strideRows startCol boundCol
        strideCols nRowsInput halfFltHeight halfFltHeightM1 halfFltWidth halfFltWidthM1) := by
  unfold gatherLoops
  refine Fills.congr_pos (Fills.of_forInt
    (fun vr idx => ∃ vc, vc < outW ∧ ∃ m, m < D ∧ ∃ u, u < fH ∧ ∃ w, w < fW ∧
      idx = (0 + m * (fH * fW) + u * fW + w * 1) * ld + (0 + vr * outW + vc * 1))
    startRow boundRow strideRows outH _ hsR hbR hloR hrow (fun vr hvr => ?_)) ?_
  · -- the loop over the centre columns
    have hi1 : startRow ≤ startRow + (vr : Int) * strideRows :=
      le_add_of_nonneg_right (by positivity)
    have hi2 : startRow + (vr : Int) * strideRows ≤ boundRow :=
      iterCount_le hsR (hrow ▸ hvr)
    refine Fills.congr_count (Fills.of_forInt
      (fun vc idx => ∃ m, m < D ∧ ∃ u, u < fH ∧ ∃ w, w < fW ∧
        idx = (0 + m * (fH * fW) + u * fW + w * 1) * ld + (0 + vr * outW + vc * 1))
      startCol boundCol strideCols outW _ hsC hbC hloC
      hcol (fun vc hvc => ?_)) (Nat.mul_one _)
    have hj1 : startCol ≤ startCol + (vc : Int) * strideCols :=
      le_add_of_nonneg_right (by positivity)
    have hj2 : startCol + (vc : Int) * strideCols ≤ boundCol :=
      iterCount_le hsC (hcol ▸ hvc)
    have hv : 0 + vr * outW + vc * 1 < outH * outW := by
      have := view_lt hvr hvc
      omega
    refine @Fills.of_enter β N _ (D * (fH * fW)) _ G enter
      (fun currLocalView => forInt 0 (nRowsInput - 1) 1
        (fun (m : Int) (sp : (List β × Bool) × Nat) =>
          forInt (startRow + (vr : Int) * strideRows - halfFltHeight)
            (toInt (startRow + (vr : Int) * strideRows + halfFltHeightM1)) 1
            (fun (k : Int) (sp : (List β × Bool) × Nat) =>
              forInt (startCol + (vc : Int) * strideCols - halfFltWidth)
                (toInt (startCol + (vc : Int) * strideCols + halfFltWidthM1)) 1
                (fun (l : Int) (sp : (List β × Bool) × Nat) =>
                  ((sp.1.1.set (sp.2 * ld + currLocalView) (value m k l),
                    sp.1.2 && chkPixel currLocalView sp.2), sp.2 + 1))
                sp)
            sp)) ?_ (hent _ hv)
    -- the three loops within the local view
    rw [toInt_of_range (by omega) (by omega), toInt_of_range (by omega) (by omega)]
    refine Fills.of_forInt_one
      (fun m idx => ∃ u, u < fH ∧ ∃ w, w < fW ∧
        idx = (0 + m * (fH * fW) + u * fW + w * 1) * ld + (0 + vr * outW + vc * 1))
      0 (nRowsInput - 1) D _ (by omega) (by omega) (by omega) (fun m hm => ?_)
    refine Fills.of_forInt_one
      (fun u idx => ∃ w, w < fW ∧
        idx = (0 + m * (fH * fW) + u * fW + w * 1) * ld + (0 + vr * outW + vc * 1))
      _ _ fH _ (by omega) (by omega) (by omega) (fun u hu => ?_)
    refine Fills.congr_count (Fills.of_forInt_one
      (fun w idx => idx = (0 + m * (fH * fW) + u * fW + w * 1) * ld + (0 + vr * outW + vc * 1))
      _ _ fW _ (by omega) (by omega) (by omega) (fun w hw => ?_)) (Nat.mul_one _)
    have hp : 0 + m * (fH * fW) + u * fW + w * 1 = (m * fH + u) * fW + w := by ring
    have hvv : 0 + vr * outW + vc * 1 = vr * outW + vc := by ring
    refine Fills.write ld (0 + vr * outW + vc * 1) _ (chkPixel (0 + vr * outW + vc * 1)) ?_ ?_ ?_
    · rw [hp, hvv]
      exact cell_lt (pixel_lt hm hu hw) (view_lt hvr hvc) hld hN
    · rw [hp, hvv, hG vr hvr vc hvc m hm u hu w hw]
      simp
    · rw [hp]
      exact hchk _ hv _ (pixel_lt hm hu hw)
  · intro idx _
    unfold gatherPos
    constructor
    · rintro ⟨vr, hvr, vc, hvc, m, hm, u, hu, w, hw, rfl⟩
      exact ⟨vr, hvr, vc, hvc, m, hm, u, hu, w, hw, by ring⟩
    · rintro ⟨vr, hvr, vc, hvc, m, hm, u, hu, w, hw, rfl⟩
      exact ⟨vr, hvr, vc, hvc, m, hm, u, hu, w, hw, by ring⟩

theorem decode_cell {ld outW fH fW m u w vr vc : Nat} (hu : u < fH) (hw : w < fW)
    (hvc : vc < outW) (hv : vr * outW + vc < ld) :
    let idx := ((m * fH + u) * fW + w) * ld + (vr * outW + vc)
    idx / ld / fW / fH = m ∧ idx % ld / outW = vr ∧ idx / ld / fW % fH = u
      ∧ idx % ld % outW = vc ∧ idx / ld % fW = w := by
  intro idx
  have hld : 0 < ld := by omega
  have h1 : idx / ld = (m * fH + u) * fW + w := by
    show (((m * fH + u) * fW + w) * ld + (vr * outW + vc)) / ld = _
    rw [Nat.add_comm, Nat.add_mul_div_right _ _ hld, Nat.div_eq_of_lt hv, Nat.zero_add]
  have h2 : idx % ld = vr * outW + vc := by
    show (((m * fH + u) * fW + w) * ld + (vr * outW + vc)) % ld = _
    rw [Nat.add_comm, Nat.add_mul_mod_self_right, Nat.mod_eq_of_lt hv]
  have h3 : ((m * fH + u) * fW + w) / fW = m * fH + u := by
    rw [Nat.add_comm, Nat.add_mul_div_right _ _ (by omega), Nat.div_eq_of_lt hw, Nat.zero_add]
  have h4 : ((m * fH + u) * fW + w) % fW = w := by
    rw [Nat.add_comm, Nat.add_mul_mod_self_right, Nat.mod_eq_of_lt hw]
  have h5 : (m * fH + u) / fH = m := by
    rw [Nat.add_comm, Nat.add_mul_div_right _ _ (by omega), Nat.div_eq_of_lt hu, Nat.zero_add]
  have h6 : (m * fH + u) % fH = u := by
    rw [Nat.add_comm, Nat.add_mul_mod_self_right, Nat.mod_eq_of_lt hu]
  have h7 : (vr * outW + vc) / outW = vr := by
    rw [Nat.add_comm, Nat.add_mul_div_right _ _ (by omega), Nat.div_eq_of_lt hvc, Nat.zero_add]
  have h8 : (vr * outW + vc) % outW = vc := by
    rw [Nat.add_comm, Nat.add_mul_mod_self_right, Nat.mod_eq_of_lt hvc]
  rw [h1, h2, h3, h4, h5, h6, h7, h8]
  exact ⟨rfl, rfl, rfl, rfl, rfl⟩

/-- Every cell of an `outH * outW` by `D * fH * fW` buffer is written by the
loop nest. -/
theorem gatherPos_of_lt {outH outW D fH fW idx : Nat}
    (h : idx < D * fH * fW * (outH * outW)) : gatherPos outH outW D fH fW (outH * outW) idx := by
  have hld : 0 < outH * outW := by
    rcases Nat.eq_zero_or_pos (outH * outW) with h0 | h0
    · rw [h0] at h
      simp at h
    · exact h0
  have hW : 0 < outW := Nat.pos_of_mul_pos_left hld
  have hpix : idx / (outH * outW) < D * fH * fW := Nat.div_lt_of_lt_mul (lt_of_lt_of_eq h (Nat.mul_comm _ _))
  have hfW : 0 < fW := by
    rcases Nat.eq_zero_or_pos fW with h0 | h0
    · rw [h0] at hpix
      simp at hpix
    · exact h0
  have hmu : idx / (outH * outW) / fW < D * fH := Nat.div_lt_of_lt_mul (lt_of_lt_of_eq hpix (Nat.mul_comm _ _))
  have hfH : 0 < fH := by
    rcases Nat.eq_zero_or_pos fH with h0 | h0
    · rw [h0] at hmu
      simp at hmu
    · exact h0
  have hm : idx / (outH * outW) / fW / fH < D := Nat.div_lt_of_lt_mul (lt_of_lt_of_eq hmu (Nat.mul_comm _ _))
  have hvr : idx % (outH * outW) / outW < outH :=
    Nat.div_lt_of_lt_mul (lt_of_lt_of_eq (Nat.mod_lt _ hld) (Nat.mul_comm _ _))
  refine ⟨idx % (outH * outW) / outW, hvr, idx % (outH * outW) % outW, Nat.mod_lt _ hW,
    idx / (outH * outW) / fW / fH, hm, idx / (outH * outW) / fW % fH, Nat.mod_lt _ hfH,
    idx / (outH * outW) % fW, Nat.mod_lt _ hfW, ?_⟩
  rw [Nat.div_add_mod', Nat.div_add_mod', Nat.div_add_mod', Nat.div_add_mod']

/-- What the shared loop nest computes: it ends without a failed assertion,
keeps the length of the buffer, leaves `value m k l` in the cell of pixel
`(m, u, w)` of view `(vr, vc)`, where `k` and `l` are the image coordinates
of the pixel, and touches no other cell. -/
theorem gatherLoops_spec {β : Type} (enter : Nat → Bool → Bool) (chkPixel : Nat → Nat → Bool)
    (value : Int → Int → Int → β) (ld : Nat)
    (startRow boundRow : Int) (strideRows : Nat) (startCol boundCol : Int) (strideCols : Nat)
    (nRowsInput halfFltHeight halfFltHeightM1 halfFltWidth halfFltWidthM1 : Int)
    (outH outW D fH fW : Nat) (L : List β)
    (hsR : 1 ≤ strideRows) (hsC : 1 ≤ strideCols)
    (hrow : iterCount startRow boundRow strideRows = outH)
    (hcol : iterCount startCol boundCol strideCols = outW)
    (hbR : boundRow + strideRows < 2147483648) (hbC : boundCol + strideCols < 2147483648)
    (hloR : -2147483648 ≤ startRow) (hloC : -2147483648 ≤ startCol)
    (hD : nRowsInput = D) (hD2 : (D : Int) < 2147483648)
    (hfH : halfFltHeight + halfFltHeightM1 + 1 = fH) (hfW : halfFltWidth + halfFltWidthM1 + 1 = fW)
    (hkLo : -2147483648 ≤ startRow - halfFltHeight) (hkLo2 : -2147483648 ≤ startRow + halfFltHeightM1)
    (hkHi : boundRow + halfFltHeightM1 + 1 < 2147483648)
    (hlLo : -2147483648 ≤ startCol - halfFltWidth) (hlLo2 : -2147483648 ≤ startCol + halfFltWidthM1)
    (hlHi : boundCol + halfFltWidthM1 + 1 < 2147483648)
    (hld : outH * outW ≤ ld) (hN : D * fH * fW * ld ≤ L.length)
    (hent : ∀ v, v < outH * outW → enter v true = true)
    (hchk : ∀ v, v < outH * outW → ∀ p, p < D * fH * fW → chkPixel v p = true) :
    let r := gatherLoops enter chkPixel value ld startRow boundRow strideRows startCol boundCol
        strideCols nRowsInput halfFltHeight halfFltHeightM1 halfFltWidth halfFltWidthM1
        ((L, true), 0)
    r.1.2 = true ∧ r.1.1.length = L.length
      ∧ (∀ vr, vr < outH → ∀ vc, vc < outW → ∀ m, m < D → ∀ u, u < fH → ∀ w, w < fW →
          r.1.1[((m * fH + u) * fW + w) * ld + (vr * outW + vc)]?
            = some (value (m : Int)
                (startRow + (vr : Int) * strideRows - halfFltHeight + (u : Int))
                (startCol + (vc : Int) * strideCols - halfFltWidth + (w : Int))))
      ∧ (∀ idx, idx < L.length → ¬ gatherPos outH outW D fH fW ld idx → r.1.1[idx]? = L[idx]?) := by
  intro r
  have hG : ∀ vr, vr < outH → ∀ vc, vc < outW → ∀ m, m < D → ∀ u, u < fH → ∀ w, w < fW →
      gatherCell value ld outW fH fW startRow strideRows halfFltHeight startCol strideCols
          halfFltWidth (((m * fH + u) * fW + w) * ld + (vr * outW + vc))
        = value (m : Int) (startRow + (vr : Int) * strideRows - halfFltHeight + (u : Int))
            (startCol + (vc : Int) * strideCols - halfFltWidth + (w : Int)) := by
    intro vr hvr vc hvc m hm u hu w hw
    have hv : vr * outW + vc < ld := lt_of_lt_of_le (view_lt hvr hvc) hld
    obtain ⟨e1, e2, e3, e4, e5⟩ := @decode_cell ld outW fH fW m u w vr vc hu hw hvc hv
    unfold gatherCell
    rw [e1, e2, e3, e4, e5]
  obtain ⟨_, h2, h3, h4⟩ := gatherLoops_fills enter chkPixel value ld startRow boundRow strideRows
    startCol boundCol strideCols nRowsInput halfFltHeight halfFltHeightM1 halfFltWidth
    halfFltWidthM1 outH outW D fH fW L.length _ hsR hsC hrow hcol hbR hbC hloR hloC hD hD2 hfH hfW
    hkLo hkLo2 hkHi hlLo hlLo2 hlHi hld hN hent hchk hG L rfl
  refine ⟨h2, h3, ?_, fun idx hidx hnp => (h4 idx hidx).2 hnp⟩
  intro vr hvr vc hvc m hm u hu w hw
  have hlt : ((m * fH + u) * fW + w) * ld + (vr * outW + vc) < L.length :=
    cell_lt (pixel_lt hm hu hw) (view_lt hvr hvc) hld hN
  rw [(h4 _ hlt).1 ⟨vr, hvr, vc, hvc, m, hm, u, hu, w, hw, rfl⟩, hG vr hvr vc hvc m hm u hu w hw]

/-! ## The geometry of one direction -/

theorem toNat_natCast_ediv (n s : Nat) : ((n : Int) / (s : Int)).toNat = n / s := by
  rw [← Int.natCast_div, Int.toNat_natCast]

/-- The constants that `Im2col` and `Im2colIndices` compute for one
direction (image extent `H`, filter extent `fH`, padding `p`, stride `s`),
when they fit in an `int`. -/
theorem direction_facts {H fH p s : Nat} (hs : 1 ≤ s) (hge : fH ≤ H + 2 * p)
    (hr : H + p + s < 2147483648) :
    toInt (fH / 2 : Nat) + toInt (sizeT ((fH : Int) - 1) / 2 : Nat) + 1 = fH
      ∧ toInt (sizeT (toInt (fH / 2 : Nat) - p)) - toInt (fH / 2 : Nat) = -(p : Int)
      ∧ iterCount (toInt (sizeT (toInt (fH / 2 : Nat) - p)))
          (toInt (sizeT ((H : Int) + p - (sizeT ((fH : Int) - 1) / 2 : Nat) - 1))) s
          = (H + 2 * p - fH) / s + 1
      ∧ toInt (sizeT ((H : Int) + p - (sizeT ((fH : Int) - 1) / 2 : Nat) - 1)) + s < 2147483648
      ∧ -2147483648 ≤ toInt (sizeT (toInt (fH / 2 : Nat) - p))
      ∧ -2147483648 ≤ toInt (sizeT (toInt (fH / 2 : Nat) - p)) - toInt (fH / 2 : Nat)
      ∧ -2147483648 ≤ toInt (sizeT (toInt (fH / 2 : Nat) - p))
          + toInt (sizeT ((fH : Int) - 1) / 2 : Nat)
      ∧ toInt (sizeT ((H : Int) + p - (sizeT ((fH : Int) - 1) / 2 : Nat) - 1))
          + toInt (sizeT ((fH : Int) - 1) / 2 : Nat) + 1 < 2147483648 := by
  have e1 : toInt (fH / 2 : Nat) = (fH / 2 : Nat) := by
    unfold toInt
    omega
  have e2 : toInt (sizeT ((fH : Int) - 1) / 2 : Nat) = ((fH : Int) + 1) / 2 - 1 := by
    unfold toInt sizeT
    omega
  have e3 : toInt (sizeT (toInt (fH / 2 : Nat) - p)) = ((fH / 2 : Nat) : Int) - p := by
    rw [e1]
    unfold toInt sizeT
    omega
  have e4 : toInt (sizeT ((H : Int) + p - (sizeT ((fH : Int) - 1) / 2 : Nat) - 1))
      = (H : Int) + p - (((fH : Int) + 1) / 2 - 1) - 1 := by
    unfold toInt sizeT
    omega
  have e5 : (H : Int) + p - (((fH : Int) + 1) / 2 - 1) - 1 - (((fH / 2 : Nat) : Int) - p)
      = ((H + 2 * p - fH : Nat) : Int) := by
    omega
  refine ⟨?_, ?_, ?_, ?_, ?_, ?_, ?_, ?_⟩
  · rw [e1, e2]
    omega
  · rw [e3, e1]
    omega
  · rw [e3, e4]
    unfold iterCount
    rw [if_pos (by omega), e5, toNat_natCast_ediv]
  · rw [e4]
    omega
  · rw [e3]
    omega
  · rw [e3, e1]
    omega
  · rw [e3, e2]
    omega
  · rw [e4, e2]
    omega

/-! ## The index precomputation -/

theorem Im2colIndices_eq_gatherLoops {α : Type} [Zero α] (V : List Int) (B : TCpuMatrix α)
    (nLocalViews imgHeight imgWidth fltHeight fltWidth strideRows strideCols zeroPaddingHeight
      zeroPaddingWidth : Nat) :
    TCpu.Im2colIndices V B nLocalViews imgHeight imgWidth fltHeight fltWidth strideRows
        strideCols zeroPaddingHeight zeroPaddingWidth
      = if (gatherLoops (fun _ ok => ok)
            (fun v p => decide (sizeT ((v : Int)
              * toInt (sizeT (toInt B.GetNrows * fltHeight * fltWidth)) + p) < V.length))
            (indexValue imgHeight imgWidth (toInt B.GetNrows) (toInt B.GetNcols)) nLocalViews
            (toInt (sizeT (toInt (fltHeight / 2 : Nat) - zeroPaddingHeight)))
            (toInt (sizeT ((imgHeight : Int) + zeroPaddingHeight
              - (sizeT ((fltHeight : Int) - 1) / 2 : Nat) - 1))) strideRows
            (toInt (sizeT (toInt (fltWidth / 2 : Nat) - zeroPaddingWidth)))
            (toInt (sizeT ((imgWidth : Int) + zeroPaddingWidth
              - (sizeT ((fltWidth : Int) - 1) / 2 : Nat) - 1))) strideCols
            (toInt B.GetNrows) (toInt (fltHeight / 2 : Nat))
            (toInt (sizeT ((fltHeight : Int) - 1) / 2 : Nat)) (toInt (fltWidth / 2 : Nat))
            (toInt (sizeT ((fltWidth : Int) - 1) / 2 : Nat)) ((V, true), 0)).1.2
        then Except.ok (gatherLoops (fun _ ok => ok)
            (fun v p => decide (sizeT ((v : Int)
              * toInt (sizeT (toInt B.GetNrows * fltHeight * fltWidth)) + p) < V.length))
            (indexValue imgHeight imgWidth (toInt B.GetNrows) (toInt B.GetNcols)) nLocalViews
            (toInt (sizeT (toInt (fltHeight / 2 : Nat) - zeroPaddingHeight)))
            (toInt (sizeT ((imgHeight : Int) + zeroPaddingHeight
              - (sizeT ((fltHeight : Int) - 1) / 2 : Nat) - 1))) strideRows
            (toInt (sizeT (toInt (fltWidth / 2 : Nat) - zeroPaddingWidth)))
            (toInt (sizeT ((imgWidth : Int) + zeroPaddingWidth
              - (sizeT ((fltWidth : Int) - 1) / 2 : Nat) - 1))) strideCols
            (toInt B.GetNrows) (toInt (fltHeight / 2 : Nat))
            (toInt (sizeT ((fltHeight : Int) - 1) / 2 : Nat)) (toInt (fltWidth / 2 : Nat))
            (toInt (sizeT ((fltWidth : Int) - 1) / 2 : Nat)) ((V, true), 0)).1.1
        else Except.error Failure.Assert := by
  unfold TCpu.Im2colIndices gatherLoops indexValue
  dsimp only


theorem indexValue_eq {D H W : Nat} (hH : (H : Int) < 2147483648) (hW : (W : Int) < 2147483648)
    (hHW : H * W < 2147483648) (hHWD : H * W * D < 2147483648) (hD : (D : Int) < 2147483648)
    (m : Nat) (hm : m < D) (k l : Int) :
    indexValue H W (toInt (D : Nat)) (toInt (H * W : Nat)) m k l
      = if 0 ≤ k ∧ k < H ∧ 0 ≤ l ∧ l < W then (k * W + l) * D + m else -1 := by
  have eH : toInt (H : Nat) = H := toInt_of_range (by omega) (by omega)
  have eW : toInt (W : Nat) = W := toInt_of_range (by omega) (by omega)
  have eD : toInt (D : Nat) = D := toInt_of_range (by omega) (by omega)
  have eHW : toInt (H * W : Nat) = (H * W : Nat) := toInt_of_range (by omega) (by omega)
  unfold indexValue
  rw [eH, eW, eD, eHW]
  by_cases hin : 0 ≤ k ∧ k < H ∧ 0 ≤ l ∧ l < W
  · obtain ⟨hk0, hk1, hl0, hl1⟩ := hin
    have hHW2 : (H : Int) * W < 2147483648 := by exact_mod_cast hHW
    have hHWD2 : (H : Int) * W * D < 2147483648 := by exact_mod_cast hHWD
    have hm2 : (m : Int) < D := by exact_mod_cast hm
    have h1 : k * W + l < (H : Int) * W := by nlinarith
    have h0 : 0 ≤ k * W := mul_nonneg hk0 (by omega)
    have h2 : (k * W + l) * D + m < (H : Int) * W * D := by nlinarith
    have h3 : 0 ≤ (k * W + l) * D := mul_nonneg (by omega) (by omega)
    have ek : toInt (sizeT (k * W)) = k * W := by
      rw [toInt_sizeT]
      exact toInt_of_range (by linarith) (by linarith)
    rw [ek, if_neg, if_pos ⟨hk0, hk1, hl0, hl1⟩]
    · exact toInt_of_range (by linarith) (by linarith)
    · have eHW2 : ((H * W : Nat) : Int) = (H : Int) * W := by push_cast; rfl
      rw [eHW2]
      rintro (h | h | h | h | h) <;> linarith
  · rw [if_neg hin, if_pos]
    by_contra hc
    apply hin
    omega

/-- C2. `Im2colIndices` entry formula: for strides `≥ 1`, `H + 2*pH ≥ fH`,
`W + 2*pW ≥ fW`, a source `B` with `D` rows and `H*W` columns,
`nLocalViews = outH * outW` and `V` of length `nLocalViews * D*fH*fW`, the
call returns, and entry `pixel * nLocalViews + view` of the result, with
`view = vr*outW + vc` and `pixel = (ch*fH + u)*fW + w`, is
`((vr*sR + u - pH)*W + (vc*sC + w - pW))*D + ch` when the coordinates
`vr*sR + u - pH` and `vc*sC + w - pW` lie in `[0,H)` and `[0,W)`, and `-1`
otherwise.  The geometry is taken within the range of `int` and `size_t`
(`IntRange`, `V.length < 2^64`). -/
theorem C2_im2colIndices_entry {α : Type} [Zero α] (V : List Int) (B : TCpuMatrix α)
    (nLocalViews H W fH fW sR sC pH pW D : Nat)
    (hsR : 1 ≤ sR) (hsC : 1 ≤ sC) (hH : fH ≤ H + 2 * pH) (hW : fW ≤ W + 2 * pW)
    (hBr : B.GetNrows = D) (hBc : B.GetNcols = H * W)
    (hnLV : nLocalViews = ((H + 2 * pH - fH) / sR + 1) * ((W + 2 * pW - fW) / sC + 1))
    (hV : V.length = nLocalViews * (D * fH * fW))
    (hrange : IntRange D H W fH fW sR sC pH pW) (hsize : V.length < 2 ^ 64) :
    ∃ V2 : List Int,
      TCpu.Im2colIndices V B nLocalViews H W fH fW sR sC pH pW = Except.ok V2
        ∧ V2.length = V.length
        ∧ ∀ vr, vr < (H + 2 * pH - fH) / sR + 1 → ∀ vc, vc < (W + 2 * pW - fW) / sC + 1 →
          ∀ ch, ch < D → ∀ u, u < fH → ∀ w, w < fW →
            V2[((ch * fH + u) * fW + w) * nLocalViews
                + (vr * ((W + 2 * pW - fW) / sC + 1) + vc)]?
              = some (if 0 ≤ (vr : Int) * sR + u - pH ∧ (vr : Int) * sR + u - pH < H
                    ∧ 0 ≤ (vc : Int) * sC + w - pW ∧ (vc : Int) * sC + w - pW < W
                  then (((vr : Int) * sR + u - pH) * W + ((vc : Int) * sC + w - pW)) * D + ch
                  else -1) := by
  obtain ⟨r1, r2, r3, r4, r5, r6⟩ := hrange
  norm_num at r1 r2 r3 r4 r5 r6 hsize
  have hHi : (H : Int) < 2147483648 := by omega
  have hWi : (W : Int) < 2147483648 := by omega
  have hDi : (D : Int) < 2147483648 := by omega
  obtain ⟨a1, a2, a3, a4, a5, a6, a7, a8⟩ := direction_facts hsR hH r1
  obtain ⟨b1, b2, b3, b4, b5, b6, b7, b8⟩ := direction_facts hsC hW r2
  have eD : toInt (D : Nat) = D := toInt_natCast r3
  have epix : toInt (sizeT ((D : Int) * fH * fW)) = (D * fH * fW : Nat) := by
    rw [toInt_sizeT]
    have h0 : ((D : Int) * fH * fW) = ((D * fH * fW : Nat) : Int) := by push_cast; rfl
    rw [h0]
    exact toInt_natCast r6
  have hN : D * fH * fW * nLocalViews ≤ V.length := le_of_eq (by rw [hV, Nat.mul_comm])
  have hspec := gatherLoops_spec (fun _ ok => ok)
    (fun v p => decide (sizeT ((v : Int)
      * toInt (sizeT (toInt B.GetNrows * fH * fW)) + p) < V.length))
    (indexValue H W (toInt B.GetNrows) (toInt B.GetNcols)) nLocalViews
    _ _ sR _ _ sC (toInt B.GetNrows) _ _ _ _
    ((H + 2 * pH - fH) / sR + 1) ((W + 2 * pW - fW) / sC + 1) D fH fW V hsR hsC a3 b3 a4 b4 a5 b5
    (by rw [hBr, eD]) (by exact_mod_cast r3) a1 b1 a6 a7 a8 b6 b7 b8 (le_of_eq hnLV.symm)
    hN (fun _ _ => rfl)
    (by
      intro v hv p hp
      rw [hBr, eD, epix]
      have hlt : v * (D * fH * fW) + p < V.length :=
        cell_lt hv hp (le_refl _) (le_of_eq (by rw [hV, hnLV]))
      have h0 : ((v : Int) * ((D * fH * fW : Nat) : Int) + p)
          = ((v * (D * fH * fW) + p : Nat) : Int) := by push_cast; ring
      beta_reduce
      rw [h0, sizeT_natCast (lt_trans hlt hsize)]
      exact decide_eq_true hlt)
  obtain ⟨s1, s2, s3, _⟩ := hspec
  rw [Im2colIndices_eq_gatherLoops, if_pos s1]
  refine ⟨_, rfl, s2, ?_⟩
  intro vr hvr vc hvc ch hch u hu w hw
  rw [s3 vr hvr vc hvc ch hch u hu w hw, hBr, hBc,
    indexValue_eq hHi hWi r4 r5 hDi ch hch]
  have ek : toInt (sizeT (toInt (fH / 2 : Nat) - pH)) + (vr : Int) * sR - toInt (fH / 2 : Nat) + u
      = (vr : Int) * sR + u - pH := by
    have e : toInt (sizeT (toInt (fH / 2 : Nat) - pH)) + (vr : Int) * sR
        - toInt (fH / 2 : Nat) + u
        = (toInt (sizeT (toInt (fH / 2 : Nat) - pH)) - toInt (fH / 2 : Nat))
          + ((vr : Int) * sR + u) := by ring
    rw [e, a2]
    ring
  have el : toInt (sizeT (toInt (fW / 2 : Nat) - pW)) + (vc : Int) * sC - toInt (fW / 2 : Nat) + w
      = (vc : Int) * sC + w - pW := by
    have e : toInt (sizeT (toInt (fW / 2 : Nat) - pW)) + (vc : Int) * sC
        - toInt (fW / 2 : Nat) + w
        = (toInt (sizeT (toInt (fW / 2 : Nat) - pW)) - toInt (fW / 2 : Nat))
          + ((vc : Int) * sC + w) := by ring
    rw [e, b2]
    ring
  rw [ek, el]

theorem C2_im2colIndices_entry_witness :
    ∃ V2 : List Int,
      TCpu.Im2colIndices (List.replicate 36 (0 : Int)) (TCpuMatrix.zeros 1 16 : TCpuMatrix Int)
          4 4 4 3 3 1 1 0 0 = Except.ok V2
        ∧ V2.length = (List.replicate 36 (0 : Int)).length
        ∧ ∀ vr, vr < (4 + 2 * 0 - 3) / 1 + 1 → ∀ vc, vc < (4 + 2 * 0 - 3) / 1 + 1 →
          ∀ ch, ch < 1 → ∀ u, u < 3 → ∀ w, w < 3 →
            V2[(((ch * 3 + u) * 3 + w) * 4 + (vr * ((4 + 2 * 0 - 3) / 1 + 1) + vc) : Nat)]?
              = some (if 0 ≤ (vr : Int) * (1 : Nat) + u - (0 : Nat)
                    ∧ (vr : Int) * (1 : Nat) + u - (0 : Nat) < (4 : Nat)
                    ∧ 0 ≤ (vc : Int) * (1 : Nat) + w - (0 : Nat)
                    ∧ (vc : Int) * (1 : Nat) + w - (0 : Nat) < (4 : Nat)
                  then (((vr : Int) * (1 : Nat) + u - (0 : Nat)) * (4 : Nat)
                    + ((vc : Int) * (1 : Nat) + w - (0 : Nat))) * (1 : Nat) + ch
                  else -1) :=
  C2_im2colIndices_entry (List.replicate 36 (0 : Int)) (TCpuMatrix.zeros 1 16 : TCpuMatrix Int)
    4 4 4 3 3 1 1 0 0 1 (by decide) (by decide) (by decide) (by decide) rfl rfl (by decide)
    (by decide) ⟨by norm_num, by norm_num, by norm_num, by norm_num, by norm_num, by norm_num⟩
    (by norm_num)

/-! ## The fast gather -/

theorem foldl_set_range {β : Type} (g : Nat → β) (n : Nat) (a : List β) :
    ((List.range n).foldl (fun (a : List β) (ii : Nat) => a.set ii (g ii)) a).length = a.length
      ∧ ∀ ii, ((List.range n).foldl (fun (a : List β) (ii : Nat) => a.set ii (g ii)) a)[ii]?
          = if ii < n then (if ii < a.length then some (g ii) else none) else a[ii]? := by
  induction n with
  | zero => simp
  | succ n ih =>
    obtain ⟨h1, h2⟩ := ih
    rw [List.range_succ, List.foldl_append]
    simp only [List.foldl_cons, List.foldl_nil, List.length_set]
    refine ⟨h1, fun ii => ?_⟩
    rw [List.getElem?_set, h1, h2 ii]
    by_cases hn : n = ii
    · subst hn
      simp
    · rw [if_neg hn]
      by_cases h3 : ii < n
      · rw [if_pos h3, if_pos (show ii < n + 1 by omega)]
      · rw [if_neg h3, if_neg (show ¬ ii < n + 1 by omega)]

/-- The value that `Im2colFast` stores in cell `ii`. -/
theorem Im2colFast_eq {α : Type} [Zero α] (A B : TCpuMatrix α) (V : List Int)
    (hV : V.length = A.GetNcols * A.GetNrows) :
    TCpu.Im2colFast A B V = Except.ok { A with fBuffer := ((List.range V.length).foldl
      (fun (a : List α) (ii : Nat) =>
        a.set ii (if V.getD ii 0 ≥ 0 then B.fBuffer.getD (V.getD ii 0).toNat 0 else 0))
      A.fBuffer) } := by
  unfold TCpu.Im2colFast
  simp only [hV, ne_eq, not_true_eq_false, if_false]
  congr 3
  funext a ii
  split <;> rfl

theorem Im2colFast_spec {α : Type} [Zero α] (A B : TCpuMatrix α) (V : List Int)
    (hA : A.WellFormed) (hV : V.length = A.GetNrows * A.GetNcols) :
    ∃ A2 : TCpuMatrix α, TCpu.Im2colFast A B V = Except.ok A2
      ∧ A2.fNRows = A.fNRows ∧ A2.fNCols = A.fNCols ∧ A2.fBuffer.length = A.fBuffer.length
      ∧ ∀ ii, ii < V.length → A2.fBuffer[ii]?
          = some (if V.getD ii 0 ≥ 0 then B.fBuffer.getD (V.getD ii 0).toNat 0 else 0) := by
  have hV2 : V.length = A.GetNcols * A.GetNrows := by rw [hV, Nat.mul_comm]
  have hlen : A.fBuffer.length = V.length := by
    rw [hV]
    exact hA
  obtain ⟨h1, h2⟩ := foldl_set_range
    (fun ii => if V.getD ii 0 ≥ 0 then B.fBuffer.getD (V.getD ii 0).toNat 0 else 0)
    V.length A.fBuffer
  refine ⟨_, Im2colFast_eq A B V hV2, rfl, rfl, h1, fun ii hii => ?_⟩
  show ((List.range V.length).foldl _ A.fBuffer)[ii]? = _
  rw [h2 ii, if_pos hii, if_pos (by omega)]

/-- C4. `Im2colFast` gather contract: for an index map `V` whose length is
the cell count of `A` and whose non-negative entries are offsets into the
flat buffer of `B`, the call returns a matrix of the shape of `A` in which
every cell `ii` of the flat buffer is the cell `V[ii]` of the buffer of `B`
if `V[ii] ≥ 0` and is `0` if `V[ii] < 0`; the value of a cell is a function
of its own index entry and of `B` alone. -/
theorem C4_im2colFast_gather {α : Type} [Zero α] (A B : TCpuMatrix α) (V : List Int)
    (hA : A.WellFormed) (hV : V.length = A.GetNrows * A.GetNcols)
    (hvalid : ∀ (ii : Nat) (v : Int), V[ii]? = some v → 0 ≤ v → v.toNat < B.fBuffer.length) :
    ∃ A2 : TCpuMatrix α, TCpu.Im2colFast A B V = Except.ok A2
      ∧ A2.GetNrows = A.GetNrows ∧ A2.GetNcols = A.GetNcols
      ∧ A2.fBuffer.length = A.fBuffer.length
      ∧ ∀ (ii : Nat) (v : Int), V[ii]? = some v →
          (0 ≤ v → A2.fBuffer[ii]? = B.fBuffer[v.toNat]?) ∧ (v < 0 → A2.fBuffer[ii]? = some 0) := by
  obtain ⟨A2, h1, h2, h3, h4, h5⟩ := Im2colFast_spec A B V hA hV
  refine ⟨A2, h1, h2, h3, h4, fun ii v hv => ?_⟩
  have hii : ii < V.length := by
    rcases Nat.lt_or_ge ii V.length with h | h
    · exact h
    · rw [List.getElem?_eq_none h] at hv
      exact absurd hv (by simp)
  have hget : V.getD ii 0 = v := by
    rw [List.getD_eq_getElem?_getD, hv]
    rfl
  rw [h5 ii hii, hget]
  constructor
  · intro h0
    have hlt := hvalid ii v hv h0
    rw [if_pos h0, List.getD_eq_getElem?_getD, List.getElem?_eq_getElem hlt]
    rfl
  · intro h0
    rw [if_neg (by omega)]

theorem C4_im2colFast_gather_witness :
    ∃ A2 : TCpuMatrix Int,
      TCpu.Im2colFast (TCpuMatrix.zeros 2 2) (TCpuMatrix.ofRows 1 3 [[5, 6, 7]]) [2, -1, 0, 1]
          = Except.ok A2
      ∧ A2.GetNrows = (TCpuMatrix.zeros 2 2 : TCpuMatrix Int).GetNrows
      ∧ A2.GetNcols = (TCpuMatrix.zeros 2 2 : TCpuMatrix Int).GetNcols
      ∧ A2.fBuffer.length = (TCpuMatrix.zeros 2 2 : TCpuMatrix Int).fBuffer.length
      ∧ ∀ (ii : Nat) (v : Int), ([2, -1, 0, 1] : List Int)[ii]? = some v →
          (0 ≤ v → A2.fBuffer[ii]? = (TCpuMatrix.ofRows 1 3 [[5, 6, 7]] : TCpuMatrix Int).fBuffer[v.toNat]?)
            ∧ (v < 0 → A2.fBuffer[ii]? = some 0) :=
  C4_im2colFast_gather (TCpuMatrix.zeros 2 2) (TCpuMatrix.ofRows 1 3 [[5, 6, 7]]) [2, -1, 0, 1]
    (by unfold TCpuMatrix.WellFormed; decide) (by decide)
    (by
      intro ii v hv h0
      have hii : ii < 4 := by
        rcases Nat.lt_or_ge ii 4 with h | h
        · exact h
        · rw [List.getElem?_eq_none (by simpa using h)] at hv
          exact absurd hv (by simp)
      interval_cases ii <;> simp at hv <;> subst hv <;> first | decide | omega)

/-! ## The direct gather and the gather through the index map -/

theorem Im2col_eq_gatherLoops {α : Type} [Zero α] (A B : TCpuMatrix α)
    (imgHeight imgWidth fltHeight fltWidth strideRows strideCols zeroPaddingHeight
      zeroPaddingWidth : Nat) :
    TCpu.Im2col A B imgHeight imgWidth fltHeight fltWidth strideRows strideCols
        zeroPaddingHeight zeroPaddingWidth
      = if (gatherLoops (fun v ok => ok && decide (toInt v < toInt A.GetNrows))
            (fun _ p => decide (toInt p < toInt A.GetNcols))
            (gatherValue B imgHeight imgWidth (toInt B.GetNcols)) A.GetNrows
            (toInt (sizeT (toInt (fltHeight / 2 : Nat) - zeroPaddingHeight)))
            (toInt (sizeT ((imgHeight : Int) + zeroPaddingHeight
              - (sizeT ((fltHeight : Int) - 1) / 2 : Nat) - 1))) strideRows
            (toInt (sizeT (toInt (fltWidth / 2 : Nat) - zeroPaddingWidth)))
            (toInt (sizeT ((imgWidth : Int) + zeroPaddingWidth
              - (sizeT ((fltWidth : Int) - 1) / 2 : Nat) - 1))) strideCols
            (toInt B.GetNrows) (toInt (fltHeight / 2 : Nat))
            (toInt (sizeT ((fltHeight : Int) - 1) / 2 : Nat)) (toInt (fltWidth / 2 : Nat))
            (toInt (sizeT ((fltWidth : Int) - 1) / 2 : Nat)) ((A.fBuffer, true), 0)).1.2
        then Except.ok { A with fBuffer := (gatherLoops
            (fun v ok => ok && decide (toInt v < toInt A.GetNrows))
            (fun _ p => decide (toInt p < toInt A.GetNcols))
            (gatherValue B imgHeight imgWidth (toInt B.GetNcols)) A.GetNrows
            (toInt (sizeT (toInt (fltHeight / 2 : Nat) - zeroPaddingHeight)))
            (toInt (sizeT ((imgHeight : Int) + zeroPaddingHeight
              - (sizeT ((fltHeight : Int) - 1) / 2 : Nat) - 1))) strideRows
            (toInt (sizeT (toInt (fltWidth / 2 : Nat) - zeroPaddingWidth)))
            (toInt (sizeT ((imgWidth : Int) + zeroPaddingWidth
              - (sizeT ((fltWidth : Int) - 1) / 2 : Nat) - 1))) strideCols
            (toInt B.GetNrows) (toInt (fltHeight / 2 : Nat))
            (toInt (sizeT ((fltHeight : Int) - 1) / 2 : Nat)) (toInt (fltWidth / 2 : Nat))
            (toInt (sizeT ((fltWidth : Int) - 1) / 2 : Nat)) ((A.fBuffer, true), 0)).1.1 }
        else Except.error Failure.Assert := by
  unfold TCpu.Im2col gatherLoops gatherValue
  dsimp only

theorem sizeT_of_nonneg {x : Int} (h0 : 0 ≤ x) (h1 : x < 2147483648) : sizeT x = x.toNat := by
  unfold sizeT
  omega

theorem toNat_mul_add {x : Int} {D m : Nat} (hx : 0 ≤ x) :
    (x * D + m).toNat = x.toNat * D + m := by
  obtain ⟨n, rfl⟩ := Int.eq_ofNat_of_zero_le hx
  have : ((n : Int) * D + m) = ((n * D + m : Nat) : Int) := by push_cast; rfl
  rw [this, Int.toNat_natCast, Int.toNat_natCast]

/-- The gather of one cell through its index entry is the value that the
direct gather computes for the cell. -/
theorem gather_agree {α : Type} [Zero α] (B : TCpuMatrix α) {D H W : Nat}
    (hBr : B.fNRows = D) (hH : (H : Int) < 2147483648) (hW : (W : Int) < 2147483648)
    (hHW : H * W < 2147483648) (hHWD : H * W * D < 2147483648) (hD : (D : Int) < 2147483648)
    (m : Nat) (hm : m < D) (k l : Int) :
    (if indexValue H W (toInt (D : Nat)) (toInt (H * W : Nat)) m k l ≥ 0
      then B.fBuffer.getD (indexValue H W (toInt (D : Nat)) (toInt (H * W : Nat)) m k l).toNat 0
      else 0)
      = gatherValue B H W (toInt (H * W : Nat)) m k l := by
  rw [indexValue_eq hH hW hHW hHWD hD m hm k l]
  have eH : toInt (H : Nat) = H := toInt_of_range (by omega) (by omega)
  have eW : toInt (W : Nat) = W := toInt_of_range (by omega) (by omega)
  have eHW : toInt (H * W : Nat) = (H * W : Nat) := toInt_of_range (by omega) (by omega)
  unfold gatherValue
  rw [eH, eW, eHW]
  by_cases hin : 0 ≤ k ∧ k < H ∧ 0 ≤ l ∧ l < W
  · obtain ⟨hk0, hk1, hl0, hl1⟩ := hin
    have hHW2 : (H : Int) * W < 2147483648 := by exact_mod_cast hHW
    have h1 : k * W + l < (H : Int) * W := by nlinarith
    have h0 : 0 ≤ k * W := mul_nonneg hk0 (by omega)
    have h3 : 0 ≤ (k * W + l) * D + m :=
      add_nonneg (mul_nonneg (by linarith) (Int.natCast_nonneg D)) (Int.natCast_nonneg m)
    have ek : toInt (sizeT (k * W)) = k * W := by
      rw [toInt_sizeT]
      exact toInt_of_range (by linarith) (by linarith)
    have em : sizeT (m : Int) = m := sizeT_natCast (by omega)
    have hneg : ¬ (k < 0 ∨ k ≥ ↑H ∨ l < 0 ∨ l ≥ ↑W ∨ k * ↑W + l ≥ ((H * W : Nat) : Int)) := by
      have eHW2 : ((H * W : Nat) : Int) = (H : Int) * W := by push_cast; rfl
      rw [eHW2]
      rintro (h | h | h | h | h) <;> linarith
    have hinb : 0 ≤ k ∧ k < ↑H ∧ 0 ≤ l ∧ l < ↑W := ⟨hk0, hk1, hl0, hl1⟩
    simp only [if_pos hinb]
    rw [if_pos h3, ek, if_neg hneg, em,
      sizeT_of_nonneg (by linarith) (by linarith), toNat_mul_add (by linarith)]
    unfold TCpuMatrix.elem
    rw [hBr]
  · simp only [if_neg hin]
    rw [if_neg (by decide), if_pos]
    by_contra hc
    apply hin
    omega

/-- The shared loop nest on the constants that `Im2col` and `Im2colIndices`
compute from a geometry within machine range: the cell of pixel `(m, u, w)`
of view `(vr, vc)` receives `value m (vr*sR + u - pH) (vc*sC + w - pW)`. -/
theorem gatherLoops_geometry {β : Type} (enter : Nat → Bool → Bool)
    (chkPixel : Nat → Nat → Bool) (value : Int → Int → Int → β) (ld : Nat)
    (H W fH fW sR sC pH pW D : Nat) (L : List β)
    (hsR : 1 ≤ sR) (hsC : 1 ≤ sC) (hH : fH ≤ H + 2 * pH) (hW : fW ≤ W + 2 * pW)
    (r1 : H + pH + sR < 2147483648) (r2 : W + pW + sC < 2147483648) (r3 : D < 2147483648)
    (hld : ((H + 2 * pH - fH) / sR + 1) * ((W + 2 * pW - fW) / sC + 1) ≤ ld)
    (hN : D * fH * fW * ld ≤ L.length)
    (hent : ∀ v, v < ((H + 2 * pH - fH) / sR + 1) * ((W + 2 * pW - fW) / sC + 1) →
      enter v true = true)
    (hchk : ∀ v, v < ((H + 2 * pH - fH) / sR + 1) * ((W + 2 * pW - fW) / sC + 1) →
      ∀ p, p < D * fH * fW → chkPixel v p = true) :
    (gatherLoops enter chkPixel value ld
        (toInt (sizeT (toInt (fH / 2 : Nat) - pH)))
        (toInt (sizeT ((H : Int) + pH - (sizeT ((fH : Int) - 1) / 2 : Nat) - 1))) sR
        (toInt (sizeT (toInt (fW / 2 : Nat) - pW)))
        (toInt (sizeT ((W : Int) + pW - (sizeT ((fW : Int) - 1) / 2 : Nat) - 1))) sC
        (toInt (D : Nat)) (toInt (fH / 2 : Nat)) (toInt (sizeT ((fH : Int) - 1) / 2 : Nat))
        (toInt (fW / 2 : Nat)) (toInt (sizeT ((fW : Int) - 1) / 2 : Nat)) ((L, true), 0)).1.2
      = true
    ∧ (gatherLoops enter chkPixel value ld
        (toInt (sizeT (toInt (fH / 2 : Nat) - pH)))
        (toInt (sizeT ((H : Int) + pH - (sizeT ((fH : Int) - 1) / 2 : Nat) - 1))) sR
        (toInt (sizeT (toInt (fW / 2 : Nat) - pW)))
        (toInt (sizeT ((W : Int) + pW - (sizeT ((fW : Int) - 1) / 2 : Nat) - 1))) sC
        (toInt (D : Nat)) (toInt (fH / 2 : Nat)) (toInt (sizeT ((fH : Int) - 1) / 2 : Nat))
        (toInt (fW / 2 : Nat)) (toInt (sizeT ((fW : Int) - 1) / 2 : Nat))
        ((L, true), 0)).1.1.length = L.length
    ∧ ∀ vr, vr < (H + 2 * pH - fH) / sR + 1 → ∀ vc, vc < (W + 2 * pW - fW) / sC + 1 →
        ∀ m, m < D → ∀ u, u < fH → ∀ w, w < fW →
          (gatherLoops enter chkPixel value ld
            (toInt (sizeT (toInt (fH / 2 : Nat) - pH)))
            (toInt (sizeT ((H : Int) + pH - (sizeT ((fH : Int) - 1) / 2 : Nat) - 1))) sR
            (toInt (sizeT (toInt (fW / 2 : Nat) - pW)))
            (toInt (sizeT ((W : Int) + pW - (sizeT ((fW : Int) - 1) / 2 : Nat) - 1))) sC
            (toInt (D : Nat)) (toInt (fH / 2 : Nat)) (toInt (sizeT ((fH : Int) - 1) / 2 : Nat))
            (toInt (fW / 2 : Nat)) (toInt (sizeT ((fW : Int) - 1) / 2 : Nat))
            ((L, true), 0)).1.1[(((m * fH + u) * fW + w) * ld
              + (vr * ((W + 2 * pW - fW) / sC + 1) + vc) : Nat)]?
            = some (value (m : Int) ((vr : Int) * sR + u - pH) ((vc : Int) * sC + w - pW)) := by
  have hDi : (D : Int) < 2147483648 := by omega
  obtain ⟨a1, a2, a3, a4, a5, a6, a7, a8⟩ := direction_facts hsR hH r1
  obtain ⟨b1, b2, b3, b4, b5, b6, b7, b8⟩ := direction_facts hsC hW r2
  obtain ⟨s1, s2, s3, _⟩ := gatherLoops_spec enter chkPixel value ld
    _ _ sR _ _ sC (toInt (D : Nat)) _ _ _ _
    ((H + 2 * pH - fH) / sR + 1) ((W + 2 * pW - fW) / sC + 1) D fH fW L hsR hsC a3 b3 a4 b4 a5 b5
    (toInt_natCast r3) hDi a1 b1 a6 a7 a8 b6 b7 b8 hld hN hent hchk
  refine ⟨s1, s2, ?_⟩
  intro vr hvr vc hvc m hm u hu w hw
  rw [s3 vr hvr vc hvc m hm u hu w hw]
  have ek : toInt (sizeT (toInt (fH / 2 : Nat) - pH)) + (vr : Int) * sR - toInt (fH / 2 : Nat) + u
      = (vr : Int) * sR + u - pH := by
    have e : toInt (sizeT (toInt (fH / 2 : Nat) - pH)) + (vr : Int) * sR
        - toInt (fH / 2 : Nat) + u
        = (toInt (sizeT (toInt (fH / 2 : Nat) - pH)) - toInt (fH / 2 : Nat))
          + ((vr : Int) * sR + u) := by ring
    rw [e, a2]
    ring
  have el : toInt (sizeT (toInt (fW / 2 : Nat) - pW)) + (vc : Int) * sC - toInt (fW / 2 : Nat) + w
      = (vc : Int) * sC + w - pW := by
    have e : toInt (sizeT (toInt (fW / 2 : Nat) - pW)) + (vc : Int) * sC
        - toInt (fW / 2 : Nat) + w
        = (toInt (sizeT (toInt (fW / 2 : Nat) - pW)) - toInt (fW / 2 : Nat))
          + ((vc : Int) * sC + w) := by ring
    rw [e, b2]
    ring
  rw [ek, el]

theorem TCpuMatrix.eq_of_fields {α : Type} {A B : TCpuMatrix α} (h1 : A.fNRows = B.fNRows)
    (h2 : A.fNCols = B.fNCols) (h3 : A.fBuffer = B.fBuffer) : A = B := by
  cases A
  cases B
  simp only at h1 h2 h3
  subst h1 h2 h3
  rfl

theorem Im2colIndices_cells {α : Type} [Zero α] (V : List Int) (B : TCpuMatrix α)
    (nLocalViews H W fH fW sR sC pH pW D : Nat)
    (hsR : 1 ≤ sR) (hsC : 1 ≤ sC) (hH : fH ≤ H + 2 * pH) (hW : fW ≤ W + 2 * pW)
    (hBr : B.GetNrows = D) (hBc : B.GetNcols = H * W)
    (hnLV : nLocalViews = ((H + 2 * pH - fH) / sR + 1) * ((W + 2 * pW - fW) / sC + 1))
    (hV : V.length = nLocalViews * (D * fH * fW))
    (r1 : H + pH + sR < 2147483648) (r2 : W + pW + sC < 2147483648) (r3 : D < 2147483648)
    (r6 : D * fH * fW < 2147483648) (hsize : V.length < 18446744073709551616) :
    ∃ V2 : List Int,
      TCpu.Im2colIndices V B nLocalViews H W fH fW sR sC pH pW = Except.ok V2
        ∧ V2.length = V.length
        ∧ ∀ vr, vr < (H + 2 * pH - fH) / sR + 1 → ∀ vc, vc < (W + 2 * pW - fW) / sC + 1 →
          ∀ m, m < D → ∀ u, u < fH → ∀ w, w < fW →
            V2[(((m * fH + u) * fW + w) * nLocalViews
                + (vr * ((W + 2 * pW - fW) / sC + 1) + vc) : Nat)]?
              = some (indexValue H W (toInt (D : Nat)) (toInt (H * W : Nat)) (m : Int)
                  ((vr : Int) * sR + u - pH) ((vc : Int) * sC + w - pW)) := by
  have epix : toInt (sizeT ((D : Int) * fH * fW)) = (D * fH * fW : Nat) := by
    rw [toInt_sizeT]
    have h0 : ((D : Int) * fH * fW) = ((D * fH * fW : Nat) : Int) := by push_cast; rfl
    rw [h0]
    exact toInt_natCast r6
  have hNV : D * fH * fW * nLocalViews ≤ V.length := le_of_eq (by rw [hV, Nat.mul_comm])
  obtain ⟨v1, v2, v3⟩ := gatherLoops_geometry (fun _ ok => ok)
    (fun v p => decide (sizeT ((v : Int) * toInt (sizeT (toInt (D : Nat) * fH * fW)) + p)
      < V.length))
    (indexValue H W (toInt (D : Nat)) (toInt (H * W : Nat))) nLocalViews H W fH fW sR sC pH pW D V
    hsR hsC hH hW r1 r2 r3 (le_of_eq hnLV.symm) hNV (fun _ _ => rfl)
    (by
      intro v hv p hp
      have hlt : v * (D * fH * fW) + p < V.length :=
        cell_lt hv hp (le_refl _) (le_of_eq (by rw [hV, hnLV]))
      have h0 : ((v : Int) * ((D * fH * fW : Nat) : Int) + p)
          = ((v * (D * fH * fW) + p : Nat) : Int) := by push_cast; ring
      beta_reduce
      rw [toInt_natCast r3, epix, h0, sizeT_natCast (lt_trans hlt hsize)]
      exact decide_eq_true hlt)
  have hI := Im2colIndices_eq_gatherLoops V B nLocalViews H W fH fW sR sC pH pW
  rw [hBr, hBc, if_pos v1] at hI
  exact ⟨_, hI, v2, v3⟩

theorem Im2col_cells {α : Type} [Zero α] (A B : TCpuMatrix α)
    (H W fH fW sR sC pH pW D : Nat)
    (hsR : 1 ≤ sR) (hsC : 1 ≤ sC) (hH : fH ≤ H + 2 * pH) (hW : fW ≤ W + 2 * pW)
    (hBr : B.GetNrows = D) (hBc : B.GetNcols = H * W)
    (hAr : A.GetNrows = ((H + 2 * pH - fH) / sR + 1) * ((W + 2 * pW - fW) / sC + 1))
    (hAc : A.GetNcols = D * fH * fW) (hA : A.WellFormed)
    (r1 : H + pH + sR < 2147483648) (r2 : W + pW + sC < 2147483648) (r3 : D < 2147483648)
    (r6 : D * fH * fW < 2147483648) (hviews : A.GetNrows < 2147483648) :
    ∃ a : List α,
      TCpu.Im2col A B H W fH fW sR sC pH pW = Except.ok { A with fBuffer := a }
        ∧ a.length = A.fBuffer.length
        ∧ ∀ vr, vr < (H + 2 * pH - fH) / sR + 1 → ∀ vc, vc < (W + 2 * pW - fW) / sC + 1 →
          ∀ m, m < D → ∀ u, u < fH → ∀ w, w < fW →
            a[(((m * fH + u) * fW + w) * A.GetNrows
                + (vr * ((W + 2 * pW - fW) / sC + 1) + vc) : Nat)]?
              = some (gatherValue B H W (toInt (H * W : Nat)) (m : Int)
                  ((vr : Int) * sR + u - pH) ((vc : Int) * sC + w - pW)) := by
  have hNA : D * fH * fW * A.GetNrows ≤ A.fBuffer.length := by
    have h := hA
    unfold TCpuMatrix.WellFormed at h
    rw [h, ← hAc, Nat.mul_comm]
    exact le_refl _
  obtain ⟨g1, g2, g3⟩ := gatherLoops_geometry
    (fun v ok => ok && decide (toInt v < toInt A.GetNrows))
    (fun _ p => decide (toInt p < toInt A.GetNcols))
    (gatherValue B H W (toInt (H * W : Nat))) A.GetNrows H W fH fW sR sC pH pW D A.fBuffer
    hsR hsC hH hW r1 r2 r3 (le_of_eq hAr.symm) hNA
    (by
      intro v hv
      rw [← hAr] at hv
      beta_reduce
      rw [toInt_natCast hviews, toInt_natCast (lt_trans hv hviews)]
      simp only [Bool.true_and, decide_eq_true_eq]
      exact_mod_cast hv)
    (by
      intro v _ p hp
      beta_reduce
      rw [hAc, toInt_natCast r6, toInt_natCast (lt_trans hp r6)]
      simp only [decide_eq_true_eq]
      exact_mod_cast hp)
  have hG := Im2col_eq_gatherLoops A B H W fH fW sR sC pH pW
  rw [hBr, hBc, if_pos g1] at hG
  exact ⟨_, hG, g2, g3⟩

/-- C3. Gather equivalence: for strides `≥ 1`, `H + 2*pH ≥ fH`,
`W + 2*pW ≥ fW`, a source `B` with `D` rows and `H*W` columns and an output
`A` of `nLocalViews × D*fH*fW` cells, `Im2colIndices` returns an index map
`V2`, and `Im2colFast(A, B, V2)` and the direct gather `Im2col(A, B, ...)`
both return, with the same matrix.  The geometry is taken within machine
range (`IntRange`, `nLocalViews < 2^31`). -/
theorem C3_gather_equivalence {α : Type} [Zero α] (A B : TCpuMatrix α) (V : List Int)
    (nLocalViews H W fH fW sR sC pH pW D : Nat)
    (hsR : 1 ≤ sR) (hsC : 1 ≤ sC) (hH : fH ≤ H + 2 * pH) (hW : fW ≤ W + 2 * pW)
    (hBr : B.GetNrows = D) (hBc : B.GetNcols = H * W)
    (hnLV : nLocalViews = ((H + 2 * pH - fH) / sR + 1) * ((W + 2 * pW - fW) / sC + 1))
    (hAr : A.GetNrows = nLocalViews) (hAc : A.GetNcols = D * fH * fW) (hA : A.WellFormed)
    (hV : V.length = nLocalViews * (D * fH * fW))
    (hrange : IntRange D H W fH fW sR sC pH pW) (hviews : nLocalViews < 2 ^ 31) :
    ∃ (V2 : List Int) (A2 : TCpuMatrix α),
      TCpu.Im2colIndices V B nLocalViews H W fH fW sR sC pH pW = Except.ok V2
        ∧ TCpu.Im2colFast A B V2 = Except.ok A2
        ∧ TCpu.Im2col A B H W fH fW sR sC pH pW = Except.ok A2 := by
  obtain ⟨r1, r2, r3, r4, r5, r6⟩ := hrange
  norm_num at r1 r2 r3 r4 r5 r6 hviews
  have hHi : (H : Int) < 2147483648 := by omega
  have hWi : (W : Int) < 2147483648 := by omega
  have hDi : (D : Int) < 2147483648 := by omega
  have hBr2 : B.fNRows = D := hBr
  have hsize : V.length < 18446744073709551616 := by
    rw [hV]
    calc nLocalViews * (D * fH * fW) < 2147483648 * 2147483648 :=
          Nat.mul_lt_mul'' hviews r6
      _ < 18446744073709551616 := by norm_num
  have hlenA : A.fBuffer.length = V.length := by
    rw [hV, ← hAr, ← hAc]
    exact hA
  obtain ⟨V2, i1, i2, i3⟩ := Im2colIndices_cells V B nLocalViews H W fH fW sR sC pH pW D
    hsR hsC hH hW hBr hBc hnLV hV r1 r2 r3 r6 hsize
  obtain ⟨a, g1, g2, g3⟩ := Im2col_cells A B H W fH fW sR sC pH pW D
    hsR hsC hH hW hBr hBc (hAr.trans hnLV) hAc hA r1 r2 r3 r6 (by rw [hAr]; exact hviews)
  obtain ⟨A2, f1, f2, f3, f4, f5⟩ := Im2colFast_spec A B V2 hA
    (by rw [i2, hV, hAr, hAc])
  refine ⟨V2, A2, i1, f1, ?_⟩
  rw [g1]
  refine congrArg Except.ok (TCpuMatrix.eq_of_fields f2.symm f3.symm (Eq.symm ?_))
  apply List.ext_getElem?
  intro ii
  by_cases hii : ii < V.length
  · have hpos : gatherPos ((H + 2 * pH - fH) / sR + 1) ((W + 2 * pW - fW) / sC + 1) D fH fW
        (((H + 2 * pH - fH) / sR + 1) * ((W + 2 * pW - fW) / sC + 1)) ii := by
      apply gatherPos_of_lt
      rw [← hnLV, Nat.mul_comm, ← hV]
      exact hii
    obtain ⟨vr, hvr, vc, hvc, m, hm, u, hu, w, hw, hcell⟩ := hpos
    rw [← hnLV] at hcell
    have e1 := i3 vr hvr vc hvc m hm u hu w hw
    have e2 := g3 vr hvr vc hvc m hm u hu w hw
    rw [hAr] at e2
    rw [← hcell] at e1 e2
    have hget : V2.getD ii 0 = indexValue H W (toInt (D : Nat)) (toInt (H * W : Nat)) (m : Int)
        ((vr : Int) * sR + u - pH) ((vc : Int) * sC + w - pW) := by
      rw [List.getD_eq_getElem?_getD, e1]
      rfl
    rw [f5 ii (by rw [i2]; exact hii), e2, hget]
    exact congrArg some (gather_agree B hBr2 hHi hWi r4 r5 hDi m hm _ _)
  · rw [List.getElem?_eq_none (by rw [f4, hlenA]; exact Nat.le_of_not_lt hii),
      List.getElem?_eq_none (by rw [g2, hlenA]; exact Nat.le_of_not_lt hii)]

theorem C3_gather_equivalence_witness :
    ∃ (V2 : List Int) (A2 : TCpuMatrix Int),
      TCpu.Im2colIndices (List.replicate 36 (0 : Int))
          (TCpuMatrix.ofRows 1 16 [[1, 2, 3, 4, 5, 6, 7, 8, 9, 10, 11, 12, 13, 14, 15, 16]]
            : TCpuMatrix Int) 4 4 4 3 3 1 1 0 0 = Except.ok V2
        ∧ TCpu.Im2colFast (TCpuMatrix.zeros 4 9)
          (TCpuMatrix.ofRows 1 16 [[1, 2, 3, 4, 5, 6, 7, 8, 9, 10, 11, 12, 13, 14, 15, 16]]) V2
            = Except.ok A2
        ∧ TCpu.Im2col (TCpuMatrix.zeros 4 9)
          (TCpuMatrix.ofRows 1 16 [[1, 2, 3, 4, 5, 6, 7, 8, 9, 10, 11, 12, 13, 14, 15, 16]])
          4 4 3 3 1 1 0 0 = Except.ok A2 :=
  C3_gather_equivalence (TCpuMatrix.zeros 4 9)
    (TCpuMatrix.ofRows 1 16 [[1, 2, 3, 4, 5, 6, 7, 8, 9, 10, 11, 12, 13, 14, 15, 16]])
    (List.replicate 36 (0 : Int)) 4 4 4 3 3 1 1 0 0 1 (by decide) (by decide) (by decide)
    (by decide) rfl rfl (by decide) rfl rfl (by unfold TCpuMatrix.WellFormed; decide)
    (by decide) ⟨by norm_num, by norm_num, by norm_num, by norm_num, by norm_num, by norm_num⟩
    (by norm_num)

/-! ## Multiplication, bias and activation -/

theorem sumRange_eq_sum {α : Type} [AddCommMonoid α] (n : Nat) (f : Nat → α) :
    sumRange n f = ∑ l in Finset.range n, f l := by
  unfold sumRange
  induction n with
  | zero => simp
  | succ n ih =>
    rw [List.range_succ, List.foldl_append, ih, Finset.sum_range_succ]
    rfl

theorem cell_div_mod {M i j : Nat} (hi : i < M) : (j * M + i) % M = i ∧ (j * M + i) / M = j := by
  constructor
  · rw [Nat.add_comm, Nat.add_mul_mod_self_right, Nat.mod_eq_of_lt hi]
  · rw [Nat.add_comm, Nat.add_mul_div_right _ _ (by omega), Nat.div_eq_of_lt hi, Nat.zero_add]

theorem cell_lt_size {M N i j : Nat} (hi : i < M) (hj : j < N) : j * M + i < M * N := by
  have h := view_lt hj hi
  rw [Nat.mul_comm M N]
  exact h

theorem getD_map_range {β : Type} (n : Nat) (g : Nat → β) (c : Nat) (d : β) (hc : c < n) :
    ((List.range n).map g).getD c d = g c := by
  rw [List.getD_eq_getElem?_getD, List.getElem?_map, List.getElem?_range hc]
  rfl

/-- `MultiplyTranspose(output, input, Weights)` on an `M × K` input, `N × K`
weights and a well-formed `M × N` output: the checks pass and
`output(i, j) = Σ_{l<K} input(i, l) * Weights(j, l)`. -/
theorem MultiplyTranspose_spec {α : Type} [Semiring α] (output input Weights : TCpuMatrix α)
    (M N K : Nat) (hM : M < 2147483648) (hN : N < 2147483648) (hK : K < 2147483648)
    (hi1 : input.GetNrows = M) (hi2 : input.GetNcols = K)
    (hw1 : Weights.GetNrows = N) (hw2 : Weights.GetNcols = K)
    (ho1 : output.GetNrows = M) (ho2 : output.GetNcols = N) (ho : output.WellFormed) :
    ∃ o : TCpuMatrix α, TCpu.MultiplyTranspose output input Weights = Except.ok o
      ∧ o.GetNrows = M ∧ o.GetNcols = N ∧ o.WellFormed
      ∧ ∀ i, i < M → ∀ j, j < N →
          o.elem i j = ∑ l in Finset.range K, input.elem i l * Weights.elem j l := by
  have hlen : output.fBuffer.length = M * N := by
    have h := ho
    unfold TCpuMatrix.WellFormed at h
    rw [h]
    show output.GetNrows * output.GetNcols = _
    rw [ho1, ho2]
  unfold TCpu.MultiplyTranspose
  simp only [hi1, hi2, hw1, hw2, ho1, ho2, ne_eq, not_true_eq_false, if_false,
    toInt_natCast hM, toInt_natCast hN, toInt_natCast hK]
  refine ⟨_, rfl, ho1, ho2, ?_, ?_⟩
  · unfold TCpuMatrix.WellFormed
    simp only [Blas.Gemm, List.length_map, List.length_range]
    exact ho
  · intro i hi j hj
    have hc : j * M + i < output.fBuffer.length := by
      rw [hlen]
      exact cell_lt_size hi hj
    obtain ⟨e1, e2⟩ := @cell_div_mod M i j hi
    have hr : output.fNRows = M := ho1
    unfold TCpuMatrix.elem
    simp only [Blas.Gemm, Int.toNat_natCast, hr]
    rw [getD_map_range _ _ _ _ hc]
    simp only [e1, e2, hi, hj, and_self, if_true, one_mul, zero_mul, add_zero,
      Bool.false_eq_true, if_false]
    rw [sumRange_eq_sum]
    apply Finset.sum_congr rfl
    intro l _
    have h1 : input.fNRows = M := hi1
    have h2 : Weights.fNRows = N := hw1
    rw [h1, h2, Nat.add_comm i, Nat.add_comm j]

/-- `AddConvBiases(output, biases)` on a well-formed `M × N` output, with at
least `M` biases and a ones-vector of at least `N` ones: the assertions pass
and `output(i, j)` grows by the bias of row `i`. -/
theorem AddConvBiases_spec {α : Type} [Semiring α] (fOnes : List α)
    (output biases : TCpuMatrix α) (M N : Nat) (hM : M < 2147483648) (hN : N < 2147483648)
    (ho1 : output.GetNrows = M) (ho2 : output.GetNcols = N) (ho : output.WellFormed)
    (hb : M ≤ biases.GetNoElements) (hb2 : biases.GetNoElements < 2147483648)
    (h1 : N ≤ fOnes.length) (h2 : fOnes.length < 2147483648)
    (hones : ∀ j, j < fOnes.length → fOnes.getD j 0 = 1) :
    ∃ o : TCpuMatrix α, TCpu.AddConvBiases fOnes output biases = Except.ok o
      ∧ o.GetNrows = M ∧ o.GetNcols = N ∧ o.WellFormed
      ∧ ∀ i, i < M → ∀ j, j < N → o.elem i j = output.elem i j + biases.fBuffer.getD i 0 := by
  have hlen : output.fBuffer.length = M * N := by
    have h := ho
    unfold TCpuMatrix.WellFormed at h
    rw [h]
    show output.GetNrows * output.GetNcols = _
    rw [ho1, ho2]
  have c1 : (M : Int) ≤ (biases.GetNoElements : Nat) := by exact_mod_cast hb
  have c2 : (N : Int) ≤ (fOnes.length : Nat) := by exact_mod_cast h1
  unfold TCpu.AddConvBiases
  simp only [ho1, ho2, toInt_natCast hM, toInt_natCast hN, toInt_natCast hb2, toInt_natCast h2,
    c1, c2, not_true_eq_false, if_false]
  refine ⟨_, rfl, ho1, ho2, ?_, ?_⟩
  · unfold TCpuMatrix.WellFormed
    simp only [Blas.Ger, List.length_map, List.length_range]
    exact ho
  · intro i hi j hj
    have hc : j * M + i < output.fBuffer.length := by
      rw [hlen]
      exact cell_lt_size hi hj
    obtain ⟨e1, e2⟩ := @cell_div_mod M i j hi
    have hr : output.fNRows = M := ho1
    unfold TCpuMatrix.elem
    simp only [Blas.Ger, Int.toNat_natCast, hr]
    rw [getD_map_range _ _ _ _ hc]
    simp only [e1, e2, hi, hj, and_self, if_true, one_mul, Int.toNat_one, Nat.mul_one]
    rw [hones j (lt_of_lt_of_le hj h1), mul_one]

theorem evaluate_elem {α : Type} [Zero α] (act : Activations α) (A : TCpuMatrix α)
    (f : EActivationFunction) (hA : A.WellFormed) (i j : Nat) (hi : i < A.GetNrows)
    (hj : j < A.GetNcols) : (evaluate act A f).elem i j = act.f f (A.elem i j) := by
  have hc : j * A.fNRows + i < A.fBuffer.length := by
    rw [hA]
    exact cell_lt_size hi hj
  unfold evaluate TCpuMatrix.elem
  simp only [List.getD_eq_getElem?_getD, List.getElem?_map, List.getElem?_eq_getElem hc]
  rfl

theorem evaluateDerivative_elem {α : Type} [Zero α] (act : Activations α) (B A : TCpuMatrix α)
    (f : EActivationFunction) (hB : B.WellFormed) (hr : B.GetNrows = A.GetNrows) (i j : Nat)
    (hi : i < B.GetNrows) (hj : j < B.GetNcols) :
    (evaluateDerivative act B f A).elem i j = act.df f (A.elem i j) := by
  have hc : j * B.fNRows + i < B.fBuffer.length := by
    rw [hB]
    exact cell_lt_size hi hj
  have hr2 : B.fNRows = A.fNRows := hr
  unfold evaluateDerivative TCpuMatrix.elem
  simp only
  rw [getD_map_range _ _ _ _ hc, hr2]

theorem vecAt_eq_ok {β : Type} {v : List β} {i : Nat} {x : β} (h : v[i]? = some x) :
    vecAt v i = Except.ok x := by
  unfold vecAt
  rw [h]

theorem Except_bind_ok {ε β γ : Type} (x : Except ε β) (a : β) (f : β → Except ε γ)
    (h : x = Except.ok a) : (x >>= f) = f a := by
  subst h
  rfl

theorem zeros_wellFormed {α : Type} [Zero α] (m n : Nat) :
    (TCpuMatrix.zeros m n : TCpuMatrix α).WellFormed := by
  unfold TCpuMatrix.WellFormed TCpuMatrix.zeros
  simp

/-- One batch element of `ConvLayerForward`: the gather, the product with the
weights, the bias, the derivative of the activation on the pre-activation
value and the activation itself. -/
theorem ConvLayerForward_f_spec {α : Type} [Semiring α] (act : Activations α) (fOnes : List α)
    (input : List (TCpuMatrix α)) (weights biases : TCpuMatrix α)
    (activFunc : EActivationFunction) (nLV P F : Nat) (V2 : List Int)
    (s : List (TCpuMatrix α) × List (TCpuMatrix α)) (i : Nat) (inp o0 d0 : TCpuMatrix α)
    (hin : input[i]? = some inp) (ho : s.1[i]? = some o0) (hd : s.2[i]? = some d0)
    (hV2 : V2.length = nLV * P) (ho0 : HasShape o0 F nLV) (hd0 : HasShape d0 F nLV)
    (hw1 : weights.GetNrows = F) (hw2 : weights.GetNcols = P)
    (hb1 : biases.GetNrows = F) (hb2 : biases.GetNcols = 1)
    (hF : F < 2147483648) (hnLV : nLV < 2147483648) (hP : P < 2147483648)
    (h1 : nLV ≤ fOnes.length) (h2 : fOnes.length < 2147483648)
    (hones : ∀ j, j < fOnes.length → fOnes.getD j 0 = 1) :
    ∃ G o d : TCpuMatrix α,
      TCpu.Im2colFast (TCpuMatrix.zeros nLV P) inp V2 = Except.ok G
        ∧ TCpu.ConvLayerForward.f act fOnes input weights biases activFunc nLV P V2 s i
            = Except.ok (s.1.set i o, s.2.set i d)
        ∧ HasShape o F nLV ∧ HasShape d F nLV
        ∧ ∀ f, f < F → ∀ v, v < nLV →
            d.elem f v = act.df activFunc (preActivation weights biases G P f v)
              ∧ o.elem f v = act.f activFunc (preActivation weights biases G P f v) := by
  obtain ⟨G, g1, g2, g3, _, _⟩ := Im2colFast_spec (TCpuMatrix.zeros nLV P) inp V2
    (zeros_wellFormed nLV P) hV2
  obtain ⟨o1, m1, m2, m3, m4, m5⟩ := MultiplyTranspose_spec o0 weights G F nLV P hF hnLV hP
    hw1 hw2 g2 g3 ho0.1 ho0.2.1 ho0.2.2
  have hbn : biases.GetNoElements = F := by
    show biases.GetNrows * biases.GetNcols = F
    rw [hb1, hb2, Nat.mul_one]
  obtain ⟨o2, a1, a2, a3, a4, a5⟩ := AddConvBiases_spec fOnes o1 biases F nLV hF hnLV m2 m3 m4
    (le_of_eq hbn.symm) (by rw [hbn]; exact hF) h1 h2 hones
  have hz : ∀ f, f < F → ∀ v, v < nLV → o2.elem f v = preActivation weights biases G P f v := by
    intro f hf v hv
    have e : biases.elem f 0 = biases.fBuffer.getD f 0 := by
      unfold TCpuMatrix.elem
      rw [Nat.zero_mul, Nat.zero_add]
    rw [a5 f hf v hv, m5 f hf v hv]
    unfold preActivation
    rw [e]
  refine ⟨G, evaluate act o2 activFunc, evaluateDerivative act d0 activFunc o2, g1, ?_,
    ⟨a2, a3, ?_⟩, ⟨hd0.1, hd0.2.1, ?_⟩, ?_⟩
  · unfold TCpu.ConvLayerForward.f
    refine (Except_bind_ok _ inp _ (vecAt_eq_ok hin)).trans ?_
    refine (Except_bind_ok _ G _ g1).trans ?_
    refine (Except_bind_ok _ o0 _ (vecAt_eq_ok ho)).trans ?_
    refine (Except_bind_ok _ o1 _ m1).trans ?_
    refine (Except_bind_ok _ o2 _ a1).trans ?_
    exact Except_bind_ok _ d0 _ (vecAt_eq_ok hd)
  · unfold TCpuMatrix.WellFormed evaluate
    simp only [List.length_map]
    exact a4
  · unfold TCpuMatrix.WellFormed evaluateDerivative
    simp only [List.length_map, List.length_range]
    exact hd0.2.2
  · intro f hf v hv
    constructor
    · rw [evaluateDerivative_elem act d0 o2 activFunc hd0.2.2 (hd0.1.trans a2.symm) f v
        (by rw [hd0.1]; exact hf) (by rw [hd0.2.1]; exact hv), hz f hf v hv]
    · rw [evaluate_elem act o2 activFunc a4 f v (by rw [a2]; exact hf) (by rw [a3]; exact hv),
        hz f hf v hv]

theorem foldlM_range_inv {σ : Type} (step : σ → Nat → Except Failure σ) (Inv : Nat → σ → Prop) :
    ∀ (n : Nat) (s0 : σ), Inv 0 s0 →
      (∀ k, k < n → ∀ s, Inv k s → ∃ s2, step s k = Except.ok s2 ∧ Inv (k + 1) s2) →
      ∃ s2, (List.range n).foldlM step s0 = Except.ok s2 ∧ Inv n s2 := by
  intro n
  induction n with
  | zero =>
    intro s0 h0 _
    exact ⟨s0, rfl, h0⟩
  | succ n ih =>
    intro s0 h0 hstep
    obtain ⟨s1, e1, i1⟩ := ih s0 h0 (fun k hk => hstep k (Nat.lt_succ_of_lt hk))
    obtain ⟨s2, e2, i2⟩ := hstep n (Nat.lt_succ_self n) s1 i1
    refine ⟨s2, ?_, i2⟩
    rw [List.range_succ, List.foldlM_append]
    refine (Except_bind_ok _ s1 _ e1).trans ?_
    rw [List.foldlM_cons]
    exact (Except_bind_ok _ s2 _ e2).trans rfl

theorem InitializeOneVector_spec {α : Type} [Semiring α] (fOnes : List α) (n : Nat)
    (hones : ∀ j, j < fOnes.length → fOnes.getD j 0 = 1) :
    (TCpu.InitializeOneVector fOnes n).length = max fOnes.length n
      ∧ ∀ j, j < (TCpu.InitializeOneVector fOnes n).length →
          (TCpu.InitializeOneVector fOnes n).getD j 0 = 1 := by
  unfold TCpu.InitializeOneVector
  constructor
  · rw [List.length_append, List.length_replicate]
    omega
  · intro j hj
    rw [List.length_append, List.length_replicate] at hj
    rw [List.getD_eq_getElem?_getD]
    by_cases h : j < fOnes.length
    · rw [List.getElem?_append_left h, ← List.getD_eq_getElem?_getD]
      exact hones j h
    · rw [List.getElem?_append_right (by omega), List.getElem?_replicate, if_pos (by omega)]
      rfl

theorem getElem?_set_of_ne {β : Type} (l : List β) (k i : Nat) (x : β) (h : k ≠ i) :
    (l.set k x)[i]? = l[i]? := by
  rw [List.getElem?_set, if_neg h]

theorem getElem?_set_same {β : Type} (l : List β) (k : Nat) (x : β) (h : k < l.length) :
    (l.set k x)[k]? = some x := by
  rw [List.getElem?_set, if_pos rfl, if_pos h]

theorem exists_getElem?_of_lt {β : Type} (l : List β) (i : Nat) (h : i < l.length) :
    ∃ x, l[i]? = some x := ⟨l[i], List.getElem?_eq_getElem h⟩

/-- C5. `ConvLayerForward` semantics: for a valid geometry (strides `≥ 1`,
filter not larger than the padded image, exact output dimensions, within
machine range), a non-empty batch of inputs of `D × H*W` cells, weights of
`F × D*fH*fW` cells, `F × 1` biases and output and derivative batches of
`F × nLocalViews` matrices, the call returns, and for every batch element
`i`, filter `f` and local view `v`, with
`z = Σ_p weights(f,p) * G_i(v,p) + biases(f)` where `G_i` is the gather of
`input[i]` through the shared index map, `derivatives[i](f,v)` is the
derivative of the activation at `z` and `output[i](f,v)` is the activation at
`z`. -/
theorem C5_convLayerForward_semantics {α : Type} [Semiring α] (act : Activations α)
    (fOnes : List α) (output derivatives input : List (TCpuMatrix α))
    (weights biases : TCpuMatrix α) (activFunc : EActivationFunction)
    (batchSize D H W F fH fW sR sC pH pW : Nat)
    (hsR : 1 ≤ sR) (hsC : 1 ≤ sC) (hH : fH ≤ H + 2 * pH) (hW : fW ≤ W + 2 * pW)
    (hdivR : sR ∣ H + 2 * pH - fH) (hdivC : sC ∣ W + 2 * pW - fW)
    (hrange : IntRange D H W fH fW sR sC pH pW)
    (hviews : ((H + 2 * pH - fH) / sR + 1) * ((W + 2 * pW - fW) / sC + 1) < 2 ^ 31)
    (hF : F < 2 ^ 31)
    (hbatch : 0 < input.length) (hout : output.length = input.length)
    (hder : derivatives.length = input.length)
    (hin : ∀ (i : Nat) (inp : TCpuMatrix α), input[i]? = some inp →
      inp.GetNrows = D ∧ inp.GetNcols = H * W)
    (hoshape : ∀ (i : Nat) (o : TCpuMatrix α), output[i]? = some o →
      HasShape o F (((H + 2 * pH - fH) / sR + 1) * ((W + 2 * pW - fW) / sC + 1)))
    (hdshape : ∀ (i : Nat) (d : TCpuMatrix α), derivatives[i]? = some d →
      HasShape d F (((H + 2 * pH - fH) / sR + 1) * ((W + 2 * pW - fW) / sC + 1)))
    (hw1 : weights.GetNrows = F) (hw2 : weights.GetNcols = D * fH * fW)
    (hb1 : biases.GetNrows = F) (hb2 : biases.GetNcols = 1)
    (hones : ∀ j, j < fOnes.length → fOnes.getD j 0 = 1) (hones2 : fOnes.length < 2 ^ 31) :
    ∃ (input0 : TCpuMatrix α) (V2 : List Int) (out der : List (TCpuMatrix α)),
      input[0]? = some input0
        ∧ TCpu.Im2colIndices
            (List.replicate (((H + 2 * pH - fH) / sR + 1) * ((W + 2 * pW - fW) / sC + 1)
              * (D * fH * fW)) 0)
            input0 (((H + 2 * pH - fH) / sR + 1) * ((W + 2 * pW - fW) / sC + 1))
            H W fH fW sR sC pH pW = Except.ok V2
        ∧ TCpu.ConvLayerForward act fOnes output derivatives input weights biases
            { batchSize := batchSize, inputDepth := D, inputHeight := H, inputWidth := W,
              numberFilters := F, filterHeight := fH, filterWidth := fW, strideRows := sR,
              strideCols := sC, paddingHeight := pH, paddingWidth := pW } activFunc
          = Except.ok (out, der)
        ∧ out.length = input.length ∧ der.length = input.length
        ∧ ∀ i, i < input.length →
            ∃ inp G o d : TCpuMatrix α,
              input[i]? = some inp
                ∧ TCpu.Im2colFast
                    (TCpuMatrix.zeros
                      (((H + 2 * pH - fH) / sR + 1) * ((W + 2 * pW - fW) / sC + 1))
                      (D * fH * fW)) inp V2 = Except.ok G
                ∧ out[i]? = some o ∧ der[i]? = some d
                ∧ ∀ f, f < F → ∀ v,
                    v < ((H + 2 * pH - fH) / sR + 1) * ((W + 2 * pW - fW) / sC + 1) →
                    d.elem f v
                        = act.df activFunc (preActivation weights biases G (D * fH * fW) f v)
                      ∧ o.elem f v
                        = act.f activFunc (preActivation weights biases G (D * fH * fW) f v) := by
  obtain ⟨r1, r2, r3, r4, r5, r6⟩ := hrange
  norm_num at r1 r2 r3 r4 r5 r6 hviews hF hones2
  have hnoR : H + 2 * pH - fH + sR < 18446744073709551616 := by omega
  have hnoC : W + 2 * pW - fW + sC < 18446744073709551616 := by omega
  have hmodR : (H + 2 * pH - fH) % sR = 0 := Nat.mod_eq_zero_of_dvd hdivR
  have hmodC : (W + 2 * pW - fW) % sC = 0 := Nat.mod_eq_zero_of_dvd hdivC
  generalize hnLV : ((H + 2 * pH - fH) / sR + 1) * ((W + 2 * pW - fW) / sC + 1) = nLV
    at hviews hoshape hdshape ⊢
  generalize hPdef : D * fH * fW = P at r6 hw2 ⊢
  have hd1 := calculateDimension_ok hsR hH hnoR hmodR
  have hd2 := calculateDimension_ok hsC hW hnoC hmodC
  obtain ⟨input0, hi0⟩ := exists_getElem?_of_lt input 0 hbatch
  obtain ⟨output0, ho0⟩ := exists_getElem?_of_lt output 0 (by rw [hout]; exact hbatch)
  have hsize : (List.replicate (nLV * P) (0 : Int)).length < 18446744073709551616 := by
    rw [List.length_replicate]
    calc nLV * P < 2147483648 * 2147483648 := Nat.mul_lt_mul'' hviews r6
      _ < 18446744073709551616 := by norm_num
  obtain ⟨V2, v1, v2, _⟩ := Im2colIndices_cells (List.replicate (nLV * P) (0 : Int)) input0
    nLV H W fH fW sR sC pH pW D hsR hsC hH hW (hin 0 input0 hi0).1 (hin 0 input0 hi0).2
    hnLV.symm (by rw [List.length_replicate, hPdef]) r1 r2 r3 (by rw [hPdef]; exact r6) hsize
  rw [List.length_replicate] at v2

  -- the ones-vector after the two initialisations
  obtain ⟨q1, q2⟩ := InitializeOneVector_spec fOnes nLV hones
  obtain ⟨q3, q4⟩ := InitializeOneVector_spec (TCpu.InitializeOneVector fOnes nLV)
    output0.GetNcols q2
  have hoc : output0.GetNcols = nLV := (hoshape 0 output0 ho0).2.1
  have hlen1 : nLV ≤ (TCpu.InitializeOneVector (TCpu.InitializeOneVector fOnes nLV)
      output0.GetNcols).length := by
    rw [q3, q1, hoc]
    omega
  have hlen2 : (TCpu.InitializeOneVector (TCpu.InitializeOneVector fOnes nLV)
      output0.GetNcols).length < 2147483648 := by
    rw [q3, q1, hoc]
    omega
  -- the batch loop
  obtain ⟨s2, e1, e2, e3, _, _, e6⟩ := foldlM_range_inv
    (TCpu.ConvLayerForward.f act
      (TCpu.InitializeOneVector (TCpu.InitializeOneVector fOnes nLV) output0.GetNcols)
      input weights biases activFunc nLV P V2)
    (fun k s => s.1.length = input.length ∧ s.2.length = input.length
      ∧ (∀ (i : Nat) (o : TCpuMatrix α), s.1[i]? = some o → HasShape o F nLV)
      ∧ (∀ (i : Nat) (d : TCpuMatrix α), s.2[i]? = some d → HasShape d F nLV)
      ∧ ∀ i, i < k → ∃ inp G o d : TCpuMatrix α,
          input[i]? = some inp
            ∧ TCpu.Im2colFast (TCpuMatrix.zeros nLV P) inp V2 = Except.ok G
            ∧ s.1[i]? = some o ∧ s.2[i]? = some d
            ∧ ∀ f, f < F → ∀ v, v < nLV →
                d.elem f v = act.df activFunc (preActivation weights biases G P f v)
                  ∧ o.elem f v = act.f activFunc (preActivation weights biases G P f v))
    input.length (output, derivatives)
    ⟨hout, hder, hoshape, hdshape, fun i hi => absurd hi (Nat.not_lt_zero i)⟩
    (by
      intro k hk s hinv
      obtain ⟨i1, i2, i3, i4, i5⟩ := hinv
      obtain ⟨inp, hinp⟩ := exists_getElem?_of_lt input k hk
      obtain ⟨o0, ho⟩ := exists_getElem?_of_lt s.1 k (by rw [i1]; exact hk)
      obtain ⟨d0, hd⟩ := exists_getElem?_of_lt s.2 k (by rw [i2]; exact hk)
      obtain ⟨G, o, d, c1, c2, c3, c4, c5⟩ := ConvLayerForward_f_spec act _ input weights biases
        activFunc nLV P F V2 s k inp o0 d0 hinp ho hd v2 (i3 k o0 ho) (i4 k d0 hd) hw1 hw2 hb1
        hb2 hF hviews r6 hlen1 hlen2 q4
      refine ⟨_, c2, ?_, ?_, ?_, ?_, ?_⟩
      · show (s.1.set k o).length = input.length
        rw [List.length_set]
        exact i1
      · show (s.2.set k d).length = input.length
        rw [List.length_set]
        exact i2
      · intro i x hx
        by_cases hki : k = i
        · subst hki
          rw [getElem?_set_same _ _ _ (by rw [i1]; exact hk)] at hx
          rw [← Option.some.inj hx]
          exact c3
        · rw [getElem?_set_of_ne _ _ _ _ hki] at hx
          exact i3 i x hx
      · intro i x hx
        by_cases hki : k = i
        · subst hki
          rw [getElem?_set_same _ _ _ (by rw [i2]; exact hk)] at hx
          rw [← Option.some.inj hx]
          exact c4
        · rw [getElem?_set_of_ne _ _ _ _ hki] at hx
          exact i4 i x hx
      · intro i hi
        by_cases hki : k = i
        · subst hki
          exact ⟨inp, G, o, d, hinp, c1, getElem?_set_same _ _ _ (by rw [i1]; exact hk),
            getElem?_set_same _ _ _ (by rw [i2]; exact hk), c5⟩
        · obtain ⟨inp2, G2, o2, d2, j1, j2, j3, j4, j5⟩ := i5 i (by omega)
          exact ⟨inp2, G2, o2, d2, j1, j2, (getElem?_set_of_ne _ _ _ _ hki).trans j3,
            (getElem?_set_of_ne _ _ _ _ hki).trans j4, j5⟩)
  refine ⟨input0, V2, s2.1, s2.2, hi0, v1, ?_, e2, e3, e6⟩
  unfold TCpu.ConvLayerForward
  refine (Except_bind_ok _ _ _ hd1).trans ?_
  refine (Except_bind_ok _ _ _ hd2).trans ?_
  refine (if_neg (not_not.mpr hbatch)).trans ?_
  refine (Except_bind_ok _ input0 _ (vecAt_eq_ok hi0)).trans ?_
  rw [hnLV, hPdef]
  refine (Except_bind_ok _ V2 _ v1).trans ?_
  refine (Except_bind_ok _ output0 _ (vecAt_eq_ok ho0)).trans ?_
  exact e1

theorem C5_convLayerForward_semantics_witness :
    ∃ (input0 : TCpuMatrix Int) (V2 : List Int) (out der : List (TCpuMatrix Int)),
      [(TCpuMatrix.ofRows 1 16 [[1, 2, 3, 4, 5, 6, 7, 8, 9, 10, 11, 12, 13, 14, 15, 16]]
          : TCpuMatrix Int)][0]? = some input0
        ∧ TCpu.Im2colIndices
            (List.replicate (((4 + 2 * 0 - 3) / 1 + 1) * ((4 + 2 * 0 - 3) / 1 + 1)
              * (1 * 3 * 3)) 0)
            input0 (((4 + 2 * 0 - 3) / 1 + 1) * ((4 + 2 * 0 - 3) / 1 + 1))
            4 4 3 3 1 1 0 0 = Except.ok V2
        ∧ TCpu.ConvLayerForward identityActivations [] [TCpuMatrix.zeros 1 4]
            [TCpuMatrix.zeros 1 4]
            [TCpuMatrix.ofRows 1 16 [[1, 2, 3, 4, 5, 6, 7, 8, 9, 10, 11, 12, 13, 14, 15, 16]]]
            (TCpuMatrix.ofRows 1 9 [[1, 4, 1, 1, 4, 3, 3, 3, 1]])
            (TCpuMatrix.ofRows 1 1 [[5]])
            { batchSize := 1, inputDepth := 1, inputHeight := 4, inputWidth := 4,
              numberFilters := 1, filterHeight := 3, filterWidth := 3, strideRows := 1,
              strideCols := 1, paddingHeight := 0, paddingWidth := 0 }
            EActivationFunction.kIdentity
          = Except.ok (out, der)
        ∧ out.length
            = [(TCpuMatrix.ofRows 1 16
                [[1, 2, 3, 4, 5, 6, 7, 8, 9, 10, 11, 12, 13, 14, 15, 16]]
                : TCpuMatrix Int)].length
        ∧ der.length
            = [(TCpuMatrix.ofRows 1 16
                [[1, 2, 3, 4, 5, 6, 7, 8, 9, 10, 11, 12, 13, 14, 15, 16]]
                : TCpuMatrix Int)].length
        ∧ ∀ i, i < [(TCpuMatrix.ofRows 1 16
                [[1, 2, 3, 4, 5, 6, 7, 8, 9, 10, 11, 12, 13, 14, 15, 16]]
                : TCpuMatrix Int)].length →
            ∃ inp G o d : TCpuMatrix Int,
              [(TCpuMatrix.ofRows 1 16
                  [[1, 2, 3, 4, 5, 6, 7, 8, 9, 10, 11, 12, 13, 14, 15, 16]]
                  : TCpuMatrix Int)][i]? = some inp
                ∧ TCpu.Im2colFast
                    (TCpuMatrix.zeros
                      (((4 + 2 * 0 - 3) / 1 + 1) * ((4 + 2 * 0 - 3) / 1 + 1))
                      (1 * 3 * 3)) inp V2 = Except.ok G
                ∧ out[i]? = some o ∧ der[i]? = some d
                ∧ ∀ f, f < 1 → ∀ v,
                    v < ((4 + 2 * 0 - 3) / 1 + 1) * ((4 + 2 * 0 - 3) / 1 + 1) →
                    d.elem f v
                        = identityActivations.df EActivationFunction.kIdentity
                            (preActivation (TCpuMatrix.ofRows 1 9 [[1, 4, 1, 1, 4, 3, 3, 3, 1]])
                              (TCpuMatrix.ofRows 1 1 [[5]]) G (1 * 3 * 3) f v)
                      ∧ o.elem f v
                        = identityActivations.f EActivationFunction.kIdentity
                            (preActivation (TCpuMatrix.ofRows 1 9 [[1, 4, 1, 1, 4, 3, 3, 3, 1]])
                              (TCpuMatrix.ofRows 1 1 [[5]]) G (1 * 3 * 3) f v) :=
  C5_convLayerForward_semantics identityActivations [] [TCpuMatrix.zeros 1 4]
    [TCpuMatrix.zeros 1 4]
    [TCpuMatrix.ofRows 1 16 [[1, 2, 3, 4, 5, 6, 7, 8, 9, 10, 11, 12, 13, 14, 15, 16]]]
    (TCpuMatrix.ofRows 1 9 [[1, 4, 1, 1, 4, 3, 3, 3, 1]]) (TCpuMatrix.ofRows 1 1 [[5]])
    EActivationFunction.kIdentity 1 1 4 4 1 3 3 1 1 0 0
    (by decide) (by decide) (by decide) (by decide) (by decide) (by decide)
    ⟨by norm_num, by norm_num, by norm_num, by norm_num, by norm_num, by norm_num⟩
    (by norm_num) (by norm_num) (by decide) rfl rfl
    (by
      intro i inp h
      cases i with
      | zero =>
        rw [← Option.some.inj h]
        exact ⟨rfl, rfl⟩
      | succ n => exact absurd h (by simp))
    (by
      intro i o h
      cases i with
      | zero =>
        rw [← Option.some.inj h]
        exact ⟨rfl, rfl, by unfold TCpuMatrix.WellFormed; decide⟩
      | succ n => exact absurd h (by simp))
    (by
      intro i o h
      cases i with
      | zero =>
        rw [← Option.some.inj h]
        exact ⟨rfl, rfl, by unfold TCpuMatrix.WellFormed; decide⟩
      | succ n => exact absurd h (by simp))
    rfl rfl rfl rfl (fun j hj => absurd hj (Nat.not_lt_zero j)) (by norm_num)

/-! ## The transpose-convolution path and the derivative cache -/

/-- C11. `TransConvLayerForward` does not populate the derivative cache: for
all inputs, weights, biases, parameters and activation selector, when the
call returns, the `derivatives` batch it leaves is the batch it was given,
matrix by matrix. -/
theorem C11_transConvLayerForward_keeps_derivatives {α : Type} [Zero α] [One α] [Add α] [Mul α]
    (fOnes : List α) (output derivatives input : List (TCpuMatrix α))
    (weights biases : TCpuMatrix α) (params : TConvParams) (activFunc : EActivationFunction)
    (r : List (TCpuMatrix α) × List (TCpuMatrix α))
    (h : TCpu.TransConvLayerForward fOnes output derivatives input weights biases params
      activFunc = Except.ok r) :
    r.2 = derivatives := by
  unfold TCpu.TransConvLayerForward at h
  cases hf : (List.range output.length).foldlM
      (TCpu.TransConvLayerForward.body fOnes input weights biases) output with
  | error e =>
    rw [hf] at h
    exact absurd h (by simp [bind, Except.bind])
  | ok o =>
    rw [hf] at h
    have h2 : (o, derivatives) = r := Except.ok.inj h
    rw [← h2]

theorem C11_transConvLayerForward_keeps_derivatives_witness :
    ∃ r : List (TCpuMatrix Int) × List (TCpuMatrix Int),
      TCpu.TransConvLayerForward (List.replicate 16 1) [TCpuMatrix.zeros 1 16]
          [TCpuMatrix.ofRows 1 2 [[7, 8]]] [fixtureInput] fixtureWeights (TCpuMatrix.zeros 1 1)
          fixtureParams EActivationFunction.kIdentity = Except.ok r
        ∧ r.2 = [TCpuMatrix.ofRows 1 2 [[7, 8]]] :=
  ⟨([TCpuMatrix.ofRows 1 16 [[2, 9, 6, 3, 9, 14, 29, 29, 13, 21, 28, 24, 24, 16, 4, 0]]],
      [TCpuMatrix.ofRows 1 2 [[7, 8]]]), by decide,
    C11_transConvLayerForward_keeps_derivatives (List.replicate 16 1) [TCpuMatrix.zeros 1 16]
      [TCpuMatrix.ofRows 1 2 [[7, 8]]] [fixtureInput] fixtureWeights (TCpuMatrix.zeros 1 1)
      fixtureParams EActivationFunction.kIdentity _ (by decide)⟩

/-- C12. Failing input: the constructor called for a `4 × 4` one-channel
image, one `3 × 3` filter, stride `1` and no padding.  The geometry is
accepted and the height and the width passed to the base layer are `2`,
smaller than the input extent `4`: the constructor uses the dimension formula
of the ordinary convolution.  The geometry of the layer's own test (a
`2 × 2` image, a `3 × 3` filter, for which the test expects a `4 × 4` output)
is rejected with the fatal error. -/
theorem C12_constructor_does_not_upsample :
    (∃ layer : CNN.TTransConvLayer Int,
        CNN.TTransConvLayer.construct 1 1 4 4 1 3 3 1 1 0 0 EActivationFunction.kIdentity
            = Except.ok layer
          ∧ layer.fHeight = 2 ∧ layer.fWidth = 2
          ∧ layer.fHeight < layer.fInputHeight ∧ layer.fWidth < layer.fInputWidth)
      ∧ (CNN.TTransConvLayer.construct 1 1 2 2 1 3 3 1 1 0 0 EActivationFunction.kIdentity
          : Except Failure (CNN.TTransConvLayer Int)) = Except.error Failure.Fatal := by
  refine ⟨⟨_, rfl, ?_, ?_, ?_, ?_⟩, ?_⟩ <;> decide

/-! ## Multiplication and bias kernels -/

/-- C13. `MultiplyTranspose` value: for an `M × K` input, `N × K` weights and
an `M × N` output of any content (sizes within the range of `int`), with
`Gemm` modelled by its reference column-major definition, the call returns
and every cell of the result is
`output(i, j) = Σ_{l<K} input(i, l) * weights(j, l)`, that is
`output = input * transpose(weights)`. -/
theorem C13_multiplyTranspose_value {α : Type} [Semiring α]
    (output input weights : TCpuMatrix α) (M N K : Nat)
    (hM : M < 2 ^ 31) (hN : N < 2 ^ 31) (hK : K < 2 ^ 31)
    (hi1 : input.GetNrows = M) (hi2 : input.GetNcols = K)
    (hw1 : weights.GetNrows = N) (hw2 : weights.GetNcols = K)
    (ho1 : output.GetNrows = M) (ho2 : output.GetNcols = N) (ho : output.WellFormed) :
    ∃ o : TCpuMatrix α, TCpu.MultiplyTranspose output input weights = Except.ok o
      ∧ o.GetNrows = M ∧ o.GetNcols = N
      ∧ ∀ i, i < M → ∀ j, j < N →
          o.elem i j = ∑ l in Finset.range K, input.elem i l * weights.elem j l := by
  norm_num at hM hN hK
  obtain ⟨o, h1, h2, h3, _, h5⟩ :=
    MultiplyTranspose_spec output input weights M N K hM hN hK hi1 hi2 hw1 hw2 ho1 ho2 ho
  exact ⟨o, h1, h2, h3, h5⟩

theorem C13_multiplyTranspose_value_witness :
    ∃ o : TCpuMatrix Int,
      TCpu.MultiplyTranspose (TCpuMatrix.ofRows 2 2 [[9, 9], [9, 9]])
          (TCpuMatrix.ofRows 2 3 [[1, 2, 3], [4, 5, 6]])
          (TCpuMatrix.ofRows 2 3 [[1, 0, 1], [0, 1, 0]]) = Except.ok o
      ∧ o.GetNrows = 2 ∧ o.GetNcols = 2
      ∧ ∀ i, i < 2 → ∀ j, j < 2 →
          o.elem i j = ∑ l in Finset.range 3,
            (TCpuMatrix.ofRows 2 3 [[1, 2, 3], [4, 5, 6]] : TCpuMatrix Int).elem i l
              * (TCpuMatrix.ofRows 2 3 [[1, 0, 1], [0, 1, 0]] : TCpuMatrix Int).elem j l :=
  C13_multiplyTranspose_value (TCpuMatrix.ofRows 2 2 [[9, 9], [9, 9]])
    (TCpuMatrix.ofRows 2 3 [[1, 2, 3], [4, 5, 6]])
    (TCpuMatrix.ofRows 2 3 [[1, 0, 1], [0, 1, 0]]) 2 2 3 (by norm_num) (by norm_num)
    (by norm_num) rfl rfl rfl rfl rfl rfl (by unfold TCpuMatrix.WellFormed; decide)

theorem MultiplyTranspose_trace_eq {α : Type} [Zero α] [One α] [Add α] [Mul α]
    (output input Weights : TCpuMatrix α) :
    TCpu.MultiplyTranspose.trace output input Weights
      = if toInt output.GetNrows ≠ toInt input.GetNrows then (output, some Failure.Assert)
        else if toInt output.GetNcols ≠ toInt Weights.GetNrows then (output, some Failure.Assert)
        else if toInt Weights.GetNcols ≠ toInt input.GetNcols then (output, some Failure.Assert)
        else
          ({ output with
              fBuffer := (Blas.Gemm false true (toInt input.GetNrows) (toInt Weights.GetNrows)
                (toInt input.GetNcols) 1 input.fBuffer (toInt input.GetNrows) Weights.fBuffer
                (toInt Weights.GetNrows) 0 output.fBuffer (toInt input.GetNrows)) }, none) := rfl

theorem MultiplyTranspose_eq {α : Type} [Zero α] [One α] [Add α] [Mul α]
    (output input Weights : TCpuMatrix α) :
    TCpu.MultiplyTranspose output input Weights
      = if toInt output.GetNrows ≠ toInt input.GetNrows then Except.error Failure.Assert
        else if toInt output.GetNcols ≠ toInt Weights.GetNrows then Except.error Failure.Assert
        else if toInt Weights.GetNcols ≠ toInt input.GetNcols then Except.error Failure.Assert
        else
          Except.ok { output with
              fBuffer := (Blas.Gemm false true (toInt input.GetNrows) (toInt Weights.GetNrows)
                (toInt input.GetNcols) 1 input.fBuffer (toInt input.GetNrows) Weights.fBuffer
                (toInt Weights.GetNrows) 0 output.fBuffer (toInt input.GetNrows)) } := rfl

theorem MultiplyTranspose_eq_trace {α : Type} [Zero α] [One α] [Add α] [Mul α]
    (output input Weights : TCpuMatrix α) :
    TCpu.MultiplyTranspose output input Weights
      = match (TCpu.MultiplyTranspose.trace output input Weights).2 with
        | none => Except.ok (TCpu.MultiplyTranspose.trace output input Weights).1
        | some e => Except.error e := by
  rw [MultiplyTranspose_trace_eq, MultiplyTranspose_eq]
  by_cases h1 : toInt output.GetNrows ≠ toInt input.GetNrows
  · rw [if_pos h1, if_pos h1]
  · by_cases h2 : toInt output.GetNcols ≠ toInt Weights.GetNrows
    · rw [if_neg h1, if_pos h2, if_neg h1, if_pos h2]
    · by_cases h3 : toInt Weights.GetNcols ≠ toInt input.GetNcols
      · rw [if_neg h1, if_neg h2, if_pos h3, if_neg h1, if_neg h2, if_pos h3]
      · rw [if_neg h1, if_neg h2, if_neg h3, if_neg h1, if_neg h2, if_neg h3]

theorem MultiplyTranspose_trace_failure {α : Type} [Zero α] [One α] [Add α] [Mul α]
    (output input Weights : TCpuMatrix α) :
    ((TCpu.MultiplyTranspose.trace output input Weights).2 = some Failure.Assert
        ↔ (toInt output.GetNrows ≠ toInt input.GetNrows
          ∨ toInt output.GetNcols ≠ toInt Weights.GetNrows
          ∨ toInt Weights.GetNcols ≠ toInt input.GetNcols))
      ∧ ((TCpu.MultiplyTranspose.trace output input Weights).2 ≠ none →
          (TCpu.MultiplyTranspose.trace output input Weights).1 = output) := by
  rw [MultiplyTranspose_trace_eq]
  by_cases h1 : toInt output.GetNrows ≠ toInt input.GetNrows
  · rw [if_pos h1]
    exact ⟨⟨fun _ => Or.inl h1, fun _ => rfl⟩, fun _ => rfl⟩
  · by_cases h2 : toInt output.GetNcols ≠ toInt Weights.GetNrows
    · rw [if_neg h1, if_pos h2]
      exact ⟨⟨fun _ => Or.inr (Or.inl h2), fun _ => rfl⟩, fun _ => rfl⟩
    · by_cases h3 : toInt Weights.GetNcols ≠ toInt input.GetNcols
      · rw [if_neg h1, if_neg h2, if_pos h3]
        exact ⟨⟨fun _ => Or.inr (Or.inr h3), fun _ => rfl⟩, fun _ => rfl⟩
      · rw [if_neg h1, if_neg h2, if_neg h3]
        refine ⟨⟨fun h => absurd h (by simp), fun h => ?_⟩, fun h => absurd rfl h⟩
        rcases h with h | h | h
        · exact absurd h h1
        · exact absurd h h2
        · exact absurd h h3

/-- C14. `MultiplyTranspose` dimension check, for sizes within the range of
`int`: the call stops at a fatal assertion if and only if
`output.rows ≠ input.rows` or `output.cols ≠ weights.rows` or
`weights.cols ≠ input.cols`; when it stops there, `Gemm` has not run and
`output` is as it was. -/
theorem C14_multiplyTranspose_dimension_check {α : Type} [Zero α] [One α] [Add α] [Mul α]
    (output input weights : TCpuMatrix α)
    (h1 : output.GetNrows < 2 ^ 31) (h2 : output.GetNcols < 2 ^ 31)
    (h3 : input.GetNrows < 2 ^ 31) (h4 : input.GetNcols < 2 ^ 31)
    (h5 : weights.GetNrows < 2 ^ 31) (h6 : weights.GetNcols < 2 ^ 31) :
    (TCpu.MultiplyTranspose output input weights = Except.error Failure.Assert
        ↔ (output.GetNrows ≠ input.GetNrows ∨ output.GetNcols ≠ weights.GetNrows
          ∨ weights.GetNcols ≠ input.GetNcols))
      ∧ ((TCpu.MultiplyTranspose.trace output input weights).2 = some Failure.Assert
        ↔ (output.GetNrows ≠ input.GetNrows ∨ output.GetNcols ≠ weights.GetNrows
          ∨ weights.GetNcols ≠ input.GetNcols))
      ∧ ((TCpu.MultiplyTranspose.trace output input weights).2 = some Failure.Assert →
          (TCpu.MultiplyTranspose.trace output input weights).1 = output) := by
  norm_num at h1 h2 h3 h4 h5 h6
  obtain ⟨t1, t2⟩ := MultiplyTranspose_trace_failure output input weights
  rw [toInt_natCast h1, toInt_natCast h2, toInt_natCast h3, toInt_natCast h4,
    toInt_natCast h5, toInt_natCast h6] at t1
  have t3 : (TCpu.MultiplyTranspose.trace output input weights).2 = some Failure.Assert
      ↔ (output.GetNrows ≠ input.GetNrows ∨ output.GetNcols ≠ weights.GetNrows
        ∨ weights.GetNcols ≠ input.GetNcols) := by
    rw [t1]
    simp only [ne_eq, Nat.cast_inj]
  refine ⟨?_, t3, fun h => t2 (by rw [h]; simp)⟩
  rw [← t3, MultiplyTranspose_eq_trace]
  cases hh : (TCpu.MultiplyTranspose.trace output input weights).2 with
  | none => simp
  | some e => simp

theorem C14_multiplyTranspose_dimension_check_witness :
    (TCpu.MultiplyTranspose (TCpuMatrix.ofRows 2 2 [[9, 9], [9, 9]])
          (TCpuMatrix.ofRows 2 3 [[1, 2, 3], [4, 5, 6]])
          (TCpuMatrix.ofRows 2 2 [[1, 0], [0, 1]] : TCpuMatrix Int) = Except.error Failure.Assert
        ↔ ((TCpuMatrix.ofRows 2 2 [[9, 9], [9, 9]] : TCpuMatrix Int).GetNrows
              ≠ (TCpuMatrix.ofRows 2 3 [[1, 2, 3], [4, 5, 6]] : TCpuMatrix Int).GetNrows
            ∨ (TCpuMatrix.ofRows 2 2 [[9, 9], [9, 9]] : TCpuMatrix Int).GetNcols
              ≠ (TCpuMatrix.ofRows 2 2 [[1, 0], [0, 1]] : TCpuMatrix Int).GetNrows
            ∨ (TCpuMatrix.ofRows 2 2 [[1, 0], [0, 1]] : TCpuMatrix Int).GetNcols
              ≠ (TCpuMatrix.ofRows 2 3 [[1, 2, 3], [4, 5, 6]] : TCpuMatrix Int).GetNcols))
      ∧ ((TCpu.MultiplyTranspose.trace (TCpuMatrix.ofRows 2 2 [[9, 9], [9, 9]])
          (TCpuMatrix.ofRows 2 3 [[1, 2, 3], [4, 5, 6]])
          (TCpuMatrix.ofRows 2 2 [[1, 0], [0, 1]] : TCpuMatrix Int)).2 = some Failure.Assert
        ↔ ((TCpuMatrix.ofRows 2 2 [[9, 9], [9, 9]] : TCpuMatrix Int).GetNrows
              ≠ (TCpuMatrix.ofRows 2 3 [[1, 2, 3], [4, 5, 6]] : TCpuMatrix Int).GetNrows
            ∨ (TCpuMatrix.ofRows 2 2 [[9, 9], [9, 9]] : TCpuMatrix Int).GetNcols
              ≠ (TCpuMatrix.ofRows 2 2 [[1, 0], [0, 1]] : TCpuMatrix Int).GetNrows
            ∨ (TCpuMatrix.ofRows 2 2 [[1, 0], [0, 1]] : TCpuMatrix Int).GetNcols
              ≠ (TCpuMatrix.ofRows 2 3 [[1, 2, 3], [4, 5, 6]] : TCpuMatrix Int).GetNcols))
      ∧ ((TCpu.MultiplyTranspose.trace (TCpuMatrix.ofRows 2 2 [[9, 9], [9, 9]])
          (TCpuMatrix.ofRows 2 3 [[1, 2, 3], [4, 5, 6]])
          (TCpuMatrix.ofRows 2 2 [[1, 0], [0, 1]] : TCpuMatrix Int)).2 = some Failure.Assert →
          (TCpu.MultiplyTranspose.trace (TCpuMatrix.ofRows 2 2 [[9, 9], [9, 9]])
            (TCpuMatrix.ofRows 2 3 [[1, 2, 3], [4, 5, 6]])
            (TCpuMatrix.ofRows 2 2 [[1, 0], [0, 1]] : TCpuMatrix Int)).1
            = TCpuMatrix.ofRows 2 2 [[9, 9], [9, 9]]) :=
  C14_multiplyTranspose_dimension_check (TCpuMatrix.ofRows 2 2 [[9, 9], [9, 9]])
    (TCpuMatrix.ofRows 2 3 [[1, 2, 3], [4, 5, 6]]) (TCpuMatrix.ofRows 2 2 [[1, 0], [0, 1]])
    (by norm_num [TCpuMatrix.GetNrows, TCpuMatrix.ofRows])
    (by norm_num [TCpuMatrix.GetNcols, TCpuMatrix.ofRows])
    (by norm_num [TCpuMatrix.GetNrows, TCpuMatrix.ofRows])
    (by norm_num [TCpuMatrix.GetNcols, TCpuMatrix.ofRows])
    (by norm_num [TCpuMatrix.GetNrows, TCpuMatrix.ofRows])
    (by norm_num [TCpuMatrix.GetNcols, TCpuMatrix.ofRows])

/-- C15. `AddConvBiases` broadcast: for a well-formed `m × n` output, a bias
vector of at least `m` elements and a ones-vector of at least `n` ones
(sizes within the range of `int`), the call returns and every cell of the
result is `output(i, j) = old output(i, j) + biases(i)`: row `i` receives the
bias of filter `i` at every position, and nothing else. -/
theorem C15_addConvBiases_broadcast {α : Type} [Semiring α] (fOnes : List α)
    (output biases : TCpuMatrix α) (m n : Nat) (hm : m < 2 ^ 31) (hn : n < 2 ^ 31)
    (ho1 : output.GetNrows = m) (ho2 : output.GetNcols = n) (ho : output.WellFormed)
    (hb : m ≤ biases.GetNoElements) (hb2 : biases.GetNoElements < 2 ^ 31)
    (h1 : n ≤ fOnes.length) (h2 : fOnes.length < 2 ^ 31)
    (hones : ∀ j, j < fOnes.length → fOnes.getD j 0 = 1) :
    ∃ o : TCpuMatrix α, TCpu.AddConvBiases fOnes output biases = Except.ok o
      ∧ o.GetNrows = m ∧ o.GetNcols = n
      ∧ ∀ i, i < m → ∀ j, j < n → o.elem i j = output.elem i j + biases.elem i 0 := by
  norm_num at hm hn hb2 h2
  obtain ⟨o, e1, e2, e3, _, e5⟩ :=
    AddConvBiases_spec fOnes output biases m n hm hn ho1 ho2 ho hb hb2 h1 h2 hones
  refine ⟨o, e1, e2, e3, fun i hi j hj => ?_⟩
  have e : biases.elem i 0 = biases.fBuffer.getD i 0 := by
    unfold TCpuMatrix.elem
    rw [Nat.zero_mul, Nat.zero_add]
  rw [e]
  exact e5 i hi j hj

theorem C15_addConvBiases_broadcast_witness :
    ∃ o : TCpuMatrix Int,
      TCpu.AddConvBiases [1, 1, 1] (TCpuMatrix.ofRows 2 3 [[1, 2, 3], [4, 5, 6]])
          (TCpuMatrix.ofRows 2 1 [[10], [20]]) = Except.ok o
      ∧ o.GetNrows = 2 ∧ o.GetNcols = 3
      ∧ ∀ i, i < 2 → ∀ j, j < 3 →
          o.elem i j = (TCpuMatrix.ofRows 2 3 [[1, 2, 3], [4, 5, 6]] : TCpuMatrix Int).elem i j
            + (TCpuMatrix.ofRows 2 1 [[10], [20]] : TCpuMatrix Int).elem i 0 :=
  C15_addConvBiases_broadcast [1, 1, 1] (TCpuMatrix.ofRows 2 3 [[1, 2, 3], [4, 5, 6]])
    (TCpuMatrix.ofRows 2 1 [[10], [20]]) 2 3 (by norm_num) (by norm_num) rfl rfl
    (by unfold TCpuMatrix.WellFormed; decide) (by decide)
    (by norm_num [TCpuMatrix.GetNoElements, TCpuMatrix.ofRows]) (by decide) (by norm_num)
    (by decide)

/-! ## Loops that update the cells of a matrix -/

theorem foldl_range_inv {σ : Type} (step : σ → Nat → σ) (Inv : Nat → σ → Prop) :
    ∀ (n : Nat) (s0 : σ), Inv 0 s0 →
      (∀ k, k < n → ∀ s, Inv k s → Inv (k + 1) (step s k)) →
      Inv n ((List.range n).foldl step s0) := by
  intro n
  induction n with
  | zero =>
    intro s0 h0 _
    exact h0
  | succ n ih =>
    intro s0 h0 hstep
    rw [List.range_succ, List.foldl_append]
    exact hstep n (Nat.lt_succ_self n) _ (ih s0 h0 (fun k hk => hstep k (Nat.lt_succ_of_lt hk)))

theorem foldl_range_congr {σ : Type} (f g : σ → Nat → σ) :
    ∀ (n : Nat), (∀ k, k < n → ∀ s, f s k = g s k) →
      ∀ s0, (List.range n).foldl f s0 = (List.range n).foldl g s0 := by
  intro n
  induction n with
  | zero =>
    intro _ s0
    rfl
  | succ n ih =>
    intro h s0
    rw [List.range_succ, List.foldl_append, List.foldl_append,
      ih (fun k hk => h k (Nat.lt_succ_of_lt hk)) s0]
    exact h n (Nat.lt_succ_self n) _

/-- Two nested loops over `k < n` and `l < m` that act on the index
`k * m + l` are one loop over `c < n * m`. -/
theorem foldl_range_mul {σ : Type} (inner : Nat → Nat → σ → σ) (f : σ → Nat → σ) (m : Nat)
    (h : ∀ k l, l < m → ∀ s, inner k l s = f s (k * m + l)) :
    ∀ (n : Nat) (s0 : σ),
      (List.range n).foldl
          (fun (s : σ) (k : Nat) => (List.range m).foldl (fun (s : σ) (l : Nat) => inner k l s) s)
          s0
        = (List.range (n * m)).foldl f s0 := by
  intro n
  induction n with
  | zero =>
    intro s0
    rw [Nat.zero_mul]
    rfl
  | succ n ih =>
    intro s0
    rw [List.range_succ, List.foldl_append, ih s0, Nat.succ_mul, List.range_add,
      List.foldl_append, List.foldl_map]
    show (List.range m).foldl (fun (s : σ) (l : Nat) => inner n l s) _ = _
    rw [foldl_range_congr (fun (s : σ) (l : Nat) => inner n l s)
      (fun (s : σ) (l : Nat) => f s (n * m + l)) m (fun l hl s => h n l hl s)]

theorem elem_eq {α : Type} [Zero α] (A : TCpuMatrix α) (i j : Nat) :
    A.elem i j = A.fBuffer.getD (j * A.fNRows + i) 0 := rfl

theorem cell_eq_of_div_mod {R idx j c : Nat} (h1 : idx % R = j) (h2 : idx / R = c) :
    idx = c * R + j := by
  rw [← h1, ← h2, Nat.mul_comm]
  exact (Nat.div_add_mod idx R).symm

/-- The loop `for c < C: A(j, c) = g(c, A(j, c))` on the flat buffer of a
matrix of `R` rows. -/
theorem foldl_row_update {α : Type} [Zero α] (g : Nat → α → α) (j R C : Nat)
    (A : TCpuMatrix α) (hR : A.fNRows = R) (hj : j < R) :
    ((List.range C).foldl
        (fun (A : TCpuMatrix α) (c : Nat) => A.setElem j c (g c (A.elem j c))) A).fNRows = R
      ∧ ((List.range C).foldl
        (fun (A : TCpuMatrix α) (c : Nat) => A.setElem j c (g c (A.elem j c))) A).fNCols
          = A.fNCols
      ∧ ((List.range C).foldl
        (fun (A : TCpuMatrix α) (c : Nat) => A.setElem j c (g c (A.elem j c))) A).fBuffer.length
          = A.fBuffer.length
      ∧ ∀ idx, ((List.range C).foldl
        (fun (A : TCpuMatrix α) (c : Nat) => A.setElem j c (g c (A.elem j c))) A).fBuffer[idx]?
          = if idx % R = j ∧ idx / R < C then (A.fBuffer[idx]?).map (g (idx / R))
            else A.fBuffer[idx]? := by
  refine foldl_range_inv
    (fun (A : TCpuMatrix α) (c : Nat) => A.setElem j c (g c (A.elem j c)))
    (fun n A2 => A2.fNRows = R ∧ A2.fNCols = A.fNCols ∧ A2.fBuffer.length = A.fBuffer.length
      ∧ ∀ idx, A2.fBuffer[idx]?
          = if idx % R = j ∧ idx / R < n then (A.fBuffer[idx]?).map (g (idx / R))
            else A.fBuffer[idx]?)
    C A ⟨hR, rfl, rfl, fun idx => ?_⟩ ?_
  · rw [if_neg]
    intro h
    exact Nat.not_lt_zero _ h.2
  · intro n _ A2 hinv
    obtain ⟨i1, i2, i3, i4⟩ := hinv
    obtain ⟨e1, e2⟩ := @cell_div_mod R j n hj
    refine ⟨i1, i2, ?_, fun idx => ?_⟩
    · show (A2.fBuffer.set _ _).length = _
      rw [List.length_set]
      exact i3
    · show (A2.fBuffer.set (n * A2.fNRows + j) (g n (A2.fBuffer.getD (n * A2.fNRows + j) 0)))[idx]?
        = _
      rw [i1, List.getElem?_set]
      by_cases hp : n * R + j = idx
      · subst hp
        have hold : A2.fBuffer[n * R + j]? = A.fBuffer[n * R + j]? := by
          rw [i4, if_neg]
          intro h
          rw [e2] at h
          exact Nat.lt_irrefl _ h.2
        rw [if_pos rfl, e1, e2, List.getD_eq_getElem?_getD, hold, i3,
          if_pos (⟨rfl, Nat.lt_succ_self n⟩ : j = j ∧ n < n + 1)]
        by_cases hlen : n * R + j < A.fBuffer.length
        · rw [if_pos hlen, List.getElem?_eq_getElem hlen]
          rfl
        · rw [if_neg hlen, List.getElem?_eq_none (Nat.le_of_not_lt hlen)]
          rfl
      · rw [if_neg hp, i4]
        by_cases hc : idx % R = j ∧ idx / R < n
        · rw [if_pos hc, if_pos ⟨hc.1, Nat.lt_succ_of_lt hc.2⟩]
        · rw [if_neg hc, if_neg]
          intro h
          rcases Nat.lt_succ_iff_lt_or_eq.mp h.2 with h2 | h2
          · exact hc ⟨h.1, h2⟩
          · exact hp (cell_eq_of_div_mod h.1 h2).symm

/-- The loops `for j < n, c < C: A(j, c) = g(j, c, A(j, c))` on the flat
buffer of a matrix of `R ≥ n` rows. -/
theorem foldl_matrix_update {α : Type} [Zero α] (g : Nat → Nat → α → α) (R C : Nat)
    (A : TCpuMatrix α) (hR : A.fNRows = R) (n : Nat) (hn : n ≤ R) :
    ((List.range n).foldl (fun (A : TCpuMatrix α) (j : Nat) => (List.range C).foldl
        (fun (A : TCpuMatrix α) (c : Nat) => A.setElem j c (g j c (A.elem j c))) A) A).fNRows = R
      ∧ ((List.range n).foldl (fun (A : TCpuMatrix α) (j : Nat) => (List.range C).foldl
        (fun (A : TCpuMatrix α) (c : Nat) => A.setElem j c (g j c (A.elem j c))) A) A).fNCols
          = A.fNCols
      ∧ ((List.range n).foldl (fun (A : TCpuMatrix α) (j : Nat) => (List.range C).foldl
        (fun (A : TCpuMatrix α) (c : Nat) => A.setElem j c (g j c (A.elem j c))) A)
          A).fBuffer.length = A.fBuffer.length
      ∧ ∀ idx, ((List.range n).foldl (fun (A : TCpuMatrix α) (j : Nat) => (List.range C).foldl
        (fun (A : TCpuMatrix α) (c : Nat) => A.setElem j c (g j c (A.elem j c))) A)
          A).fBuffer[idx]?
          = if idx % R < n ∧ idx / R < C then (A.fBuffer[idx]?).map (g (idx % R) (idx / R))
            else A.fBuffer[idx]? := by
  refine foldl_range_inv
    (fun (A : TCpuMatrix α) (j : Nat) => (List.range C).foldl
        (fun (A : TCpuMatrix α) (c : Nat) => A.setElem j c (g j c (A.elem j c))) A)
    (fun m A2 => m ≤ R → (A2.fNRows = R ∧ A2.fNCols = A.fNCols
      ∧ A2.fBuffer.length = A.fBuffer.length
      ∧ ∀ idx, A2.fBuffer[idx]?
          = if idx % R < m ∧ idx / R < C then (A.fBuffer[idx]?).map (g (idx % R) (idx / R))
            else A.fBuffer[idx]?))
    n A (fun _ => ⟨hR, rfl, rfl, fun idx => ?_⟩) ?_ hn
  · rw [if_neg]
    intro h
    exact Nat.not_lt_zero _ h.1
  · intro m _ A2 hinv hm
    obtain ⟨i1, i2, i3, i4⟩ := hinv (Nat.le_of_succ_le hm)
    obtain ⟨r1, r2, r3, r4⟩ := foldl_row_update (g m) m R C A2 i1 hm
    refine ⟨r1, r2.trans i2, r3.trans i3, fun idx => ?_⟩
    rw [r4 idx, i4 idx]
    by_cases hc : idx % R = m
    · by_cases hC : idx / R < C
      · rw [if_pos ⟨hc, hC⟩, if_neg, if_pos ⟨by rw [hc]; exact Nat.lt_succ_self m, hC⟩, hc]
        intro h
        rw [hc] at h
        exact Nat.lt_irrefl _ h.1
      · rw [if_neg (fun h => hC h.2), if_neg (fun h => hC h.2), if_neg (fun h => hC h.2)]
    · rw [if_neg (fun h => hc h.1)]
      by_cases h2 : idx % R < m ∧ idx / R < C
      · rw [if_pos h2, if_pos ⟨Nat.lt_succ_of_lt h2.1, h2.2⟩]
      · rw [if_neg h2, if_neg]
        intro h
        rcases Nat.lt_succ_iff_lt_or_eq.mp h.1 with h3 | h3
        · exact h2 ⟨h3, h.2⟩
        · exact hc h3

/-- The cells of a matrix after the loops
`for j < R, c < C: A(j, c) = g(j, c, A(j, c))`. -/
theorem foldl_matrix_update_elem {α : Type} [Zero α] (g : Nat → Nat → α → α) (R C : Nat)
    (A : TCpuMatrix α) (hR : A.fNRows = R) (j c : Nat) (hj : j < R) (hc : c < C)
    (hlen : c * R + j < A.fBuffer.length) :
    ((List.range R).foldl (fun (A : TCpuMatrix α) (j : Nat) => (List.range C).foldl
        (fun (A : TCpuMatrix α) (c : Nat) => A.setElem j c (g j c (A.elem j c))) A) A).elem j c
      = g j c (A.elem j c) := by
  obtain ⟨r1, _, _, r4⟩ := foldl_matrix_update g R C A hR R (Nat.le_refl R)
  obtain ⟨e1, e2⟩ := @cell_div_mod R j c hj
  rw [elem_eq, r1, List.getD_eq_getElem?_getD, r4, e1, e2, if_pos (⟨hj, hc⟩ : j < R ∧ c < C),
    List.getElem?_eq_getElem hlen, elem_eq, hR, List.getD_eq_getElem?_getD,
    List.getElem?_eq_getElem hlen]
  rfl

/-! ## Rotation of the weights -/

theorem RotateWeights_eq {α : Type} [Zero α] [One α] [Add α] [Mul α] (A B : TCpuMatrix α)
    (filterDepth filterHeight filterWidth numFilters : Nat) :
    TCpu.RotateWeights A B filterDepth filterHeight filterWidth numFilters
      = (List.range filterDepth).foldl
          (fun (A : TCpuMatrix α) (j : Nat) =>
            (List.range numFilters).foldl
              (fun (A : TCpuMatrix α) (k : Nat) =>
                (List.range (filterHeight * filterWidth)).foldl
                  (fun (A : TCpuMatrix α) (i : Nat) =>
                    A.setElem j (k * (filterHeight * filterWidth) + i)
                      (B.elem k (((j + 1) * (filterHeight * filterWidth) - 1) - i)))
                  A)
              A)
          A := rfl

theorem RotateWeights_flat {α : Type} [Zero α] [One α] [Add α] [Mul α] (A B : TCpuMatrix α)
    (filterDepth filterHeight filterWidth numFilters : Nat) :
    TCpu.RotateWeights A B filterDepth filterHeight filterWidth numFilters
      = (List.range filterDepth).foldl
          (fun (A : TCpuMatrix α) (j : Nat) =>
            (List.range (numFilters * (filterHeight * filterWidth))).foldl
              (fun (A : TCpuMatrix α) (c : Nat) =>
                A.setElem j c (B.elem (c / (filterHeight * filterWidth))
                  (((j + 1) * (filterHeight * filterWidth) - 1)
                    - c % (filterHeight * filterWidth))))
              A)
          A := by
  rw [RotateWeights_eq]
  apply foldl_range_congr
  intro j _ A
  exact foldl_range_mul
    (fun (k i : Nat) (A : TCpuMatrix α) =>
      A.setElem j (k * (filterHeight * filterWidth) + i)
        (B.elem k (((j + 1) * (filterHeight * filterWidth) - 1) - i)))
    (fun (A : TCpuMatrix α) (c : Nat) =>
      A.setElem j c (B.elem (c / (filterHeight * filterWidth))
        (((j + 1) * (filterHeight * filterWidth) - 1) - c % (filterHeight * filterWidth))))
    (filterHeight * filterWidth)
    (by
      intro k l hl s
      obtain ⟨e1, e2⟩ := @cell_div_mod (filterHeight * filterWidth) l k hl
      show _ = s.setElem j (k * (filterHeight * filterWidth) + l)
        (B.elem ((k * (filterHeight * filterWidth) + l) / (filterHeight * filterWidth))
          (((j + 1) * (filterHeight * filterWidth) - 1)
            - (k * (filterHeight * filterWidth) + l) % (filterHeight * filterWidth)))
      rw [e1, e2])
    numFilters A

/-- `RotateWeights` on a well-formed `A` of `filterDepth` rows and
`numFilters * J` columns: the shape of `A` is kept and cell
`(j, k * J + i)` receives `B(k, (j + 1) * J - 1 - i)`. -/
theorem RotateWeights_spec {α : Type} [Zero α] [One α] [Add α] [Mul α] (A B : TCpuMatrix α)
    (filterDepth filterHeight filterWidth numFilters : Nat)
    (hA1 : A.GetNrows = filterDepth)
    (hA2 : A.GetNcols = numFilters * (filterHeight * filterWidth)) (hA : A.WellFormed) :
    (TCpu.RotateWeights A B filterDepth filterHeight filterWidth numFilters).GetNrows
        = filterDepth
      ∧ (TCpu.RotateWeights A B filterDepth filterHeight filterWidth numFilters).GetNcols
        = numFilters * (filterHeight * filterWidth)
      ∧ (TCpu.RotateWeights A B filterDepth filterHeight filterWidth numFilters).WellFormed
      ∧ ∀ j, j < filterDepth → ∀ k, k < numFilters → ∀ i, i < filterHeight * filterWidth →
          (TCpu.RotateWeights A B filterDepth filterHeight filterWidth numFilters).elem j
              (k * (filterHeight * filterWidth) + i)
            = B.elem k (j * (filterHeight * filterWidth)
                + (filterHeight * filterWidth - 1 - i)) := by
  have hR : A.fNRows = filterDepth := hA1
  have hlenA : A.fBuffer.length = filterDepth * (numFilters * (filterHeight * filterWidth)) := by
    have h := hA
    unfold TCpuMatrix.WellFormed at h
    rw [h]
    show A.GetNrows * A.GetNcols = _
    rw [hA1, hA2]
  rw [RotateWeights_flat]
  generalize filterHeight * filterWidth = J at hA2 hlenA ⊢
  obtain ⟨r1, r2, r3, _⟩ := foldl_matrix_update
    (fun (j c : Nat) (_ : α) => B.elem (c / J) (((j + 1) * J - 1) - c % J))
    filterDepth (numFilters * J) A hR filterDepth (Nat.le_refl _)
  refine ⟨r1, r2.trans hA2, ?_, ?_⟩
  · unfold TCpuMatrix.WellFormed
    rw [r3, r1, r2, hlenA, show A.fNCols = numFilters * J from hA2]
  · intro j hj k hk i hi
    have hc : k * J + i < numFilters * J := view_lt hk hi
    have hlen : (k * J + i) * filterDepth + j < A.fBuffer.length := by
      rw [hlenA]
      exact cell_lt_size hj hc
    have h := foldl_matrix_update_elem
      (fun (j c : Nat) (_ : α) => B.elem (c / J) (((j + 1) * J - 1) - c % J))
      filterDepth (numFilters * J) A hR j (k * J + i) hj hc hlen
    obtain ⟨e1, e2⟩ := @cell_div_mod J i k hi
    have e3 : (j + 1) * J - 1 - i = j * J + (J - 1 - i) := by
      rw [Nat.succ_mul]
      omega
    refine h.trans ?_
    show B.elem ((k * J + i) / J) (((j + 1) * J - 1) - (k * J + i) % J) = _
    rw [e1, e2, e3]

/-- C17. `RotateWeights` reverses the pixel order inside every
(filter, input-channel) block: for `B` of `numFilters` rows and
`filterDepth * J` columns, `J = filterHeight * filterWidth`, and a well-formed
`A` of `filterDepth` rows and `numFilters * J` columns, after the call every
`j < filterDepth`, `k < numFilters`, `i < J` satisfies
`A(j, k*J + i) = B(k, j*J + (J-1-i))`; the shape of `A` is kept. -/
theorem C17_rotateWeights_reverses_blocks {α : Type} [Zero α] [One α] [Add α] [Mul α]
    (A B : TCpuMatrix α) (filterDepth filterHeight filterWidth numFilters : Nat)
    (hA1 : A.GetNrows = filterDepth)
    (hA2 : A.GetNcols = numFilters * (filterHeight * filterWidth)) (hA : A.WellFormed)
    (_hB1 : B.GetNrows = numFilters)
    (_hB2 : B.GetNcols = filterDepth * (filterHeight * filterWidth)) (_hB : B.WellFormed) :
    (TCpu.RotateWeights A B filterDepth filterHeight filterWidth numFilters).GetNrows
        = filterDepth
      ∧ (TCpu.RotateWeights A B filterDepth filterHeight filterWidth numFilters).GetNcols
        = numFilters * (filterHeight * filterWidth)
      ∧ ∀ j, j < filterDepth → ∀ k, k < numFilters → ∀ i, i < filterHeight * filterWidth →
          (TCpu.RotateWeights A B filterDepth filterHeight filterWidth numFilters).elem j
              (k * (filterHeight * filterWidth) + i)
            = B.elem k (j * (filterHeight * filterWidth)
                + (filterHeight * filterWidth - 1 - i)) := by
  obtain ⟨h1, h2, _, h4⟩ :=
    RotateWeights_spec A B filterDepth filterHeight filterWidth numFilters hA1 hA2 hA
  exact ⟨h1, h2, h4⟩

theorem C17_rotateWeights_reverses_blocks_witness :
    (TCpu.RotateWeights (TCpuMatrix.zeros 2 4)
          (TCpuMatrix.ofRows 2 4 [[1, 2, 3, 4], [5, 6, 7, 8]] : TCpuMatrix Int) 2 1 2 2).GetNrows
        = 2
      ∧ (TCpu.RotateWeights (TCpuMatrix.zeros 2 4)
          (TCpuMatrix.ofRows 2 4 [[1, 2, 3, 4], [5, 6, 7, 8]] : TCpuMatrix Int) 2 1 2 2).GetNcols
        = 2 * (1 * 2)
      ∧ ∀ j, j < 2 → ∀ k, k < 2 → ∀ i, i < 1 * 2 →
          (TCpu.RotateWeights (TCpuMatrix.zeros 2 4)
            (TCpuMatrix.ofRows 2 4 [[1, 2, 3, 4], [5, 6, 7, 8]] : TCpuMatrix Int) 2 1 2 2).elem j
              (k * (1 * 2) + i)
            = (TCpuMatrix.ofRows 2 4 [[1, 2, 3, 4], [5, 6, 7, 8]] : TCpuMatrix Int).elem k
                (j * (1 * 2) + (1 * 2 - 1 - i)) :=
  C17_rotateWeights_reverses_blocks (TCpuMatrix.zeros 2 4)
    (TCpuMatrix.ofRows 2 4 [[1, 2, 3, 4], [5, 6, 7, 8]]) 2 1 2 2 rfl rfl
    (by unfold TCpuMatrix.WellFormed; decide) rfl rfl (by unfold TCpuMatrix.WellFormed; decide)

/-! ## The chain-rule step of the backward pass -/

theorem batchAt_of_getElem? {α : Type} [Zero α] {l : List (TCpuMatrix α)} {i : Nat}
    {x : TCpuMatrix α} (h : l[i]? = some x) : batchAt l i = x := by
  unfold batchAt
  rw [List.getD_eq_getElem?_getD, h]
  rfl

theorem Hadamard_elem {α : Type} [Semiring α] (B A : TCpuMatrix α)
    (hr : A.GetNrows = B.GetNrows) (r c : Nat) :
    (TCpu.Hadamard B A).elem r c = B.elem r c * A.elem r c := by
  have hr2 : A.fNRows = B.fNRows := hr
  rw [elem_eq, elem_eq, elem_eq, hr2]
  show ((List.range B.fBuffer.length).map
    (fun c => B.fBuffer.getD c 0 * A.fBuffer.getD c 0)).getD (c * B.fNRows + r) 0 = _
  by_cases h : c * B.fNRows + r < B.fBuffer.length
  · rw [getD_map_range _ _ _ _ h]
  · rw [List.getD_eq_default _ _ (by
        rw [List.length_map, List.length_range]
        exact Nat.le_of_not_lt h),
      List.getD_eq_default B.fBuffer _ (Nat.le_of_not_lt h), zero_mul]

theorem updateDerivatives_eq {α : Type} [Zero α] [One α] [Add α] [Mul α]
    (df activationGradients : List (TCpuMatrix α)) (batchSize : Nat) :
    TCpu.ConvLayerBackward.updateDerivatives df activationGradients batchSize
      = (List.range batchSize).foldlM
          (fun (df : List (TCpuMatrix α)) (i : Nat) =>
            vecAt df i >>= fun df_i =>
              vecAt activationGradients i >>= fun ag_i =>
                Except.ok (df.set i (TCpu.Hadamard df_i ag_i)))
          df := rfl

/-- The loop that updates the derivatives returns, replaces `df[i]` by
`Hadamard(df[i], activationGradients[i])` for `i < batchSize` and keeps the
other matrices. -/
theorem updateDerivatives_spec {α : Type} [Zero α] [One α] [Add α] [Mul α]
    (df activationGradients : List (TCpuMatrix α)) (batchSize : Nat)
    (hdf : batchSize ≤ df.length) (hag : batchSize ≤ activationGradients.length) :
    ∃ df2 : List (TCpuMatrix α),
      TCpu.ConvLayerBackward.updateDerivatives df activationGradients batchSize = Except.ok df2
        ∧ df2.length = df.length
        ∧ (∀ i, i < batchSize →
            df2[i]? = some (TCpu.Hadamard (batchAt df i) (batchAt activationGradients i)))
        ∧ ∀ i, batchSize ≤ i → df2[i]? = df[i]? := by
  rw [updateDerivatives_eq]
  refine foldlM_range_inv
    (fun (df : List (TCpuMatrix α)) (i : Nat) =>
      vecAt df i >>= fun df_i =>
        vecAt activationGradients i >>= fun ag_i =>
          Except.ok (df.set i (TCpu.Hadamard df_i ag_i)))
    (fun k s => s.length = df.length
      ∧ (∀ i, i < k →
          s[i]? = some (TCpu.Hadamard (batchAt df i) (batchAt activationGradients i)))
      ∧ ∀ i, k ≤ i → s[i]? = df[i]?)
    batchSize df ⟨rfl, fun i hi => absurd hi (Nat.not_lt_zero i), fun _ _ => rfl⟩ ?_
  intro k hk s hinv
  obtain ⟨i1, i2, i3⟩ := hinv
  obtain ⟨d, hd⟩ := exists_getElem?_of_lt df k (Nat.lt_of_lt_of_le hk hdf)
  obtain ⟨g, hg⟩ := exists_getElem?_of_lt activationGradients k (Nat.lt_of_lt_of_le hk hag)
  have hs : s[k]? = some d := (i3 k (Nat.le_refl k)).trans hd
  have hklen : k < s.length := by
    rw [i1]
    exact Nat.lt_of_lt_of_le hk hdf
  refine ⟨s.set k (TCpu.Hadamard d g),
    (Except_bind_ok _ d _ (vecAt_eq_ok hs)).trans
      ((Except_bind_ok _ g _ (vecAt_eq_ok hg)).trans rfl), ?_, ?_, ?_⟩
  · rw [List.length_set]
    exact i1
  · intro i hi
    by_cases hki : k = i
    · subst hki
      rw [getElem?_set_same _ _ _ hklen, batchAt_of_getElem? hd, batchAt_of_getElem? hg]
    · rw [getElem?_set_of_ne _ _ _ _ hki]
      exact i2 i (by omega)
  · intro i hi
    rw [getElem?_set_of_ne _ _ _ _ (by omega)]
    exact i3 i (by omega)

/-- C16. Backward chain-rule step: for a batch of at least `batchSize`
derivative matrices and as many incoming gradients of the same row count,
the first loop of `ConvLayerBackward` returns a batch `df2` in which, for
every `i < batchSize`, `df2[i](r, c) = df[i](r, c) * activationGradients[i](r, c)`,
the other matrices being kept; and the result of `ConvLayerBackward` is the
result of the three gradient kernels run on `df2` (the input, weight and bias
gradients are computed from the products, and `df2` is what is left in
`df`). -/
theorem C16_convLayerBackward_chain_rule {α : Type} [Semiring α]
    (activationGradientsBackward : List (TCpuMatrix α))
    (weightGradients biasGradients : TCpuMatrix α)
    (df activationGradients : List (TCpuMatrix α)) (weights : TCpuMatrix α)
    (activationsBackward : List (TCpuMatrix α))
    (batchSize inputHeight inputWidth depth height width filterDepth filterHeight filterWidth
      nLocalViews : Nat)
    (hdf : batchSize ≤ df.length) (hag : batchSize ≤ activationGradients.length)
    (hrows : ∀ i, i < batchSize →
      (batchAt activationGradients i).GetNrows = (batchAt df i).GetNrows) :
    ∃ df2 : List (TCpuMatrix α),
      TCpu.ConvLayerBackward.updateDerivatives df activationGradients batchSize = Except.ok df2
        ∧ df2.length = df.length
        ∧ (∀ i, i < batchSize → ∀ r c,
            (batchAt df2 i).elem r c
              = (batchAt df i).elem r c * (batchAt activationGradients i).elem r c)
        ∧ (∀ i, batchSize ≤ i → df2[i]? = df[i]?)
        ∧ TCpu.ConvLayerBackward activationGradientsBackward weightGradients biasGradients df
            activationGradients weights activationsBackward batchSize inputHeight inputWidth
            depth height width filterDepth filterHeight filterWidth nLocalViews
          = (TCpu.CalculateConvActivationGradients activationGradientsBackward df2 weights
              batchSize inputHeight inputWidth depth height width filterDepth filterHeight
              filterWidth >>= fun agb =>
            TCpu.CalculateConvWeightGradients weightGradients df2 activationsBackward batchSize
              inputHeight inputWidth depth height width filterDepth filterHeight filterWidth
              nLocalViews >>= fun wg =>
            TCpu.CalculateConvBiasGradients biasGradients df2 batchSize depth nLocalViews
              >>= fun bg => Except.ok (agb, wg, bg, df2)) := by
  obtain ⟨df2, h1, h2, h3, h4⟩ := updateDerivatives_spec df activationGradients batchSize hdf hag
  refine ⟨df2, h1, h2, fun i hi r c => ?_, h4, Except_bind_ok _ df2 _ h1⟩
  rw [batchAt_of_getElem? (h3 i hi)]
  exact Hadamard_elem _ _ (hrows i hi) r c

theorem C16_convLayerBackward_chain_rule_witness :
    ∃ df2 : List (TCpuMatrix Int),
      TCpu.ConvLayerBackward.updateDerivatives [TCpuMatrix.ofRows 1 4 [[1, 2, 3, 4]]]
          [TCpuMatrix.ofRows 1 4 [[5, 6, 7, 8]]] 1 = Except.ok df2
        ∧ df2.length = [(TCpuMatrix.ofRows 1 4 [[1, 2, 3, 4]] : TCpuMatrix Int)].length
        ∧ (∀ i, i < 1 → ∀ r c,
            (batchAt df2 i).elem r c
              = (batchAt [(TCpuMatrix.ofRows 1 4 [[1, 2, 3, 4]] : TCpuMatrix Int)] i).elem r c
                * (batchAt [(TCpuMatrix.ofRows 1 4 [[5, 6, 7, 8]] : TCpuMatrix Int)] i).elem r c)
        ∧ (∀ i, 1 ≤ i → df2[i]? = [(TCpuMatrix.ofRows 1 4 [[1, 2, 3, 4]] : TCpuMatrix Int)][i]?)
        ∧ TCpu.ConvLayerBackward [TCpuMatrix.zeros 1 16] (TCpuMatrix.zeros 1 9)
            (TCpuMatrix.zeros 1 1) [TCpuMatrix.ofRows 1 4 [[1, 2, 3, 4]]]
            [TCpuMatrix.ofRows 1 4 [[5, 6, 7, 8]]]
            (TCpuMatrix.ofRows 1 9 [[1, 4, 1, 1, 4, 3, 3, 3, 1]])
            [TCpuMatrix.ofRows 1 16 [[1, 2, 3, 4, 5, 6, 7, 8, 9, 10, 11, 12, 13, 14, 15, 16]]]
            1 4 4 1 2 2 1 3 3 4
          = (TCpu.CalculateConvActivationGradients [TCpuMatrix.zeros 1 16] df2
              (TCpuMatrix.ofRows 1 9 [[1, 4, 1, 1, 4, 3, 3, 3, 1]]) 1 4 4 1 2 2 1 3 3
              >>= fun agb =>
            TCpu.CalculateConvWeightGradients (TCpuMatrix.zeros 1 9) df2
              [TCpuMatrix.ofRows 1 16 [[1, 2, 3, 4, 5, 6, 7, 8, 9, 10, 11, 12, 13, 14, 15, 16]]]
              1 4 4 1 2 2 1 3 3 4 >>= fun wg =>
            TCpu.CalculateConvBiasGradients (TCpuMatrix.zeros 1 1) df2 1 1 4
              >>= fun bg => Except.ok (agb, wg, bg, df2)) :=
  C16_convLayerBackward_chain_rule [TCpuMatrix.zeros 1 16] (TCpuMatrix.zeros 1 9)
    (TCpuMatrix.zeros 1 1) [TCpuMatrix.ofRows 1 4 [[1, 2, 3, 4]]]
    [TCpuMatrix.ofRows 1 4 [[5, 6, 7, 8]]] (TCpuMatrix.ofRows 1 9 [[1, 4, 1, 1, 4, 3, 3, 3, 1]])
    [TCpuMatrix.ofRows 1 16 [[1, 2, 3, 4, 5, 6, 7, 8, 9, 10, 11, 12, 13, 14, 15, 16]]]
    1 4 4 1 2 2 1 3 3 4 (by decide) (by decide) (by decide)

/-! ## The zero padding of the reverse convolution -/

theorem floorOfSizeT_of_lt {x : Nat} (h : x < 9007199254740992) : floorOfSizeT x = x := by
  unfold floorOfSizeT
  rw [if_pos h]

/-- The padding that `CalculateConvActivationGradients` computes for a
direction whose forward geometry has stride `1` and padding `p ≤ f - 1`. -/
theorem tempZeroPadding_eq {inputDim dim filterDim p : Nat} (hp : p + 1 ≤ filterDim)
    (hf : filterDim ≤ inputDim + 2 * p) (hdim : dim = inputDim + 2 * p - filterDim + 1)
    (hr : inputDim + p + 1 < 2147483648) :
    TCpu.CalculateConvActivationGradients.tempZeroPadding inputDim dim filterDim
      = filterDim - 1 - p := by
  have h1 : sizeT ((inputDim : Int) - dim + filterDim - 1) = 2 * (filterDim - 1 - p) := by
    unfold sizeT
    omega
  unfold TCpu.CalculateConvActivationGradients.tempZeroPadding
  rw [h1, floorOfSizeT_of_lt (by omega)]
  omega

theorem CalculateConvActivationGradients_vIndices_eq {α : Type} [Zero α] [One α] [Add α] [Mul α]
    (df : List (TCpuMatrix α))
    (inputHeight inputWidth depth height width filterHeight filterWidth : Nat) :
    TCpu.CalculateConvActivationGradients.vIndices df inputHeight inputWidth depth height width
        filterHeight filterWidth
      = (vecAt df 0 >>= fun df0 =>
          TCpu.Im2colIndices
            (List.replicate (inputHeight * inputWidth * (depth * filterHeight * filterWidth)) 0)
            df0 (inputHeight * inputWidth) height width filterHeight filterWidth 1 1
            (TCpu.CalculateConvActivationGradients.tempZeroPadding inputHeight height
              filterHeight)
            (TCpu.CalculateConvActivationGradients.tempZeroPadding inputWidth width
              filterWidth)) := rfl

/-- C18. Input-gradient padding reconstructs the input size: for a forward
geometry with stride `1` and padding `pH ≤ filterHeight - 1`,
`pW ≤ filterWidth - 1` (`height = inputHeight - filterHeight + 2*pH + 1`,
`width` likewise, a non-empty input image, within machine range), the zero
padding computed in `CalculateConvActivationGradients` is
`filterHeight - 1 - pH` by `filterWidth - 1 - pW`; the stride-1 convolution
over the `height × width` gradient image with that padding has output size
`inputHeight × inputWidth`; and the index map of length
`inputHeight * inputWidth * depth * filterHeight * filterWidth` is filled
completely: the call of `Im2colIndices` returns, and the entry of pixel
`(ch, u, w)` and local view `(vr, vc)` is written for every
`vr < inputHeight` and `vc < inputWidth`. -/
theorem C18_input_gradient_padding {α : Type} [Zero α] [One α] [Add α] [Mul α]
    (df : List (TCpuMatrix α)) (df0 : TCpuMatrix α)
    (inputHeight inputWidth depth height width filterHeight filterWidth pH pW : Nat)
    (hiH : 1 ≤ inputHeight) (hiW : 1 ≤ inputWidth)
    (hpH : pH + 1 ≤ filterHeight) (hpW : pW + 1 ≤ filterWidth)
    (hfH : filterHeight ≤ inputHeight + 2 * pH) (hfW : filterWidth ≤ inputWidth + 2 * pW)
    (hheight : height = inputHeight + 2 * pH - filterHeight + 1)
    (hwidth : width = inputWidth + 2 * pW - filterWidth + 1)
    (hdf0 : df[0]? = some df0) (hr : df0.GetNrows = depth)
    (hc : df0.GetNcols = height * width)
    (hrange : IntRange depth height width filterHeight filterWidth 1 1
      (filterHeight - 1 - pH) (filterWidth - 1 - pW))
    (hsize : inputHeight * inputWidth * (depth * filterHeight * filterWidth) < 2 ^ 64) :
    TCpu.CalculateConvActivationGradients.tempZeroPadding inputHeight height filterHeight
        = filterHeight - 1 - pH
      ∧ TCpu.CalculateConvActivationGradients.tempZeroPadding inputWidth width filterWidth
        = filterWidth - 1 - pW
      ∧ TCpu.calculateDimension height filterHeight (filterHeight - 1 - pH) 1
        = Except.ok inputHeight
      ∧ TCpu.calculateDimension width filterWidth (filterWidth - 1 - pW) 1
        = Except.ok inputWidth
      ∧ ∃ V2 : List Int,
          TCpu.CalculateConvActivationGradients.vIndices df inputHeight inputWidth depth height
              width filterHeight filterWidth = Except.ok V2
            ∧ V2.length = inputHeight * inputWidth * (depth * filterHeight * filterWidth)
            ∧ ∀ vr, vr < inputHeight → ∀ vc, vc < inputWidth →
              ∀ ch, ch < depth → ∀ u, u < filterHeight → ∀ w, w < filterWidth →
                V2[((ch * filterHeight + u) * filterWidth + w) * (inputHeight * inputWidth)
                    + (vr * inputWidth + vc)]?
                  = some (if 0 ≤ (vr : Int) + u - (filterHeight - 1 - pH : Nat)
                        ∧ (vr : Int) + u - (filterHeight - 1 - pH : Nat) < height
                        ∧ 0 ≤ (vc : Int) + w - (filterWidth - 1 - pW : Nat)
                        ∧ (vc : Int) + w - (filterWidth - 1 - pW : Nat) < width
                      then (((vr : Int) + u - (filterHeight - 1 - pH : Nat)) * width
                        + ((vc : Int) + w - (filterWidth - 1 - pW : Nat))) * depth + ch
                      else -1) := by
  obtain ⟨r1, r2, r3, r4, r5, r6⟩ := hrange
  norm_num at r1 r2 r3 r4 r5 r6 hsize
  have hb1 : inputHeight + pH + 1 < 2147483648 := by omega
  have hb2 : inputWidth + pW + 1 < 2147483648 := by omega
  have hHi : (height : Int) < 2147483648 := by omega
  have hWi : (width : Int) < 2147483648 := by omega
  have hDi : (depth : Int) < 2147483648 := by omega
  have t1 := tempZeroPadding_eq hpH hfH hheight hb1
  have t2 := tempZeroPadding_eq hpW hfW hwidth hb2
  have g1 : filterHeight ≤ height + 2 * (filterHeight - 1 - pH) := by omega
  have g2 : filterWidth ≤ width + 2 * (filterWidth - 1 - pW) := by omega
  have o1 : (height + 2 * (filterHeight - 1 - pH) - filterHeight) / 1 + 1 = inputHeight := by
    rw [Nat.div_one]
    omega
  have o2 : (width + 2 * (filterWidth - 1 - pW) - filterWidth) / 1 + 1 = inputWidth := by
    rw [Nat.div_one]
    omega
  have d1 := calculateDimension_ok (Nat.le_refl 1) g1 (by omega) (Nat.mod_one _)
  have d2 := calculateDimension_ok (Nat.le_refl 1) g2 (by omega) (Nat.mod_one _)
  rw [o1] at d1
  rw [o2] at d2
  obtain ⟨V2, v1, v2, v3⟩ := Im2colIndices_cells
    (List.replicate (inputHeight * inputWidth * (depth * filterHeight * filterWidth)) (0 : Int))
    df0 (inputHeight * inputWidth) height width filterHeight filterWidth 1 1
    (filterHeight - 1 - pH) (filterWidth - 1 - pW) depth (Nat.le_refl 1) (Nat.le_refl 1) g1 g2
    hr hc (by rw [o1, o2]) (List.length_replicate _ _) r1 r2 r3 r6
    (by rw [List.length_replicate]; exact hsize)
  refine ⟨t1, t2, d1, d2, V2, ?_, ?_, ?_⟩
  · rw [CalculateConvActivationGradients_vIndices_eq, t1, t2]
    exact (Except_bind_ok _ df0 _ (vecAt_eq_ok hdf0)).trans v1
  · rw [v2, List.length_replicate]
  · intro vr hvr vc hvc ch hch u hu w hw
    have h := v3 vr (by rw [o1]; exact hvr) vc (by rw [o2]; exact hvc) ch hch u hu w hw
    rw [o2] at h
    rw [h, indexValue_eq hHi hWi r4 r5 hDi ch hch]
    simp only [Nat.cast_one, mul_one]

theorem C18_input_gradient_padding_witness :
    TCpu.CalculateConvActivationGradients.tempZeroPadding 4 2 3 = 3 - 1 - 0
      ∧ TCpu.CalculateConvActivationGradients.tempZeroPadding 4 2 3 = 3 - 1 - 0
      ∧ TCpu.calculateDimension 2 3 (3 - 1 - 0) 1 = Except.ok 4
      ∧ TCpu.calculateDimension 2 3 (3 - 1 - 0) 1 = Except.ok 4
      ∧ ∃ V2 : List Int,
          TCpu.CalculateConvActivationGradients.vIndices
              [(TCpuMatrix.ofRows 1 4 [[1, 2, 3, 4]] : TCpuMatrix Int)] 4 4 1 2 2 3 3
              = Except.ok V2
            ∧ V2.length = 4 * 4 * (1 * 3 * 3)
            ∧ ∀ vr, vr < 4 → ∀ vc, vc < 4 → ∀ ch, ch < 1 → ∀ u, u < 3 → ∀ w, w < 3 →
                V2[(((ch * 3 + u) * 3 + w) * (4 * 4) + (vr * 4 + vc) : Nat)]?
                  = some (if 0 ≤ (vr : Int) + u - (3 - 1 - 0 : Nat)
                        ∧ (vr : Int) + u - (3 - 1 - 0 : Nat) < (2 : Nat)
                        ∧ 0 ≤ (vc : Int) + w - (3 - 1 - 0 : Nat)
                        ∧ (vc : Int) + w - (3 - 1 - 0 : Nat) < (2 : Nat)
                      then (((vr : Int) + u - (3 - 1 - 0 : Nat)) * (2 : Nat)
                        + ((vc : Int) + w - (3 - 1 - 0 : Nat))) * (1 : Nat) + ch
                      else -1) :=
  C18_input_gradient_padding [TCpuMatrix.ofRows 1 4 [[1, 2, 3, 4]]]
    (TCpuMatrix.ofRows 1 4 [[1, 2, 3, 4]]) 4 4 1 2 2 3 3 0 0 (by decide) (by decide) (by decide)
    (by decide) (by decide) (by decide) (by decide) (by decide) rfl rfl rfl
    ⟨by norm_num, by norm_num, by norm_num, by norm_num, by norm_num, by norm_num⟩
    (by norm_num)

/-! ## The weight gradients -/

/-- `Multiply(C, A, B)` on an `M × K` matrix `A`, a `K × N` matrix `B` and a
well-formed `M × N` matrix `C`: the checks pass and
`C(i, j) = Σ_{l<K} A(i, l) * B(l, j)`. -/
theorem Multiply_spec {α : Type} [Semiring α] (C A B : TCpuMatrix α)
    (M N K : Nat) (hM : M < 2147483648) (hN : N < 2147483648) (hK : K < 2147483648)
    (ha1 : A.GetNrows = M) (ha2 : A.GetNcols = K)
    (hb1 : B.GetNrows = K) (hb2 : B.GetNcols = N)
    (hc1 : C.GetNrows = M) (hc2 : C.GetNcols = N) (hC : C.WellFormed) :
    ∃ o : TCpuMatrix α, TCpu.Multiply C A B = Except.ok o
      ∧ o.GetNrows = M ∧ o.GetNcols = N ∧ o.WellFormed
      ∧ ∀ i, i < M → ∀ j, j < N →
          o.elem i j = ∑ l in Finset.range K, A.elem i l * B.elem l j := by
  have hlen : C.fBuffer.length = M * N := by
    have h := hC
    unfold TCpuMatrix.WellFormed at h
    rw [h]
    show C.GetNrows * C.GetNcols = _
    rw [hc1, hc2]
  unfold TCpu.Multiply
  simp only [ha1, ha2, hb1, hb2, hc1, hc2, ne_eq, not_true_eq_false, if_false,
    toInt_natCast hM, toInt_natCast hN, toInt_natCast hK]
  refine ⟨_, rfl, hc1, hc2, ?_, ?_⟩
  · unfold TCpuMatrix.WellFormed
    simp only [Blas.Gemm, List.length_map, List.length_range]
    exact hC
  · intro i hi j hj
    have hc : j * M + i < C.fBuffer.length := by
      rw [hlen]
      exact cell_lt_size hi hj
    obtain ⟨e1, e2⟩ := @cell_div_mod M i j hi
    have hr : C.fNRows = M := hc1
    unfold TCpuMatrix.elem
    simp only [Blas.Gemm, Int.toNat_natCast, hr]
    rw [getD_map_range _ _ _ _ hc]
    simp only [e1, e2, hi, hj, and_self, if_true, one_mul, zero_mul, add_zero,
      Bool.false_eq_true, if_false]
    rw [sumRange_eq_sum]
    apply Finset.sum_congr rfl
    intro l _
    have h1 : A.fNRows = M := ha1
    have h2 : B.fNRows = K := hb1
    rw [h1, h2, Nat.add_comm i, Nat.add_comm l]

/-- Two matrices of the same shape with the same cells are the same. -/
theorem eq_of_elem {α : Type} [Zero α] {A B : TCpuMatrix α} {M N : Nat}
    (hA : HasShape A M N) (hB : HasShape B M N)
    (h : ∀ i, i < M → ∀ j, j < N → A.elem i j = B.elem i j) : A = B := by
  obtain ⟨a1, a2, a3⟩ := hA
  obtain ⟨b1, b2, b3⟩ := hB
  have a1f : A.fNRows = M := a1
  have a2f : A.fNCols = N := a2
  have b1f : B.fNRows = M := b1
  have b2f : B.fNCols = N := b2
  have la : A.fBuffer.length = M * N := by
    unfold TCpuMatrix.WellFormed at a3
    rw [a3, a1f, a2f]
  have lb : B.fBuffer.length = M * N := by
    unfold TCpuMatrix.WellFormed at b3
    rw [b3, b1f, b2f]
  refine TCpuMatrix.eq_of_fields (a1f.trans b1f.symm) (a2f.trans b2f.symm) ?_
  apply List.ext_getElem (la.trans lb.symm)
  intro idx h1 h2
  rw [la] at h1
  have hM : 0 < M := by
    rcases Nat.eq_zero_or_pos M with h0 | h0
    · rw [h0, Nat.zero_mul] at h1
      exact absurd h1 (Nat.not_lt_zero _)
    · exact h0
  have hi : idx % M < M := Nat.mod_lt _ hM
  have hj : idx / M < N := Nat.div_lt_of_lt_mul h1
  have hidx : idx / M * M + idx % M = idx := by
    rw [Nat.mul_comm]
    exact Nat.div_add_mod idx M
  have e := h (idx % M) hi (idx / M) hj
  rw [elem_eq, elem_eq, a1f, b1f, hidx, List.getD_eq_getElem?_getD, List.getD_eq_getElem?_getD,
    List.getElem?_eq_getElem (by rw [la]; exact h1),
    List.getElem?_eq_getElem (by rw [lb]; exact h1)] at e
  exact e

theorem gatherOf_of_ok {α : Type} [Zero α] {nLocalViews nLocalViewPixels : Nat} {V : List Int}
    {B G : TCpuMatrix α}
    (h : TCpu.Im2colFast (TCpuMatrix.zeros nLocalViews nLocalViewPixels) B V = Except.ok G) :
    gatherOf nLocalViews nLocalViewPixels V B = G := by
  unfold gatherOf
  rw [h]

/-- The index map depends on the source matrix through its shape only. -/
theorem Im2colIndices_congr {α : Type} [Zero α] (V : List Int) (B B2 : TCpuMatrix α)
    (nLocalViews imgHeight imgWidth fltHeight fltWidth strideRows strideCols zeroPaddingHeight
      zeroPaddingWidth : Nat) (h1 : B.GetNrows = B2.GetNrows) (h2 : B.GetNcols = B2.GetNcols) :
    TCpu.Im2colIndices V B nLocalViews imgHeight imgWidth fltHeight fltWidth strideRows
        strideCols zeroPaddingHeight zeroPaddingWidth
      = TCpu.Im2colIndices V B2 nLocalViews imgHeight imgWidth fltHeight fltWidth strideRows
        strideCols zeroPaddingHeight zeroPaddingWidth := by
  rw [Im2colIndices_eq_gatherLoops, Im2colIndices_eq_gatherLoops, h1, h2]

theorem CalculateConvWeightGradients_vIndices_eq {α : Type} [Zero α] [One α] [Add α] [Mul α]
    (activationsBackward : List (TCpuMatrix α))
    (inputHeight inputWidth height width filterDepth filterHeight filterWidth nLocalViews : Nat) :
    TCpu.CalculateConvWeightGradients.vIndices activationsBackward inputHeight inputWidth height
        width filterDepth filterHeight filterWidth nLocalViews
      = (vecAt activationsBackward 0 >>= fun ab0 =>
          TCpu.Im2colIndices
            (List.replicate (nLocalViews * (filterDepth * filterHeight * filterWidth)) 0)
            ab0 nLocalViews inputHeight inputWidth filterHeight filterWidth 1 1
            (sizeT ((height : Int) - inputHeight + filterHeight - 1) / 2)
            (sizeT ((width : Int) - inputWidth + filterWidth - 1) / 2)) := rfl

/-- The padding that `CalculateConvWeightGradients` computes for a direction
whose forward geometry has stride `1` and padding `p`. -/
theorem weightGradients_padding_eq {inputDim dim filterDim p : Nat}
    (hf : filterDim ≤ inputDim + 2 * p) (hdim : dim = inputDim + 2 * p - filterDim + 1)
    (hr : p < 2147483648) :
    sizeT ((dim : Int) - inputDim + filterDim - 1) / 2 = p := by
  have h1 : sizeT ((dim : Int) - inputDim + filterDim - 1) = 2 * p := by
    unfold sizeT
    omega
  rw [h1]
  omega

theorem CalculateConvWeightGradients_fmap_eq {α : Type} [Zero α] [One α] [Add α] [Mul α]
    (df activationsBackward : List (TCpuMatrix α)) (nLocalViews nLocalViewPixels : Nat)
    (vIndices : List Int) (vres : List (TCpuMatrix α)) (i : Nat) :
    TCpu.CalculateConvWeightGradients.fmap df activationsBackward nLocalViews nLocalViewPixels
        vIndices vres i
      = (vecAt activationsBackward i >>= fun ab_i =>
          TCpu.Im2colFast (TCpuMatrix.zeros nLocalViews nLocalViewPixels) ab_i vIndices
            >>= fun xTr =>
          vecAt vres i >>= fun vres_i =>
          vecAt df i >>= fun df_i =>
          TCpu.Multiply vres_i df_i xTr >>= fun vres_i =>
          Except.ok (vres.set i vres_i)) := rfl

/-- One batch element of the map step: the gather and its product with
`df[i]`. -/
theorem CalculateConvWeightGradients_fmap_spec {α : Type} [Semiring α]
    (df activationsBackward : List (TCpuMatrix α)) (nLV P depth : Nat) (V2 : List Int)
    (vres : List (TCpuMatrix α)) (i : Nat) (a d v0 : TCpuMatrix α)
    (ha : activationsBackward[i]? = some a) (hd : df[i]? = some d) (hv : vres[i]? = some v0)
    (hV2 : V2.length = nLV * P) (hv0 : HasShape v0 depth P)
    (hd1 : d.GetNrows = depth) (hd2 : d.GetNcols = nLV)
    (hdepth : depth < 2147483648) (hnLV : nLV < 2147483648) (hP : P < 2147483648) :
    ∃ o : TCpuMatrix α,
      TCpu.Im2colFast (TCpuMatrix.zeros nLV P) a V2 = Except.ok (gatherOf nLV P V2 a)
        ∧ TCpu.CalculateConvWeightGradients.fmap df activationsBackward nLV P V2 vres i
            = Except.ok (vres.set i o)
        ∧ HasShape o depth P
        ∧ ∀ j, j < depth → ∀ p, p < P →
            o.elem j p = ∑ v in Finset.range nLV, d.elem j v * (gatherOf nLV P V2 a).elem v p := by
  obtain ⟨G, g1, g2, g3, _, _⟩ :=
    Im2colFast_spec (TCpuMatrix.zeros nLV P) a V2 (zeros_wellFormed nLV P) hV2
  have eG : gatherOf nLV P V2 a = G := gatherOf_of_ok g1
  obtain ⟨o, m1, m2, m3, m4, m5⟩ := Multiply_spec v0 d G depth P nLV hdepth hP hnLV hd1 hd2
    g2 g3 hv0.1 hv0.2.1 hv0.2.2
  refine ⟨o, by rw [eG]; exact g1, ?_, ⟨m2, m3, m4⟩, ?_⟩
  · rw [CalculateConvWeightGradients_fmap_eq]
    refine (Except_bind_ok _ a _ (vecAt_eq_ok ha)).trans ?_
    refine (Except_bind_ok _ G _ g1).trans ?_
    refine (Except_bind_ok _ v0 _ (vecAt_eq_ok hv)).trans ?_
    refine (Except_bind_ok _ d _ (vecAt_eq_ok hd)).trans ?_
    exact (Except_bind_ok _ o _ m1).trans rfl
  · rw [eG]
    exact m5

theorem CalculateConvWeightGradients_reduce_eq {α : Type} [Zero α] [One α] [Add α] [Mul α]
    (vres : List (TCpuMatrix α)) (depth filterDepth filterSize : Nat)
    (weightGradients : TCpuMatrix α) (i : Nat) :
    TCpu.CalculateConvWeightGradients.reduce vres depth filterDepth filterSize weightGradients i
      = (vecAt vres i >>= fun vres_i =>
          Except.ok ((List.range depth).foldl
            (fun (weightGradients : TCpuMatrix α) (j : Nat) =>
              (List.range filterDepth).foldl
                (fun (weightGradients : TCpuMatrix α) (k : Nat) =>
                  (List.range filterSize).foldl
                    (fun (weightGradients : TCpuMatrix α) (l : Nat) =>
                      weightGradients.setElem j (k * filterSize + l)
                        (weightGradients.elem j (k * filterSize + l)
                          + vres_i.elem j (k * filterSize + l)))
                    weightGradients)
                weightGradients)
            weightGradients)) := rfl

/-- One batch element of the reduction: `vres[i]` is added to every cell of
the weight gradients. -/
theorem CalculateConvWeightGradients_reduce_spec {α : Type} [Zero α] [One α] [Add α] [Mul α]
    (vres : List (TCpuMatrix α)) (depth filterDepth filterSize : Nat) (wg : TCpuMatrix α)
    (i : Nat) (v : TCpuMatrix α) (hv : vres[i]? = some v)
    (hwg : HasShape wg depth (filterDepth * filterSize)) :
    ∃ wg2 : TCpuMatrix α,
      TCpu.CalculateConvWeightGradients.reduce vres depth filterDepth filterSize wg i
          = Except.ok wg2
        ∧ HasShape wg2 depth (filterDepth * filterSize)
        ∧ ∀ j, j < depth → ∀ p, p < filterDepth * filterSize →
            wg2.elem j p = wg.elem j p + v.elem j p := by
  obtain ⟨w1, w2, w3⟩ := hwg
  have hR : wg.fNRows = depth := w1
  have hlen : wg.fBuffer.length = depth * (filterDepth * filterSize) := by
    unfold TCpuMatrix.WellFormed at w3
    rw [w3, hR, show wg.fNCols = filterDepth * filterSize from w2]
  have hflat : (List.range depth).foldl
      (fun (weightGradients : TCpuMatrix α) (j : Nat) =>
        (List.range filterDepth).foldl
          (fun (weightGradients : TCpuMatrix α) (k : Nat) =>
            (List.range filterSize).foldl
              (fun (weightGradients : TCpuMatrix α) (l : Nat) =>
                weightGradients.setElem j (k * filterSize + l)
                  (weightGradients.elem j (k * filterSize + l)
                    + v.elem j (k * filterSize + l)))
              weightGradients)
          weightGradients)
      wg
      = (List.range depth).foldl
          (fun (A : TCpuMatrix α) (j : Nat) =>
            (List.range (filterDepth * filterSize)).foldl
              (fun (A : TCpuMatrix α) (c : Nat) =>
                A.setElem j c (A.elem j c + v.elem j c))
              A)
          wg := by
    apply foldl_range_congr
    intro j _ A
    exact foldl_range_mul
      (fun (k l : Nat) (A : TCpuMatrix α) =>
        A.setElem j (k * filterSize + l)
          (A.elem j (k * filterSize + l) + v.elem j (k * filterSize + l)))
      (fun (A : TCpuMatrix α) (c : Nat) => A.setElem j c (A.elem j c + v.elem j c))
      filterSize (fun _ _ _ _ => rfl) filterDepth A
  obtain ⟨r1, r2, r3, _⟩ := foldl_matrix_update
    (fun (j c : Nat) (old : α) => old + v.elem j c) depth (filterDepth * filterSize) wg hR depth
    (Nat.le_refl _)
  refine ⟨(List.range depth).foldl
      (fun (A : TCpuMatrix α) (j : Nat) =>
        (List.range (filterDepth * filterSize)).foldl
          (fun (A : TCpuMatrix α) (c : Nat) => A.setElem j c (A.elem j c + v.elem j c))
          A)
      wg, ?_, ⟨r1, r2.trans w2, ?_⟩, ?_⟩
  · rw [CalculateConvWeightGradients_reduce_eq, ← hflat]
    exact (Except_bind_ok _ v _ (vecAt_eq_ok hv)).trans rfl
  · unfold TCpuMatrix.WellFormed
    rw [r3, r1, r2, hlen, show wg.fNCols = filterDepth * filterSize from w2]
  · intro j hj p hp
    exact foldl_matrix_update_elem (fun (j c : Nat) (old : α) => old + v.elem j c) depth
      (filterDepth * filterSize) wg hR j p hj hp (by rw [hlen]; exact cell_lt_size hj hp)

theorem getElem?_batchAt {α : Type} [Zero α] {l : List (TCpuMatrix α)} {i : Nat}
    (h : i < l.length) : l[i]? = some (batchAt l i) := by
  obtain ⟨x, hx⟩ := exists_getElem?_of_lt l i h
  rw [batchAt_of_getElem? hx]
  exact hx

theorem batchAt_congr {α : Type} [Zero α] {l l2 : List (TCpuMatrix α)} {i : Nat}
    (h : l[i]? = l2[i]?) : batchAt l i = batchAt l2 i := by
  unfold batchAt
  rw [List.getD_eq_getElem?_getD, List.getD_eq_getElem?_getD, h]

theorem Zero_elem {α : Type} [Zero α] (A : TCpuMatrix α) (i j : Nat) : A.Zero.elem i j = 0 := by
  rw [elem_eq]
  show (List.replicate A.fBuffer.length (0 : α)).getD _ 0 = 0
  rw [List.getD_eq_getElem?_getD, List.getElem?_replicate]
  split <;> rfl

theorem Zero_hasShape {α : Type} [Zero α] {A : TCpuMatrix α} {M N : Nat} (h : HasShape A M N) :
    HasShape A.Zero M N := by
  obtain ⟨h1, h2, h3⟩ := h
  refine ⟨h1, h2, ?_⟩
  unfold TCpuMatrix.WellFormed at h3 ⊢
  show (List.replicate A.fBuffer.length (0 : α)).length = A.fNRows * A.fNCols
  rw [List.length_replicate]
  exact h3

/-- The map step of `CalculateConvWeightGradients` over the batch: every
`vres[i]` becomes the product of `df[i]` with the gather of
`activationsBackward[i]`. -/
theorem CalculateConvWeightGradients_fmap_loop {α : Type} [Semiring α]
    (df activationsBackward : List (TCpuMatrix α)) (nLV P depth batchSize : Nat) (V2 : List Int)
    (hdf : df.length = batchSize) (hab : activationsBackward.length = batchSize)
    (hV2 : V2.length = nLV * P)
    (hd : ∀ i, i < batchSize →
      (batchAt df i).GetNrows = depth ∧ (batchAt df i).GetNcols = nLV)
    (hdepth : depth < 2147483648) (hnLV : nLV < 2147483648) (hP : P < 2147483648) :
    ∃ vres : List (TCpuMatrix α),
      (List.range batchSize).foldlM
          (TCpu.CalculateConvWeightGradients.fmap df activationsBackward nLV P V2)
          (List.replicate batchSize (TCpuMatrix.zeros depth P)) = Except.ok vres
        ∧ vres.length = batchSize
        ∧ ∀ i, i < batchSize → ∀ j, j < depth → ∀ p, p < P →
            (batchAt vres i).elem j p
              = ∑ v in Finset.range nLV, (batchAt df i).elem j v
                  * (gatherOf nLV P V2 (batchAt activationsBackward i)).elem v p := by
  obtain ⟨vres, e1, e2, e3, _⟩ := foldlM_range_inv
    (TCpu.CalculateConvWeightGradients.fmap df activationsBackward nLV P V2)
    (fun k s => s.length = batchSize
      ∧ (∀ i, i < k → ∀ j, j < depth → ∀ p, p < P →
          (batchAt s i).elem j p
            = ∑ v in Finset.range nLV, (batchAt df i).elem j v
                * (gatherOf nLV P V2 (batchAt activationsBackward i)).elem v p)
      ∧ ∀ i, k ≤ i → i < batchSize → s[i]? = some (TCpuMatrix.zeros depth P))
    batchSize (List.replicate batchSize (TCpuMatrix.zeros depth P))
    ⟨List.length_replicate _ _, fun i hi => absurd hi (Nat.not_lt_zero i),
      fun i _ hi => by rw [List.getElem?_replicate, if_pos hi]⟩
    (by
      intro k hk s hinv
      obtain ⟨i1, i2, i3⟩ := hinv
      obtain ⟨o, _, c2, c3, c4⟩ := CalculateConvWeightGradients_fmap_spec df activationsBackward
        nLV P depth V2 s k (batchAt activationsBackward k) (batchAt df k)
        (TCpuMatrix.zeros depth P) (getElem?_batchAt (by rw [hab]; exact hk))
        (getElem?_batchAt (by rw [hdf]; exact hk)) (i3 k (Nat.le_refl k) hk) hV2
        ⟨rfl, rfl, zeros_wellFormed depth P⟩ (hd k hk).1 (hd k hk).2 hdepth hnLV hP
      have hklen : k < s.length := by
        rw [i1]
        exact hk
      refine ⟨_, c2, ?_, ?_, ?_⟩
      · rw [List.length_set]
        exact i1
      · intro i hi j hj p hp
        by_cases hki : k = i
        · subst hki
          rw [batchAt_of_getElem? (getElem?_set_same _ _ _ hklen)]
          exact c4 j hj p hp
        · rw [batchAt_congr (getElem?_set_of_ne _ _ _ _ hki)]
          exact i2 i (by omega) j hj p hp
      · intro i hi hi2
        rw [getElem?_set_of_ne _ _ _ _ (by omega)]
        exact i3 i (by omega) hi2)
  exact ⟨vres, e1, e2, e3⟩

/-- The reduction of `CalculateConvWeightGradients` over the batch: the
matrices `vres[i]` are summed into the weight gradients. -/
theorem CalculateConvWeightGradients_reduce_loop {α : Type} [Semiring α]
    (vres : List (TCpuMatrix α)) (depth filterDepth filterSize batchSize : Nat)
    (wg0 : TCpuMatrix α) (hlen : vres.length = batchSize)
    (hwg : HasShape wg0 depth (filterDepth * filterSize)) :
    ∃ wg2 : TCpuMatrix α,
      (List.range batchSize).foldlM
          (TCpu.CalculateConvWeightGradients.reduce vres depth filterDepth filterSize) wg0
          = Except.ok wg2
        ∧ HasShape wg2 depth (filterDepth * filterSize)
        ∧ ∀ j, j < depth → ∀ p, p < filterDepth * filterSize →
            wg2.elem j p
              = wg0.elem j p + ∑ i in Finset.range batchSize, (batchAt vres i).elem j p := by
  refine foldlM_range_inv
    (TCpu.CalculateConvWeightGradients.reduce vres depth filterDepth filterSize)
    (fun k w => HasShape w depth (filterDepth * filterSize)
      ∧ ∀ j, j < depth → ∀ p, p < filterDepth * filterSize →
          w.elem j p = wg0.elem j p + ∑ i in Finset.range k, (batchAt vres i).elem j p)
    batchSize wg0 ⟨hwg, fun j _ p _ => by rw [Finset.sum_range_zero, add_zero]⟩ ?_
  intro k hk w hinv
  obtain ⟨i1, i2⟩ := hinv
  obtain ⟨w2, c1, c2, c3⟩ := CalculateConvWeightGradients_reduce_spec vres depth filterDepth
    filterSize w k (batchAt vres k) (getElem?_batchAt (by rw [hlen]; exact hk)) i1
  refine ⟨w2, c1, c2, fun j hj p hp => ?_⟩
  rw [c3 j hj p hp, i2 j hj p hp, Finset.sum_range_succ, add_assoc]

theorem CalculateConvWeightGradients_eq {α : Type} [Zero α] [One α] [Add α] [Mul α]
    (weightGradients : TCpuMatrix α) (df activationsBackward : List (TCpuMatrix α))
    (batchSize inputHeight inputWidth depth height width filterDepth filterHeight filterWidth
      nLocalViews : Nat) :
    TCpu.CalculateConvWeightGradients weightGradients df activationsBackward batchSize
        inputHeight inputWidth depth height width filterDepth filterHeight filterWidth
        nLocalViews
      = if weightGradients.Zero.GetNcols ≠ filterDepth * filterHeight * filterWidth then
          Except.error Failure.Assert
        else
          (TCpu.CalculateConvWeightGradients.vIndices activationsBackward inputHeight inputWidth
              height width filterDepth filterHeight filterWidth nLocalViews >>= fun vIndices =>
            (List.range batchSize).foldlM
              (TCpu.CalculateConvWeightGradients.fmap df activationsBackward nLocalViews
                (filterDepth * filterHeight * filterWidth) vIndices)
              (List.replicate batchSize
                (TCpuMatrix.zeros depth (filterDepth * filterHeight * filterWidth)))
              >>= fun vres =>
            if vres.length ≠ batchSize then Except.error Failure.Assert
            else
              (List.range batchSize).foldlM
                (TCpu.CalculateConvWeightGradients.reduce vres depth filterDepth
                  (filterHeight * filterWidth))
                weightGradients.Zero) := rfl

/-- `CalculateConvWeightGradients` for a forward geometry with stride `1`:
the call returns and the weight gradients are the sum over the batch of the
products of `df[i]` with the gather of `activationsBackward[i]`. -/
theorem CalculateConvWeightGradients_spec {α : Type} [Semiring α]
    (weightGradients : TCpuMatrix α) (df activationsBackward : List (TCpuMatrix α))
    (batchSize inputHeight inputWidth depth height width filterDepth filterHeight filterWidth
      nLocalViews pH pW : Nat)
    (hb : 0 < batchSize) (hdf : df.length = batchSize)
    (hab : activationsBackward.length = batchSize)
    (hsab : ∀ i, i < batchSize → (batchAt activationsBackward i).GetNrows = filterDepth
      ∧ (batchAt activationsBackward i).GetNcols = inputHeight * inputWidth)
    (hsdf : ∀ i, i < batchSize →
      (batchAt df i).GetNrows = depth ∧ (batchAt df i).GetNcols = nLocalViews)
    (hwg : HasShape weightGradients depth (filterDepth * filterHeight * filterWidth))
    (hfH : filterHeight ≤ inputHeight + 2 * pH) (hfW : filterWidth ≤ inputWidth + 2 * pW)
    (hheight : height = inputHeight + 2 * pH - filterHeight + 1)
    (hwidth : width = inputWidth + 2 * pW - filterWidth + 1)
    (hnLV : nLocalViews = height * width)
    (r1 : inputHeight + pH + 1 < 2147483648) (r2 : inputWidth + pW + 1 < 2147483648)
    (r3 : filterDepth < 2147483648)
    (r6 : filterDepth * filterHeight * filterWidth < 2147483648)
    (hviews : nLocalViews < 2147483648) (hdepth : depth < 2147483648) :
    ∃ (V2 : List Int) (wg2 : TCpuMatrix α),
      TCpu.CalculateConvWeightGradients.vIndices activationsBackward inputHeight inputWidth
          height width filterDepth filterHeight filterWidth nLocalViews = Except.ok V2
        ∧ V2.length = nLocalViews * (filterDepth * filterHeight * filterWidth)
        ∧ TCpu.CalculateConvWeightGradients weightGradients df activationsBackward batchSize
            inputHeight inputWidth depth height width filterDepth filterHeight filterWidth
            nLocalViews = Except.ok wg2
        ∧ HasShape wg2 depth (filterDepth * filterHeight * filterWidth)
        ∧ ∀ j, j < depth → ∀ p, p < filterDepth * filterHeight * filterWidth →
            wg2.elem j p
              = ∑ i in Finset.range batchSize, ∑ v in Finset.range nLocalViews,
                  (batchAt df i).elem j v
                    * (gatherOf nLocalViews (filterDepth * filterHeight * filterWidth) V2
                        (batchAt activationsBackward i)).elem v p := by
  have p1 := weightGradients_padding_eq hfH hheight (by omega)
  have p2 := weightGradients_padding_eq hfW hwidth (by omega)
  have o1 : (inputHeight + 2 * pH - filterHeight) / 1 + 1 = height := by
    rw [Nat.div_one, hheight]
  have o2 : (inputWidth + 2 * pW - filterWidth) / 1 + 1 = width := by
    rw [Nat.div_one, hwidth]
  generalize hPdef : filterDepth * filterHeight * filterWidth = P at r6 hwg ⊢
  have hsize : (List.replicate (nLocalViews * P) (0 : Int)).length < 18446744073709551616 := by
    rw [List.length_replicate]
    calc nLocalViews * P < 2147483648 * 2147483648 := Nat.mul_lt_mul'' hviews r6
      _ < 18446744073709551616 := by norm_num
  obtain ⟨V2, v1, v2, _⟩ := Im2colIndices_cells (List.replicate (nLocalViews * P) (0 : Int))
    (batchAt activationsBackward 0) nLocalViews inputHeight inputWidth filterHeight filterWidth
    1 1 pH pW filterDepth (Nat.le_refl 1) (Nat.le_refl 1) hfH hfW (hsab 0 hb).1 (hsab 0 hb).2
    (by rw [o1, o2]; exact hnLV) (by rw [List.length_replicate, hPdef]) r1 r2 r3
    (by rw [hPdef]; exact r6) hsize
  rw [List.length_replicate] at v2
  have hvi : TCpu.CalculateConvWeightGradients.vIndices activationsBackward inputHeight
      inputWidth height width filterDepth filterHeight filterWidth nLocalViews
      = Except.ok V2 := by
    rw [CalculateConvWeightGradients_vIndices_eq, p1, p2, hPdef]
    exact (Except_bind_ok _ _ _
      (vecAt_eq_ok (getElem?_batchAt (by rw [hab]; exact hb)))).trans v1
  obtain ⟨vres, f1, f2, f3⟩ := CalculateConvWeightGradients_fmap_loop df activationsBackward
    nLocalViews P depth batchSize V2 hdf hab v2 hsdf hdepth hviews r6
  have hPassoc : filterDepth * (filterHeight * filterWidth) = P := by
    rw [← hPdef, Nat.mul_assoc]
  have hwg0 : HasShape weightGradients.Zero depth (filterDepth * (filterHeight * filterWidth)) := by
    rw [hPassoc]
    exact Zero_hasShape hwg
  obtain ⟨wg2, g1, g2, g3⟩ := CalculateConvWeightGradients_reduce_loop vres depth filterDepth
    (filterHeight * filterWidth) batchSize weightGradients.Zero f2 hwg0
  rw [hPassoc] at g2 g3
  refine ⟨V2, wg2, hvi, v2, ?_, g2, fun j hj p hp => ?_⟩
  · rw [CalculateConvWeightGradients_eq, hPdef,
      if_neg (not_not.mpr (show weightGradients.Zero.GetNcols = P from hwg.2.1))]
    refine (Except_bind_ok _ V2 _ hvi).trans ?_
    refine (Except_bind_ok _ vres _ f1).trans ?_
    rw [if_neg (not_not.mpr f2)]
    exact g1
  · rw [g3 j hj p hp, Zero_elem, zero_add]
    apply Finset.sum_congr rfl
    intro i hi
    exact f3 i (Finset.mem_range.mp hi) j hj p hp

/-- C19. Weight gradient is the batch sum: for a forward geometry with stride
`1` and paddings `pH`, `pW` (`height = inputHeight + 2*pH - filterHeight + 1`,
`width` likewise, `nLocalViews = height * width`, within machine range), a
non-empty batch of `batchSize` matrices `df[i]` of `depth × nLocalViews` cells
and `activationsBackward[i]` of `filterDepth × inputHeight*inputWidth` cells,
and weight gradients of `depth × filterDepth*filterHeight*filterWidth` cells
with any content, `CalculateConvWeightGradients` returns and
`weightGradients(j, p) = Σ_{i<batchSize} Σ_{v<nLocalViews} df[i](j, v) * X_i(v, p)`,
where `X_i` is the gather of `activationsBackward[i]` through the one index
map computed from `activationsBackward[0]`: the sum is not averaged and the
previous content of the weight gradients does not occur in it. -/
theorem C19_weight_gradient_is_batch_sum {α : Type} [Semiring α]
    (weightGradients : TCpuMatrix α) (df activationsBackward : List (TCpuMatrix α))
    (batchSize inputHeight inputWidth depth height width filterDepth filterHeight filterWidth
      nLocalViews pH pW : Nat)
    (hb : 0 < batchSize) (hdf : df.length = batchSize)
    (hab : activationsBackward.length = batchSize)
    (hsab : ∀ i, i < batchSize → (batchAt activationsBackward i).GetNrows = filterDepth
      ∧ (batchAt activationsBackward i).GetNcols = inputHeight * inputWidth)
    (hsdf : ∀ i, i < batchSize →
      (batchAt df i).GetNrows = depth ∧ (batchAt df i).GetNcols = nLocalViews)
    (hwg : HasShape weightGradients depth (filterDepth * filterHeight * filterWidth))
    (hfH : filterHeight ≤ inputHeight + 2 * pH) (hfW : filterWidth ≤ inputWidth + 2 * pW)
    (hheight : height = inputHeight + 2 * pH - filterHeight + 1)
    (hwidth : width = inputWidth + 2 * pW - filterWidth + 1)
    (hnLV : nLocalViews = height * width)
    (hrange : IntRange filterDepth inputHeight inputWidth filterHeight filterWidth 1 1 pH pW)
    (hviews : nLocalViews < 2 ^ 31) (hdepth : depth < 2 ^ 31) :
    ∃ (V2 : List Int) (wg2 : TCpuMatrix α),
      TCpu.CalculateConvWeightGradients.vIndices activationsBackward inputHeight inputWidth
          height width filterDepth filterHeight filterWidth nLocalViews = Except.ok V2
        ∧ (∀ i, i < batchSize →
            TCpu.Im2colFast
                (TCpuMatrix.zeros nLocalViews (filterDepth * filterHeight * filterWidth))
                (batchAt activationsBackward i) V2
              = Except.ok (gatherOf nLocalViews (filterDepth * filterHeight * filterWidth) V2
                  (batchAt activationsBackward i)))
        ∧ TCpu.CalculateConvWeightGradients weightGradients df activationsBackward batchSize
            inputHeight inputWidth depth height width filterDepth filterHeight filterWidth
            nLocalViews = Except.ok wg2
        ∧ ∀ j, j < depth → ∀ p, p < filterDepth * filterHeight * filterWidth →
            wg2.elem j p
              = ∑ i in Finset.range batchSize, ∑ v in Finset.range nLocalViews,
                  (batchAt df i).elem j v
                    * (gatherOf nLocalViews (filterDepth * filterHeight * filterWidth) V2
                        (batchAt activationsBackward i)).elem v p := by
  obtain ⟨r1, r2, r3, _, _, r6⟩ := hrange
  norm_num at r1 r2 r3 r6 hviews hdepth
  obtain ⟨V2, wg2, h1, h2, h3, _, h5⟩ := CalculateConvWeightGradients_spec weightGradients df
    activationsBackward batchSize inputHeight inputWidth depth height width filterDepth
    filterHeight filterWidth nLocalViews pH pW hb hdf hab hsab hsdf hwg hfH hfW hheight hwidth
    hnLV r1 r2 r3 r6 hviews hdepth
  refine ⟨V2, wg2, h1, fun i _ => ?_, h3, h5⟩
  obtain ⟨G, g1, _⟩ := Im2colFast_spec
    (TCpuMatrix.zeros nLocalViews (filterDepth * filterHeight * filterWidth))
    (batchAt activationsBackward i) V2 (zeros_wellFormed _ _) h2
  rw [gatherOf_of_ok g1]
  exact g1

theorem C19_weight_gradient_is_batch_sum_witness :
    ∃ (V2 : List Int) (wg2 : TCpuMatrix Int),
      TCpu.CalculateConvWeightGradients.vIndices
          [(TCpuMatrix.ofRows 1 16 [[1, 2, 3, 4, 5, 6, 7, 8, 9, 10, 11, 12, 13, 14, 15, 16]]
              : TCpuMatrix Int),
            TCpuMatrix.ofRows 1 16 [[1, 0, 0, 0, 0, 0, 0, 0, 0, 0, 0, 0, 0, 0, 0, 0]]]
          4 4 2 2 1 3 3 4 = Except.ok V2
        ∧ (∀ i, i < 2 →
            TCpu.Im2colFast (TCpuMatrix.zeros 4 (1 * 3 * 3))
                (batchAt
                  [(TCpuMatrix.ofRows 1 16
                      [[1, 2, 3, 4, 5, 6, 7, 8, 9, 10, 11, 12, 13, 14, 15, 16]] : TCpuMatrix Int),
                    TCpuMatrix.ofRows 1 16 [[1, 0, 0, 0, 0, 0, 0, 0, 0, 0, 0, 0, 0, 0, 0, 0]]] i)
                V2
              = Except.ok (gatherOf 4 (1 * 3 * 3) V2
                  (batchAt
                    [(TCpuMatrix.ofRows 1 16
                        [[1, 2, 3, 4, 5, 6, 7, 8, 9, 10, 11, 12, 13, 14, 15, 16]]
                        : TCpuMatrix Int),
                      TCpuMatrix.ofRows 1 16 [[1, 0, 0, 0, 0, 0, 0, 0, 0, 0, 0, 0, 0, 0, 0, 0]]]
                    i)))
        ∧ TCpu.CalculateConvWeightGradients
            (TCpuMatrix.ofRows 2 9 [[9, 9, 9, 9, 9, 9, 9, 9, 9], [9, 9, 9, 9, 9, 9, 9, 9, 9]])
            [TCpuMatrix.ofRows 2 4 [[1, 2, 3, 4], [1, 0, 0, 0]],
              TCpuMatrix.ofRows 2 4 [[1, 1, 1, 1], [0, 1, 0, 0]]]
            [TCpuMatrix.ofRows 1 16 [[1, 2, 3, 4, 5, 6, 7, 8, 9, 10, 11, 12, 13, 14, 15, 16]],
              TCpuMatrix.ofRows 1 16 [[1, 0, 0, 0, 0, 0, 0, 0, 0, 0, 0, 0, 0, 0, 0, 0]]]
            2 4 4 2 2 2 1 3 3 4 = Except.ok wg2
        ∧ ∀ j, j < 2 → ∀ p, p < 1 * 3 * 3 →
            wg2.elem j p
              = ∑ i in Finset.range 2, ∑ v in Finset.range 4,
                  (batchAt
                      [(TCpuMatrix.ofRows 2 4 [[1, 2, 3, 4], [1, 0, 0, 0]] : TCpuMatrix Int),
                        TCpuMatrix.ofRows 2 4 [[1, 1, 1, 1], [0, 1, 0, 0]]] i).elem j v
                    * (gatherOf 4 (1 * 3 * 3) V2
                        (batchAt
                          [(TCpuMatrix.ofRows 1 16
                              [[1, 2, 3, 4, 5, 6, 7, 8, 9, 10, 11, 12, 13, 14, 15, 16]]
                              : TCpuMatrix Int),
                            TCpuMatrix.ofRows 1 16
                              [[1, 0, 0, 0, 0, 0, 0, 0, 0, 0, 0, 0, 0, 0, 0, 0]]] i)).elem v p :=
  C19_weight_gradient_is_batch_sum
    (TCpuMatrix.ofRows 2 9 [[9, 9, 9, 9, 9, 9, 9, 9, 9], [9, 9, 9, 9, 9, 9, 9, 9, 9]])
    [TCpuMatrix.ofRows 2 4 [[1, 2, 3, 4], [1, 0, 0, 0]],
      TCpuMatrix.ofRows 2 4 [[1, 1, 1, 1], [0, 1, 0, 0]]]
    [TCpuMatrix.ofRows 1 16 [[1, 2, 3, 4, 5, 6, 7, 8, 9, 10, 11, 12, 13, 14, 15, 16]],
      TCpuMatrix.ofRows 1 16 [[1, 0, 0, 0, 0, 0, 0, 0, 0, 0, 0, 0, 0, 0, 0, 0]]]
    2 4 4 2 2 2 1 3 3 4 0 0 (by decide) rfl rfl (by decide) (by decide)
    ⟨rfl, rfl, by unfold TCpuMatrix.WellFormed; decide⟩ (by decide) (by decide) (by decide)
    (by decide) (by decide)
    ⟨by norm_num, by norm_num, by norm_num, by norm_num, by norm_num, by norm_num⟩
    (by norm_num) (by norm_num)

/-- C20. Weight-gradient accumulation is order-independent: over exact
arithmetic (a semiring of scalars), under the hypotheses of C19 on the batch
`(df, activationsBackward)`, for every permutation `σ` of the batch indices,
`CalculateConvWeightGradients` run on the permuted batch
`(df[σ i], activationsBackward[σ i])` returns the same weight-gradient matrix
as on the original batch. -/
theorem C20_weight_gradient_order_independent {α : Type} [Semiring α]
    (weightGradients : TCpuMatrix α) (df activationsBackward df2 activationsBackward2 :
      List (TCpuMatrix α))
    (batchSize inputHeight inputWidth depth height width filterDepth filterHeight filterWidth
      nLocalViews pH pW : Nat) (σ : Equiv.Perm (Fin batchSize))
    (hb : 0 < batchSize) (hdf : df.length = batchSize)
    (hab : activationsBackward.length = batchSize)
    (hdf2 : df2.length = batchSize) (hab2 : activationsBackward2.length = batchSize)
    (hpdf : ∀ i : Fin batchSize, batchAt df2 i = batchAt df (σ i))
    (hpab : ∀ i : Fin batchSize,
      batchAt activationsBackward2 i = batchAt activationsBackward (σ i))
    (hsab : ∀ i, i < batchSize → (batchAt activationsBackward i).GetNrows = filterDepth
      ∧ (batchAt activationsBackward i).GetNcols = inputHeight * inputWidth)
    (hsdf : ∀ i, i < batchSize →
      (batchAt df i).GetNrows = depth ∧ (batchAt df i).GetNcols = nLocalViews)
    (hwg : HasShape weightGradients depth (filterDepth * filterHeight * filterWidth))
    (hfH : filterHeight ≤ inputHeight + 2 * pH) (hfW : filterWidth ≤ inputWidth + 2 * pW)
    (hheight : height = inputHeight + 2 * pH - filterHeight + 1)
    (hwidth : width = inputWidth + 2 * pW - filterWidth + 1)
    (hnLV : nLocalViews = height * width)
    (hrange : IntRange filterDepth inputHeight inputWidth filterHeight filterWidth 1 1 pH pW)
    (hviews : nLocalViews < 2 ^ 31) (hdepth : depth < 2 ^ 31) :
    ∃ wg2 : TCpuMatrix α,
      TCpu.CalculateConvWeightGradients weightGradients df activationsBackward batchSize
          inputHeight inputWidth depth height width filterDepth filterHeight filterWidth
          nLocalViews = Except.ok wg2
        ∧ TCpu.CalculateConvWeightGradients weightGradients df2 activationsBackward2 batchSize
          inputHeight inputWidth depth height width filterDepth filterHeight filterWidth
          nLocalViews = Except.ok wg2 := by
  obtain ⟨r1, r2, r3, _, _, r6⟩ := hrange
  norm_num at r1 r2 r3 r6 hviews hdepth
  have hsab2 : ∀ i, i < batchSize → (batchAt activationsBackward2 i).GetNrows = filterDepth
      ∧ (batchAt activationsBackward2 i).GetNcols = inputHeight * inputWidth := by
    intro i hi
    rw [hpab ⟨i, hi⟩]
    exact hsab _ (σ ⟨i, hi⟩).isLt
  have hsdf2 : ∀ i, i < batchSize →
      (batchAt df2 i).GetNrows = depth ∧ (batchAt df2 i).GetNcols = nLocalViews := by
    intro i hi
    rw [hpdf ⟨i, hi⟩]
    exact hsdf _ (σ ⟨i, hi⟩).isLt
  obtain ⟨V2, wg2, a1, _, a3, a4, a5⟩ := CalculateConvWeightGradients_spec weightGradients df
    activationsBackward batchSize inputHeight inputWidth depth height width filterDepth
    filterHeight filterWidth nLocalViews pH pW hb hdf hab hsab hsdf hwg hfH hfW hheight hwidth
    hnLV r1 r2 r3 r6 hviews hdepth
  obtain ⟨V3, wg3, b1, _, b3, b4, b5⟩ := CalculateConvWeightGradients_spec weightGradients df2
    activationsBackward2 batchSize inputHeight inputWidth depth height width filterDepth
    filterHeight filterWidth nLocalViews pH pW hb hdf2 hab2 hsab2 hsdf2 hwg hfH hfW hheight
    hwidth hnLV r1 r2 r3 r6 hviews hdepth
  have hV : V3 = V2 := by
    have e : TCpu.CalculateConvWeightGradients.vIndices activationsBackward2 inputHeight
        inputWidth height width filterDepth filterHeight filterWidth nLocalViews
        = TCpu.CalculateConvWeightGradients.vIndices activationsBackward inputHeight
          inputWidth height width filterDepth filterHeight filterWidth nLocalViews := by
      rw [CalculateConvWeightGradients_vIndices_eq, CalculateConvWeightGradients_vIndices_eq]
      refine (Except_bind_ok _ _ _
        (vecAt_eq_ok (getElem?_batchAt (by rw [hab2]; exact hb)))).trans ?_
      refine Eq.trans ?_ (Except_bind_ok _ _ _
        (vecAt_eq_ok (getElem?_batchAt (by rw [hab]; exact hb)))).symm
      exact Im2colIndices_congr _ _ _ _ _ _ _ _ _ _ _ _
        ((hsab2 0 hb).1.trans (hsab 0 hb).1.symm) ((hsab2 0 hb).2.trans (hsab 0 hb).2.symm)
    rw [e, a1] at b1
    exact (Except.ok.inj b1).symm
  subst hV
  refine ⟨wg2, a3, ?_⟩
  rw [b3]
  refine congrArg Except.ok (eq_of_elem b4 a4 (fun j hj p hp => ?_))
  rw [a5 j hj p hp, b5 j hj p hp, Finset.sum_range, Finset.sum_range]
  have e : ∀ i : Fin batchSize,
      (∑ v in Finset.range nLocalViews, (batchAt df2 i).elem j v
        * (gatherOf nLocalViews (filterDepth * filterHeight * filterWidth) V3
            (batchAt activationsBackward2 i)).elem v p)
      = (fun k : Fin batchSize =>
          ∑ v in Finset.range nLocalViews, (batchAt df k).elem j v
            * (gatherOf nLocalViews (filterDepth * filterHeight * filterWidth) V3
                (batchAt activationsBackward k)).elem v p) (σ i) := by
    intro i
    rw [hpdf i, hpab i]
  refine (Finset.sum_congr rfl (fun i _ => e i)).trans ?_
  exact Equiv.sum_comp σ
    (fun k : Fin batchSize =>
      ∑ v in Finset.range nLocalViews, (batchAt df k).elem j v
        * (gatherOf nLocalViews (filterDepth * filterHeight * filterWidth) V3
            (batchAt activationsBackward k)).elem v p)

theorem C20_weight_gradient_order_independent_witness :
    ∃ wg2 : TCpuMatrix Int,
      TCpu.CalculateConvWeightGradients
          (TCpuMatrix.ofRows 2 9 [[9, 9, 9, 9, 9, 9, 9, 9, 9], [9, 9, 9, 9, 9, 9, 9, 9, 9]])
          [TCpuMatrix.ofRows 2 4 [[1, 2, 3, 4], [1, 0, 0, 0]],
            TCpuMatrix.ofRows 2 4 [[1, 1, 1, 1], [0, 1, 0, 0]]]
          [TCpuMatrix.ofRows 1 16 [[1, 2, 3, 4, 5, 6, 7, 8, 9, 10, 11, 12, 13, 14, 15, 16]],
            TCpuMatrix.ofRows 1 16 [[1, 0, 0, 0, 0, 0, 0, 0, 0, 0, 0, 0, 0, 0, 0, 0]]]
          2 4 4 2 2 2 1 3 3 4 = Except.ok wg2
        ∧ TCpu.CalculateConvWeightGradients
          (TCpuMatrix.ofRows 2 9 [[9, 9, 9, 9, 9, 9, 9, 9, 9], [9, 9, 9, 9, 9, 9, 9, 9, 9]])
          [TCpuMatrix.ofRows 2 4 [[1, 1, 1, 1], [0, 1, 0, 0]],
            TCpuMatrix.ofRows 2 4 [[1, 2, 3, 4], [1, 0, 0, 0]]]
          [TCpuMatrix.ofRows 1 16 [[1, 0, 0, 0, 0, 0, 0, 0, 0, 0, 0, 0, 0, 0, 0, 0]],
            TCpuMatrix.ofRows 1 16 [[1, 2, 3, 4, 5, 6, 7, 8, 9, 10, 11, 12, 13, 14, 15, 16]]]
          2 4 4 2 2 2 1 3 3 4 = Except.ok wg2 :=
  C20_weight_gradient_order_independent
    (TCpuMatrix.ofRows 2 9 [[9, 9, 9, 9, 9, 9, 9, 9, 9], [9, 9, 9, 9, 9, 9, 9, 9, 9]])
    [TCpuMatrix.ofRows 2 4 [[1, 2, 3, 4], [1, 0, 0, 0]],
      TCpuMatrix.ofRows 2 4 [[1, 1, 1, 1], [0, 1, 0, 0]]]
    [TCpuMatrix.ofRows 1 16 [[1, 2, 3, 4, 5, 6, 7, 8, 9, 10, 11, 12, 13, 14, 15, 16]],
      TCpuMatrix.ofRows 1 16 [[1, 0, 0, 0, 0, 0, 0, 0, 0, 0, 0, 0, 0, 0, 0, 0]]]
    [TCpuMatrix.ofRows 2 4 [[1, 1, 1, 1], [0, 1, 0, 0]],
      TCpuMatrix.ofRows 2 4 [[1, 2, 3, 4], [1, 0, 0, 0]]]
    [TCpuMatrix.ofRows 1 16 [[1, 0, 0, 0, 0, 0, 0, 0, 0, 0, 0, 0, 0, 0, 0, 0]],
      TCpuMatrix.ofRows 1 16 [[1, 2, 3, 4, 5, 6, 7, 8, 9, 10, 11, 12, 13, 14, 15, 16]]]
    2 4 4 2 2 2 1 3 3 4 0 0 (Equiv.swap 0 1) (by decide) rfl rfl rfl rfl (by decide) (by decide)
    (by decide) (by decide) ⟨rfl, rfl, by unfold TCpuMatrix.WellFormed; decide⟩ (by decide)
    (by decide) (by decide) (by decide) (by decide)
    ⟨by norm_num, by norm_num, by norm_num, by norm_num, by norm_num, by norm_num⟩
    (by norm_num) (by norm_num)

/-! ## The index map and the gather: shape dependence and the size assertion -/

/-- C24. The index map is sample-invariant: for two source matrices with the
same numbers of rows and columns, `Im2colIndices` called with the same index
vector and the same geometry arguments gives the same result (the same index
vector, or the same failure); the map depends on the shape of the sample and
not on its contents. -/
theorem C24_index_map_sample_invariant {α : Type} [Zero α] (V : List Int)
    (B1 B2 : TCpuMatrix α)
    (nLocalViews imgHeight imgWidth fltHeight fltWidth strideRows strideCols zeroPaddingHeight
      zeroPaddingWidth : Nat)
    (hrows : B1.GetNrows = B2.GetNrows) (hcols : B1.GetNcols = B2.GetNcols) :
    TCpu.Im2colIndices V B1 nLocalViews imgHeight imgWidth fltHeight fltWidth strideRows
        strideCols zeroPaddingHeight zeroPaddingWidth
      = TCpu.Im2colIndices V B2 nLocalViews imgHeight imgWidth fltHeight fltWidth strideRows
        strideCols zeroPaddingHeight zeroPaddingWidth :=
  Im2colIndices_congr V B1 B2 nLocalViews imgHeight imgWidth fltHeight fltWidth strideRows
    strideCols zeroPaddingHeight zeroPaddingWidth hrows hcols

theorem C24_index_map_sample_invariant_witness :
    TCpu.Im2colIndices (List.replicate 36 (0 : Int))
        (TCpuMatrix.ofRows 1 16 [[1, 2, 3, 4, 5, 6, 7, 8, 9, 10, 11, 12, 13, 14, 15, 16]]
          : TCpuMatrix Int) 4 4 4 3 3 1 1 0 0
      = TCpu.Im2colIndices (List.replicate 36 (0 : Int))
        (TCpuMatrix.ofRows 1 16 [[7, 0, 0, 7, 0, 0, 7, 0, 0, 7, 0, 0, 7, 0, 0, 7]]
          : TCpuMatrix Int) 4 4 4 3 3 1 1 0 0 :=
  C24_index_map_sample_invariant (List.replicate 36 (0 : Int))
    (TCpuMatrix.ofRows 1 16 [[1, 2, 3, 4, 5, 6, 7, 8, 9, 10, 11, 12, 13, 14, 15, 16]])
    (TCpuMatrix.ofRows 1 16 [[7, 0, 0, 7, 0, 0, 7, 0, 0, 7, 0, 0, 7, 0, 0, 7]])
    4 4 4 3 3 1 1 0 0 rfl rfl

theorem Im2colFast_trace_eq {α : Type} [Zero α] [One α] [Add α] [Mul α] (A B : TCpuMatrix α)
    (V : List Int) :
    TCpu.Im2colFast.trace A B V
      = if V.length ≠ A.GetNcols * A.GetNrows then (A, some Failure.Assert)
        else
          ({ A with fBuffer := ((List.range V.length).foldl
              (fun (a : List α) (ii : Nat) =>
                if V.getD ii 0 ≥ 0 then a.set ii (B.fBuffer.getD (V.getD ii 0).toNat 0)
                else a.set ii 0)
              A.fBuffer) }, none) := rfl

theorem Im2colFast_eq_ite {α : Type} [Zero α] (A B : TCpuMatrix α) (V : List Int) :
    TCpu.Im2colFast A B V
      = if V.length ≠ A.GetNcols * A.GetNrows then Except.error Failure.Assert
        else
          Except.ok { A with fBuffer := ((List.range V.length).foldl
              (fun (a : List α) (ii : Nat) =>
                if V.getD ii 0 ≥ 0 then a.set ii (B.fBuffer.getD (V.getD ii 0).toNat 0)
                else a.set ii 0)
              A.fBuffer) } := rfl

/-- C28. `Im2colFast` size assertion: the call stops at its assertion if and
only if the length of `V` differs from `A.rows * A.cols`; when it stops there
no cell of `A` has been written (the content of `A` at that point is the
content before the call); otherwise the call returns the matrix that the
trace ends with. -/
theorem C28_im2colFast_size_assertion {α : Type} [Zero α] [One α] [Add α] [Mul α]
    (A B : TCpuMatrix α) (V : List Int) :
    (TCpu.Im2colFast A B V = Except.error Failure.Assert
        ↔ V.length ≠ A.GetNrows * A.GetNcols)
      ∧ ((TCpu.Im2colFast.trace A B V).2 = some Failure.Assert
        ↔ V.length ≠ A.GetNrows * A.GetNcols)
      ∧ (V.length ≠ A.GetNrows * A.GetNcols → (TCpu.Im2colFast.trace A B V).1 = A)
      ∧ (V.length = A.GetNrows * A.GetNcols →
          TCpu.Im2colFast A B V = Except.ok (TCpu.Im2colFast.trace A B V).1
            ∧ (TCpu.Im2colFast.trace A B V).2 = none) := by
  rw [Im2colFast_trace_eq, Im2colFast_eq_ite, Nat.mul_comm A.GetNrows A.GetNcols]
  by_cases h : V.length ≠ A.GetNcols * A.GetNrows
  · rw [if_pos h, if_pos h]
    exact ⟨⟨fun _ => h, fun _ => rfl⟩, ⟨fun _ => h, fun _ => rfl⟩, fun _ => rfl,
      fun h2 => absurd h2 h⟩
  · rw [if_neg h, if_neg h]
    refine ⟨⟨fun h2 => absurd h2 (by simp), fun h2 => absurd h2 h⟩,
      ⟨fun h2 => absurd h2 (by simp), fun h2 => absurd h2 h⟩, fun h2 => absurd h2 h,
      fun _ => ⟨rfl, rfl⟩⟩

/-! ## The standard-convolution forward kernel on the test fixture -/

/-- C27, counterexample. On the fixture of `testForward1` (a `2 × 2` input
`[2,1,4,4]`, the `3 × 3` filter `[1,4,1,1,4,3,3,3,1]`, zero bias, stride `1`,
padding `0`, identity activation) `ConvLayerForward` does not complete:
`calculateDimension(2, 3, 0, 1)` raises the fatal error, so no output is
produced and in particular not the expected `4 × 4` matrix. -/
theorem C27_convLayerForward_fixture_is_fatal :
    TCpu.calculateDimension 2 3 0 1 = Except.error Failure.Fatal
      ∧ TCpu.ConvLayerForward identityActivations (List.replicate 16 1) [TCpuMatrix.zeros 1 16]
          [TCpuMatrix.zeros 1 16] [fixtureInput] fixtureWeights (TCpuMatrix.zeros 1 1)
          fixtureParams EActivationFunction.kIdentity = Except.error Failure.Fatal
      ∧ TCpu.ConvLayerForward identityActivations (List.replicate 16 1) [TCpuMatrix.zeros 1 16]
          [TCpuMatrix.zeros 1 16] [fixtureInput] fixtureWeights (TCpuMatrix.zeros 1 1)
          fixtureParams EActivationFunction.kIdentity
        ≠ Except.ok ([fixtureExpected], [TCpuMatrix.ofRows 1 16
            [[1, 1, 1, 1, 1, 1, 1, 1, 1, 1, 1, 1, 1, 1, 1, 1]]]) := by
  refine ⟨by decide, by decide, by decide⟩

/-- C27, amended. For every geometry whose height direction is that of the
fixture (image height `2`, filter height `3`, stride `1`, no padding) and for
every batch, weights, biases, ones-vector and activation, `ConvLayerForward`
stops with the fatal configuration error of `calculateDimension`: the filter
is larger than the image. -/
theorem C27_convLayerForward_rejects_fixture_geometry {α : Type} [Zero α] [One α] [Add α]
    [Mul α] (act : Activations α) (fOnes : List α)
    (output derivatives input : List (TCpuMatrix α)) (weights biases : TCpuMatrix α)
    (activFunc : EActivationFunction)
    (batchSize inputDepth inputWidth numberFilters filterWidth strideCols paddingWidth : Nat) :
    TCpu.ConvLayerForward act fOnes output derivatives input weights biases
        { batchSize := batchSize, inputDepth := inputDepth, inputHeight := 2,
          inputWidth := inputWidth, numberFilters := numberFilters, filterHeight := 3,
          filterWidth := filterWidth, strideRows := 1, strideCols := strideCols,
          paddingHeight := 0, paddingWidth := paddingWidth } activFunc
      = Except.error Failure.Fatal := by
  have h : TCpu.calculateDimension 2 3 0 1 = Except.error Failure.Fatal := by decide
  unfold TCpu.ConvLayerForward
  show (TCpu.calculateDimension 2 3 0 1 >>= _) = _
  rw [h]
  rfl

/-! ## The bias gradients -/

theorem CalculateConvBiasGradients_eq {α : Type} [Zero α] [One α] [Add α] [Mul α]
    (biasGradients : TCpuMatrix α) (df : List (TCpuMatrix α))
    (batchSize depth nLocalViews : Nat) :
    TCpu.CalculateConvBiasGradients biasGradients df batchSize depth nLocalViews
      = (List.range depth).foldlM
          (fun (biasGradients : TCpuMatrix α) (i : Nat) =>
            (List.range nLocalViews).foldlM
              (fun (sum : α) (j : Nat) =>
                (List.range batchSize).foldlM
                  (fun (sum : α) (k : Nat) =>
                    vecAt df k >>= fun df_k => Except.ok (sum + df_k.elem i j))
                  sum)
              (0 : α)
              >>= fun sum => Except.ok (biasGradients.setElem i 0 sum))
          biasGradients.Zero := rfl

/-- The two inner loops of `CalculateConvBiasGradients` for channel `i`: the
sum over the local views and the batch elements, accumulated in that
order. -/
theorem CalculateConvBiasGradients_sum {α : Type} [Semiring α] (df : List (TCpuMatrix α))
    (batchSize nLocalViews i : Nat) (hdf : batchSize ≤ df.length) :
    (List.range nLocalViews).foldlM
        (fun (sum : α) (j : Nat) =>
          (List.range batchSize).foldlM
            (fun (sum : α) (k : Nat) =>
              vecAt df k >>= fun df_k => Except.ok (sum + df_k.elem i j))
            sum)
        (0 : α)
      = Except.ok (∑ j in Finset.range nLocalViews, ∑ k in Finset.range batchSize,
          (batchAt df k).elem i j) := by
  have inner : ∀ (j : Nat) (s0 : α),
      (List.range batchSize).foldlM
          (fun (sum : α) (k : Nat) =>
            vecAt df k >>= fun df_k => Except.ok (sum + df_k.elem i j))
          s0
        = Except.ok (s0 + ∑ k in Finset.range batchSize, (batchAt df k).elem i j) := by
    intro j s0
    obtain ⟨s2, e1, e2⟩ := foldlM_range_inv
      (fun (sum : α) (k : Nat) =>
        vecAt df k >>= fun df_k => Except.ok (sum + df_k.elem i j))
      (fun n s => s = s0 + ∑ k in Finset.range n, (batchAt df k).elem i j)
      batchSize s0 (by beta_reduce; rw [Finset.sum_range_zero, add_zero])
      (by
        intro k hk s hs
        refine ⟨_, Except_bind_ok _ _ _
          (vecAt_eq_ok (getElem?_batchAt (Nat.lt_of_lt_of_le hk hdf))), ?_⟩
        beta_reduce
        rw [hs, Finset.sum_range_succ, add_assoc])
    rw [e1, e2]
  obtain ⟨s2, e1, e2⟩ := foldlM_range_inv
    (fun (sum : α) (j : Nat) =>
      (List.range batchSize).foldlM
        (fun (sum : α) (k : Nat) =>
          vecAt df k >>= fun df_k => Except.ok (sum + df_k.elem i j))
        sum)
    (fun n s => s = ∑ j in Finset.range n, ∑ k in Finset.range batchSize,
      (batchAt df k).elem i j)
    nLocalViews (0 : α) (by beta_reduce; rw [Finset.sum_range_zero])
    (by
      intro j _ s hs
      refine ⟨_, inner j s, ?_⟩
      beta_reduce
      rw [hs, Finset.sum_range_succ])
  rw [e1, e2]

/-- `CalculateConvBiasGradients` on a batch of at least `batchSize` matrices
and bias gradients with a buffer of at least `depth` cells: the call returns,
keeps the shape of the bias gradients and leaves the sum over the local views
and the batch in cell `i` of the buffer. -/
theorem CalculateConvBiasGradients_spec {α : Type} [Semiring α]
    (biasGradients : TCpuMatrix α) (df : List (TCpuMatrix α))
    (batchSize depth nLocalViews : Nat) (hdf : batchSize ≤ df.length)
    (hlen : depth ≤ biasGradients.fBuffer.length) :
    ∃ bg2 : TCpuMatrix α,
      TCpu.CalculateConvBiasGradients biasGradients df batchSize depth nLocalViews
          = Except.ok bg2
        ∧ bg2.fNRows = biasGradients.fNRows ∧ bg2.fNCols = biasGradients.fNCols
        ∧ bg2.fBuffer.length = biasGradients.fBuffer.length
        ∧ ∀ i, i < depth →
            bg2.fBuffer.getD i 0
              = ∑ j in Finset.range nLocalViews, ∑ k in Finset.range batchSize,
                  (batchAt df k).elem i j := by
  rw [CalculateConvBiasGradients_eq]
  refine foldlM_range_inv
    (fun (biasGradients : TCpuMatrix α) (i : Nat) =>
      (List.range nLocalViews).foldlM
        (fun (sum : α) (j : Nat) =>
          (List.range batchSize).foldlM
            (fun (sum : α) (k : Nat) =>
              vecAt df k >>= fun df_k => Except.ok (sum + df_k.elem i j))
            sum)
        (0 : α)
        >>= fun sum => Except.ok (biasGradients.setElem i 0 sum))
    (fun n b => b.fNRows = biasGradients.fNRows ∧ b.fNCols = biasGradients.fNCols
      ∧ b.fBuffer.length = biasGradients.fBuffer.length
      ∧ ∀ i, i < n →
          b.fBuffer.getD i 0
            = ∑ j in Finset.range nLocalViews, ∑ k in Finset.range batchSize,
                (batchAt df k).elem i j)
    depth biasGradients.Zero
    ⟨rfl, rfl, List.length_replicate _ _, fun i hi => absurd hi (Nat.not_lt_zero i)⟩ ?_
  intro n hn b hinv
  obtain ⟨i1, i2, i3, i4⟩ := hinv
  refine ⟨_, Except_bind_ok _ _ _ (CalculateConvBiasGradients_sum df batchSize nLocalViews n hdf),
    i1, i2, ?_, ?_⟩
  · show (b.fBuffer.set _ _).length = _
    rw [List.length_set]
    exact i3
  · intro i hi
    show (b.fBuffer.set (0 * b.fNRows + n) _).getD i 0 = _
    rw [Nat.zero_mul, Nat.zero_add, List.getD_eq_getElem?_getD, List.getElem?_set]
    by_cases hni : n = i
    · subst hni
      rw [if_pos rfl, if_pos (by rw [i3]; exact Nat.lt_of_lt_of_le hn hlen)]
      rfl
    · rw [if_neg hni, ← List.getD_eq_getElem?_getD]
      exact i4 i (by omega)

/-- C21. Bias gradient: for a batch of at least `batchSize` matrices and
well-formed bias gradients with at least `depth` rows and one column, of any
content, `CalculateConvBiasGradients` returns and for every output channel
`i < depth`
`biasGradients(i, 0) = Σ_{j<nLocalViews} Σ_{k<batchSize} df[k](i, j)`. -/
theorem C21_bias_gradient_sum {α : Type} [Semiring α]
    (biasGradients : TCpuMatrix α) (df : List (TCpuMatrix α))
    (batchSize depth nLocalViews : Nat) (hdf : batchSize ≤ df.length)
    (hbg : biasGradients.WellFormed) (hrows : depth ≤ biasGradients.GetNrows)
    (hcols : 1 ≤ biasGradients.GetNcols) :
    ∃ bg2 : TCpuMatrix α,
      TCpu.CalculateConvBiasGradients biasGradients df batchSize depth nLocalViews
          = Except.ok bg2
        ∧ bg2.GetNrows = biasGradients.GetNrows ∧ bg2.GetNcols = biasGradients.GetNcols
        ∧ ∀ i, i < depth →
            bg2.elem i 0
              = ∑ j in Finset.range nLocalViews, ∑ k in Finset.range batchSize,
                  (batchAt df k).elem i j := by
  have hlen : depth ≤ biasGradients.fBuffer.length := by
    unfold TCpuMatrix.WellFormed at hbg
    rw [hbg]
    calc depth ≤ biasGradients.fNRows := hrows
      _ = biasGradients.fNRows * 1 := (Nat.mul_one _).symm
      _ ≤ biasGradients.fNRows * biasGradients.fNCols := Nat.mul_le_mul_left _ hcols
  obtain ⟨bg2, h1, h2, h3, _, h5⟩ :=
    CalculateConvBiasGradients_spec biasGradients df batchSize depth nLocalViews hdf hlen
  refine ⟨bg2, h1, h2, h3, fun i hi => ?_⟩
  rw [elem_eq, Nat.zero_mul, Nat.zero_add]
  exact h5 i hi

theorem C21_bias_gradient_sum_witness :
    ∃ bg2 : TCpuMatrix Int,
      TCpu.CalculateConvBiasGradients (TCpuMatrix.ofRows 2 1 [[9], [9]])
          [TCpuMatrix.ofRows 2 4 [[1, 2, 3, 4], [1, 0, 0, 0]],
            TCpuMatrix.ofRows 2 4 [[1, 1, 1, 1], [0, 1, 0, 0]]] 2 2 4 = Except.ok bg2
        ∧ bg2.GetNrows = (TCpuMatrix.ofRows 2 1 [[9], [9]] : TCpuMatrix Int).GetNrows
        ∧ bg2.GetNcols = (TCpuMatrix.ofRows 2 1 [[9], [9]] : TCpuMatrix Int).GetNcols
        ∧ ∀ i, i < 2 →
            bg2.elem i 0
              = ∑ j in Finset.range 4, ∑ k in Finset.range 2,
                  (batchAt [(TCpuMatrix.ofRows 2 4 [[1, 2, 3, 4], [1, 0, 0, 0]] : TCpuMatrix Int),
                    TCpuMatrix.ofRows 2 4 [[1, 1, 1, 1], [0, 1, 0, 0]]] k).elem i j :=
  C21_bias_gradient_sum (TCpuMatrix.ofRows 2 1 [[9], [9]])
    [TCpuMatrix.ofRows 2 4 [[1, 2, 3, 4], [1, 0, 0, 0]],
      TCpuMatrix.ofRows 2 4 [[1, 1, 1, 1], [0, 1, 0, 0]]] 2 2 4 (by decide)
    (by unfold TCpuMatrix.WellFormed; decide) (by decide) (by decide)

/-! ## The layer leaves its weights and biases alone -/

theorem Except_bind_inv {ε β γ : Type} (x : Except ε β) (f : β → Except ε γ) (r : γ)
    (h : (x >>= f) = Except.ok r) : ∃ a, x = Except.ok a ∧ f a = Except.ok r := by
  cases x with
  | error e => cases h
  | ok a => exact ⟨a, rfl, h⟩

theorem TTransConvLayer_Forward_eq {α : Type} [Zero α] [One α] [Add α] [Mul α]
    (fOnes : List α) (self : CNN.TTransConvLayer α) (input : List (TCpuMatrix α)) :
    CNN.TTransConvLayer.Forward fOnes self input =
      if ¬ (input.length > 0) then Except.error Failure.Assert
      else
        vecAt self.fWeights 0 >>= fun weights =>
        vecAt self.fBiases 0 >>= fun biases =>
        TCpu.TransConvLayerForward fOnes self.fOutput self.fDerivatives input weights biases
          { batchSize := self.fBatchSize, inputDepth := self.fInputDepth,
            inputHeight := self.fInputHeight, inputWidth := self.fInputWidth,
            numberFilters := self.fDepth, filterHeight := self.fFilterHeight,
            filterWidth := self.fFilterWidth, strideRows := self.fStrideRows,
            strideCols := self.fStrideCols, paddingHeight := self.fPaddingHeight,
            paddingWidth := self.fPaddingWidth } self.fF >>= fun r =>
        Except.ok { self with fOutput := r.1, fDerivatives := r.2 } := rfl

theorem TTransConvLayer_Backward_eq {α : Type} [Zero α] [One α] [Add α] [Mul α]
    (reg : TCpuMatrix α → TCpuMatrix α → TCpuMatrix α)
    (self : CNN.TTransConvLayer α) (base : CNN.VGeneralLayerGradients α)
    (gradients_backward activations_backward : List (TCpuMatrix α)) :
    CNN.TTransConvLayer.Backward reg self base gradients_backward activations_backward =
      vecAt base.fWeightGradients 0 >>= fun weightGradients =>
      vecAt base.fBiasGradients 0 >>= fun biasGradients =>
      vecAt self.fWeights 0 >>= fun weights =>
      TCpu.ConvLayerBackward gradients_backward weightGradients biasGradients
        self.fDerivatives base.fActivationGradients weights activations_backward self.fBatchSize
        self.fInputHeight self.fInputWidth self.fDepth self.fHeight self.fWidth self.fFilterDepth
        self.fFilterHeight self.fFilterWidth self.fNLocalViews >>= fun r =>
      Except.ok ({ self with fDerivatives := r.2.2.2 },
        { base with
          fWeightGradients := (base.fWeightGradients.set 0 (reg r.2.1 weights)),
          fBiasGradients := (base.fBiasGradients.set 0 r.2.2.1) },
        r.1) := rfl

/-- C22: the layer never updates its own weights.  A completed
`TTransConvLayer::Forward` changes at most the output batch and the
derivative cache of the layer, so the weight matrix and the bias vector are
exactly as they were; a completed `TTransConvLayer::Backward` changes at most
the derivative cache of the layer and, in the base, the weight gradients and
the bias gradients (the third result is the backward activation gradients):
the weights, the biases and the incoming activation gradients are as they
were. -/
theorem C22_layer_never_updates_weights {α : Type} [Zero α] [One α] [Add α] [Mul α]
    (reg : TCpuMatrix α → TCpuMatrix α → TCpuMatrix α) (fOnes : List α)
    (self : CNN.TTransConvLayer α) (base : CNN.VGeneralLayerGradients α)
    (input gradients_backward activations_backward : List (TCpuMatrix α)) :
    (∀ after, CNN.TTransConvLayer.Forward fOnes self input = Except.ok after →
        after.fWeights = self.fWeights ∧ after.fBiases = self.fBiases
        ∧ after = { self with fOutput := after.fOutput, fDerivatives := after.fDerivatives })
    ∧ (∀ after base2 gb,
        CNN.TTransConvLayer.Backward reg self base gradients_backward activations_backward
          = Except.ok (after, base2, gb) →
        after.fWeights = self.fWeights ∧ after.fBiases = self.fBiases
        ∧ after = { self with fDerivatives := after.fDerivatives }
        ∧ base2 = { base with fWeightGradients := base2.fWeightGradients,
                              fBiasGradients := base2.fBiasGradients }) := by
  constructor
  · intro after h
    rw [TTransConvLayer_Forward_eq] at h
    by_cases hlen : ¬ (input.length > 0)
    · rw [if_pos hlen] at h
      cases h
    · rw [if_neg hlen] at h
      obtain ⟨w, -, h⟩ := Except_bind_inv _ _ _ h
      obtain ⟨b, -, h⟩ := Except_bind_inv _ _ _ h
      obtain ⟨r, -, h⟩ := Except_bind_inv _ _ _ h
      cases h
      exact ⟨rfl, rfl, rfl⟩
  · intro after base2 gb h
    rw [TTransConvLayer_Backward_eq] at h
    obtain ⟨wg, -, h⟩ := Except_bind_inv _ _ _ h
    obtain ⟨bg, -, h⟩ := Except_bind_inv _ _ _ h
    obtain ⟨w, -, h⟩ := Except_bind_inv _ _ _ h
    obtain ⟨r, -, h⟩ := Except_bind_inv _ _ _ h
    cases h
    exact ⟨rfl, rfl, rfl, rfl⟩

set_option maxRecDepth 100000 in
theorem C22_layer_never_updates_weights_witness :
    (CNN.TTransConvLayer.Forward (List.replicate 16 1) fixtureLayer [fixtureImage]
        = Except.ok
          { fixtureLayer with fOutput := [TCpuMatrix.ofRows 1 4 [[101, 406, 112, 119]]] }
      ∧ ({ fixtureLayer with fOutput := [TCpuMatrix.ofRows 1 4 [[101, 406, 112, 119]]] }
          : CNN.TTransConvLayer Int).fWeights = fixtureLayer.fWeights)
    ∧ CNN.TTransConvLayer.Backward (fun wg _ => wg) fixtureLayer fixtureGradients
          [TCpuMatrix.zeros 1 16] [fixtureImage]
        = Except.ok
          ({ fixtureLayer with fDerivatives := [TCpuMatrix.ofRows 1 4 [[5, 6, 7, 8]]] },
           { fixtureGradients with
             fWeightGradients :=
               [TCpuMatrix.ofRows 1 9 [[100, 126, 152, 204, 230, 256, 308, 334, 360]]],
             fBiasGradients := [TCpuMatrix.ofRows 1 1 [[26]]] },
           [TCpuMatrix.ofRows 1 16
             [[5, 26, 29, 6, 12, 62, 78, 26, 22, 69, 76, 30, 21, 45, 31, 8]]])
    ∧ ({ fixtureLayer with fDerivatives := [TCpuMatrix.ofRows 1 4 [[5, 6, 7, 8]]] }
          : CNN.TTransConvLayer Int).fWeights = fixtureLayer.fWeights :=
  ⟨⟨by decide,
      ((C22_layer_never_updates_weights (fun wg _ => wg) (List.replicate 16 1) fixtureLayer
        fixtureGradients [fixtureImage] [TCpuMatrix.zeros 1 16] [fixtureImage]).1
        { fixtureLayer with fOutput := [TCpuMatrix.ofRows 1 4 [[101, 406, 112, 119]]] }
        (by decide)).1⟩,
    by decide,
    ((C22_layer_never_updates_weights (fun wg _ => wg) (List.replicate 16 1) fixtureLayer
        fixtureGradients [fixtureImage] [TCpuMatrix.zeros 1 16] [fixtureImage]).2
        { fixtureLayer with fDerivatives := [TCpuMatrix.ofRows 1 4 [[5, 6, 7, 8]]] }
        { fixtureGradients with
          fWeightGradients :=
            [TCpuMatrix.ofRows 1 9 [[100, 126, 152, 204, 230, 256, 308, 334, 360]]],
          fBiasGradients := [TCpuMatrix.ofRows 1 1 [[26]]] }
        [TCpuMatrix.ofRows 1 16 [[5, 26, 29, 6, 12, 62, 78, 26, 22, 69, 76, 30, 21, 45, 31, 8]]]
        (by decide)).1⟩

/-- The assertion of `Im2colFast` at work: a `1 × 4` target with an index map
of three entries is left as it was and the call ends with the assertion; with
four entries the call fills the target. -/
theorem C28_im2colFast_size_assertion_witness :
    TCpu.Im2colFast (TCpuMatrix.ofRows 1 4 [[7, 7, 7, 7]])
        (TCpuMatrix.ofRows 1 4 [[1, 2, 3, 4]]) [0, 1, 2]
      = (Except.error Failure.Assert : Except Failure (TCpuMatrix Int))
    ∧ (TCpu.Im2colFast.trace (TCpuMatrix.ofRows 1 4 [[7, 7, 7, 7]])
        (TCpuMatrix.ofRows 1 4 [[1, 2, 3, 4]]) [0, 1, 2]).1
      = (TCpuMatrix.ofRows 1 4 [[7, 7, 7, 7]] : TCpuMatrix Int) :=
  ⟨(C28_im2colFast_size_assertion (TCpuMatrix.ofRows 1 4 [[7, 7, 7, 7]])
      (TCpuMatrix.ofRows 1 4 [[1, 2, 3, 4]]) [0, 1, 2]).1.2 (by decide),
   (C28_im2colFast_size_assertion (TCpuMatrix.ofRows 1 4 [[7, 7, 7, 7]])
      (TCpuMatrix.ofRows 1 4 [[1, 2, 3, 4]]) [0, 1, 2]).2.2.1 (by decide)⟩

/-! ## Entries of the index map -/

theorem Im2colIndices_cells_any {α : Type} [Zero α] (V : List Int) (B : TCpuMatrix α)
    (nLocalViews H W fH fW sR sC pH pW : Nat)
    (hsR : 1 ≤ sR) (hsC : 1 ≤ sC) (hH : fH ≤ H + 2 * pH) (hW : fW ≤ W + 2 * pW)
    (hnLV : nLocalViews = ((H + 2 * pH - fH) / sR + 1) * ((W + 2 * pW - fW) / sC + 1))
    (hV : V.length = nLocalViews * (B.GetNrows * fH * fW))
    (r1 : H + pH + sR < 2147483648) (r2 : W + pW + sC < 2147483648)
    (r3 : B.GetNrows < 2147483648)
    (r6 : B.GetNrows * fH * fW < 2147483648) (hsize : V.length < 18446744073709551616) :
    ∃ V2 : List Int,
      TCpu.Im2colIndices V B nLocalViews H W fH fW sR sC pH pW = Except.ok V2
        ∧ V2.length = V.length
        ∧ ∀ vr, vr < (H + 2 * pH - fH) / sR + 1 → ∀ vc, vc < (W + 2 * pW - fW) / sC + 1 →
          ∀ m, m < B.GetNrows → ∀ u, u < fH → ∀ w, w < fW →
            V2[(((m * fH + u) * fW + w) * nLocalViews
                + (vr * ((W + 2 * pW - fW) / sC + 1) + vc) : Nat)]?
              = some (indexValue H W (toInt (B.GetNrows : Nat)) (toInt (B.GetNcols : Nat))
                  (m : Int) ((vr : Int) * sR + u - pH) ((vc : Int) * sC + w - pW)) := by
  have epix : toInt (sizeT ((B.GetNrows : Int) * fH * fW)) = (B.GetNrows * fH * fW : Nat) := by
    rw [toInt_sizeT]
    have h0 : ((B.GetNrows : Int) * fH * fW) = ((B.GetNrows * fH * fW : Nat) : Int) := by
      push_cast; rfl
    rw [h0]
    exact toInt_natCast r6
  have hNV : B.GetNrows * fH * fW * nLocalViews ≤ V.length :=
    le_of_eq (by rw [hV, Nat.mul_comm])
  obtain ⟨v1, v2, v3⟩ := gatherLoops_geometry (fun _ ok => ok)
    (fun v p => decide (sizeT ((v : Int)
      * toInt (sizeT (toInt (B.GetNrows : Nat) * fH * fW)) + p) < V.length))
    (indexValue H W (toInt (B.GetNrows : Nat)) (toInt (B.GetNcols : Nat))) nLocalViews H W fH fW
    sR sC pH pW B.GetNrows V
    hsR hsC hH hW r1 r2 r3 (le_of_eq hnLV.symm) hNV (fun _ _ => rfl)
    (by
      intro v hv p hp
      have hlt : v * (B.GetNrows * fH * fW) + p < V.length :=
        cell_lt hv hp (le_refl _) (le_of_eq (by rw [hV, hnLV]))
      have h0 : ((v : Int) * ((B.GetNrows * fH * fW : Nat) : Int) + p)
          = ((v * (B.GetNrows * fH * fW) + p : Nat) : Int) := by push_cast; ring
      beta_reduce
      rw [toInt_natCast r3, epix, h0, sizeT_natCast (lt_trans hlt hsize)]
      exact decide_eq_true hlt)
  have hI := Im2colIndices_eq_gatherLoops V B nLocalViews H W fH fW sR sC pH pW
  rw [if_pos v1] at hI
  exact ⟨_, hI, v2, v3⟩

/-- The value written for an in-range channel is `-1` or an offset into a
source of `R * C` cells. -/
theorem indexValue_range {R C H W : Nat} (hH : H < 2147483648) (hW : W < 2147483648)
    (hHW : H * W < 2147483648) (hR : R < 2147483648) (hRC : R * C < 2147483648)
    (m : Nat) (hm : m < R) (k l : Int) :
    indexValue H W (toInt (R : Nat)) (toInt (C : Nat)) m k l = -1
      ∨ (0 ≤ indexValue H W (toInt (R : Nat)) (toInt (C : Nat)) m k l
          ∧ indexValue H W (toInt (R : Nat)) (toInt (C : Nat)) m k l < ((R * C : Nat) : Int)) := by
  have hC : C < 2147483648 := by
    have h1 : 1 * C ≤ R * C := Nat.mul_le_mul_right _ (by omega)
    omega
  have eH : toInt (H : Nat) = H := toInt_natCast hH
  have eW : toInt (W : Nat) = W := toInt_natCast hW
  have eR : toInt (R : Nat) = R := toInt_natCast hR
  have eC : toInt (C : Nat) = C := toInt_natCast hC
  unfold indexValue
  rw [eH, eW, eR, eC]
  by_cases hc : k < 0 ∨ k ≥ H ∨ l < 0 ∨ l ≥ W ∨ toInt (sizeT (k * W)) + l ≥ C
  · left
    rw [if_pos hc]
  · right
    rw [if_neg hc]
    push_neg at hc
    obtain ⟨hk0, hk1, hl0, hl1, hx⟩ := hc
    have hHW2 : (H : Int) * W < 2147483648 := by exact_mod_cast hHW
    have hRC2 : (R : Int) * C < 2147483648 := by exact_mod_cast hRC
    have hW0 : (0 : Int) ≤ W := Int.natCast_nonneg W
    have hR0 : (0 : Int) ≤ R := Int.natCast_nonneg R
    have hm0 : (0 : Int) ≤ m := Int.natCast_nonneg m
    have hm2 : (m : Int) < R := by exact_mod_cast hm
    have h0 : 0 ≤ k * W := mul_nonneg hk0 hW0
    have h1 : k * W + l < (H : Int) * W := by nlinarith
    have ek : toInt (sizeT (k * W)) = k * W := by
      rw [toInt_sizeT]
      exact toInt_of_range (by linarith) (by linarith)
    rw [ek] at hx
    rw [ek]
    have h3 : 0 ≤ (k * W + l) * R := mul_nonneg (by linarith) hR0
    have h4 : (k * W + l + 1) * (R : Int) ≤ C * R :=
      mul_le_mul_of_nonneg_right (by linarith) hR0
    have h5 : (k * W + l) * (R : Int) + m < R * C := by nlinarith
    have ev : toInt ((k * W + l) * R + m) = (k * W + l) * R + m :=
      toInt_of_range (by linarith) (by linarith)
    rw [ev]
    refine ⟨by linarith, ?_⟩
    push_cast
    exact h5

/-- C25: index-map entries are `-1` or valid offsets.  For strides `≥ 1`,
`H + 2*pH ≥ fH`, `W + 2*pW ≥ fW`, `nLocalViews = outH * outW`, a well-formed
source `B` of any numbers of rows and columns, and `V` of length
`nLocalViews * B.rows*fH*fW`, the call returns and every entry of the result
is either `-1` or a non-negative integer strictly less than
`B.rows * B.cols`, which is the length of the flat buffer of `B`: the gather
of `Im2colFast` reads inside the buffer.  The geometry is taken within the
range of `int` and `size_t`. -/
theorem C25_index_map_entries_are_valid_offsets {α : Type} [Zero α] (V : List Int)
    (B : TCpuMatrix α) (nLocalViews H W fH fW sR sC pH pW : Nat)
    (hsR : 1 ≤ sR) (hsC : 1 ≤ sC) (hH : fH ≤ H + 2 * pH) (hW : fW ≤ W + 2 * pW)
    (hnLV : nLocalViews = ((H + 2 * pH - fH) / sR + 1) * ((W + 2 * pW - fW) / sC + 1))
    (hV : V.length = nLocalViews * (B.GetNrows * fH * fW))
    (hB : B.WellFormed)
    (r1 : H + pH + sR < 2 ^ 31) (r2 : W + pW + sC < 2 ^ 31) (r3 : B.GetNrows < 2 ^ 31)
    (r4 : H * W < 2 ^ 31) (r5 : B.GetNrows * B.GetNcols < 2 ^ 31)
    (r6 : B.GetNrows * fH * fW < 2 ^ 31) (hsize : V.length < 2 ^ 64) :
    ∃ V2 : List Int,
      TCpu.Im2colIndices V B nLocalViews H W fH fW sR sC pH pW = Except.ok V2
        ∧ V2.length = V.length
        ∧ ∀ idx, idx < V2.length → ∃ v : Int, V2[idx]? = some v
            ∧ (v = -1 ∨ (0 ≤ v ∧ v < ((B.GetNrows * B.GetNcols : Nat) : Int)
                ∧ v.toNat < B.fBuffer.length)) := by
  norm_num at r1 r2 r3 r4 r5 r6 hsize
  obtain ⟨V2, hok, hlen, hcell⟩ := Im2colIndices_cells_any V B nLocalViews H W fH fW sR sC pH pW
    hsR hsC hH hW hnLV hV r1 r2 r3 r6 hsize
  refine ⟨V2, hok, hlen, ?_⟩
  intro idx hidx
  have hidx2 : idx < B.GetNrows * fH * fW
      * (((H + 2 * pH - fH) / sR + 1) * ((W + 2 * pW - fW) / sC + 1)) := by
    rw [hlen, hV, hnLV, Nat.mul_comm] at hidx
    exact hidx
  obtain ⟨vr, hvr, vc, hvc, m, hm, u, hu, w, hw, hpos⟩ := gatherPos_of_lt hidx2
  have hc := hcell vr hvr vc hvc m hm u hu w hw
  rw [hnLV, ← hpos] at hc
  refine ⟨_, hc, ?_⟩
  have hlenB : B.fBuffer.length = B.GetNrows * B.GetNcols := hB
  rcases indexValue_range (by omega) (by omega) r4 r3 r5 m hm
      ((vr : Int) * sR + u - pH) ((vc : Int) * sC + w - pW) with h | ⟨h1, h2⟩
  · exact Or.inl h
  · refine Or.inr ⟨h1, h2, ?_⟩
    rw [hlenB]
    omega

theorem C25_index_map_entries_are_valid_offsets_witness :
    ∃ V2 : List Int,
      TCpu.Im2colIndices (List.replicate 32 (0 : Int))
          (TCpuMatrix.ofRows 2 5 [[1, 2, 3, 4, 5], [6, 7, 8, 9, 10]] : TCpuMatrix Int)
          4 3 3 2 2 1 1 0 0 = Except.ok V2
        ∧ V2.length = (List.replicate 32 (0 : Int)).length
        ∧ ∀ idx, idx < V2.length → ∃ v : Int, V2[idx]? = some v
            ∧ (v = -1 ∨ (0 ≤ v
                ∧ v < (((TCpuMatrix.ofRows 2 5 [[1, 2, 3, 4, 5], [6, 7, 8, 9, 10]]
                      : TCpuMatrix Int).GetNrows
                    * (TCpuMatrix.ofRows 2 5 [[1, 2, 3, 4, 5], [6, 7, 8, 9, 10]]
                      : TCpuMatrix Int).GetNcols : Nat) : Int)
                ∧ v.toNat < (TCpuMatrix.ofRows 2 5 [[1, 2, 3, 4, 5], [6, 7, 8, 9, 10]]
                      : TCpuMatrix Int).fBuffer.length)) :=
  C25_index_map_entries_are_valid_offsets (List.replicate 32 (0 : Int))
    (TCpuMatrix.ofRows 2 5 [[1, 2, 3, 4, 5], [6, 7, 8, 9, 10]] : TCpuMatrix Int)
    4 3 3 2 2 1 1 0 0 (by decide) (by decide) (by decide) (by decide) (by decide) (by decide)
    (by unfold TCpuMatrix.WellFormed; decide) (by norm_num) (by norm_num)
    (by norm_num [TCpuMatrix.GetNrows, TCpuMatrix.ofRows])
    (by norm_num)
    (by norm_num [TCpuMatrix.GetNrows, TCpuMatrix.GetNcols, TCpuMatrix.ofRows])
    (by norm_num [TCpuMatrix.GetNrows, TCpuMatrix.ofRows]) (by norm_num)

/-- C26: the index map without padding.  For zero padding in both directions,
strides `≥ 1`, a filter not larger than the image, a source with `D`
(channels) rows and `H*W` columns, `nLocalViews = outH * outW` and `V` of
length `nLocalViews * D*fH*fW`, the call returns, no entry of the result is
`-1`, and the entry of pixel `(ch, u, w)` of view `(vr, vc)`, whose image
coordinates are `row = vr*sR + u < H` and `col = vc*sC + w < W`, equals
`row*W*D + col*D + ch`.  The geometry is taken within the range of `int`
and `size_t`. -/
theorem C26_index_map_without_padding {α : Type} [Zero α] (V : List Int) (B : TCpuMatrix α)
    (nLocalViews H W fH fW sR sC D : Nat)
    (hsR : 1 ≤ sR) (hsC : 1 ≤ sC) (hH : fH ≤ H) (hW : fW ≤ W)
    (hBr : B.GetNrows = D) (hBc : B.GetNcols = H * W)
    (hnLV : nLocalViews = ((H - fH) / sR + 1) * ((W - fW) / sC + 1))
    (hV : V.length = nLocalViews * (D * fH * fW))
    (hrange : IntRange D H W fH fW sR sC 0 0) (hsize : V.length < 2 ^ 64) :
    ∃ V2 : List Int,
      TCpu.Im2colIndices V B nLocalViews H W fH fW sR sC 0 0 = Except.ok V2
        ∧ V2.length = V.length
        ∧ (∀ idx, idx < V2.length → V2[idx]? ≠ some (-1))
        ∧ ∀ vr, vr < (H - fH) / sR + 1 → ∀ vc, vc < (W - fW) / sC + 1 →
          ∀ ch, ch < D → ∀ u, u < fH → ∀ w, w < fW →
            vr * sR + u < H ∧ vc * sC + w < W
            ∧ V2[(((ch * fH + u) * fW + w) * nLocalViews
                + (vr * ((W - fW) / sC + 1) + vc) : Nat)]?
              = some (((vr * sR + u) * W * D + (vc * sC + w) * D + ch : Nat) : Int) := by
  obtain ⟨r1, r2, r3, r4, r5, r6⟩ := hrange
  norm_num at r1 r2 r3 r4 r5 r6 hsize
  have hHi : (H : Int) < 2147483648 := by omega
  have hWi : (W : Int) < 2147483648 := by omega
  have hDi : (D : Int) < 2147483648 := by omega
  obtain ⟨V2, hok, hlen, hcell⟩ := Im2colIndices_cells V B nLocalViews H W fH fW sR sC 0 0 D
    hsR hsC hH hW hBr hBc hnLV hV (by omega) (by omega) r3 r6 hsize
  have hcell2 : ∀ vr, vr < (H - fH) / sR + 1 → ∀ vc, vc < (W - fW) / sC + 1 →
      ∀ ch, ch < D → ∀ u, u < fH → ∀ w, w < fW →
        vr * sR + u < H ∧ vc * sC + w < W
        ∧ V2[(((ch * fH + u) * fW + w) * nLocalViews
            + (vr * ((W - fW) / sC + 1) + vc) : Nat)]?
          = some (((vr * sR + u) * W * D + (vc * sC + w) * D + ch : Nat) : Int) := by
    intro vr hvr vc hvc ch hch u hu w hw
    have hrow : vr * sR + u < H := by
      have h1 : vr * sR ≤ H - fH :=
        (Nat.le_div_iff_mul_le (by omega)).mp (Nat.lt_succ_iff.mp hvr)
      omega
    have hcol : vc * sC + w < W := by
      have h1 : vc * sC ≤ W - fW :=
        (Nat.le_div_iff_mul_le (by omega)).mp (Nat.lt_succ_iff.mp hvc)
      omega
    refine ⟨hrow, hcol, ?_⟩
    refine (hcell vr hvr vc hvc ch hch u hu w hw).trans ?_
    have hk : ((vr : Int) * sR + u - ((0 : Nat) : Int)) = ((vr * sR + u : Nat) : Int) := by
      push_cast; ring
    have hl : ((vc : Int) * sC + w - ((0 : Nat) : Int)) = ((vc * sC + w : Nat) : Int) := by
      push_cast; ring
    rw [hk, hl, indexValue_eq hHi hWi r4 r5 hDi ch hch,
      if_pos ⟨Int.natCast_nonneg _, by exact_mod_cast hrow, Int.natCast_nonneg _,
        by exact_mod_cast hcol⟩]
    refine congrArg some ?_
    push_cast
    ring
  refine ⟨V2, hok, hlen, ?_, hcell2⟩
  intro idx hidx
  have hidx2 : idx < D * fH * fW * (((H - fH) / sR + 1) * ((W - fW) / sC + 1)) := by
    rw [hlen, hV, hnLV, Nat.mul_comm] at hidx
    exact hidx
  obtain ⟨vr, hvr, vc, hvc, m, hm, u, hu, w, hw, hpos⟩ := gatherPos_of_lt hidx2
  have hc := (hcell2 vr hvr vc hvc m hm u hu w hw).2.2
  rw [hnLV, ← hpos] at hc
  rw [hc]
  intro h
  injection h with h
  omega

theorem C26_index_map_without_padding_witness :
    ∃ V2 : List Int,
      TCpu.Im2colIndices (List.replicate 36 (0 : Int)) (TCpuMatrix.zeros 1 16 : TCpuMatrix Int)
          4 4 4 3 3 1 1 0 0 = Except.ok V2
        ∧ V2.length = (List.replicate 36 (0 : Int)).length
        ∧ (∀ idx, idx < V2.length → V2[idx]? ≠ some (-1))
        ∧ ∀ vr, vr < (4 - 3) / 1 + 1 → ∀ vc, vc < (4 - 3) / 1 + 1 →
          ∀ ch, ch < 1 → ∀ u, u < 3 → ∀ w, w < 3 →
            vr * 1 + u < 4 ∧ vc * 1 + w < 4
            ∧ V2[(((ch * 3 + u) * 3 + w) * 4 + (vr * ((4 - 3) / 1 + 1) + vc) : Nat)]?
              = some (((vr * 1 + u) * 4 * 1 + (vc * 1 + w) * 1 + ch : Nat) : Int) :=
  C26_index_map_without_padding (List.replicate 36 (0 : Int))
    (TCpuMatrix.zeros 1 16 : TCpuMatrix Int)
    4 4 4 3 3 1 1 1 (by decide) (by decide) (by decide) (by decide) rfl rfl (by decide)
    (by decide) ⟨by norm_num, by norm_num, by norm_num, by norm_num, by norm_num, by norm_num⟩
    (by norm_num)

/-! ## Independence of the batch elements -/

theorem vecAt_ok_inv {β : Type} {v : List β} {i : Nat} {x : β}
    (h : vecAt v i = Except.ok x) : v[i]? = some x := by
  unfold vecAt at h
  cases hv : v[i]? with
  | none =>
    rw [hv] at h
    cases h
  | some y =>
    rw [hv] at h
    cases h
    rfl

theorem lt_length_of_getElem? {β : Type} {v : List β} {i : Nat} {x : β}
    (h : v[i]? = some x) : i < v.length := by
  by_contra hn
  rw [List.getElem?_eq_none (le_of_not_lt hn)] at h
  cases h

/-- A loop over batch elements whose step `i` reads and writes only entry
`i` of the two batches gives the same result for every order of the same
elements. -/
theorem foldlM_perm_of_local {A B : Type}
    (step : List A × List B → Nat → Except Failure (List A × List B))
    (hloc : ∀ s i s2, step s i = Except.ok s2 → ∃ o d, s2 = (s.1.set i o, s.2.set i d)
      ∧ ∀ t : List A × List B, t.1[i]? = s.1[i]? → t.2[i]? = s.2[i]? →
          step t i = Except.ok (t.1.set i o, t.2.set i d))
    {l1 l2 : List Nat} (hp : l1.Perm l2) :
    ∀ s r, l1.foldlM step s = Except.ok r → l2.foldlM step s = Except.ok r := by
  induction hp with
  | nil =>
    intro s r h
    exact h
  | cons x _ ih =>
    intro s r h
    rw [List.foldlM_cons] at h
    rw [List.foldlM_cons]
    obtain ⟨s1, e1, e2⟩ := Except_bind_inv _ _ _ h
    exact (Except_bind_ok _ s1 _ e1).trans (ih s1 r e2)
  | swap x y l =>
    intro s r h
    rw [List.foldlM_cons] at h
    obtain ⟨s1, e1, k1⟩ := Except_bind_inv _ _ _ h
    rw [List.foldlM_cons] at k1
    obtain ⟨s2, e2, k2⟩ := Except_bind_inv _ _ _ k1
    by_cases hxy : x = y
    · subst hxy
      rw [List.foldlM_cons]
      refine (Except_bind_ok _ s1 _ e1).trans ?_
      rw [List.foldlM_cons]
      exact (Except_bind_ok _ s2 _ e2).trans k2
    · obtain ⟨o, d, hs1, T1⟩ := hloc s y s1 e1
      obtain ⟨o2, d2, hs2, T2⟩ := hloc s1 x s2 e2
      have hyx : y ≠ x := fun e => hxy e.symm
      have f1 : step s x = Except.ok (s.1.set x o2, s.2.set x d2) := by
        apply T2 s
        · rw [hs1]
          exact (getElem?_set_of_ne s.1 y x o hyx).symm
        · rw [hs1]
          exact (getElem?_set_of_ne s.2 y x d hyx).symm
      have f2 : step (s.1.set x o2, s.2.set x d2) y
          = Except.ok ((s.1.set x o2).set y o, (s.2.set x d2).set y d) := by
        apply T1 (s.1.set x o2, s.2.set x d2)
        · exact getElem?_set_of_ne s.1 x y o2 hxy
        · exact getElem?_set_of_ne s.2 x y d2 hxy
      have hs2b : s2 = ((s.1.set x o2).set y o, (s.2.set x d2).set y d) := by
        rw [hs2, hs1]
        show ((s.1.set y o).set x o2, (s.2.set y d).set x d2) = _
        rw [List.set_comm o o2 s.1 hyx, List.set_comm d d2 s.2 hyx]
      rw [List.foldlM_cons]
      refine (Except_bind_ok _ _ _ f1).trans ?_
      rw [List.foldlM_cons]
      refine (Except_bind_ok _ _ _ f2).trans ?_
      rw [← hs2b]
      exact k2
  | trans _ _ ih1 ih2 =>
    intro s r h
    exact ih2 s r (ih1 s r h)

/-- Two loops over the same batch elements whose steps write only their own
entry and agree on entry `i` leave the same entry `i`. -/
theorem foldlM_agree_of_local {A B : Type}
    (step step2 : List A × List B → Nat → Except Failure (List A × List B)) (i : Nat)
    (hfr : ∀ s x s2, step s x = Except.ok s2 →
      ∀ k, k ≠ x → s2.1[k]? = s.1[k]? ∧ s2.2[k]? = s.2[k]?)
    (hfr2 : ∀ s x s2, step2 s x = Except.ok s2 →
      ∀ k, k ≠ x → s2.1[k]? = s.1[k]? ∧ s2.2[k]? = s.2[k]?)
    (hagree : ∀ s t s2 t2, s.1[i]? = t.1[i]? → s.2[i]? = t.2[i]? →
      step s i = Except.ok s2 → step2 t i = Except.ok t2 →
      s2.1[i]? = t2.1[i]? ∧ s2.2[i]? = t2.2[i]?)
    (l : List Nat) :
    ∀ s t r r2, s.1[i]? = t.1[i]? → s.2[i]? = t.2[i]? →
      l.foldlM step s = Except.ok r → l.foldlM step2 t = Except.ok r2 →
      r.1[i]? = r2.1[i]? ∧ r.2[i]? = r2.2[i]? := by
  induction l with
  | nil =>
    intro s t r r2 h1 h2 e1 e2
    cases e1
    cases e2
    exact ⟨h1, h2⟩
  | cons x l ih =>
    intro s t r r2 h1 h2 e1 e2
    rw [List.foldlM_cons] at e1 e2
    obtain ⟨s1, a1, c1⟩ := Except_bind_inv _ _ _ e1
    obtain ⟨t1, b1, c2⟩ := Except_bind_inv _ _ _ e2
    by_cases hx : i = x
    · subst hx
      obtain ⟨g1, g2⟩ := hagree s t s1 t1 h1 h2 a1 b1
      exact ih s1 t1 r r2 g1 g2 c1 c2
    · obtain ⟨g1, g2⟩ := hfr s x s1 a1 i hx
      obtain ⟨g3, g4⟩ := hfr2 t x t1 b1 i hx
      exact ih s1 t1 r r2 (g1.trans (h1.trans g3.symm)) (g2.trans (h2.trans g4.symm)) c1 c2

theorem ConvLayerForward_f_eq {α : Type} [Zero α] [One α] [Add α] [Mul α]
    (act : Activations α) (fOnes : List α) (input : List (TCpuMatrix α))
    (weights biases : TCpuMatrix α) (activFunc : EActivationFunction) (nLV P : Nat)
    (V : List Int) (s : List (TCpuMatrix α) × List (TCpuMatrix α)) (i : Nat) :
    TCpu.ConvLayerForward.f act fOnes input weights biases activFunc nLV P V s i
      = vecAt input i >>= fun input_i =>
        TCpu.Im2colFast (TCpuMatrix.zeros nLV P) input_i V >>= fun inputTr =>
        vecAt s.1 i >>= fun output_i =>
        TCpu.MultiplyTranspose output_i weights inputTr >>= fun o1 =>
        TCpu.AddConvBiases fOnes o1 biases >>= fun o2 =>
        vecAt s.2 i >>= fun d_i =>
        Except.ok (s.1.set i (evaluate act o2 activFunc),
          s.2.set i (evaluateDerivative act d_i activFunc o2)) := rfl

/-- Step `i` of `ConvLayerForward` reads `input[i]`, `output[i]` and
`derivatives[i]` only, and writes `output[i]` and `derivatives[i]` only: a
completed step is a pair of writes at `i`, and the step does the same two
writes from every state and every input batch with the same entries `i`. -/
theorem ConvLayerForward_f_transfer {α : Type} [Zero α] [One α] [Add α] [Mul α]
    (act : Activations α) (fOnes : List α) (input input2 : List (TCpuMatrix α))
    (weights biases : TCpuMatrix α) (activFunc : EActivationFunction) (nLV P : Nat)
    (V : List Int) (i : Nat) (hin : input[i]? = input2[i]?)
    (s s2 : List (TCpuMatrix α) × List (TCpuMatrix α))
    (h : TCpu.ConvLayerForward.f act fOnes input weights biases activFunc nLV P V s i
      = Except.ok s2) :
    ∃ o d, s2 = (s.1.set i o, s.2.set i d) ∧ i < s.1.length ∧ i < s.2.length
      ∧ ∀ t : List (TCpuMatrix α) × List (TCpuMatrix α),
          t.1[i]? = s.1[i]? → t.2[i]? = s.2[i]? →
          TCpu.ConvLayerForward.f act fOnes input2 weights biases activFunc nLV P V t i
            = Except.ok (t.1.set i o, t.2.set i d) := by
  rw [ConvLayerForward_f_eq] at h
  obtain ⟨a, ea, h⟩ := Except_bind_inv _ _ _ h
  obtain ⟨G, eG, h⟩ := Except_bind_inv _ _ _ h
  obtain ⟨b, eb, h⟩ := Except_bind_inv _ _ _ h
  obtain ⟨o1, e1, h⟩ := Except_bind_inv _ _ _ h
  obtain ⟨o2, e2, h⟩ := Except_bind_inv _ _ _ h
  obtain ⟨dd, ed, h⟩ := Except_bind_inv _ _ _ h
  have hs2 := Except.ok.inj h
  have ha := vecAt_ok_inv ea
  have hb := vecAt_ok_inv eb
  have hd := vecAt_ok_inv ed
  refine ⟨_, _, hs2.symm, lt_length_of_getElem? hb, lt_length_of_getElem? hd, ?_⟩
  intro t h1 h2
  rw [ConvLayerForward_f_eq]
  refine (Except_bind_ok _ a _ (vecAt_eq_ok (hin ▸ ha))).trans ?_
  refine (Except_bind_ok _ G _ eG).trans ?_
  refine (Except_bind_ok _ b _ (vecAt_eq_ok (h1.trans hb))).trans ?_
  refine (Except_bind_ok _ o1 _ e1).trans ?_
  refine (Except_bind_ok _ o2 _ e2).trans ?_
  exact (Except_bind_ok _ dd _ (vecAt_eq_ok (h2.trans hd))).trans rfl

theorem ConvLayerForward_scheduled_eq {α : Type} [Zero α] [One α] [Add α] [Mul α]
    (order : List Nat) (act : Activations α) (fOnes : List α)
    (output derivatives input : List (TCpuMatrix α)) (weights biases : TCpuMatrix α)
    (params : TConvParams) (activFunc : EActivationFunction) :
    TCpu.ConvLayerForward.scheduled order act fOnes output derivatives input weights biases
        params activFunc
      = TCpu.calculateDimension params.inputHeight params.filterHeight params.paddingHeight
          params.strideRows >>= fun height =>
        TCpu.calculateDimension params.inputWidth params.filterWidth params.paddingWidth
          params.strideCols >>= fun width =>
        if ¬ (input.length > 0) then Except.error Failure.Assert
        else
          vecAt input 0 >>= fun input0 =>
          TCpu.Im2colIndices
            (List.replicate (height * width
              * (params.inputDepth * params.filterHeight * params.filterWidth)) 0) input0
            (height * width) params.inputHeight params.inputWidth params.filterHeight
            params.filterWidth params.strideRows params.strideCols params.paddingHeight
            params.paddingWidth >>= fun forwardIndices =>
          vecAt output 0 >>= fun output0 =>
          order.foldlM
            (TCpu.ConvLayerForward.f act
              (TCpu.InitializeOneVector (TCpu.InitializeOneVector fOnes (height * width))
                output0.GetNcols)
              input weights biases activFunc (height * width)
              (params.inputDepth * params.filterHeight * params.filterWidth) forwardIndices)
            (output, derivatives) := rfl

theorem ConvLayerForward_eq_scheduled {α : Type} [Zero α] [One α] [Add α] [Mul α]
    (act : Activations α) (fOnes : List α)
    (output derivatives input : List (TCpuMatrix α)) (weights biases : TCpuMatrix α)
    (params : TConvParams) (activFunc : EActivationFunction) :
    TCpu.ConvLayerForward act fOnes output derivatives input weights biases params activFunc
      = TCpu.ConvLayerForward.scheduled (List.range input.length) act fOnes output derivatives
          input weights biases params activFunc := rfl

theorem ConvLayerForward_scheduled_perm {α : Type} [Zero α] [One α] [Add α] [Mul α]
    (l1 l2 : List Nat) (hp : l1.Perm l2) (act : Activations α) (fOnes : List α)
    (output derivatives input : List (TCpuMatrix α)) (weights biases : TCpuMatrix α)
    (params : TConvParams) (activFunc : EActivationFunction)
    (r : List (TCpuMatrix α) × List (TCpuMatrix α))
    (h : TCpu.ConvLayerForward.scheduled l1 act fOnes output derivatives input weights biases
      params activFunc = Except.ok r) :
    TCpu.ConvLayerForward.scheduled l2 act fOnes output derivatives input weights biases
      params activFunc = Except.ok r := by
  rw [ConvLayerForward_scheduled_eq] at h
  rw [ConvLayerForward_scheduled_eq]
  obtain ⟨height, e1, h⟩ := Except_bind_inv _ _ _ h
  obtain ⟨width, e2, h⟩ := Except_bind_inv _ _ _ h
  refine (Except_bind_ok _ height _ e1).trans ?_
  refine (Except_bind_ok _ width _ e2).trans ?_
  by_cases hlen : ¬ (input.length > 0)
  · rw [if_pos hlen] at h
    cases h
  · rw [if_neg hlen] at h
    rw [if_neg hlen]
    obtain ⟨input0, e3, h⟩ := Except_bind_inv _ _ _ h
    obtain ⟨V, e4, h⟩ := Except_bind_inv _ _ _ h
    obtain ⟨output0, e5, h⟩ := Except_bind_inv _ _ _ h
    refine (Except_bind_ok _ input0 _ e3).trans ?_
    refine (Except_bind_ok _ V _ e4).trans ?_
    refine (Except_bind_ok _ output0 _ e5).trans ?_
    refine foldlM_perm_of_local _ ?_ hp _ _ h
    intro s i s2 hs
    obtain ⟨o, d, q1, _, _, q2⟩ := ConvLayerForward_f_transfer act _ input input weights biases
      activFunc _ _ V i rfl s s2 hs
    exact ⟨o, d, q1, q2⟩

theorem ConvLayerForward_f_frame {α : Type} [Zero α] [One α] [Add α] [Mul α]
    (act : Activations α) (fOnes : List α) (input : List (TCpuMatrix α))
    (weights biases : TCpuMatrix α) (activFunc : EActivationFunction) (nLV P : Nat)
    (V : List Int) (s : List (TCpuMatrix α) × List (TCpuMatrix α)) (x : Nat)
    (s2 : List (TCpuMatrix α) × List (TCpuMatrix α))
    (h : TCpu.ConvLayerForward.f act fOnes input weights biases activFunc nLV P V s x
      = Except.ok s2) :
    s2.1.length = s.1.length ∧ s2.2.length = s.2.length
      ∧ ∀ k, k ≠ x → s2.1[k]? = s.1[k]? ∧ s2.2[k]? = s.2[k]? := by
  obtain ⟨o, d, q1, _, _, _⟩ := ConvLayerForward_f_transfer act fOnes input input weights biases
    activFunc nLV P V x rfl s s2 h
  rw [q1]
  refine ⟨List.length_set _ _ _, List.length_set _ _ _, ?_⟩
  intro k hk
  exact ⟨getElem?_set_of_ne s.1 x k o (fun e => hk e.symm),
    getElem?_set_of_ne s.2 x k d (fun e => hk e.symm)⟩

theorem ConvLayerForward_scheduled_agree {α : Type} [Zero α] [One α] [Add α] [Mul α]
    (order : List Nat) (act : Activations α) (fOnes : List α)
    (output derivatives input input2 : List (TCpuMatrix α)) (weights biases : TCpuMatrix α)
    (params : TConvParams) (activFunc : EActivationFunction) (i : Nat)
    (hrows : (batchAt input 0).GetNrows = (batchAt input2 0).GetNrows)
    (hcols : (batchAt input 0).GetNcols = (batchAt input2 0).GetNcols)
    (hi : input[i]? = input2[i]?)
    (r r2 : List (TCpuMatrix α) × List (TCpuMatrix α))
    (h : TCpu.ConvLayerForward.scheduled order act fOnes output derivatives input weights biases
      params activFunc = Except.ok r)
    (h2 : TCpu.ConvLayerForward.scheduled order act fOnes output derivatives input2 weights
      biases params activFunc = Except.ok r2) :
    r.1[i]? = r2.1[i]? ∧ r.2[i]? = r2.2[i]? := by
  rw [ConvLayerForward_scheduled_eq] at h h2
  obtain ⟨height, e1, h⟩ := Except_bind_inv _ _ _ h
  obtain ⟨width, e2, h⟩ := Except_bind_inv _ _ _ h
  rw [Except_bind_ok _ height _ e1, Except_bind_ok _ width _ e2] at h2
  by_cases hlen : ¬ (input.length > 0)
  · rw [if_pos hlen] at h
    cases h
  · rw [if_neg hlen] at h
    by_cases hlen2 : ¬ (input2.length > 0)
    · rw [if_pos hlen2] at h2
      cases h2
    · rw [if_neg hlen2] at h2
      obtain ⟨a0, e3, h⟩ := Except_bind_inv _ _ _ h
      obtain ⟨V, e4, h⟩ := Except_bind_inv _ _ _ h
      obtain ⟨o0, e5, h⟩ := Except_bind_inv _ _ _ h
      obtain ⟨b0, f3, h2⟩ := Except_bind_inv _ _ _ h2
      obtain ⟨V2, f4, h2⟩ := Except_bind_inv _ _ _ h2
      rw [Except_bind_ok _ o0 _ e5] at h2
      have ha0 : batchAt input 0 = a0 := batchAt_of_getElem? (vecAt_ok_inv e3)
      have hb0 : batchAt input2 0 = b0 := batchAt_of_getElem? (vecAt_ok_inv f3)
      rw [ha0, hb0] at hrows hcols
      have hV : V2 = V := by
        rw [Im2colIndices_congr _ a0 b0 _ _ _ _ _ _ _ _ _ hrows hcols] at e4
        exact Except.ok.inj (f4.symm.trans e4)
      rw [hV] at h2
      refine foldlM_agree_of_local _ _ i ?_ ?_ ?_ order (output, derivatives)
        (output, derivatives) r r2 rfl rfl h h2
      · intro s x s2 hs
        exact (ConvLayerForward_f_frame act _ input weights biases activFunc _ _ V s x s2 hs).2.2
      · intro s x s2 hs
        exact (ConvLayerForward_f_frame act _ input2 weights biases activFunc _ _ V s x s2 hs).2.2
      · intro s t s2 t2 g1 g2 hs ht
        obtain ⟨o, d, q1, q2, q3, q4⟩ := ConvLayerForward_f_transfer act _ input input2 weights
          biases activFunc _ _ V i hi s s2 hs
        have ht2 := (q4 t g1.symm g2.symm).symm.trans ht
        have ht3 := Except.ok.inj ht2
        rw [q1, ← ht3]
        have l1 : i < t.1.length :=
          lt_length_of_getElem? (g1.symm.trans (getElem?_batchAt q2))
        have l2 : i < t.2.length :=
          lt_length_of_getElem? (g2.symm.trans (getElem?_batchAt q3))
        exact ⟨(getElem?_set_same s.1 i o q2).trans (getElem?_set_same t.1 i o l1).symm,
          (getElem?_set_same s.2 i d q3).trans (getElem?_set_same t.2 i d l2).symm⟩

/-- C23: batch elements are independent in `ConvLayerForward`.  (1) For two
input batches of the same length and the same shapes that agree on element
`i`, and the same other arguments, two completed calls leave the same
`output[i]` and the same `derivatives[i]`.  (2) A completed step for batch
element `x` keeps the lengths of the two batches and every entry other than
`output[x]` and `derivatives[x]`.  (3) For every order in which the batch
elements `0, ..., input.size() - 1` are processed, the call returns a result
exactly when the in-order call returns it: the final outputs and derivatives
do not depend on the order. -/
theorem C23_batch_elements_independent {α : Type} [Zero α] [One α] [Add α] [Mul α]
    (act : Activations α) (fOnes : List α)
    (output derivatives input input2 : List (TCpuMatrix α)) (weights biases : TCpuMatrix α)
    (params : TConvParams) (activFunc : EActivationFunction) (i : Nat)
    (hlen : input.length = input2.length)
    (hshape : ∀ j, j < input.length →
      (batchAt input j).GetNrows = (batchAt input2 j).GetNrows
        ∧ (batchAt input j).GetNcols = (batchAt input2 j).GetNcols)
    (hi : input[i]? = input2[i]?) :
    (∀ r r2,
        TCpu.ConvLayerForward act fOnes output derivatives input weights biases params activFunc
          = Except.ok r →
        TCpu.ConvLayerForward act fOnes output derivatives input2 weights biases params
          activFunc = Except.ok r2 →
        r.1[i]? = r2.1[i]? ∧ r.2[i]? = r2.2[i]?)
    ∧ (∀ (ones : List α) (nLV P : Nat) (V : List Int)
        (s s2 : List (TCpuMatrix α) × List (TCpuMatrix α)) (x : Nat),
        TCpu.ConvLayerForward.f act ones input weights biases activFunc nLV P V s x
          = Except.ok s2 →
        s2.1.length = s.1.length ∧ s2.2.length = s.2.length
          ∧ ∀ k, k ≠ x → s2.1[k]? = s.1[k]? ∧ s2.2[k]? = s.2[k]?)
    ∧ (∀ order : List Nat, order.Perm (List.range input.length) → ∀ r,
        (TCpu.ConvLayerForward.scheduled order act fOnes output derivatives input weights
            biases params activFunc = Except.ok r
          ↔ TCpu.ConvLayerForward act fOnes output derivatives input weights biases params
            activFunc = Except.ok r)) := by
  refine ⟨?_, ?_, ?_⟩
  · intro r r2 h h2
    rw [ConvLayerForward_eq_scheduled] at h h2
    rw [← hlen] at h2
    have hs : (batchAt input 0).GetNrows = (batchAt input2 0).GetNrows
        ∧ (batchAt input 0).GetNcols = (batchAt input2 0).GetNcols := by
      by_cases hpos : 0 < input.length
      · exact hshape 0 hpos
      · have e1 : input = [] := List.length_eq_zero.mp (by omega)
        have e2 : input2 = [] := List.length_eq_zero.mp (by omega)
        rw [e1, e2]
        exact ⟨rfl, rfl⟩
    exact ConvLayerForward_scheduled_agree _ act fOnes output derivatives input input2 weights
      biases params activFunc i hs.1 hs.2 hi r r2 h h2
  · intro ones nLV P V s s2 x h
    exact ConvLayerForward_f_frame act ones input weights biases activFunc nLV P V s x s2 h
  · intro order hp r
    rw [ConvLayerForward_eq_scheduled]
    exact ⟨ConvLayerForward_scheduled_perm _ _ hp act fOnes output derivatives input weights
        biases params activFunc r,
      ConvLayerForward_scheduled_perm _ _ hp.symm act fOnes output derivatives input weights
        biases params activFunc r⟩

set_option maxRecDepth 100000 in
theorem C23_batch_elements_independent_witness :
    batchA[1]? = batchB[1]? ∧ batchA[0]? ≠ batchB[0]?
    ∧ TCpu.ConvLayerForward identityActivations (List.replicate 4 1)
        [TCpuMatrix.zeros 1 4, TCpuMatrix.zeros 1 4] [TCpuMatrix.zeros 1 4, TCpuMatrix.zeros 1 4]
        batchA (TCpuMatrix.ofRows 1 4 [[1, 2, 3, 4]]) (TCpuMatrix.ofRows 1 1 [[10]])
        batchParams EActivationFunction.kIdentity
      = Except.ok
        ([TCpuMatrix.ofRows 1 4 [[47, 57, 77, 87]], TCpuMatrix.ofRows 1 4 [[73, 63, 43, 33]]],
         [TCpuMatrix.ofRows 1 4 [[1, 1, 1, 1]], TCpuMatrix.ofRows 1 4 [[1, 1, 1, 1]]])
    ∧ TCpu.ConvLayerForward identityActivations (List.replicate 4 1)
        [TCpuMatrix.zeros 1 4, TCpuMatrix.zeros 1 4] [TCpuMatrix.zeros 1 4, TCpuMatrix.zeros 1 4]
        batchB (TCpuMatrix.ofRows 1 4 [[1, 2, 3, 4]]) (TCpuMatrix.ofRows 1 1 [[10]])
        batchParams EActivationFunction.kIdentity
      = Except.ok
        ([TCpuMatrix.ofRows 1 4 [[30, 25, 20, 15]], TCpuMatrix.ofRows 1 4 [[73, 63, 43, 33]]],
         [TCpuMatrix.ofRows 1 4 [[1, 1, 1, 1]], TCpuMatrix.ofRows 1 4 [[1, 1, 1, 1]]])
    ∧ ([TCpuMatrix.ofRows 1 4 [[47, 57, 77, 87]], TCpuMatrix.ofRows 1 4 [[73, 63, 43, 33]]]
          : List (TCpuMatrix Int))[1]?
        = ([TCpuMatrix.ofRows 1 4 [[30, 25, 20, 15]], TCpuMatrix.ofRows 1 4 [[73, 63, 43, 33]]]
          : List (TCpuMatrix Int))[1]?
    ∧ TCpu.ConvLayerForward.scheduled [1, 0] identityActivations (List.replicate 4 1)
        [TCpuMatrix.zeros 1 4, TCpuMatrix.zeros 1 4] [TCpuMatrix.zeros 1 4, TCpuMatrix.zeros 1 4]
        batchA (TCpuMatrix.ofRows 1 4 [[1, 2, 3, 4]]) (TCpuMatrix.ofRows 1 1 [[10]])
        batchParams EActivationFunction.kIdentity
      = Except.ok
        ([TCpuMatrix.ofRows 1 4 [[47, 57, 77, 87]], TCpuMatrix.ofRows 1 4 [[73, 63, 43, 33]]],
         [TCpuMatrix.ofRows 1 4 [[1, 1, 1, 1]], TCpuMatrix.ofRows 1 4 [[1, 1, 1, 1]]]) :=
  ⟨by decide, by decide, by decide, by decide,
    ((C23_batch_elements_independent identityActivations (List.replicate 4 1)
      [TCpuMatrix.zeros 1 4, TCpuMatrix.zeros 1 4] [TCpuMatrix.zeros 1 4, TCpuMatrix.zeros 1 4]
      batchA batchB (TCpuMatrix.ofRows 1 4 [[1, 2, 3, 4]]) (TCpuMatrix.ofRows 1 1 [[10]])
      batchParams EActivationFunction.kIdentity 1 (by decide) (by decide) (by decide)).1
      ([TCpuMatrix.ofRows 1 4 [[47, 57, 77, 87]], TCpuMatrix.ofRows 1 4 [[73, 63, 43, 33]]],
       [TCpuMatrix.ofRows 1 4 [[1, 1, 1, 1]], TCpuMatrix.ofRows 1 4 [[1, 1, 1, 1]]])
      ([TCpuMatrix.ofRows 1 4 [[30, 25, 20, 15]], TCpuMatrix.ofRows 1 4 [[73, 63, 43, 33]]],
       [TCpuMatrix.ofRows 1 4 [[1, 1, 1, 1]], TCpuMatrix.ofRows 1 4 [[1, 1, 1, 1]]])
      (by decide) (by decide)).1,
    ((C23_batch_elements_independent identityActivations (List.replicate 4 1)
      [TCpuMatrix.zeros 1 4, TCpuMatrix.zeros 1 4] [TCpuMatrix.zeros 1 4, TCpuMatrix.zeros 1 4]
      batchA batchB (TCpuMatrix.ofRows 1 4 [[1, 2, 3, 4]]) (TCpuMatrix.ofRows 1 1 [[10]])
      batchParams EActivationFunction.kIdentity 1 (by decide) (by decide) (by decide)).2.2
      [1, 0] (List.Perm.swap 0 1 [])
      ([TCpuMatrix.ofRows 1 4 [[47, 57, 77, 87]], TCpuMatrix.ofRows 1 4 [[73, 63, 43, 33]]],
       [TCpuMatrix.ofRows 1 4 [[1, 1, 1, 1]], TCpuMatrix.ofRows 1 4 [[1, 1, 1, 1]]])).2
      (by decide)⟩

/-! ## The dense convolution matrix -/

theorem whileLoop_of_not_cond {σ : Type} (cond : σ → Bool) (body : σ → σ) (fuel : Nat) (s : σ)
    (h : cond s = false) : whileLoop cond body fuel s = s := by
  cases fuel with
  | zero => rfl
  | succ n =>
    rw [whileLoop]
    simp [h]

theorem whileLoop_succ_of_cond {σ : Type} (cond : σ → Bool) (body : σ → σ) (fuel : Nat) (s : σ)
    (h : cond s = true) :
    whileLoop cond body (fuel + 1) s = whileLoop cond body fuel (body s) := by
  rw [whileLoop]
  simp [h]

/-- A `while` loop with an invariant and a measure that every iteration
decreases: with fuel for the measure, the loop ends with the invariant and
with its condition false. -/
theorem whileLoop_spec {σ : Type} (cond : σ → Bool) (body : σ → σ) (Inv : σ → Prop)
    (μ : σ → Nat)
    (hstep : ∀ s, Inv s → cond s = true → Inv (body s) ∧ μ (body s) < μ s) :
    ∀ (fuel : Nat) (s : σ), Inv s → μ s ≤ fuel →
      Inv (whileLoop cond body fuel s) ∧ cond (whileLoop cond body fuel s) = false := by
  intro fuel
  induction fuel with
  | zero =>
    intro s hI hμ
    have hc : cond s = false := by
      cases hcs : cond s with
      | false => rfl
      | true =>
        have := (hstep s hI hcs).2
        omega
    rw [whileLoop_of_not_cond cond body 0 s hc]
    exact ⟨hI, hc⟩
  | succ n ih =>
    intro s hI hμ
    cases hcs : cond s with
    | false =>
      rw [whileLoop_of_not_cond cond body (n + 1) s hcs]
      exact ⟨hI, hcs⟩
    | true =>
      rw [whileLoop_succ_of_cond cond body n s hcs]
      obtain ⟨h1, h2⟩ := hstep s hI hcs
      exact ih (body s) h1 (by omega)

theorem setElem_fNRows {α : Type} (A : TCpuMatrix α) (i j : Nat) (v : α) :
    (A.setElem i j v).fNRows = A.fNRows := rfl

theorem setElem_fNCols {α : Type} (A : TCpuMatrix α) (i j : Nat) (v : α) :
    (A.setElem i j v).fNCols = A.fNCols := rfl

theorem setElem_fBuffer {α : Type} (A : TCpuMatrix α) (i j : Nat) (v : α) :
    (A.setElem i j v).fBuffer = A.fBuffer.set (j * A.fNRows + i) v := rfl

theorem getElem?_set_eq_map {β : Type} (l l0 : List β) (k idx : Nat) (v : β)
    (hlen : l.length = l0.length) (h : idx = k) :
    (l.set k v)[idx]? = (l0[idx]?).map (fun _ => v) := by
  subst h
  by_cases hk : idx < l.length
  · rw [getElem?_set_same l idx v hk, List.getElem?_eq_getElem (hlen ▸ hk)]
    rfl
  · rw [List.getElem?_eq_none (by rw [List.length_set]; omega),
      List.getElem?_eq_none (by omega)]
    rfl

theorem GenerateColumnarMatrix_eq {α : Type} [Zero α] [One α] [Add α] [Mul α]
    (input c0 : TCpuMatrix α) :
    TCpu.GenerateColumnarMatrix input [c0]
      = Except.ok [(List.range input.GetNrows).foldl
          (fun (c : TCpuMatrix α) (i : Nat) =>
            (List.range input.GetNcols).foldl
              (fun (c : TCpuMatrix α) (j : Nat) =>
                c.setElem (i * input.GetNcols + j) 0 (input.elem i j))
              c)
          c0] := rfl

/-- `GenerateColumnarMatrix` on a column of `rows * cols` cells: the column
holds the row-major flattening of `input`. -/
theorem GenerateColumnarMatrix_spec {α : Type} [Zero α] [One α] [Add α] [Mul α]
    (input c0 : TCpuMatrix α)
    (hlen : c0.fBuffer.length = input.GetNrows * input.GetNcols) :
    ∃ c : TCpuMatrix α, TCpu.GenerateColumnarMatrix input [c0] = Except.ok [c]
      ∧ c.fNRows = c0.fNRows ∧ c.fNCols = c0.fNCols ∧ c.fBuffer.length = c0.fBuffer.length
      ∧ ∀ i, i < input.GetNrows → ∀ j, j < input.GetNcols →
          c.fBuffer[i * input.GetNcols + j]? = some (input.elem i j) := by
  refine ⟨_, GenerateColumnarMatrix_eq input c0, ?_⟩
  have e : (List.range input.GetNrows).foldl
          (fun (c : TCpuMatrix α) (i : Nat) =>
            (List.range input.GetNcols).foldl
              (fun (c : TCpuMatrix α) (j : Nat) =>
                c.setElem (i * input.GetNcols + j) 0 (input.elem i j))
              c)
          c0
      = (List.range (input.GetNrows * input.GetNcols)).foldl
          (fun (c : TCpuMatrix α) (q : Nat) =>
            c.setElem q 0 (input.elem (q / input.GetNcols) (q % input.GetNcols))) c0 :=
    foldl_range_mul
      (fun (i j : Nat) (c : TCpuMatrix α) =>
        c.setElem (i * input.GetNcols + j) 0 (input.elem i j))
      (fun (c : TCpuMatrix α) (q : Nat) =>
        c.setElem q 0 (input.elem (q / input.GetNcols) (q % input.GetNcols)))
      input.GetNcols
      (by
        intro k l hl s
        obtain ⟨e1, e2⟩ := @cell_div_mod input.GetNcols l k hl
        beta_reduce
        rw [e1, e2])
      input.GetNrows c0
  rw [e]
  have hinv := foldl_range_inv
    (fun (c : TCpuMatrix α) (q : Nat) =>
      c.setElem q 0 (input.elem (q / input.GetNcols) (q % input.GetNcols)))
    (fun n c => c.fNRows = c0.fNRows ∧ c.fNCols = c0.fNCols
      ∧ c.fBuffer.length = c0.fBuffer.length
      ∧ ∀ q, q < n → q < c0.fBuffer.length →
          c.fBuffer[q]? = some (input.elem (q / input.GetNcols) (q % input.GetNcols)))
    (input.GetNrows * input.GetNcols) c0
    ⟨rfl, rfl, rfl, fun q hq => absurd hq (Nat.not_lt_zero q)⟩
    (by
      intro k _ c hc
      obtain ⟨c1, c2, c3, c4⟩ := hc
      beta_reduce
      refine ⟨c1, c2, ?_, ?_⟩
      · rw [setElem_fBuffer, List.length_set]
        exact c3
      · intro q hq hql
        rw [setElem_fBuffer, Nat.zero_mul, Nat.zero_add]
        by_cases hqk : q = k
        · subst hqk
          exact getElem?_set_same _ _ _ (by omega)
        · rw [getElem?_set_of_ne _ _ _ _ (fun e => hqk e.symm)]
          exact c4 q (by omega) hql)
  obtain ⟨h1, h2, h3, h4⟩ := hinv
  refine ⟨h1, h2, h3, ?_⟩
  intro i hi j hj
  have hlt : i * input.GetNcols + j < input.GetNrows * input.GetNcols := view_lt hi hj
  obtain ⟨e1, e2⟩ := @cell_div_mod input.GetNcols j i hj
  have h5 := h4 (i * input.GetNcols + j) hlt (by omega)
  rw [e1, e2] at h5
  exact h5

theorem succ_div_mod (n m : Nat) (hm : 0 < m) :
    ((n + 1) % m = 0 → (n + 1) / m = n / m + 1 ∧ n % m + 1 = m)
    ∧ ((n + 1) % m ≠ 0 → (n + 1) / m = n / m ∧ (n + 1) % m = n % m + 1) := by
  have h1 := Nat.div_add_mod n m
  have h2 := Nat.mod_lt n hm
  by_cases ht : n % m + 1 = m
  · have key : (n + 1) / m = n / m + 1 ∧ (n + 1) % m = 0 := by
      rw [Nat.div_mod_unique hm]
      refine ⟨?_, hm⟩
      rw [Nat.mul_add, Nat.mul_one]
      omega
    exact ⟨fun _ => ⟨key.1, ht⟩, fun h => absurd key.2 h⟩
  · have key : (n + 1) / m = n / m ∧ (n + 1) % m = n % m + 1 := by
      rw [Nat.div_mod_unique hm]
      refine ⟨?_, by omega⟩
      omega
    refine ⟨fun h => ?_, fun _ => key⟩
    rw [key.2] at h
    omega

theorem map_const_getElem? {β : Type} (l l0 : List β) (idx : Nat) (v : β)
    (hlen : l.length = l0.length) :
    (l[idx]?).map (fun _ => v) = (l0[idx]?).map (fun _ => v) := by
  by_cases h : idx < l.length
  · rw [List.getElem?_eq_getElem h, List.getElem?_eq_getElem (hlen ▸ h)]
    rfl
  · rw [List.getElem?_eq_none (by omega), List.getElem?_eq_none (by omega)]

/-- Once the weight index has reached the number of weights at row `j`, no
weight cell lies at or below row `j`. -/
theorem columnCell_zero_of_exhausted {α : Type} [Zero α] [One α] [Add α] [Mul α]
    (weights : TCpuMatrix α) (p j row : Nat) (hpj : p ≤ j) (hjr : j ≤ row)
    (hge : weights.GetNrows * weights.GetNcols
      ≤ (j - p) / (weights.GetNcols + 1) * weights.GetNcols
        + (j - p) % (weights.GetNcols + 1)) :
    TCpu.GenerateConvMatrix.columnCell weights p row = 0 := by
  have hw : 0 < weights.GetNcols + 1 := Nat.succ_pos _
  unfold TCpu.GenerateConvMatrix.columnCell
  rw [if_neg]
  rintro ⟨_, ht, hq⟩
  have a1 := Nat.div_add_mod (row - p) (weights.GetNcols + 1)
  have a2 := Nat.div_add_mod (j - p) (weights.GetNcols + 1)
  have hmodlt := Nat.mod_lt (j - p) hw
  have hdiv : (j - p) / (weights.GetNcols + 1) ≤ (row - p) / (weights.GetNcols + 1) :=
    Nat.div_le_div_right (by omega)
  have b1 : (row - p) / (weights.GetNcols + 1) * weights.GetNcols + weights.GetNcols
      ≤ weights.GetNrows * weights.GetNcols := by
    have := Nat.mul_le_mul_right weights.GetNcols (Nat.succ_le_of_lt hq)
    rw [Nat.succ_mul] at this
    exact this
  rcases Nat.eq_or_lt_of_le hdiv with heq | hlt
  · rw [← heq] at a1 b1
    omega
  · have b2 := Nat.mul_le_mul_right weights.GetNcols (Nat.succ_le_of_lt hlt)
    rw [Nat.succ_mul] at b2
    omega

/-- The weight loop of `GenerateConvMatrix` for column `i`, entered at row
`p`: it writes the cells `columnCell` of the rows from `p` on, and no weight
cell is left below the row at which it stops. -/
theorem GenerateConvMatrix_weightLoop {α : Type} [Zero α] [One α] [Add α] [Mul α]
    (weights cv : TCpuMatrix α) (rows i p : Nat) (s0 : TCpu.ConvColumnState α)
    (hcvr : cv.GetNrows = weights.GetNrows * weights.GetNcols)
    (hcv : ∀ r, r < weights.GetNrows → ∀ t, t < weights.GetNcols →
        cv.elem (r * weights.GetNcols + t) 0 = weights.elem r t)
    (hM : s0.M.fNRows = rows) (hj : s0.j = p) (hcount : s0.count = 1)
    (hwi : s0.weightIndex = 0) :
    ∃ s : TCpu.ConvColumnState α,
      whileLoop
        (fun (s : TCpu.ConvColumnState α) =>
          decide (s.weightIndex < cv.GetNrows ∧ s.j < rows))
        (fun (s : TCpu.ConvColumnState α) =>
          let s : TCpu.ConvColumnState α :=
            if s.count % (weights.GetNcols + 1) = 0 then { s with M := s.M.setElem s.j i 0 }
            else { s with M := s.M.setElem s.j i (cv.elem s.weightIndex 0),
                          weightIndex := s.weightIndex + 1 }
          { s with j := s.j + 1, count := s.count + 1 })
        rows s0 = s
      ∧ s.M.fNRows = rows ∧ s.M.fNCols = s0.M.fNCols
      ∧ s.M.fBuffer.length = s0.M.fBuffer.length
      ∧ p ≤ s.j ∧ (p ≤ rows → s.j ≤ rows)
      ∧ (∀ idx, s.M.fBuffer[idx]?
          = if i * rows + p ≤ idx ∧ idx < i * rows + s.j
            then (s0.M.fBuffer[idx]?).map
              (fun _ => TCpu.GenerateConvMatrix.columnCell weights p (idx - i * rows))
            else s0.M.fBuffer[idx]?)
      ∧ (∀ row, s.j ≤ row → row < rows →
          TCpu.GenerateConvMatrix.columnCell weights p row = 0) := by
  have hw : 0 < weights.GetNcols + 1 := Nat.succ_pos _
  obtain ⟨hI, hexit⟩ := whileLoop_spec
    (fun (s : TCpu.ConvColumnState α) =>
      decide (s.weightIndex < cv.GetNrows ∧ s.j < rows))
    (fun (s : TCpu.ConvColumnState α) =>
      let s : TCpu.ConvColumnState α :=
        if s.count % (weights.GetNcols + 1) = 0 then { s with M := s.M.setElem s.j i 0 }
        else { s with M := s.M.setElem s.j i (cv.elem s.weightIndex 0),
                      weightIndex := s.weightIndex + 1 }
      { s with j := s.j + 1, count := s.count + 1 })
    (fun s => s.M.fNRows = rows ∧ s.M.fNCols = s0.M.fNCols
      ∧ s.M.fBuffer.length = s0.M.fBuffer.length
      ∧ p ≤ s.j ∧ (p ≤ rows → s.j ≤ rows)
      ∧ s.count = s.j - p + 1
      ∧ s.weightIndex = (s.j - p) / (weights.GetNcols + 1) * weights.GetNcols
          + (s.j - p) % (weights.GetNcols + 1)
      ∧ ∀ idx, s.M.fBuffer[idx]?
          = if i * rows + p ≤ idx ∧ idx < i * rows + s.j
            then (s0.M.fBuffer[idx]?).map
              (fun _ => TCpu.GenerateConvMatrix.columnCell weights p (idx - i * rows))
            else s0.M.fBuffer[idx]?)
    (fun s => rows - s.j)
    (by
      intro s hInv hcond
      obtain ⟨i1, i2, i3, i4, i5, i6, i7, i8⟩ := hInv
      have hc : s.weightIndex < cv.GetNrows ∧ s.j < rows := of_decide_eq_true hcond
      obtain ⟨hc1, hc2⟩ := hc
      obtain ⟨dz, dn⟩ := succ_div_mod (s.j - p) (weights.GetNcols + 1) hw
      have hmodlt := Nat.mod_lt (s.j - p) hw
      have hsub : s.j + 1 - p = s.j - p + 1 := by omega
      -- the value written at row `s.j` is `columnCell`, and the new weight index
      have hcells : ∀ (v : α) (Mn : TCpuMatrix α),
          v = TCpu.GenerateConvMatrix.columnCell weights p s.j →
          Mn = s.M.setElem s.j i v →
          Mn.fNRows = rows ∧ Mn.fNCols = s0.M.fNCols
            ∧ Mn.fBuffer.length = s0.M.fBuffer.length
            ∧ ∀ idx, Mn.fBuffer[idx]?
              = if i * rows + p ≤ idx ∧ idx < i * rows + (s.j + 1)
                then (s0.M.fBuffer[idx]?).map
                  (fun _ => TCpu.GenerateConvMatrix.columnCell weights p (idx - i * rows))
                else s0.M.fBuffer[idx]? := by
        intro v Mn hv hMn
        subst hMn
        refine ⟨i1, i2, ?_, ?_⟩
        · rw [setElem_fBuffer, List.length_set]
          exact i3
        · intro idx
          rw [setElem_fBuffer, i1]
          by_cases hidx : idx = i * rows + s.j
          · rw [getElem?_set_eq_map _ s0.M.fBuffer _ _ _ i3 hidx,
              if_pos (⟨by omega, by omega⟩ : i * rows + p ≤ idx ∧ idx < i * rows + (s.j + 1))]
            have e : idx - i * rows = s.j := by omega
            rw [e, hv]
          · rw [getElem?_set_of_ne _ _ _ _ (fun e => hidx e.symm), i8 idx]
            by_cases hcnd : i * rows + p ≤ idx ∧ idx < i * rows + s.j
            · rw [if_pos hcnd, if_pos (⟨hcnd.1, by omega⟩ :
                i * rows + p ≤ idx ∧ idx < i * rows + (s.j + 1))]
            · rw [if_neg hcnd, if_neg]
              intro h2
              apply hcnd
              exact ⟨h2.1, by omega⟩
      by_cases hz : s.count % (weights.GetNcols + 1) = 0
      · have hb : (fun (s : TCpu.ConvColumnState α) =>
            let s : TCpu.ConvColumnState α :=
              if s.count % (weights.GetNcols + 1) = 0 then { s with M := s.M.setElem s.j i 0 }
              else { s with M := s.M.setElem s.j i (cv.elem s.weightIndex 0),
                            weightIndex := s.weightIndex + 1 }
            { s with j := s.j + 1, count := s.count + 1 }) s
            = { M := s.M.setElem s.j i 0, j := s.j + 1, count := s.count + 1,
                weightIndex := s.weightIndex } := by
          beta_reduce
          rw [if_pos hz]
        rw [hb]
        rw [i6] at hz
        obtain ⟨d1, d2⟩ := dz hz
        have hv : (0 : α) = TCpu.GenerateConvMatrix.columnCell weights p s.j := by
          unfold TCpu.GenerateConvMatrix.columnCell
          rw [if_neg]
          intro h
          omega
        obtain ⟨c1, c2, c3, c4⟩ := hcells 0 _ hv rfl
        refine ⟨⟨c1, c2, c3, ?_, ?_, ?_, ?_, c4⟩, ?_⟩
        · show p ≤ s.j + 1
          omega
        · intro _
          show s.j + 1 ≤ rows
          omega
        · show s.count + 1 = s.j + 1 - p + 1
          omega
        · show s.weightIndex = (s.j + 1 - p) / (weights.GetNcols + 1) * weights.GetNcols
            + (s.j + 1 - p) % (weights.GetNcols + 1)
          rw [hsub, d1, hz, i7, Nat.add_mul, Nat.one_mul]
          omega
        · show rows - (s.j + 1) < rows - s.j
          omega
      · have hb : (fun (s : TCpu.ConvColumnState α) =>
            let s : TCpu.ConvColumnState α :=
              if s.count % (weights.GetNcols + 1) = 0 then { s with M := s.M.setElem s.j i 0 }
              else { s with M := s.M.setElem s.j i (cv.elem s.weightIndex 0),
                            weightIndex := s.weightIndex + 1 }
            { s with j := s.j + 1, count := s.count + 1 }) s
            = { M := s.M.setElem s.j i (cv.elem s.weightIndex 0), j := s.j + 1,
                count := s.count + 1, weightIndex := s.weightIndex + 1 } := by
          beta_reduce
          rw [if_neg hz]
        rw [hb]
        rw [i6] at hz
        obtain ⟨d1, d2⟩ := dn hz
        have hlt2 := Nat.mod_lt (s.j - p + 1) hw
        have ht : (s.j - p) % (weights.GetNcols + 1) < weights.GetNcols := by omega
        have hq : (s.j - p) / (weights.GetNcols + 1) < weights.GetNrows := by
          by_contra hcon
          have h1 : weights.GetNrows * weights.GetNcols
              ≤ (s.j - p) / (weights.GetNcols + 1) * weights.GetNcols :=
            Nat.mul_le_mul_right _ (by omega)
          rw [hcvr, i7] at hc1
          omega
        have hv : cv.elem s.weightIndex 0
            = TCpu.GenerateConvMatrix.columnCell weights p s.j := by
          unfold TCpu.GenerateConvMatrix.columnCell
          rw [if_pos ⟨i4, ht, hq⟩, i7]
          exact hcv _ hq _ ht
        obtain ⟨c1, c2, c3, c4⟩ := hcells _ _ hv rfl
        refine ⟨⟨c1, c2, c3, ?_, ?_, ?_, ?_, c4⟩, ?_⟩
        · show p ≤ s.j + 1
          omega
        · intro _
          show s.j + 1 ≤ rows
          omega
        · show s.count + 1 = s.j + 1 - p + 1
          omega
        · show s.weightIndex + 1
            = (s.j + 1 - p) / (weights.GetNcols + 1) * weights.GetNcols
              + (s.j + 1 - p) % (weights.GetNcols + 1)
          rw [hsub, d1, d2, i7]
          omega
        · show rows - (s.j + 1) < rows - s.j
          omega)
    rows s0
    ⟨hM, rfl, rfl, by omega, by intro h; omega, by rw [hcount, hj]; omega,
      by rw [hwi, hj, Nat.sub_self, Nat.zero_div, Nat.zero_mod, Nat.zero_mul],
      by
        intro idx
        rw [if_neg]
        intro h
        omega⟩
    (Nat.sub_le _ _)
  obtain ⟨i1, i2, i3, i4, i5, i6, i7, i8⟩ := hI
  refine ⟨_, rfl, i1, i2, i3, i4, i5, i8, ?_⟩
  intro row hrow hrows
  have hex := of_decide_eq_false hexit
  have hge : weights.GetNrows * weights.GetNcols
      ≤ (whileLoop
        (fun (s : TCpu.ConvColumnState α) =>
          decide (s.weightIndex < cv.GetNrows ∧ s.j < rows))
        (fun (s : TCpu.ConvColumnState α) =>
          let s : TCpu.ConvColumnState α :=
            if s.count % (weights.GetNcols + 1) = 0 then { s with M := s.M.setElem s.j i 0 }
            else { s with M := s.M.setElem s.j i (cv.elem s.weightIndex 0),
                          weightIndex := s.weightIndex + 1 }
          { s with j := s.j + 1, count := s.count + 1 })
        rows s0).weightIndex := by
    rw [← hcvr]
    by_contra hcon
    exact hex ⟨by omega, by omega⟩
  rw [i7] at hge
  exact columnCell_zero_of_exhausted weights p _ row i4 hrow hge

/-- The padding loop of `GenerateConvMatrix` for column `i`: `p` zeros from
the top of the column on, and `j` advanced by `p`. -/
theorem GenerateConvMatrix_padLoop {α : Type} [Zero α] [One α] [Add α] [Mul α]
    (rows i p : Nat) (s0 : TCpu.ConvColumnState α) (hM : s0.M.fNRows = rows) :
    ∃ s : TCpu.ConvColumnState α,
      (List.range p).foldl
        (fun (s : TCpu.ConvColumnState α) (k : Nat) =>
          { s with M := s.M.setElem k i 0, j := s.j + 1 }) s0 = s
      ∧ s.j = s0.j + p ∧ s.count = s0.count ∧ s.weightIndex = s0.weightIndex
      ∧ s.M.fNRows = rows ∧ s.M.fNCols = s0.M.fNCols
      ∧ s.M.fBuffer.length = s0.M.fBuffer.length
      ∧ ∀ idx, s.M.fBuffer[idx]?
          = if i * rows ≤ idx ∧ idx < i * rows + p
            then (s0.M.fBuffer[idx]?).map (fun _ => (0 : α))
            else s0.M.fBuffer[idx]? := by
  refine ⟨_, rfl, ?_⟩
  refine foldl_range_inv
    (fun (s : TCpu.ConvColumnState α) (k : Nat) =>
      { s with M := s.M.setElem k i 0, j := s.j + 1 })
    (fun n s => s.j = s0.j + n ∧ s.count = s0.count ∧ s.weightIndex = s0.weightIndex
      ∧ s.M.fNRows = rows ∧ s.M.fNCols = s0.M.fNCols
      ∧ s.M.fBuffer.length = s0.M.fBuffer.length
      ∧ ∀ idx, s.M.fBuffer[idx]?
          = if i * rows ≤ idx ∧ idx < i * rows + n
            then (s0.M.fBuffer[idx]?).map (fun _ => (0 : α))
            else s0.M.fBuffer[idx]?)
    p s0
    ⟨rfl, rfl, rfl, hM, rfl, rfl, fun idx => by
      rw [if_neg]
      intro h
      omega⟩
    ?_
  intro k _ s hs
  obtain ⟨c1, c2, c3, c4, c5, c6, c7⟩ := hs
  refine ⟨?_, c2, c3, c4, c5, ?_, ?_⟩
  · show s.j + 1 = s0.j + (k + 1)
    omega
  · show (s.M.setElem k i 0).fBuffer.length = _
    rw [setElem_fBuffer, List.length_set]
    exact c6
  · intro idx
    show (s.M.setElem k i 0).fBuffer[idx]? = _
    rw [setElem_fBuffer, c4]
    by_cases hidx : idx = i * rows + k
    · rw [getElem?_set_eq_map _ s0.M.fBuffer _ _ _ c6 hidx,
        if_pos (⟨by omega, by omega⟩ : i * rows ≤ idx ∧ idx < i * rows + (k + 1))]
    · rw [getElem?_set_of_ne _ _ _ _ (fun e => hidx e.symm), c7 idx]
      by_cases hcnd : i * rows ≤ idx ∧ idx < i * rows + k
      · rw [if_pos hcnd, if_pos (⟨hcnd.1, by omega⟩ :
          i * rows ≤ idx ∧ idx < i * rows + (k + 1))]
      · rw [if_neg hcnd, if_neg]
        intro h2
        apply hcnd
        exact ⟨h2.1, by omega⟩

/-- The trailing loop of `GenerateConvMatrix` for column `i`: `m` zeros from
row `j` on. -/
theorem GenerateConvMatrix_trailLoop {α : Type} [Zero α] [One α] [Add α] [Mul α]
    (rows i m : Nat) (s0 : TCpu.ConvColumnState α) (hM : s0.M.fNRows = rows) :
    ∃ s : TCpu.ConvColumnState α,
      (List.range m).foldl
        (fun (s : TCpu.ConvColumnState α) (_ : Nat) =>
          { s with M := s.M.setElem s.j i 0, j := s.j + 1 }) s0 = s
      ∧ s.j = s0.j + m
      ∧ s.M.fNRows = rows ∧ s.M.fNCols = s0.M.fNCols
      ∧ s.M.fBuffer.length = s0.M.fBuffer.length
      ∧ ∀ idx, s.M.fBuffer[idx]?
          = if i * rows + s0.j ≤ idx ∧ idx < i * rows + s0.j + m
            then (s0.M.fBuffer[idx]?).map (fun _ => (0 : α))
            else s0.M.fBuffer[idx]? := by
  refine ⟨_, rfl, ?_⟩
  refine foldl_range_inv
    (fun (s : TCpu.ConvColumnState α) (_ : Nat) =>
      { s with M := s.M.setElem s.j i 0, j := s.j + 1 })
    (fun n s => s.j = s0.j + n
      ∧ s.M.fNRows = rows ∧ s.M.fNCols = s0.M.fNCols
      ∧ s.M.fBuffer.length = s0.M.fBuffer.length
      ∧ ∀ idx, s.M.fBuffer[idx]?
          = if i * rows + s0.j ≤ idx ∧ idx < i * rows + s0.j + n
            then (s0.M.fBuffer[idx]?).map (fun _ => (0 : α))
            else s0.M.fBuffer[idx]?)
    m s0
    ⟨rfl, hM, rfl, rfl, fun idx => by
      rw [if_neg]
      intro h
      omega⟩
    ?_
  intro k _ s hs
  obtain ⟨c1, c4, c5, c6, c7⟩ := hs
  refine ⟨?_, c4, c5, ?_, ?_⟩
  · show s.j + 1 = s0.j + (k + 1)
    omega
  · show (s.M.setElem s.j i 0).fBuffer.length = _
    rw [setElem_fBuffer, List.length_set]
    exact c6
  · intro idx
    show (s.M.setElem s.j i 0).fBuffer[idx]? = _
    rw [setElem_fBuffer, c4, c1]
    by_cases hidx : idx = i * rows + (s0.j + k)
    · rw [getElem?_set_eq_map _ s0.M.fBuffer _ _ _ c6 hidx,
        if_pos (⟨by omega, by omega⟩ :
          i * rows + s0.j ≤ idx ∧ idx < i * rows + s0.j + (k + 1))]
    · rw [getElem?_set_of_ne _ _ _ _ (fun e => hidx e.symm), c7 idx]
      by_cases hcnd : i * rows + s0.j ≤ idx ∧ idx < i * rows + s0.j + k
      · rw [if_pos hcnd, if_pos (⟨hcnd.1, by omega⟩ :
          i * rows + s0.j ≤ idx ∧ idx < i * rows + s0.j + (k + 1))]
      · rw [if_neg hcnd, if_neg]
        intro h2
        apply hcnd
        exact ⟨h2.1, by omega⟩

theorem GenerateConvMatrix_pass_eq {α : Type} [Zero α] [One α] [Add α] [Mul α]
    (weights cv : TCpuMatrix α) (rows i padRow : Nat) (s : TCpu.ConvColumnState α) :
    TCpu.GenerateConvMatrix.pass weights cv rows i padRow s
      = (List.range (rows - (whileLoop
            (fun (s : TCpu.ConvColumnState α) =>
              decide (s.weightIndex < cv.GetNrows ∧ s.j < rows))
            (fun (s : TCpu.ConvColumnState α) =>
              let s : TCpu.ConvColumnState α :=
                if s.count % (weights.GetNcols + 1) = 0 then
                  { s with M := s.M.setElem s.j i 0 }
                else { s with M := s.M.setElem s.j i (cv.elem s.weightIndex 0),
                              weightIndex := s.weightIndex + 1 }
              { s with j := s.j + 1, count := s.count + 1 })
            rows
            { (List.range padRow).foldl
                (fun (s : TCpu.ConvColumnState α) (k : Nat) =>
                  { s with M := s.M.setElem k i 0, j := s.j + 1 })
                { s with count := 1 } with weightIndex := 0 }).j)).foldl
          (fun (s : TCpu.ConvColumnState α) (_ : Nat) =>
            { s with M := s.M.setElem s.j i 0, j := s.j + 1 })
          (whileLoop
            (fun (s : TCpu.ConvColumnState α) =>
              decide (s.weightIndex < cv.GetNrows ∧ s.j < rows))
            (fun (s : TCpu.ConvColumnState α) =>
              let s : TCpu.ConvColumnState α :=
                if s.count % (weights.GetNcols + 1) = 0 then
                  { s with M := s.M.setElem s.j i 0 }
                else { s with M := s.M.setElem s.j i (cv.elem s.weightIndex 0),
                              weightIndex := s.weightIndex + 1 }
              { s with j := s.j + 1, count := s.count + 1 })
            rows
            { (List.range padRow).foldl
                (fun (s : TCpu.ConvColumnState α) (k : Nat) =>
                  { s with M := s.M.setElem k i 0, j := s.j + 1 })
                { s with count := 1 } with weightIndex := 0 }) := rfl

/-- One pass of `while (j < rows)` for column `i`, entered with `j = 0` and
padding `p`: it leaves `j ≥ rows`, the cells before column `i` as they were,
and `columnCell` in every row of column `i`. -/
theorem GenerateConvMatrix_pass_spec {α : Type} [Zero α] [One α] [Add α] [Mul α]
    (weights cv : TCpuMatrix α) (rows i p : Nat) (s0 : TCpu.ConvColumnState α)
    (hcvr : cv.GetNrows = weights.GetNrows * weights.GetNcols)
    (hcv : ∀ r, r < weights.GetNrows → ∀ t, t < weights.GetNcols →
        cv.elem (r * weights.GetNcols + t) 0 = weights.elem r t)
    (hM : s0.M.fNRows = rows) (hj : s0.j = 0) :
    ∃ s : TCpu.ConvColumnState α,
      TCpu.GenerateConvMatrix.pass weights cv rows i p s0 = s
      ∧ s.M.fNRows = rows ∧ s.M.fNCols = s0.M.fNCols
      ∧ s.M.fBuffer.length = s0.M.fBuffer.length ∧ rows ≤ s.j
      ∧ (∀ idx, idx < i * rows → s.M.fBuffer[idx]? = s0.M.fBuffer[idx]?)
      ∧ (∀ row, row < rows → s.M.fBuffer[i * rows + row]?
          = (s0.M.fBuffer[i * rows + row]?).map
              (fun _ => TCpu.GenerateConvMatrix.columnCell weights p row)) := by
  obtain ⟨sp, ep, p1, p2, p3, p4, p5, p6, p7⟩ := GenerateConvMatrix_padLoop rows i p
    ({ s0 with count := 1 } : TCpu.ConvColumnState α) hM
  have hpj : sp.j = p := by
    rw [p1]
    show s0.j + p = p
    omega
  obtain ⟨sw, ew, w1, w2, w3, w4, w5, w7, w8⟩ := GenerateConvMatrix_weightLoop weights cv rows i p
    ({ sp with weightIndex := 0 } : TCpu.ConvColumnState α) hcvr hcv p4 hpj p2 rfl
  obtain ⟨st, et, t1, t2, t3, t4, t5⟩ := GenerateConvMatrix_trailLoop rows i (rows - sw.j) sw w1
  refine ⟨st, ?_, t2, ?_, ?_, ?_, ?_, ?_⟩
  · rw [GenerateConvMatrix_pass_eq, ep, ew, et]
  · exact t3.trans (w2.trans p5)
  · exact t4.trans (w3.trans p6)
  · omega
  · intro idx hidx
    rw [t5 idx, if_neg (by omega), w7 idx, if_neg (by omega)]
    show sp.M.fBuffer[idx]? = _
    rw [p7 idx, if_neg (by omega)]
  · intro row hrow
    have hl1 : sw.M.fBuffer.length = s0.M.fBuffer.length := w3.trans p6
    have hsub : i * rows + row - i * rows = row := by omega
    rw [t5 (i * rows + row)]
    by_cases h1 : sw.j ≤ row
    · rw [if_pos (⟨by omega, by omega⟩ :
        i * rows + sw.j ≤ i * rows + row ∧ i * rows + row < i * rows + sw.j + (rows - sw.j)),
        w8 row h1 hrow]
      exact map_const_getElem? _ _ _ _ hl1
    · rw [if_neg (by omega), w7 (i * rows + row)]
      by_cases h2 : p ≤ row
      · rw [if_pos (⟨by omega, by omega⟩ :
          i * rows + p ≤ i * rows + row ∧ i * rows + row < i * rows + sw.j), hsub]
        exact map_const_getElem? _ _ _ _ p6
      · rw [if_neg (by omega)]
        show sp.M.fBuffer[i * rows + row]? = _
        rw [p7 (i * rows + row), if_pos (⟨by omega, by omega⟩ :
          i * rows ≤ i * rows + row ∧ i * rows + row < i * rows + p)]
        have hz : TCpu.GenerateConvMatrix.columnCell weights p row = 0 := by
          unfold TCpu.GenerateConvMatrix.columnCell
          rw [if_neg]
          intro h
          exact h2 h.1
        rw [hz]

/-- The loop `while (j < rows)` for column `i`: one pass when the target has
rows, none otherwise. -/
theorem GenerateConvMatrix_column {α : Type} [Zero α] [One α] [Add α] [Mul α]
    (weights cv : TCpuMatrix α) (rows i p : Nat) (M0 : TCpuMatrix α)
    (hcvr : cv.GetNrows = weights.GetNrows * weights.GetNcols)
    (hcv : ∀ r, r < weights.GetNrows → ∀ t, t < weights.GetNcols →
        cv.elem (r * weights.GetNcols + t) 0 = weights.elem r t)
    (hM : M0.fNRows = rows) :
    ∃ s : TCpu.ConvColumnState α,
      whileLoop (fun (c : TCpu.ConvColumnState α) => decide (c.j < rows))
        (TCpu.GenerateConvMatrix.pass weights cv rows i p) rows
        { M := M0, j := 0, count := 1, weightIndex := 0 } = s
      ∧ s.M.fNRows = rows ∧ s.M.fNCols = M0.fNCols
      ∧ s.M.fBuffer.length = M0.fBuffer.length
      ∧ (∀ idx, idx < i * rows → s.M.fBuffer[idx]? = M0.fBuffer[idx]?)
      ∧ (∀ row, row < rows → s.M.fBuffer[i * rows + row]?
          = (M0.fBuffer[i * rows + row]?).map
              (fun _ => TCpu.GenerateConvMatrix.columnCell weights p row)) := by
  cases rows with
  | zero =>
    refine ⟨_, rfl, hM, rfl, rfl, fun _ _ => rfl, ?_⟩
    intro row hrow
    exact absurd hrow (Nat.not_lt_zero _)
  | succ r =>
    obtain ⟨s, es, s1, s2, s3, s4, s5, s6⟩ := GenerateConvMatrix_pass_spec weights cv (r + 1) i p
      ({ M := M0, j := 0, count := 1, weightIndex := 0 } : TCpu.ConvColumnState α) hcvr hcv hM rfl
    refine ⟨s, ?_, s1, s2, s3, s5, s6⟩
    rw [whileLoop_succ_of_cond (fun (c : TCpu.ConvColumnState α) => decide (c.j < r + 1))
      (TCpu.GenerateConvMatrix.pass weights cv (r + 1) i p) r
      { M := M0, j := 0, count := 1, weightIndex := 0 } (decide_eq_true (Nat.succ_pos r)), es]
    exact whileLoop_of_not_cond (fun (c : TCpu.ConvColumnState α) => decide (c.j < r + 1))
      (TCpu.GenerateConvMatrix.pass weights cv (r + 1) i p) r s
      (decide_eq_false (by omega))

theorem GenerateConvMatrix_eq {α : Type} [Zero α] [One α] [Add α] [Mul α]
    (weights M0 : TCpuMatrix α) :
    TCpu.GenerateConvMatrix weights [M0]
      = TCpu.GenerateColumnarMatrix weights
          [TCpuMatrix.zeros (weights.GetNrows * weights.GetNcols) 1] >>= fun columnarVector =>
        vecAt columnarVector 0 >>= fun cv =>
        Except.ok [((List.range M0.GetNcols).foldl
          (fun (s : TCpuMatrix α × Nat) (i : Nat) =>
            if i + 1 ≥ M0.GetNcols / 2 then
              ((whileLoop (fun (c : TCpu.ConvColumnState α) => decide (c.j < M0.GetNrows))
                  (TCpu.GenerateConvMatrix.pass weights cv M0.GetNrows i s.2) M0.GetNrows
                  { M := s.1, j := 0, count := 1, weightIndex := 0 }).M,
                sizeT (if toInt (sizeT (((M0.GetNrows : Int) - 1 - (cv.GetNrows : Int)
                      - ((weights.GetNrows : Int) - 1))
                      - ((M0.GetNcols : Int) - 1 - ((i + 1 : Nat) : Int)))) < 0 then 0
                  else toInt (sizeT (((M0.GetNrows : Int) - 1 - (cv.GetNrows : Int)
                      - ((weights.GetNrows : Int) - 1))
                      - ((M0.GetNcols : Int) - 1 - ((i + 1 : Nat) : Int))))))
            else
              ((whileLoop (fun (c : TCpu.ConvColumnState α) => decide (c.j < M0.GetNrows))
                  (TCpu.GenerateConvMatrix.pass weights cv M0.GetNrows i s.2) M0.GetNrows
                  { M := s.1, j := 0, count := 1, weightIndex := 0 }).M,
                i + 1))
          (M0, 0)).1] := rfl

/-- `GenerateConvMatrix` on a well-formed target: the call returns, the target
keeps its shape, and cell `(row, c)` is `columnCell` for the padding
`padRowAt` of column `c`. -/
theorem GenerateConvMatrix_spec {α : Type} [Zero α] [One α] [Add α] [Mul α]
    (weights M0 : TCpuMatrix α) (hWF : M0.WellFormed) :
    ∃ M : TCpuMatrix α, TCpu.GenerateConvMatrix weights [M0] = Except.ok [M]
      ∧ M.GetNrows = M0.GetNrows ∧ M.GetNcols = M0.GetNcols ∧ M.WellFormed
      ∧ ∀ c, c < M0.GetNcols → ∀ row, row < M0.GetNrows →
          M.elem row c = TCpu.GenerateConvMatrix.columnCell weights
            (TCpu.GenerateConvMatrix.padRowAt weights M0.GetNrows M0.GetNcols c) row := by
  obtain ⟨cv, ecv, v1, _, v3, v4⟩ := GenerateColumnarMatrix_spec weights
    (TCpuMatrix.zeros (weights.GetNrows * weights.GetNcols) 1)
    (by
      show (List.replicate (weights.GetNrows * weights.GetNcols * 1) (0 : α)).length = _
      rw [List.length_replicate, Nat.mul_one])
  have hcvr : cv.GetNrows = weights.GetNrows * weights.GetNcols := v1
  have hcv : ∀ r, r < weights.GetNrows → ∀ t, t < weights.GetNcols →
      cv.elem (r * weights.GetNcols + t) 0 = weights.elem r t := by
    intro r hr t ht
    rw [elem_eq, Nat.zero_mul, Nat.zero_add, List.getD_eq_getElem?_getD, v4 r hr t ht]
    rfl
  have hinv := foldl_range_inv
    (fun (s : TCpuMatrix α × Nat) (i : Nat) =>
      if i + 1 ≥ M0.GetNcols / 2 then
        ((whileLoop (fun (c : TCpu.ConvColumnState α) => decide (c.j < M0.GetNrows))
            (TCpu.GenerateConvMatrix.pass weights cv M0.GetNrows i s.2) M0.GetNrows
            { M := s.1, j := 0, count := 1, weightIndex := 0 }).M,
          sizeT (if toInt (sizeT (((M0.GetNrows : Int) - 1 - (cv.GetNrows : Int)
                - ((weights.GetNrows : Int) - 1))
                - ((M0.GetNcols : Int) - 1 - ((i + 1 : Nat) : Int)))) < 0 then 0
            else toInt (sizeT (((M0.GetNrows : Int) - 1 - (cv.GetNrows : Int)
                - ((weights.GetNrows : Int) - 1))
                - ((M0.GetNcols : Int) - 1 - ((i + 1 : Nat) : Int))))))
      else
        ((whileLoop (fun (c : TCpu.ConvColumnState α) => decide (c.j < M0.GetNrows))
            (TCpu.GenerateConvMatrix.pass weights cv M0.GetNrows i s.2) M0.GetNrows
            { M := s.1, j := 0, count := 1, weightIndex := 0 }).M,
          i + 1))
    (fun n s => s.2 = TCpu.GenerateConvMatrix.padRowAt weights M0.GetNrows M0.GetNcols n
      ∧ s.1.fNRows = M0.GetNrows ∧ s.1.fNCols = M0.fNCols
      ∧ s.1.fBuffer.length = M0.fBuffer.length
      ∧ ∀ c, c < n → ∀ row, row < M0.GetNrows →
          s.1.fBuffer[c * M0.GetNrows + row]?
            = (M0.fBuffer[c * M0.GetNrows + row]?).map
                (fun _ => TCpu.GenerateConvMatrix.columnCell weights
                  (TCpu.GenerateConvMatrix.padRowAt weights M0.GetNrows M0.GetNcols c) row))
    M0.GetNcols (M0, 0)
    ⟨by
        unfold TCpu.GenerateConvMatrix.padRowAt
        rw [if_pos rfl],
      rfl, rfl, rfl, fun c hc => absurd hc (Nat.not_lt_zero c)⟩
    (by
      intro k _ s hs
      obtain ⟨h1, h2, h3, h4, h5⟩ := hs
      obtain ⟨c, ec, c1, c2, c3, c4, c5⟩ := GenerateConvMatrix_column weights cv M0.GetNrows k
        s.2 s.1 hcvr hcv h2
      have hcells : ∀ cc, cc < k + 1 → ∀ row, row < M0.GetNrows →
          c.M.fBuffer[cc * M0.GetNrows + row]?
            = (M0.fBuffer[cc * M0.GetNrows + row]?).map
                (fun _ => TCpu.GenerateConvMatrix.columnCell weights
                  (TCpu.GenerateConvMatrix.padRowAt weights M0.GetNrows M0.GetNcols cc) row) := by
        intro cc hcc row hrow
        by_cases hck : cc = k
        · subst hck
          rw [c5 row hrow, ← h1]
          exact map_const_getElem? _ _ _ _ h4
        · have hlt : cc < k := by omega
          have hb : cc * M0.GetNrows + M0.GetNrows ≤ k * M0.GetNrows := by
            have := Nat.mul_le_mul_right M0.GetNrows (Nat.succ_le_of_lt hlt)
            rw [Nat.succ_mul] at this
            exact this
          rw [c4 _ (by omega), h5 cc hlt row hrow]
      beta_reduce
      rw [ec]
      by_cases hhalf : k + 1 ≥ M0.GetNcols / 2
      · rw [if_pos hhalf]
        refine ⟨?_, c1, c2.trans h3, c3.trans h4, hcells⟩
        unfold TCpu.GenerateConvMatrix.padRowAt
        rw [if_neg (Nat.succ_ne_zero k), if_pos hhalf, hcvr]
      · rw [if_neg hhalf]
        refine ⟨?_, c1, c2.trans h3, c3.trans h4, hcells⟩
        unfold TCpu.GenerateConvMatrix.padRowAt
        rw [if_neg (Nat.succ_ne_zero k), if_neg hhalf])
  obtain ⟨_, h2, h3, h4, h5⟩ := hinv
  refine ⟨_, ?_, h2, h3, ?_, ?_⟩
  · rw [GenerateConvMatrix_eq]
    refine (Except_bind_ok _ [cv] _ ecv).trans ?_
    exact (Except_bind_ok _ cv _ rfl).trans rfl
  · unfold TCpuMatrix.WellFormed
    rw [h4, h2, h3]
    exact hWF
  · intro c hc row hrow
    have hlt : c * M0.GetNrows + row < M0.fBuffer.length := by
      have h := @cell_lt_size M0.GetNrows M0.GetNcols row c hrow hc
      have hl : M0.fBuffer.length = M0.GetNrows * M0.GetNcols := hWF
      omega
    rw [elem_eq, h2, List.getD_eq_getElem?_getD, h5 c hc row hrow,
      List.getElem?_eq_getElem hlt]
    rfl

/-- C30: the interleaving structure of `GenerateConvMatrix`.  For every weight
matrix `W` (`wRows × wCols`) and every well-formed target of `rows × cols`
cells the call returns a target of the same shape, and column `c` of it,
`pad(c) = padRowAt W rows cols c` being the padding row-count of the column,
has zeros in the rows above `pad(c)`, `W(r, t)` in row
`pad(c) + r*(wCols+1) + t` for every `r < wRows`, `t < wCols` whose row index
is below `rows`, and `0` in every other row. -/
theorem C30_convMatrix_interleaving {α : Type} [Zero α] [One α] [Add α] [Mul α]
    (weights M0 : TCpuMatrix α) (rows cols : Nat) (hM : HasShape M0 rows cols) :
    ∃ M : TCpuMatrix α, TCpu.GenerateConvMatrix weights [M0] = Except.ok [M]
      ∧ HasShape M rows cols
      ∧ ∀ c, c < cols →
        (∀ row, row < TCpu.GenerateConvMatrix.padRowAt weights rows cols c → row < rows →
          M.elem row c = 0)
        ∧ (∀ r, r < weights.GetNrows → ∀ t, t < weights.GetNcols →
            TCpu.GenerateConvMatrix.padRowAt weights rows cols c
              + r * (weights.GetNcols + 1) + t < rows →
            M.elem (TCpu.GenerateConvMatrix.padRowAt weights rows cols c
              + r * (weights.GetNcols + 1) + t) c = weights.elem r t)
        ∧ (∀ row, row < rows →
            (∀ r, r < weights.GetNrows → ∀ t, t < weights.GetNcols →
              row ≠ TCpu.GenerateConvMatrix.padRowAt weights rows cols c
                + r * (weights.GetNcols + 1) + t) →
            M.elem row c = 0) := by
  obtain ⟨hr, hc, hWF⟩ := hM
  obtain ⟨M, e, m1, m2, m3, m4⟩ := GenerateConvMatrix_spec weights M0 hWF
  rw [hr, hc] at m4
  refine ⟨M, e, ⟨m1.trans hr, m2.trans hc, m3⟩, ?_⟩
  intro c hcc
  refine ⟨?_, ?_, ?_⟩
  · intro row hrow hrows
    rw [m4 c hcc row hrows]
    unfold TCpu.GenerateConvMatrix.columnCell
    rw [if_neg]
    intro h
    omega
  · intro r hr2 t ht hrows
    rw [m4 c hcc _ hrows]
    obtain ⟨e1, e2⟩ := @cell_div_mod (weights.GetNcols + 1) t r (by omega)
    have hsub : TCpu.GenerateConvMatrix.padRowAt weights rows cols c
        + r * (weights.GetNcols + 1) + t
        - TCpu.GenerateConvMatrix.padRowAt weights rows cols c
        = r * (weights.GetNcols + 1) + t := by omega
    unfold TCpu.GenerateConvMatrix.columnCell
    rw [hsub, e1, e2, if_pos ⟨by omega, ht, hr2⟩]
  · intro row hrows hne
    rw [m4 c hcc row hrows]
    unfold TCpu.GenerateConvMatrix.columnCell
    rw [if_neg]
    rintro ⟨h1, h2, h3⟩
    have a1 := Nat.div_add_mod (row - TCpu.GenerateConvMatrix.padRowAt weights rows cols c)
      (weights.GetNcols + 1)
    rw [Nat.mul_comm] at a1
    exact hne _ h3 _ h2 (by omega)

theorem C30_convMatrix_interleaving_witness :
    ∃ M : TCpuMatrix Int,
      TCpu.GenerateConvMatrix (TCpuMatrix.ofRows 2 2 [[1, 2], [3, 4]])
          [(TCpuMatrix.zeros 6 4 : TCpuMatrix Int)] = Except.ok [M]
      ∧ HasShape M 6 4
      ∧ ∀ c, c < 4 →
        (∀ row, row < TCpu.GenerateConvMatrix.padRowAt
            (TCpuMatrix.ofRows 2 2 [[1, 2], [3, 4]] : TCpuMatrix Int) 6 4 c → row < 6 →
          M.elem row c = 0)
        ∧ (∀ r, r < (TCpuMatrix.ofRows 2 2 [[1, 2], [3, 4]] : TCpuMatrix Int).GetNrows →
            ∀ t, t < (TCpuMatrix.ofRows 2 2 [[1, 2], [3, 4]] : TCpuMatrix Int).GetNcols →
            TCpu.GenerateConvMatrix.padRowAt
                (TCpuMatrix.ofRows 2 2 [[1, 2], [3, 4]] : TCpuMatrix Int) 6 4 c
              + r * ((TCpuMatrix.ofRows 2 2 [[1, 2], [3, 4]] : TCpuMatrix Int).GetNcols + 1) + t
              < 6 →
            M.elem (TCpu.GenerateConvMatrix.padRowAt
                (TCpuMatrix.ofRows 2 2 [[1, 2], [3, 4]] : TCpuMatrix Int) 6 4 c
              + r * ((TCpuMatrix.ofRows 2 2 [[1, 2], [3, 4]] : TCpuMatrix Int).GetNcols + 1) + t)
              c
              = (TCpuMatrix.ofRows 2 2 [[1, 2], [3, 4]] : TCpuMatrix Int).elem r t)
        ∧ (∀ row, row < 6 →
            (∀ r, r < (TCpuMatrix.ofRows 2 2 [[1, 2], [3, 4]] : TCpuMatrix Int).GetNrows →
              ∀ t, t < (TCpuMatrix.ofRows 2 2 [[1, 2], [3, 4]] : TCpuMatrix Int).GetNcols →
              row ≠ TCpu.GenerateConvMatrix.padRowAt
                  (TCpuMatrix.ofRows 2 2 [[1, 2], [3, 4]] : TCpuMatrix Int) 6 4 c
                + r * ((TCpuMatrix.ofRows 2 2 [[1, 2], [3, 4]] : TCpuMatrix Int).GetNcols + 1)
                + t) →
            M.elem row c = 0) :=
  C30_convMatrix_interleaving (TCpuMatrix.ofRows 2 2 [[1, 2], [3, 4]])
    (TCpuMatrix.zeros 6 4 : TCpuMatrix Int) 6 4 ⟨rfl, rfl, zeros_wellFormed 6 4⟩

/-! ## The dense path of the transposed convolution -/

theorem TransConvLayerForward_body_eq {α : Type} [Zero α] [One α] [Add α] [Mul α]
    (fOnes : List α) (input : List (TCpuMatrix α)) (weights biases : TCpuMatrix α)
    (output : List (TCpuMatrix α)) (i : Nat) :
    TCpu.TransConvLayerForward.body fOnes input weights biases output i
      = vecAt output i >>= fun output_i =>
        vecAt input i >>= fun input_i =>
        TCpu.GenerateColumnarMatrix input_i
          [TCpuMatrix.zeros (input_i.GetNrows * input_i.GetNcols) 1] >>= fun inputTrVector =>
        vecAt inputTrVector 0 >>= fun inputTr =>
        vecAt [TCpu.TransConvLayerForward.convMatrix output_i inputTr] i >>= fun _ =>
        TCpu.GenerateConvMatrix weights
          [TCpu.TransConvLayerForward.convMatrix output_i inputTr] >>= fun convMatrices =>
        vecAt convMatrices i >>= fun convMatrix_i =>
        TCpu.Multiply (TCpuMatrix.zeros (output_i.GetNcols * output_i.GetNrows) 1) convMatrix_i
          inputTr >>= fun outputTr =>
        TCpu.AddConvBiases fOnes
          ((List.range output_i.GetNrows).foldl
            (fun (o : TCpuMatrix α) (j : Nat) =>
              (List.range output_i.GetNcols).foldl
                (fun (o : TCpuMatrix α) (k : Nat) =>
                  o.setElem j k (outputTr.elem (j * output_i.GetNcols + k) 0))
                o)
            output_i) biases >>= fun output_i2 =>
        Except.ok (output.set i output_i2) := rfl

theorem TransConvLayerForward_single_eq {α : Type} [Zero α] [One α] [Add α] [Mul α]
    (fOnes : List α) (o : TCpuMatrix α) (derivatives input : List (TCpuMatrix α))
    (weights biases : TCpuMatrix α) (params : TConvParams) (activFunc : EActivationFunction) :
    TCpu.TransConvLayerForward fOnes [o] derivatives input weights biases params activFunc
      = (TCpu.TransConvLayerForward.body fOnes input weights biases [o] 0
          >>= fun s => Except.ok s)
        >>= fun output => Except.ok (output, derivatives) := rfl

/-- C29: the dense path of `TransConvLayerForward`.  For an output batch of
one `1 × N` matrix, a first input element with `S = rows * cols` scalars,
biases with at least one element and a ones-vector of at least `N` ones
(sizes within the range of `int`), `GenerateConvMatrix` turns the zero
`N × S` matrix into an `N × S` matrix `M`, the call returns, and
`output[0](0, k) = (Σ_{c<S} M(k, c) * x(c)) + biases(0)` for every `k < N`,
where `x(c) = input[0](c / cols, c % cols)` is the row-major flattening of
`input[0]`; the previous content of `output` does not occur in the result,
and `derivatives` is returned as it was. -/
theorem C29_transConvLayerForward_dense_path {α : Type} [Semiring α] (fOnes : List α)
    (o x0 weights biases : TCpuMatrix α) (derivatives input : List (TCpuMatrix α))
    (params : TConvParams) (activFunc : EActivationFunction) (N : Nat)
    (ho : HasShape o 1 N) (hin : input[0]? = some x0)
    (hN : N < 2 ^ 31) (hS : x0.GetNrows * x0.GetNcols < 2 ^ 31)
    (hb : 1 ≤ biases.GetNoElements) (hb2 : biases.GetNoElements < 2 ^ 31)
    (h1 : N ≤ fOnes.length) (h2 : fOnes.length < 2 ^ 31)
    (hones : ∀ j, j < fOnes.length → fOnes.getD j 0 = 1) :
    ∃ M o2 : TCpuMatrix α,
      TCpu.GenerateConvMatrix weights [TCpuMatrix.zeros N (x0.GetNrows * x0.GetNcols)]
          = Except.ok [M]
        ∧ HasShape M N (x0.GetNrows * x0.GetNcols)
        ∧ TCpu.TransConvLayerForward fOnes [o] derivatives input weights biases params activFunc
          = Except.ok ([o2], derivatives)
        ∧ HasShape o2 1 N
        ∧ ∀ k, k < N →
            o2.elem 0 k
              = (∑ c in Finset.range (x0.GetNrows * x0.GetNcols),
                  M.elem k c * x0.elem (c / x0.GetNcols) (c % x0.GetNcols))
                + biases.elem 0 0 := by
  norm_num at hN hS hb2 h2
  obtain ⟨ho1, ho2, ho3⟩ := ho
  -- the flattened input
  obtain ⟨xc, exc, x1, x2, x3, x4⟩ := GenerateColumnarMatrix_spec x0
    (TCpuMatrix.zeros (x0.GetNrows * x0.GetNcols) 1)
    (by
      show (List.replicate (x0.GetNrows * x0.GetNcols * 1) (0 : α)).length = _
      rw [List.length_replicate, Nat.mul_one])
  have hxr : xc.GetNrows = x0.GetNrows * x0.GetNcols := x1
  have hxc : xc.GetNcols = 1 := x2
  have hx : ∀ l, l < x0.GetNrows * x0.GetNcols →
      xc.elem l 0 = x0.elem (l / x0.GetNcols) (l % x0.GetNcols) := by
    intro l hl
    have hw : 0 < x0.GetNcols := by
      rcases Nat.eq_zero_or_pos x0.GetNcols with h0 | h0
      · rw [h0, Nat.mul_zero] at hl
        exact absurd hl (Nat.not_lt_zero _)
      · exact h0
    have hq : l / x0.GetNcols < x0.GetNrows :=
      Nat.div_lt_of_lt_mul (by rw [Nat.mul_comm]; exact hl)
    have h5 := x4 (l / x0.GetNcols) hq (l % x0.GetNcols) (Nat.mod_lt l hw)
    rw [Nat.div_add_mod' l x0.GetNcols] at h5
    rw [elem_eq, Nat.zero_mul, Nat.zero_add, List.getD_eq_getElem?_getD, h5]
    rfl
  -- the dense matrix
  obtain ⟨M, eM, m1, m2, m3, _⟩ := GenerateConvMatrix_spec weights
    (TCpuMatrix.zeros N (x0.GetNrows * x0.GetNcols)) (zeros_wellFormed _ _)
  have hMr : M.GetNrows = N := m1
  have hMc : M.GetNcols = x0.GetNrows * x0.GetNcols := m2
  have hcm : TCpu.TransConvLayerForward.convMatrix o xc
      = TCpuMatrix.zeros N (x0.GetNrows * x0.GetNcols) := by
    unfold TCpu.TransConvLayerForward.convMatrix
    rw [ho2, hxr]
  -- the product
  obtain ⟨oT, eT, _, _, _, t4⟩ := Multiply_spec
    (TCpuMatrix.zeros (o.GetNcols * o.GetNrows) 1) M xc N 1 (x0.GetNrows * x0.GetNcols)
    hN (by norm_num) hS hMr hMc hxr hxc
    (by
      show o.GetNcols * o.GetNrows = N
      rw [ho1, ho2, Nat.mul_one])
    rfl (zeros_wellFormed _ _)
  -- the reshaping
  have hlen : o.fBuffer.length = N := by
    have h := ho3
    unfold TCpuMatrix.WellFormed at h
    rw [h]
    show o.GetNrows * o.GetNcols = N
    rw [ho1, ho2, Nat.one_mul]
  obtain ⟨r1, r2, r3, _⟩ := foldl_matrix_update
    (fun (j k : Nat) (_ : α) => oT.elem (j * o.GetNcols + k) 0) o.GetNrows o.GetNcols o rfl
    o.GetNrows (Nat.le_refl _)
  have r5 : ∀ k, k < N →
      ((List.range o.GetNrows).foldl
        (fun (A : TCpuMatrix α) (j : Nat) =>
          (List.range o.GetNcols).foldl
            (fun (A : TCpuMatrix α) (c : Nat) =>
              A.setElem j c ((fun (j k : Nat) (_ : α) => oT.elem (j * o.GetNcols + k) 0)
                j c (A.elem j c))) A) o).elem 0 k
        = oT.elem k 0 := by
    intro k hk
    have h := foldl_matrix_update_elem
      (fun (j k : Nat) (_ : α) => oT.elem (j * o.GetNcols + k) 0) o.GetNrows o.GetNcols o rfl
      0 k (by rw [ho1]; exact Nat.one_pos) (by rw [ho2]; exact hk)
      (by rw [ho1, hlen]; omega)
    rw [h]
    beta_reduce
    rw [Nat.zero_mul, Nat.zero_add]
  -- the biases
  obtain ⟨o2, e2, a2, a3, a4, a5⟩ := AddConvBiases_spec fOnes
    ((List.range o.GetNrows).foldl
      (fun (A : TCpuMatrix α) (j : Nat) =>
        (List.range o.GetNcols).foldl
          (fun (A : TCpuMatrix α) (c : Nat) =>
            A.setElem j c ((fun (j k : Nat) (_ : α) => oT.elem (j * o.GetNcols + k) 0)
              j c (A.elem j c))) A) o)
    biases 1 N (by norm_num) hN (r1.trans ho1) (r2.trans ho2)
    (by
      unfold TCpuMatrix.WellFormed
      rw [r3, r1, r2]
      exact ho3)
    hb hb2 h1 h2 hones
  have hbody : TCpu.TransConvLayerForward.body fOnes input weights biases [o] 0
      = Except.ok [o2] := by
    rw [TransConvLayerForward_body_eq]
    refine (Except_bind_ok _ o _ rfl).trans ?_
    refine (Except_bind_ok _ x0 _ (vecAt_eq_ok hin)).trans ?_
    refine (Except_bind_ok _ [xc] _ exc).trans ?_
    refine (Except_bind_ok _ xc _ rfl).trans ?_
    refine (Except_bind_ok _ _ _ rfl).trans ?_
    rw [hcm]
    refine (Except_bind_ok _ [M] _ eM).trans ?_
    refine (Except_bind_ok _ M _ rfl).trans ?_
    refine (Except_bind_ok _ oT _ eT).trans ?_
    exact (Except_bind_ok _ o2 _ e2).trans rfl
  refine ⟨M, o2, eM, ⟨hMr, hMc, m3⟩, ?_, ⟨a2, a3, a4⟩, ?_⟩
  · rw [TransConvLayerForward_single_eq]
    refine (Except_bind_ok _ [o2] _ ?_).trans rfl
    exact (Except_bind_ok _ [o2] _ hbody).trans rfl
  · intro k hk
    rw [a5 0 Nat.one_pos k hk, r5 k hk, t4 k hk 0 Nat.one_pos, elem_eq biases, Nat.zero_mul,
      Nat.zero_add]
    have hs : (∑ l in Finset.range (x0.GetNrows * x0.GetNcols), M.elem k l * xc.elem l 0)
        = ∑ c in Finset.range (x0.GetNrows * x0.GetNcols),
            M.elem k c * x0.elem (c / x0.GetNcols) (c % x0.GetNcols) :=
      Finset.sum_congr rfl (fun l hl => by rw [hx l (Finset.mem_range.mp hl)])
    rw [hs]

theorem C29_transConvLayerForward_dense_path_witness :
    ∃ M o2 : TCpuMatrix Int,
      TCpu.GenerateConvMatrix (TCpuMatrix.ofRows 2 2 [[1, 2], [3, 4]])
          [TCpuMatrix.zeros 4
            ((TCpuMatrix.ofRows 2 2 [[2, 1], [4, 4]] : TCpuMatrix Int).GetNrows
              * (TCpuMatrix.ofRows 2 2 [[2, 1], [4, 4]] : TCpuMatrix Int).GetNcols)]
          = Except.ok [M]
        ∧ HasShape M 4
            ((TCpuMatrix.ofRows 2 2 [[2, 1], [4, 4]] : TCpuMatrix Int).GetNrows
              * (TCpuMatrix.ofRows 2 2 [[2, 1], [4, 4]] : TCpuMatrix Int).GetNcols)
        ∧ TCpu.TransConvLayerForward (List.replicate 4 1)
            [TCpuMatrix.ofRows 1 4 [[7, 7, 7, 7]]] [TCpuMatrix.zeros 1 4]
            [TCpuMatrix.ofRows 2 2 [[2, 1], [4, 4]]] (TCpuMatrix.ofRows 2 2 [[1, 2], [3, 4]])
            (TCpuMatrix.ofRows 1 1 [[10]]) batchParams EActivationFunction.kIdentity
          = Except.ok ([o2], [TCpuMatrix.zeros 1 4])
        ∧ HasShape o2 1 4
        ∧ ∀ k, k < 4 →
            o2.elem 0 k
              = (∑ c in Finset.range
                    ((TCpuMatrix.ofRows 2 2 [[2, 1], [4, 4]] : TCpuMatrix Int).GetNrows
                      * (TCpuMatrix.ofRows 2 2 [[2, 1], [4, 4]] : TCpuMatrix Int).GetNcols),
                  M.elem k c
                    * (TCpuMatrix.ofRows 2 2 [[2, 1], [4, 4]] : TCpuMatrix Int).elem
                        (c / (TCpuMatrix.ofRows 2 2 [[2, 1], [4, 4]] : TCpuMatrix Int).GetNcols)
                        (c % (TCpuMatrix.ofRows 2 2 [[2, 1], [4, 4]] : TCpuMatrix Int).GetNcols))
                + (TCpuMatrix.ofRows 1 1 [[10]] : TCpuMatrix Int).elem 0 0 :=
  C29_transConvLayerForward_dense_path (List.replicate 4 1)
    (TCpuMatrix.ofRows 1 4 [[7, 7, 7, 7]]) (TCpuMatrix.ofRows 2 2 [[2, 1], [4, 4]])
    (TCpuMatrix.ofRows 2 2 [[1, 2], [3, 4]]) (TCpuMatrix.ofRows 1 1 [[10]])
    [TCpuMatrix.zeros 1 4] [TCpuMatrix.ofRows 2 2 [[2, 1], [4, 4]]] batchParams
    EActivationFunction.kIdentity 4
    ⟨rfl, rfl, by unfold TCpuMatrix.WellFormed; decide⟩ rfl (by norm_num)
    (by norm_num [TCpuMatrix.GetNrows, TCpuMatrix.GetNcols, TCpuMatrix.ofRows])
    (by decide)
    (by norm_num [TCpuMatrix.GetNoElements, TCpuMatrix.ofRows])
    (by decide) (by norm_num) (by decide)

/-! ## The transposed convolution applies no activation -/

/-- The dense path of `TransConvLayerForward` for an output batch of one
`1 × N` matrix: the product of the dense matrix with the flattened input,
plus the bias. -/
theorem TransConvLayerForward_dense {α : Type} [Semiring α] (fOnes : List α)
    (o x0 weights biases : TCpuMatrix α) (derivatives input : List (TCpuMatrix α))
    (params : TConvParams) (activFunc : EActivationFunction) (N : Nat)
    (ho : HasShape o 1 N) (hin : input[0]? = some x0)
    (hN : N < 2 ^ 31) (hS : x0.GetNrows * x0.GetNcols < 2 ^ 31)
    (hb : 1 ≤ biases.GetNoElements) (hb2 : biases.GetNoElements < 2 ^ 31)
    (h1 : N ≤ fOnes.length) (h2 : fOnes.length < 2 ^ 31)
    (hones : ∀ j, j < fOnes.length → fOnes.getD j 0 = 1) :
    ∃ M o2 : TCpuMatrix α,
      TCpu.GenerateConvMatrix weights [TCpuMatrix.zeros N (x0.GetNrows * x0.GetNcols)]
          = Except.ok [M]
        ∧ HasShape M N (x0.GetNrows * x0.GetNcols)
        ∧ TCpu.TransConvLayerForward fOnes [o] derivatives input weights biases params activFunc
          = Except.ok ([o2], derivatives)
        ∧ HasShape o2 1 N
        ∧ ∀ k, k < N →
            o2.elem 0 k
              = (∑ c in Finset.range (x0.GetNrows * x0.GetNcols),
                  M.elem k c * x0.elem (c / x0.GetNcols) (c % x0.GetNcols))
                + biases.elem 0 0 := by
  norm_num at hN hS hb2 h2
  obtain ⟨ho1, ho2, ho3⟩ := ho
  -- the flattened input
  obtain ⟨xc, exc, x1, x2, x3, x4⟩ := GenerateColumnarMatrix_spec x0
    (TCpuMatrix.zeros (x0.GetNrows * x0.GetNcols) 1)
    (by
      show (List.replicate (x0.GetNrows * x0.GetNcols * 1) (0 : α)).length = _
      rw [List.length_replicate, Nat.mul_one])
  have hxr : xc.GetNrows = x0.GetNrows * x0.GetNcols := x1
  have hxc : xc.GetNcols = 1 := x2
  have hx : ∀ l, l < x0.GetNrows * x0.GetNcols →
      xc.elem l 0 = x0.elem (l / x0.GetNcols) (l % x0.GetNcols) := by
    intro l hl
    have hw : 0 < x0.GetNcols := by
      rcases Nat.eq_zero_or_pos x0.GetNcols with h0 | h0
      · rw [h0, Nat.mul_zero] at hl
        exact absurd hl (Nat.not_lt_zero _)
      · exact h0
    have hq : l / x0.GetNcols < x0.GetNrows :=
      Nat.div_lt_of_lt_mul (by rw [Nat.mul_comm]; exact hl)
    have h5 := x4 (l / x0.GetNcols) hq (l % x0.GetNcols) (Nat.mod_lt l hw)
    rw [Nat.div_add_mod' l x0.GetNcols] at h5
    rw [elem_eq, Nat.zero_mul, Nat.zero_add, List.getD_eq_getElem?_getD, h5]
    rfl
  -- the dense matrix
  obtain ⟨M, eM, m1, m2, m3, _⟩ := GenerateConvMatrix_spec weights
    (TCpuMatrix.zeros N (x0.GetNrows * x0.GetNcols)) (zeros_wellFormed _ _)
  have hMr : M.GetNrows = N := m1
  have hMc : M.GetNcols = x0.GetNrows * x0.GetNcols := m2
  have hcm : TCpu.TransConvLayerForward.convMatrix o xc
      = TCpuMatrix.zeros N (x0.GetNrows * x0.GetNcols) := by
    unfold TCpu.TransConvLayerForward.convMatrix
    rw [ho2, hxr]
  -- the product
  obtain ⟨oT, eT, _, _, _, t4⟩ := Multiply_spec
    (TCpuMatrix.zeros (o.GetNcols * o.GetNrows) 1) M xc N 1 (x0.GetNrows * x0.GetNcols)
    hN (by norm_num) hS hMr hMc hxr hxc
    (by
      show o.GetNcols * o.GetNrows = N
      rw [ho1, ho2, Nat.mul_one])
    rfl (zeros_wellFormed _ _)
  -- the reshaping
  have hlen : o.fBuffer.length = N := by
    have h := ho3
    unfold TCpuMatrix.WellFormed at h
    rw [h]
    show o.GetNrows * o.GetNcols = N
    rw [ho1, ho2, Nat.one_mul]
  obtain ⟨r1, r2, r3, _⟩ := foldl_matrix_update
    (fun (j k : Nat) (_ : α) => oT.elem (j * o.GetNcols + k) 0) o.GetNrows o.GetNcols o rfl
    o.GetNrows (Nat.le_refl _)
  have r5 : ∀ k, k < N →
      ((List.range o.GetNrows).foldl
        (fun (A : TCpuMatrix α) (j : Nat) =>
          (List.range o.GetNcols).foldl
            (fun (A : TCpuMatrix α) (c : Nat) =>
              A.setElem j c ((fun (j k : Nat) (_ : α) => oT.elem (j * o.GetNcols + k) 0)
                j c (A.elem j c))) A) o).elem 0 k
        = oT.elem k 0 := by
    intro k hk
    have h := foldl_matrix_update_elem
      (fun (j k : Nat) (_ : α) => oT.elem (j * o.GetNcols + k) 0) o.GetNrows o.GetNcols o rfl
      0 k (by rw [ho1]; exact Nat.one_pos) (by rw [ho2]; exact hk)
      (by rw [ho1, hlen]; omega)
    rw [h]
    beta_reduce
    rw [Nat.zero_mul, Nat.zero_add]
  -- the biases
  obtain ⟨o2, e2, a2, a3, a4, a5⟩ := AddConvBiases_spec fOnes
    ((List.range o.GetNrows).foldl
      (fun (A : TCpuMatrix α) (j : Nat) =>
        (List.range o.GetNcols).foldl
          (fun (A : TCpuMatrix α) (c : Nat) =>
            A.setElem j c ((fun (j k : Nat) (_ : α) => oT.elem (j * o.GetNcols + k) 0)
              j c (A.elem j c))) A) o)
    biases 1 N (by norm_num) hN (r1.trans ho1) (r2.trans ho2)
    (by
      unfold TCpuMatrix.WellFormed
      rw [r3, r1, r2]
      exact ho3)
    hb hb2 h1 h2 hones
  have hbody : TCpu.TransConvLayerForward.body fOnes input weights biases [o] 0
      = Except.ok [o2] := by
    rw [TransConvLayerForward_body_eq]
    refine (Except_bind_ok _ o _ rfl).trans ?_
    refine (Except_bind_ok _ x0 _ (vecAt_eq_ok hin)).trans ?_
    refine (Except_bind_ok _ [xc] _ exc).trans ?_
    refine (Except_bind_ok _ xc _ rfl).trans ?_
    refine (Except_bind_ok _ _ _ rfl).trans ?_
    rw [hcm]
    refine (Except_bind_ok _ [M] _ eM).trans ?_
    refine (Except_bind_ok _ M _ rfl).trans ?_
    refine (Except_bind_ok _ oT _ eT).trans ?_
    exact (Except_bind_ok _ o2 _ e2).trans rfl
  refine ⟨M, o2, eM, ⟨hMr, hMc, m3⟩, ?_, ⟨a2, a3, a4⟩, ?_⟩
  · rw [TransConvLayerForward_single_eq]
    refine (Except_bind_ok _ [o2] _ ?_).trans rfl
    exact (Except_bind_ok _ [o2] _ hbody).trans rfl
  · intro k hk
    rw [a5 0 Nat.one_pos k hk, r5 k hk, t4 k hk 0 Nat.one_pos, elem_eq biases, Nat.zero_mul,
      Nat.zero_add]
    have hs : (∑ l in Finset.range (x0.GetNrows * x0.GetNcols), M.elem k l * xc.elem l 0)
        = ∑ c in Finset.range (x0.GetNrows * x0.GetNcols),
            M.elem k c * x0.elem (c / x0.GetNcols) (c % x0.GetNcols) :=
      Finset.sum_congr rfl (fun l hl => by rw [hx l (Finset.mem_range.mp hl)])
    rw [hs]

/-- C33: `TransConvLayerForward` ignores the activation selector and the
geometry parameters.  Two calls that agree on the ones-vector, `output`,
`derivatives`, `input`, `weights` and `biases` give the same result (the same
`output` and `derivatives`, or the same failure) whatever `activFunc` and
`params` are; and on an output batch of one `1 × N` matrix (sizes within the
range of `int`) the output is, for every `activFunc` and `params`, the
pre-activation value `Σ_{c<S} M(k, c) * x(c) + biases(0)`, `M` being the
matrix of `GenerateConvMatrix` and `x` the flattened `input[0]`: no
activation function is applied to it. -/
theorem C33_transConvLayerForward_ignores_activation {α : Type} [Semiring α] (fOnes : List α)
    (o x0 weights biases : TCpuMatrix α) (output derivatives input : List (TCpuMatrix α))
    (N : Nat)
    (ho : HasShape o 1 N) (hin : input[0]? = some x0)
    (hN : N < 2 ^ 31) (hS : x0.GetNrows * x0.GetNcols < 2 ^ 31)
    (hb : 1 ≤ biases.GetNoElements) (hb2 : biases.GetNoElements < 2 ^ 31)
    (h1 : N ≤ fOnes.length) (h2 : fOnes.length < 2 ^ 31)
    (hones : ∀ j, j < fOnes.length → fOnes.getD j 0 = 1) :
    (∀ (params params2 : TConvParams) (activFunc activFunc2 : EActivationFunction),
        TCpu.TransConvLayerForward fOnes output derivatives input weights biases params activFunc
          = TCpu.TransConvLayerForward fOnes output derivatives input weights biases params2
              activFunc2)
    ∧ ∃ M o2 : TCpuMatrix α,
        TCpu.GenerateConvMatrix weights [TCpuMatrix.zeros N (x0.GetNrows * x0.GetNcols)]
          = Except.ok [M]
        ∧ (∀ (params : TConvParams) (activFunc : EActivationFunction),
            TCpu.TransConvLayerForward fOnes [o] derivatives input weights biases params
              activFunc = Except.ok ([o2], derivatives))
        ∧ ∀ k, k < N →
            o2.elem 0 k
              = (∑ c in Finset.range (x0.GetNrows * x0.GetNcols),
                  M.elem k c * x0.elem (c / x0.GetNcols) (c % x0.GetNcols))
                + biases.elem 0 0 := by
  refine ⟨fun _ _ _ _ => rfl, ?_⟩
  obtain ⟨M, o2, e1, _, e3, _, e5⟩ := TransConvLayerForward_dense fOnes o x0 weights biases
    derivatives input
    { batchSize := 0, inputDepth := 0, inputHeight := 0, inputWidth := 0, numberFilters := 0,
      filterHeight := 0, filterWidth := 0, strideRows := 0, strideCols := 0, paddingHeight := 0,
      paddingWidth := 0 }
    EActivationFunction.kIdentity N ho hin hN hS hb hb2 h1 h2 hones
  exact ⟨M, o2, e1, fun _ _ => e3, e5⟩

theorem C33_transConvLayerForward_ignores_activation_witness :
    TCpu.TransConvLayerForward (List.replicate 4 (1 : Int))
        [TCpuMatrix.ofRows 1 4 [[7, 7, 7, 7]]] [TCpuMatrix.zeros 1 4]
        [TCpuMatrix.ofRows 2 2 [[2, 1], [4, 4]]] (TCpuMatrix.ofRows 2 2 [[1, 2], [3, 4]])
        (TCpuMatrix.ofRows 1 1 [[10]]) batchParams EActivationFunction.kRelu
      = TCpu.TransConvLayerForward (List.replicate 4 (1 : Int))
        [TCpuMatrix.ofRows 1 4 [[7, 7, 7, 7]]] [TCpuMatrix.zeros 1 4]
        [TCpuMatrix.ofRows 2 2 [[2, 1], [4, 4]]] (TCpuMatrix.ofRows 2 2 [[1, 2], [3, 4]])
        (TCpuMatrix.ofRows 1 1 [[10]]) fixtureParams EActivationFunction.kIdentity :=
  (C33_transConvLayerForward_ignores_activation (List.replicate 4 (1 : Int))
    (TCpuMatrix.ofRows 1 4 [[7, 7, 7, 7]]) (TCpuMatrix.ofRows 2 2 [[2, 1], [4, 4]])
    (TCpuMatrix.ofRows 2 2 [[1, 2], [3, 4]]) (TCpuMatrix.ofRows 1 1 [[10]])
    [TCpuMatrix.ofRows 1 4 [[7, 7, 7, 7]]] [TCpuMatrix.zeros 1 4]
    [TCpuMatrix.ofRows 2 2 [[2, 1], [4, 4]]] 4
    ⟨rfl, rfl, by unfold TCpuMatrix.WellFormed; decide⟩ rfl (by norm_num)
    (by norm_num [TCpuMatrix.GetNrows, TCpuMatrix.GetNcols, TCpuMatrix.ofRows])
    (by decide)
    (by norm_num [TCpuMatrix.GetNoElements, TCpuMatrix.ofRows])
    (by decide) (by norm_num) (by decide)).1 batchParams fixtureParams
    EActivationFunction.kRelu EActivationFunction.kIdentity

/-! ## Rotating the weights twice -/

/-- C40: `RotateWeights` is undone by `RotateWeights` with the filter and
channel counts exchanged.  For `B` of `numFilters × filterDepth*J` cells,
`J = filterHeight * filterWidth`, the rotation of `B` into a target of
`filterDepth × numFilters*J` cells, rotated again with `numFilters` and
`filterDepth` exchanged into a target of `numFilters × filterDepth*J` cells,
is `B`, whatever the two targets held. -/
theorem C40_rotateWeights_round_trip {α : Type} [Zero α] [One α] [Add α] [Mul α]
    (A0 C0 B : TCpuMatrix α) (filterDepth filterHeight filterWidth numFilters : Nat)
    (hB : HasShape B numFilters (filterDepth * (filterHeight * filterWidth)))
    (hA : HasShape A0 filterDepth (numFilters * (filterHeight * filterWidth)))
    (hC : HasShape C0 numFilters (filterDepth * (filterHeight * filterWidth))) :
    TCpu.RotateWeights C0
        (TCpu.RotateWeights A0 B filterDepth filterHeight filterWidth numFilters)
        numFilters filterHeight filterWidth filterDepth = B := by
  obtain ⟨_, _, _, s4⟩ := RotateWeights_spec A0 B filterDepth filterHeight filterWidth
    numFilters hA.1 hA.2.1 hA.2.2
  obtain ⟨t1, t2, t3, t4⟩ := RotateWeights_spec C0
    (TCpu.RotateWeights A0 B filterDepth filterHeight filterWidth numFilters)
    numFilters filterHeight filterWidth filterDepth hC.1 hC.2.1 hC.2.2
  refine eq_of_elem ⟨t1, t2, t3⟩ hB ?_
  intro i hi j hj
  have hJ : 0 < filterHeight * filterWidth := by
    rcases Nat.eq_zero_or_pos (filterHeight * filterWidth) with h0 | h0
    · rw [h0, Nat.mul_zero] at hj
      exact absurd hj (Nat.not_lt_zero _)
    · exact h0
  have hk : j / (filterHeight * filterWidth) < filterDepth :=
    Nat.div_lt_of_lt_mul (by rw [Nat.mul_comm]; exact hj)
  have hl : j % (filterHeight * filterWidth) < filterHeight * filterWidth := Nat.mod_lt _ hJ
  have hdm : j / (filterHeight * filterWidth) * (filterHeight * filterWidth)
      + j % (filterHeight * filterWidth) = j := Nat.div_add_mod' _ _
  have e1 := t4 i hi (j / (filterHeight * filterWidth)) hk
    (j % (filterHeight * filterWidth)) hl
  have e2 := s4 (j / (filterHeight * filterWidth)) hk i hi
    (filterHeight * filterWidth - 1 - j % (filterHeight * filterWidth)) (by omega)
  have e3 : filterHeight * filterWidth - 1
      - (filterHeight * filterWidth - 1 - j % (filterHeight * filterWidth))
      = j % (filterHeight * filterWidth) := by omega
  rw [hdm] at e1
  rw [e3, hdm] at e2
  exact e1.trans e2

theorem C40_rotateWeights_round_trip_witness :
    TCpu.RotateWeights (TCpuMatrix.ofRows 2 6 [[9, 9, 9, 9, 9, 9], [9, 9, 9, 9, 9, 9]])
        (TCpu.RotateWeights (TCpuMatrix.zeros 3 4)
          (TCpuMatrix.ofRows 2 6 [[1, 2, 3, 4, 5, 6], [7, 8, 9, 10, 11, 12]] : TCpuMatrix Int)
          3 1 2 2)
        2 1 2 3
      = (TCpuMatrix.ofRows 2 6 [[1, 2, 3, 4, 5, 6], [7, 8, 9, 10, 11, 12]] : TCpuMatrix Int) :=
  C40_rotateWeights_round_trip (TCpuMatrix.zeros 3 4)
    (TCpuMatrix.ofRows 2 6 [[9, 9, 9, 9, 9, 9], [9, 9, 9, 9, 9, 9]])
    (TCpuMatrix.ofRows 2 6 [[1, 2, 3, 4, 5, 6], [7, 8, 9, 10, 11, 12]]) 3 1 2 2
    ⟨rfl, rfl, by unfold TCpuMatrix.WellFormed; decide⟩
    ⟨rfl, rfl, by unfold TCpuMatrix.WellFormed; decide⟩
    ⟨rfl, rfl, by unfold TCpuMatrix.WellFormed; decide⟩

/-! ## The gather of the weight gradient -/

/-- C36: the gather of the weight gradient is the forward gather for stride
`1`.  For a forward geometry with stride `1` in both directions, paddings
`pH`, `pW` and `height = inputHeight + 2*pH - filterHeight + 1` (width
likewise): (1) the zero padding that `CalculateConvWeightGradients` recomputes
in `size_t` from the two image sizes is `pH`, respectively `pW`; (2) its index
map is `Im2colIndices` on `activationsBackward[0]` with the forward arguments;
(3) `ConvLayerForward` on the batch `activationsBackward` with that geometry
is the batch loop run with this very index map; (4) for the same index map
the forward step and the map step of the weight gradient gather element `i`
by the same call `Im2colFast(zeros, activationsBackward[i], V)`. -/
theorem C36_weight_gradient_gather_is_forward_gather {α : Type} [Zero α] [One α] [Add α]
    [Mul α] (act : Activations α) (fOnes : List α)
    (output derivatives activationsBackward : List (TCpuMatrix α)) (weights biases : TCpuMatrix α)
    (activFunc : EActivationFunction)
    (batchSize inputHeight inputWidth depth height width filterDepth filterHeight filterWidth
      nLocalViews pH pW : Nat)
    (hne : 0 < activationsBackward.length)
    (hfH : filterHeight ≤ inputHeight + 2 * pH) (hfW : filterWidth ≤ inputWidth + 2 * pW)
    (hheight : height = inputHeight + 2 * pH - filterHeight + 1)
    (hwidth : width = inputWidth + 2 * pW - filterWidth + 1)
    (hnLV : nLocalViews = height * width)
    (hpH : pH < 2 ^ 31) (hpW : pW < 2 ^ 31)
    (rH : inputHeight + 2 * pH - filterHeight + 1 < 2 ^ 64)
    (rW : inputWidth + 2 * pW - filterWidth + 1 < 2 ^ 64) :
    sizeT ((height : Int) - inputHeight + filterHeight - 1) / 2 = pH
    ∧ sizeT ((width : Int) - inputWidth + filterWidth - 1) / 2 = pW
    ∧ TCpu.CalculateConvWeightGradients.vIndices activationsBackward inputHeight inputWidth
          height width filterDepth filterHeight filterWidth nLocalViews
        = (vecAt activationsBackward 0 >>= fun ab0 =>
            TCpu.Im2colIndices
              (List.replicate (nLocalViews * (filterDepth * filterHeight * filterWidth)) 0)
              ab0 nLocalViews inputHeight inputWidth filterHeight filterWidth 1 1 pH pW)
    ∧ TCpu.ConvLayerForward act fOnes output derivatives activationsBackward weights biases
          { batchSize := batchSize, inputDepth := filterDepth, inputHeight := inputHeight,
            inputWidth := inputWidth, numberFilters := depth, filterHeight := filterHeight,
            filterWidth := filterWidth, strideRows := 1, strideCols := 1,
            paddingHeight := pH, paddingWidth := pW } activFunc
        = (TCpu.CalculateConvWeightGradients.vIndices activationsBackward inputHeight
            inputWidth height width filterDepth filterHeight filterWidth nLocalViews
            >>= fun V =>
          vecAt output 0 >>= fun output0 =>
          (List.range activationsBackward.length).foldlM
            (TCpu.ConvLayerForward.f act
              (TCpu.InitializeOneVector (TCpu.InitializeOneVector fOnes nLocalViews)
                output0.GetNcols)
              activationsBackward weights biases activFunc nLocalViews
              (filterDepth * filterHeight * filterWidth) V)
            (output, derivatives))
    ∧ ∀ (ones : List α) (V : List Int) (s : List (TCpuMatrix α) × List (TCpuMatrix α))
        (df vres : List (TCpuMatrix α)) (i : Nat),
        TCpu.ConvLayerForward.f act ones activationsBackward weights biases activFunc
            nLocalViews (filterDepth * filterHeight * filterWidth) V s i
          = (vecAt activationsBackward i >>= fun ab_i =>
              TCpu.Im2colFast
                (TCpuMatrix.zeros nLocalViews (filterDepth * filterHeight * filterWidth))
                ab_i V >>= fun xTr =>
              vecAt s.1 i >>= fun output_i =>
              TCpu.MultiplyTranspose output_i weights xTr >>= fun o1 =>
              TCpu.AddConvBiases ones o1 biases >>= fun o2 =>
              vecAt s.2 i >>= fun d_i =>
              Except.ok (s.1.set i (evaluate act o2 activFunc),
                s.2.set i (evaluateDerivative act d_i activFunc o2)))
        ∧ TCpu.CalculateConvWeightGradients.fmap df activationsBackward nLocalViews
            (filterDepth * filterHeight * filterWidth) V vres i
          = (vecAt activationsBackward i >>= fun ab_i =>
              TCpu.Im2colFast
                (TCpuMatrix.zeros nLocalViews (filterDepth * filterHeight * filterWidth))
                ab_i V >>= fun xTr =>
              vecAt vres i >>= fun vres_i =>
              vecAt df i >>= fun df_i =>
              TCpu.Multiply vres_i df_i xTr >>= fun vres_i =>
              Except.ok (vres.set i vres_i)) := by
  norm_num at hpH hpW rH rW
  have eH : sizeT ((height : Int) - inputHeight + filterHeight - 1) / 2 = pH :=
    weightGradients_padding_eq hfH hheight hpH
  have eW : sizeT ((width : Int) - inputWidth + filterWidth - 1) / 2 = pW :=
    weightGradients_padding_eq hfW hwidth hpW
  have hvI : TCpu.CalculateConvWeightGradients.vIndices activationsBackward inputHeight
        inputWidth height width filterDepth filterHeight filterWidth nLocalViews
      = (vecAt activationsBackward 0 >>= fun ab0 =>
          TCpu.Im2colIndices
            (List.replicate (nLocalViews * (filterDepth * filterHeight * filterWidth)) 0)
            ab0 nLocalViews inputHeight inputWidth filterHeight filterWidth 1 1 pH pW) := by
    rw [CalculateConvWeightGradients_vIndices_eq, eH, eW]
  refine ⟨eH, eW, hvI, ?_, fun ones V s df vres i => ⟨rfl, rfl⟩⟩
  have hcH : TCpu.calculateDimension inputHeight filterHeight pH 1 = Except.ok height := by
    rw [calculateDimension_ok (le_refl 1) hfH (by omega) (Nat.mod_one _), Nat.div_one, hheight]
  have hcW : TCpu.calculateDimension inputWidth filterWidth pW 1 = Except.ok width := by
    rw [calculateDimension_ok (le_refl 1) hfW (by omega) (Nat.mod_one _), Nat.div_one, hwidth]
  obtain ⟨a0, ha0⟩ := exists_getElem?_of_lt activationsBackward 0 hne
  rw [hvI, ConvLayerForward_eq_scheduled, ConvLayerForward_scheduled_eq]
  refine (Except_bind_ok _ height _ hcH).trans ?_
  refine (Except_bind_ok _ width _ hcW).trans ?_
  rw [if_neg (not_not.mpr hne)]
  refine (Except_bind_ok _ a0 _ (vecAt_eq_ok ha0)).trans ?_
  rw [Except_bind_ok (vecAt activationsBackward 0) a0 _ (vecAt_eq_ok ha0), hnLV]

theorem C36_weight_gradient_gather_is_forward_gather_witness :
    sizeT (((2 : Nat) : Int) - (3 : Nat) + (2 : Nat) - 1) / 2 = 0
    ∧ TCpu.CalculateConvWeightGradients.vIndices batchA 3 3 2 2 1 2 2 4
        = (vecAt batchA 0 >>= fun ab0 =>
            TCpu.Im2colIndices (List.replicate (4 * (1 * 2 * 2)) 0) ab0 4 3 3 2 2 1 1 0 0) :=
  ⟨(C36_weight_gradient_gather_is_forward_gather identityActivations (List.replicate 4 1)
      [TCpuMatrix.zeros 1 4, TCpuMatrix.zeros 1 4] [TCpuMatrix.zeros 1 4, TCpuMatrix.zeros 1 4]
      batchA (TCpuMatrix.ofRows 1 4 [[1, 2, 3, 4]]) (TCpuMatrix.ofRows 1 1 [[10]])
      EActivationFunction.kIdentity 2 3 3 1 2 2 1 2 2 4 0 0 (by decide) (by decide) (by decide)
      (by decide) (by decide) (by decide) (by norm_num) (by norm_num) (by norm_num)
      (by norm_num)).1,
   (C36_weight_gradient_gather_is_forward_gather identityActivations (List.replicate 4 1)
      [TCpuMatrix.zeros 1 4, TCpuMatrix.zeros 1 4] [TCpuMatrix.zeros 1 4, TCpuMatrix.zeros 1 4]
      batchA (TCpuMatrix.ofRows 1 4 [[1, 2, 3, 4]]) (TCpuMatrix.ofRows 1 1 [[10]])
      EActivationFunction.kIdentity 2 3 3 1 2 2 1 2 2 4 0 0 (by decide) (by decide) (by decide)
      (by decide) (by decide) (by decide) (by norm_num) (by norm_num) (by norm_num)
      (by norm_num)).2.2.1⟩

/-! ## The transposed dense matrix -/

/-- One more write into row `i` of a matrix of `R` rows whose cells
`(i, a), ..., (i, b - 1)` hold `g`: afterwards the cells up to `(i, b)` do. -/
theorem row_write_update {β : Type} (buf old : List β) (R i a b : Nat) (g : Nat → β) (v : β)
    (hi : i < R) (hlen : buf.length = old.length) (hab : a ≤ b) (hv : v = g b)
    (hinv : ∀ idx, buf[idx]?
      = if idx % R = i ∧ a ≤ idx / R ∧ idx / R < b
        then (old[idx]?).map (fun _ => g (idx / R)) else old[idx]?) :
    ∀ idx, (buf.set (b * R + i) v)[idx]?
      = if idx % R = i ∧ a ≤ idx / R ∧ idx / R < b + 1
        then (old[idx]?).map (fun _ => g (idx / R)) else old[idx]? := by
  intro idx
  obtain ⟨e1, e2⟩ := @cell_div_mod R i b hi
  by_cases hidx : idx = b * R + i
  · rw [getElem?_set_eq_map _ old _ _ _ hlen hidx, hidx, e1, e2,
      if_pos (⟨rfl, hab, Nat.lt_succ_self b⟩ : i = i ∧ a ≤ b ∧ b < b + 1), hv]
  · rw [getElem?_set_of_ne _ _ _ _ (fun e => hidx e.symm), hinv idx]
    by_cases hcnd : idx % R = i ∧ a ≤ idx / R ∧ idx / R < b
    · rw [if_pos hcnd, if_pos (⟨hcnd.1, hcnd.2.1, by omega⟩ :
        idx % R = i ∧ a ≤ idx / R ∧ idx / R < b + 1)]
    · rw [if_neg hcnd, if_neg]
      rintro ⟨h1, h2, h3⟩
      apply hcnd
      refine ⟨h1, h2, ?_⟩
      rcases Nat.lt_succ_iff_lt_or_eq.mp h3 with h4 | h4
      · exact h4
      · exact absurd (cell_eq_of_div_mod h1 h4) hidx

/-- The weight loop of `GenerateTransConvMatrix` for row `i`, entered at
column `p`. -/
theorem GenerateTransConvMatrix_weightLoop {α : Type} [Zero α] [One α] [Add α] [Mul α]
    (weights cv : TCpuMatrix α) (R cols i p : Nat) (s0 : TCpu.ConvColumnState α)
    (hcvr : cv.GetNrows = weights.GetNrows * weights.GetNcols)
    (hcv : ∀ r, r < weights.GetNrows → ∀ t, t < weights.GetNcols →
        cv.elem (r * weights.GetNcols + t) 0 = weights.elem r t)
    (hM : s0.M.fNRows = R) (hi : i < R) (hj : s0.j = p) (hcount : s0.count = 1)
    (hwi : s0.weightIndex = 0) :
    ∃ s : TCpu.ConvColumnState α,
      whileLoop
        (fun (s : TCpu.ConvColumnState α) =>
          decide (s.weightIndex < cv.GetNrows ∧ s.j < cols))
        (fun (s : TCpu.ConvColumnState α) =>
          let s : TCpu.ConvColumnState α :=
            if s.count % (weights.GetNcols + 1) = 0 then { s with M := s.M.setElem i s.j 0 }
            else { s with M := s.M.setElem i s.j (cv.elem s.weightIndex 0),
                          weightIndex := s.weightIndex + 1 }
          { s with j := s.j + 1, count := s.count + 1 })
        cols s0 = s
      ∧ s.M.fNRows = R ∧ s.M.fNCols = s0.M.fNCols
      ∧ s.M.fBuffer.length = s0.M.fBuffer.length
      ∧ p ≤ s.j ∧ (p ≤ cols → s.j ≤ cols)
      ∧ (∀ idx, s.M.fBuffer[idx]?
          = if idx % R = i ∧ p ≤ idx / R ∧ idx / R < s.j
            then (s0.M.fBuffer[idx]?).map
              (fun _ => TCpu.GenerateConvMatrix.columnCell weights p (idx / R))
            else s0.M.fBuffer[idx]?)
      ∧ (∀ col, s.j ≤ col → col < cols →
          TCpu.GenerateConvMatrix.columnCell weights p col = 0) := by
  have hw : 0 < weights.GetNcols + 1 := Nat.succ_pos _
  obtain ⟨hI, hexit⟩ := whileLoop_spec
    (fun (s : TCpu.ConvColumnState α) =>
      decide (s.weightIndex < cv.GetNrows ∧ s.j < cols))
    (fun (s : TCpu.ConvColumnState α) =>
      let s : TCpu.ConvColumnState α :=
        if s.count % (weights.GetNcols + 1) = 0 then { s with M := s.M.setElem i s.j 0 }
        else { s with M := s.M.setElem i s.j (cv.elem s.weightIndex 0),
                      weightIndex := s.weightIndex + 1 }
      { s with j := s.j + 1, count := s.count + 1 })
    (fun s => s.M.fNRows = R ∧ s.M.fNCols = s0.M.fNCols
      ∧ s.M.fBuffer.length = s0.M.fBuffer.length
      ∧ p ≤ s.j ∧ (p ≤ cols → s.j ≤ cols)
      ∧ s.count = s.j - p + 1
      ∧ s.weightIndex = (s.j - p) / (weights.GetNcols + 1) * weights.GetNcols
          + (s.j - p) % (weights.GetNcols + 1)
      ∧ ∀ idx, s.M.fBuffer[idx]?
          = if idx % R = i ∧ p ≤ idx / R ∧ idx / R < s.j
            then (s0.M.fBuffer[idx]?).map
              (fun _ => TCpu.GenerateConvMatrix.columnCell weights p (idx / R))
            else s0.M.fBuffer[idx]?)
    (fun s => cols - s.j)
    (by
      intro s hInv hcond
      obtain ⟨i1, i2, i3, i4, i5, i6, i7, i8⟩ := hInv
      have hc : s.weightIndex < cv.GetNrows ∧ s.j < cols := of_decide_eq_true hcond
      obtain ⟨hc1, hc2⟩ := hc
      obtain ⟨dz, dn⟩ := succ_div_mod (s.j - p) (weights.GetNcols + 1) hw
      have hmodlt := Nat.mod_lt (s.j - p) hw
      have hsub : s.j + 1 - p = s.j - p + 1 := by omega
      have hcells : ∀ (v : α) (Mn : TCpuMatrix α),
          v = TCpu.GenerateConvMatrix.columnCell weights p s.j →
          Mn = s.M.setElem i s.j v →
          Mn.fNRows = R ∧ Mn.fNCols = s0.M.fNCols
            ∧ Mn.fBuffer.length = s0.M.fBuffer.length
            ∧ ∀ idx, Mn.fBuffer[idx]?
              = if idx % R = i ∧ p ≤ idx / R ∧ idx / R < s.j + 1
                then (s0.M.fBuffer[idx]?).map
                  (fun _ => TCpu.GenerateConvMatrix.columnCell weights p (idx / R))
                else s0.M.fBuffer[idx]? := by
        intro v Mn hv hMn
        subst hMn
        refine ⟨i1, i2, ?_, ?_⟩
        · rw [setElem_fBuffer, List.length_set]
          exact i3
        · rw [setElem_fBuffer, i1]
          exact row_write_update _ _ R i p s.j
            (fun c => TCpu.GenerateConvMatrix.columnCell weights p c) v hi i3 i4 hv i8
      by_cases hz : s.count % (weights.GetNcols + 1) = 0
      · have hb : (fun (s : TCpu.ConvColumnState α) =>
            let s : TCpu.ConvColumnState α :=
              if s.count % (weights.GetNcols + 1) = 0 then { s with M := s.M.setElem i s.j 0 }
              else { s with M := s.M.setElem i s.j (cv.elem s.weightIndex 0),
                            weightIndex := s.weightIndex + 1 }
            { s with j := s.j + 1, count := s.count + 1 }) s
            = { M := s.M.setElem i s.j 0, j := s.j + 1, count := s.count + 1,
                weightIndex := s.weightIndex } := by
          beta_reduce
          rw [if_pos hz]
        rw [hb]
        rw [i6] at hz
        obtain ⟨d1, d2⟩ := dz hz
        have hv : (0 : α) = TCpu.GenerateConvMatrix.columnCell weights p s.j := by
          unfold TCpu.GenerateConvMatrix.columnCell
          rw [if_neg]
          intro h
          omega
        obtain ⟨c1, c2, c3, c4⟩ := hcells 0 _ hv rfl
        refine ⟨⟨c1, c2, c3, ?_, ?_, ?_, ?_, c4⟩, ?_⟩
        · show p ≤ s.j + 1
          omega
        · intro _
          show s.j + 1 ≤ cols
          omega
        · show s.count + 1 = s.j + 1 - p + 1
          omega
        · show s.weightIndex = (s.j + 1 - p) / (weights.GetNcols + 1) * weights.GetNcols
            + (s.j + 1 - p) % (weights.GetNcols + 1)
          rw [hsub, d1, hz, i7, Nat.add_mul, Nat.one_mul]
          omega
        · show cols - (s.j + 1) < cols - s.j
          omega
      · have hb : (fun (s : TCpu.ConvColumnState α) =>
            let s : TCpu.ConvColumnState α :=
              if s.count % (weights.GetNcols + 1) = 0 then { s with M := s.M.setElem i s.j 0 }
              else { s with M := s.M.setElem i s.j (cv.elem s.weightIndex 0),
                            weightIndex := s.weightIndex + 1 }
            { s with j := s.j + 1, count := s.count + 1 }) s
            = { M := s.M.setElem i s.j (cv.elem s.weightIndex 0), j := s.j + 1,
                count := s.count + 1, weightIndex := s.weightIndex + 1 } := by
          beta_reduce
          rw [if_neg hz]
        rw [hb]
        rw [i6] at hz
        obtain ⟨d1, d2⟩ := dn hz
        have hlt2 := Nat.mod_lt (s.j - p + 1) hw
        have ht : (s.j - p) % (weights.GetNcols + 1) < weights.GetNcols := by omega
        have hq : (s.j - p) / (weights.GetNcols + 1) < weights.GetNrows := by
          by_contra hcon
          have h1 : weights.GetNrows * weights.GetNcols
              ≤ (s.j - p) / (weights.GetNcols + 1) * weights.GetNcols :=
            Nat.mul_le_mul_right _ (by omega)
          rw [hcvr, i7] at hc1
          omega
        have hv : cv.elem s.weightIndex 0
            = TCpu.GenerateConvMatrix.columnCell weights p s.j := by
          unfold TCpu.GenerateConvMatrix.columnCell
          rw [if_pos ⟨i4, ht, hq⟩, i7]
          exact hcv _ hq _ ht
        obtain ⟨c1, c2, c3, c4⟩ := hcells _ _ hv rfl
        refine ⟨⟨c1, c2, c3, ?_, ?_, ?_, ?_, c4⟩, ?_⟩
        · show p ≤ s.j + 1
          omega
        · intro _
          show s.j + 1 ≤ cols
          omega
        · show s.count + 1 = s.j + 1 - p + 1
          omega
        · show s.weightIndex + 1
            = (s.j + 1 - p) / (weights.GetNcols + 1) * weights.GetNcols
              + (s.j + 1 - p) % (weights.GetNcols + 1)
          rw [hsub, d1, d2, i7]
          omega
        · show cols - (s.j + 1) < cols - s.j
          omega)
    cols s0
    ⟨hM, rfl, rfl, by omega, by intro h; omega, by rw [hcount, hj]; omega,
      by rw [hwi, hj, Nat.sub_self, Nat.zero_div, Nat.zero_mod, Nat.zero_mul],
      by
        intro idx
        rw [if_neg]
        intro h
        omega⟩
    (Nat.sub_le _ _)
  obtain ⟨i1, i2, i3, i4, i5, i6, i7, i8⟩ := hI
  refine ⟨_, rfl, i1, i2, i3, i4, i5, i8, ?_⟩
  intro col hcol hcols
  have hex := of_decide_eq_false hexit
  have hge : weights.GetNrows * weights.GetNcols
      ≤ (whileLoop
        (fun (s : TCpu.ConvColumnState α) =>
          decide (s.weightIndex < cv.GetNrows ∧ s.j < cols))
        (fun (s : TCpu.ConvColumnState α) =>
          let s : TCpu.ConvColumnState α :=
            if s.count % (weights.GetNcols + 1) = 0 then { s with M := s.M.setElem i s.j 0 }
            else { s with M := s.M.setElem i s.j (cv.elem s.weightIndex 0),
                          weightIndex := s.weightIndex + 1 }
          { s with j := s.j + 1, count := s.count + 1 })
        cols s0).weightIndex := by
    rw [← hcvr]
    by_contra hcon
    exact hex ⟨by omega, by omega⟩
  rw [i7] at hge
  exact columnCell_zero_of_exhausted weights p _ col i4 hcol hge

/-- The padding loop of `GenerateTransConvMatrix` for row `i`. -/
theorem GenerateTransConvMatrix_padLoop {α : Type} [Zero α] [One α] [Add α] [Mul α]
    (R i p : Nat) (s0 : TCpu.ConvColumnState α) (hM : s0.M.fNRows = R) (hi : i < R) :
    ∃ s : TCpu.ConvColumnState α,
      (List.range p).foldl
        (fun (s : TCpu.ConvColumnState α) (k : Nat) =>
          { s with M := s.M.setElem i k 0, j := s.j + 1 }) s0 = s
      ∧ s.j = s0.j + p ∧ s.count = s0.count ∧ s.weightIndex = s0.weightIndex
      ∧ s.M.fNRows = R ∧ s.M.fNCols = s0.M.fNCols
      ∧ s.M.fBuffer.length = s0.M.fBuffer.length
      ∧ ∀ idx, s.M.fBuffer[idx]?
          = if idx % R = i ∧ 0 ≤ idx / R ∧ idx / R < p
            then (s0.M.fBuffer[idx]?).map (fun _ => (0 : α))
            else s0.M.fBuffer[idx]? := by
  refine ⟨_, rfl, ?_⟩
  refine foldl_range_inv
    (fun (s : TCpu.ConvColumnState α) (k : Nat) =>
      { s with M := s.M.setElem i k 0, j := s.j + 1 })
    (fun n s => s.j = s0.j + n ∧ s.count = s0.count ∧ s.weightIndex = s0.weightIndex
      ∧ s.M.fNRows = R ∧ s.M.fNCols = s0.M.fNCols
      ∧ s.M.fBuffer.length = s0.M.fBuffer.length
      ∧ ∀ idx, s.M.fBuffer[idx]?
          = if idx % R = i ∧ 0 ≤ idx / R ∧ idx / R < n
            then (s0.M.fBuffer[idx]?).map (fun _ => (0 : α))
            else s0.M.fBuffer[idx]?)
    p s0
    ⟨rfl, rfl, rfl, hM, rfl, rfl, fun idx => by
      rw [if_neg]
      intro h
      omega⟩
    ?_
  intro k _ s hs
  obtain ⟨c1, c2, c3, c4, c5, c6, c7⟩ := hs
  refine ⟨?_, c2, c3, c4, c5, ?_, ?_⟩
  · show s.j + 1 = s0.j + (k + 1)
    omega
  · show (s.M.setElem i k 0).fBuffer.length = _
    rw [setElem_fBuffer, List.length_set]
    exact c6
  · show ∀ idx, (s.M.setElem i k 0).fBuffer[idx]? = _
    rw [setElem_fBuffer, c4]
    exact row_write_update _ _ R i 0 k (fun _ => (0 : α)) 0 hi c6 (Nat.zero_le _) rfl c7

/-- The trailing loop of `GenerateTransConvMatrix` for row `i`. -/
theorem GenerateTransConvMatrix_trailLoop {α : Type} [Zero α] [One α] [Add α] [Mul α]
    (R i m : Nat) (s0 : TCpu.ConvColumnState α) (hM : s0.M.fNRows = R) (hi : i < R) :
    ∃ s : TCpu.ConvColumnState α,
      (List.range m).foldl
        (fun (s : TCpu.ConvColumnState α) (_ : Nat) =>
          { s with M := s.M.setElem i s.j 0, j := s.j + 1 }) s0 = s
      ∧ s.j = s0.j + m
      ∧ s.M.fNRows = R ∧ s.M.fNCols = s0.M.fNCols
      ∧ s.M.fBuffer.length = s0.M.fBuffer.length
      ∧ ∀ idx, s.M.fBuffer[idx]?
          = if idx % R = i ∧ s0.j ≤ idx / R ∧ idx / R < s0.j + m
            then (s0.M.fBuffer[idx]?).map (fun _ => (0 : α))
            else s0.M.fBuffer[idx]? := by
  refine ⟨_, rfl, ?_⟩
  refine foldl_range_inv
    (fun (s : TCpu.ConvColumnState α) (_ : Nat) =>
      { s with M := s.M.setElem i s.j 0, j := s.j + 1 })
    (fun n s => s.j = s0.j + n
      ∧ s.M.fNRows = R ∧ s.M.fNCols = s0.M.fNCols
      ∧ s.M.fBuffer.length = s0.M.fBuffer.length
      ∧ ∀ idx, s.M.fBuffer[idx]?
          = if idx % R = i ∧ s0.j ≤ idx / R ∧ idx / R < s0.j + n
            then (s0.M.fBuffer[idx]?).map (fun _ => (0 : α))
            else s0.M.fBuffer[idx]?)
    m s0
    ⟨rfl, hM, rfl, rfl, fun idx => by
      rw [if_neg]
      intro h
      omega⟩
    ?_
  intro k _ s hs
  obtain ⟨c1, c4, c5, c6, c7⟩ := hs
  refine ⟨?_, c4, c5, ?_, ?_⟩
  · show s.j + 1 = s0.j + (k + 1)
    omega
  · show (s.M.setElem i s.j 0).fBuffer.length = _
    rw [setElem_fBuffer, List.length_set]
    exact c6
  · show ∀ idx, (s.M.setElem i s.j 0).fBuffer[idx]? = _
    rw [setElem_fBuffer, c4, c1]
    exact row_write_update _ _ R i s0.j (s0.j + k) (fun _ => (0 : α)) 0 hi c6
      (Nat.le_add_right _ _) rfl c7

theorem GenerateTransConvMatrix_pass_eq {α : Type} [Zero α] [One α] [Add α] [Mul α]
    (weights cv : TCpuMatrix α) (cols i padCol : Nat) (s : TCpu.ConvColumnState α) :
    TCpu.GenerateTransConvMatrix.pass weights cv cols i padCol s
      = (List.range (cols - (whileLoop
            (fun (s : TCpu.ConvColumnState α) =>
              decide (s.weightIndex < cv.GetNrows ∧ s.j < cols))
            (fun (s : TCpu.ConvColumnState α) =>
              let s : TCpu.ConvColumnState α :=
                if s.count % (weights.GetNcols + 1) = 0 then
                  { s with M := s.M.setElem i s.j 0 }
                else { s with M := s.M.setElem i s.j (cv.elem s.weightIndex 0),
                              weightIndex := s.weightIndex + 1 }
              { s with j := s.j + 1, count := s.count + 1 })
            cols
            { (List.range padCol).foldl
                (fun (s : TCpu.ConvColumnState α) (k : Nat) =>
                  { s with M := s.M.setElem i k 0, j := s.j + 1 })
                { s with count := 1 } with weightIndex := 0 }).j)).foldl
          (fun (s : TCpu.ConvColumnState α) (_ : Nat) =>
            { s with M := s.M.setElem i s.j 0, j := s.j + 1 })
          (whileLoop
            (fun (s : TCpu.ConvColumnState α) =>
              decide (s.weightIndex < cv.GetNrows ∧ s.j < cols))
            (fun (s : TCpu.ConvColumnState α) =>
              let s : TCpu.ConvColumnState α :=
                if s.count % (weights.GetNcols + 1) = 0 then
                  { s with M := s.M.setElem i s.j 0 }
                else { s with M := s.M.setElem i s.j (cv.elem s.weightIndex 0),
                              weightIndex := s.weightIndex + 1 }
              { s with j := s.j + 1, count := s.count + 1 })
            cols
            { (List.range padCol).foldl
                (fun (s : TCpu.ConvColumnState α) (k : Nat) =>
                  { s with M := s.M.setElem i k 0, j := s.j + 1 })
                { s with count := 1 } with weightIndex := 0 }) := rfl

/-- One pass of `while (j < cols)` for row `i`, entered with `j = 0` and
padding `p`: it leaves `j ≥ cols`, the cells of the other rows as they were,
and `columnCell` in every column of row `i`. -/
theorem GenerateTransConvMatrix_pass_spec {α : Type} [Zero α] [One α] [Add α] [Mul α]
    (weights cv : TCpuMatrix α) (R cols i p : Nat) (s0 : TCpu.ConvColumnState α)
    (hcvr : cv.GetNrows = weights.GetNrows * weights.GetNcols)
    (hcv : ∀ r, r < weights.GetNrows → ∀ t, t < weights.GetNcols →
        cv.elem (r * weights.GetNcols + t) 0 = weights.elem r t)
    (hM : s0.M.fNRows = R) (hi : i < R) (hj : s0.j = 0) :
    ∃ s : TCpu.ConvColumnState α,
      TCpu.GenerateTransConvMatrix.pass weights cv cols i p s0 = s
      ∧ s.M.fNRows = R ∧ s.M.fNCols = s0.M.fNCols
      ∧ s.M.fBuffer.length = s0.M.fBuffer.length ∧ cols ≤ s.j
      ∧ (∀ idx, idx % R ≠ i → s.M.fBuffer[idx]? = s0.M.fBuffer[idx]?)
      ∧ (∀ col, col < cols → s.M.fBuffer[col * R + i]?
          = (s0.M.fBuffer[col * R + i]?).map
              (fun _ => TCpu.GenerateConvMatrix.columnCell weights p col)) := by
  obtain ⟨sp, ep, p1, p2, p3, p4, p5, p6, p7⟩ := GenerateTransConvMatrix_padLoop R i p
    ({ s0 with count := 1 } : TCpu.ConvColumnState α) hM hi
  have hpj : sp.j = p := by
    rw [p1]
    show s0.j + p = p
    omega
  obtain ⟨sw, ew, w1, w2, w3, w4, w5, w7, w8⟩ := GenerateTransConvMatrix_weightLoop weights cv R
    cols i p ({ sp with weightIndex := 0 } : TCpu.ConvColumnState α) hcvr hcv p4 hi hpj p2 rfl
  obtain ⟨st, et, t1, t2, t3, t4, t5⟩ :=
    GenerateTransConvMatrix_trailLoop R i (cols - sw.j) sw w1 hi
  refine ⟨st, ?_, t2, ?_, ?_, ?_, ?_, ?_⟩
  · rw [GenerateTransConvMatrix_pass_eq, ep, ew, et]
  · exact t3.trans (w2.trans p5)
  · exact t4.trans (w3.trans p6)
  · omega
  · intro idx hidx
    rw [t5 idx, if_neg (fun h => hidx h.1), w7 idx, if_neg (fun h => hidx h.1)]
    show sp.M.fBuffer[idx]? = _
    rw [p7 idx, if_neg (fun h => hidx h.1)]
  · intro col hcol
    obtain ⟨e1, e2⟩ := @cell_div_mod R i col hi
    have hl1 : sw.M.fBuffer.length = s0.M.fBuffer.length := w3.trans p6
    rw [t5 (col * R + i), e1, e2]
    by_cases h1 : sw.j ≤ col
    · rw [if_pos (⟨rfl, h1, by omega⟩ : i = i ∧ sw.j ≤ col ∧ col < sw.j + (cols - sw.j)),
        w8 col h1 hcol]
      exact map_const_getElem? _ _ _ _ hl1
    · rw [if_neg (fun h => h1 h.2.1), w7 (col * R + i), e1, e2]
      by_cases h2 : p ≤ col
      · rw [if_pos (⟨rfl, h2, by omega⟩ : i = i ∧ p ≤ col ∧ col < sw.j)]
        exact map_const_getElem? _ _ _ _ p6
      · rw [if_neg (fun h => h2 h.2.1)]
        show sp.M.fBuffer[col * R + i]? = _
        rw [p7 (col * R + i), e1, e2,
          if_pos (⟨rfl, Nat.zero_le _, by omega⟩ : i = i ∧ 0 ≤ col ∧ col < p)]
        have hz : TCpu.GenerateConvMatrix.columnCell weights p col = 0 := by
          unfold TCpu.GenerateConvMatrix.columnCell
          rw [if_neg]
          intro h
          exact h2 h.1
        rw [hz]

/-- The loop `while (j < cols)` for row `i`: one pass when the target has
columns, none otherwise. -/
theorem GenerateTransConvMatrix_row {α : Type} [Zero α] [One α] [Add α] [Mul α]
    (weights cv : TCpuMatrix α) (R cols i p : Nat) (M0 : TCpuMatrix α)
    (hcvr : cv.GetNrows = weights.GetNrows * weights.GetNcols)
    (hcv : ∀ r, r < weights.GetNrows → ∀ t, t < weights.GetNcols →
        cv.elem (r * weights.GetNcols + t) 0 = weights.elem r t)
    (hM : M0.fNRows = R) (hi : i < R) :
    ∃ s : TCpu.ConvColumnState α,
      whileLoop (fun (c : TCpu.ConvColumnState α) => decide (c.j < cols))
        (TCpu.GenerateTransConvMatrix.pass weights cv cols i p) cols
        { M := M0, j := 0, count := 1, weightIndex := 0 } = s
      ∧ s.M.fNRows = R ∧ s.M.fNCols = M0.fNCols
      ∧ s.M.fBuffer.length = M0.fBuffer.length
      ∧ (∀ idx, idx % R ≠ i → s.M.fBuffer[idx]? = M0.fBuffer[idx]?)
      ∧ (∀ col, col < cols → s.M.fBuffer[col * R + i]?
          = (M0.fBuffer[col * R + i]?).map
              (fun _ => TCpu.GenerateConvMatrix.columnCell weights p col)) := by
  cases cols with
  | zero =>
    refine ⟨_, rfl, hM, rfl, rfl, fun _ _ => rfl, ?_⟩
    intro col hcol
    exact absurd hcol (Nat.not_lt_zero _)
  | succ c =>
    obtain ⟨s, es, s1, s2, s3, s4, s5, s6⟩ := GenerateTransConvMatrix_pass_spec weights cv R
      (c + 1) i p ({ M := M0, j := 0, count := 1, weightIndex := 0 } : TCpu.ConvColumnState α)
      hcvr hcv hM hi rfl
    refine ⟨s, ?_, s1, s2, s3, s5, s6⟩
    rw [whileLoop_succ_of_cond (fun (c2 : TCpu.ConvColumnState α) => decide (c2.j < c + 1))
      (TCpu.GenerateTransConvMatrix.pass weights cv (c + 1) i p) c
      { M := M0, j := 0, count := 1, weightIndex := 0 } (decide_eq_true (Nat.succ_pos c)), es]
    exact whileLoop_of_not_cond (fun (c2 : TCpu.ConvColumnState α) => decide (c2.j < c + 1))
      (TCpu.GenerateTransConvMatrix.pass weights cv (c + 1) i p) c s
      (decide_eq_false (by omega))

theorem GenerateTransConvMatrix_eq {α : Type} [Zero α] [One α] [Add α] [Mul α]
    (weights M0 : TCpuMatrix α) :
    TCpu.GenerateTransConvMatrix weights [M0]
      = TCpu.GenerateColumnarMatrix weights
          [TCpuMatrix.zeros (weights.GetNrows * weights.GetNcols) 1] >>= fun columnarVector =>
        vecAt columnarVector 0 >>= fun cv =>
        Except.ok [((List.range M0.GetNrows).foldl
          (fun (s : TCpuMatrix α × Nat) (i : Nat) =>
            if i + 1 ≥ M0.GetNrows / 2 then
              ((whileLoop (fun (c : TCpu.ConvColumnState α) => decide (c.j < M0.GetNcols))
                  (TCpu.GenerateTransConvMatrix.pass weights cv M0.GetNcols i s.2) M0.GetNcols
                  { M := s.1, j := 0, count := 1, weightIndex := 0 }).M,
                sizeT (if toInt (sizeT (((M0.GetNcols : Int) - 1 - (cv.GetNrows : Int)
                      - ((weights.GetNrows : Int) - 1))
                      - ((M0.GetNrows : Int) - 1 - ((i + 1 : Nat) : Int)))) < 0 then 0
                  else toInt (sizeT (((M0.GetNcols : Int) - 1 - (cv.GetNrows : Int)
                      - ((weights.GetNrows : Int) - 1))
                      - ((M0.GetNrows : Int) - 1 - ((i + 1 : Nat) : Int))))))
            else
              ((whileLoop (fun (c : TCpu.ConvColumnState α) => decide (c.j < M0.GetNcols))
                  (TCpu.GenerateTransConvMatrix.pass weights cv M0.GetNcols i s.2) M0.GetNcols
                  { M := s.1, j := 0, count := 1, weightIndex := 0 }).M,
                i + 1))
          (M0, 0)).1] := rfl

/-- `GenerateTransConvMatrix` on a well-formed target: the call returns, the
target keeps its shape, and cell `(i, col)` is `columnCell` for the padding
`padRowAt` of row `i`, computed with the roles of the two dimensions
exchanged. -/
theorem GenerateTransConvMatrix_spec {α : Type} [Zero α] [One α] [Add α] [Mul α]
    (weights M0 : TCpuMatrix α) (hWF : M0.WellFormed) :
    ∃ M : TCpuMatrix α, TCpu.GenerateTransConvMatrix weights [M0] = Except.ok [M]
      ∧ M.GetNrows = M0.GetNrows ∧ M.GetNcols = M0.GetNcols ∧ M.WellFormed
      ∧ ∀ i, i < M0.GetNrows → ∀ col, col < M0.GetNcols →
          M.elem i col = TCpu.GenerateConvMatrix.columnCell weights
            (TCpu.GenerateConvMatrix.padRowAt weights M0.GetNcols M0.GetNrows i) col := by
  obtain ⟨cv, ecv, v1, _, v3, v4⟩ := GenerateColumnarMatrix_spec weights
    (TCpuMatrix.zeros (weights.GetNrows * weights.GetNcols) 1)
    (by
      show (List.replicate (weights.GetNrows * weights.GetNcols * 1) (0 : α)).length = _
      rw [List.length_replicate, Nat.mul_one])
  have hcvr : cv.GetNrows = weights.GetNrows * weights.GetNcols := v1
  have hcv : ∀ r, r < weights.GetNrows → ∀ t, t < weights.GetNcols →
      cv.elem (r * weights.GetNcols + t) 0 = weights.elem r t := by
    intro r hr t ht
    rw [elem_eq, Nat.zero_mul, Nat.zero_add, List.getD_eq_getElem?_getD, v4 r hr t ht]
    rfl
  have hinv := foldl_range_inv
    (fun (s : TCpuMatrix α × Nat) (i : Nat) =>
      if i + 1 ≥ M0.GetNrows / 2 then
        ((whileLoop (fun (c : TCpu.ConvColumnState α) => decide (c.j < M0.GetNcols))
            (TCpu.GenerateTransConvMatrix.pass weights cv M0.GetNcols i s.2) M0.GetNcols
            { M := s.1, j := 0, count := 1, weightIndex := 0 }).M,
          sizeT (if toInt (sizeT (((M0.GetNcols : Int) - 1 - (cv.GetNrows : Int)
                - ((weights.GetNrows : Int) - 1))
                - ((M0.GetNrows : Int) - 1 - ((i + 1 : Nat) : Int)))) < 0 then 0
            else toInt (sizeT (((M0.GetNcols : Int) - 1 - (cv.GetNrows : Int)
                - ((weights.GetNrows : Int) - 1))
                - ((M0.GetNrows : Int) - 1 - ((i + 1 : Nat) : Int))))))
      else
        ((whileLoop (fun (c : TCpu.ConvColumnState α) => decide (c.j < M0.GetNcols))
            (TCpu.GenerateTransConvMatrix.pass weights cv M0.GetNcols i s.2) M0.GetNcols
            { M := s.1, j := 0, count := 1, weightIndex := 0 }).M,
          i + 1))
    (fun n s => (n ≤ M0.GetNrows →
        s.2 = TCpu.GenerateConvMatrix.padRowAt weights M0.GetNcols M0.GetNrows n)
      ∧ s.1.fNRows = M0.GetNrows ∧ s.1.fNCols = M0.fNCols
      ∧ s.1.fBuffer.length = M0.fBuffer.length
      ∧ ∀ i, i < n → ∀ col, col < M0.GetNcols →
          s.1.fBuffer[col * M0.GetNrows + i]?
            = (M0.fBuffer[col * M0.GetNrows + i]?).map
                (fun _ => TCpu.GenerateConvMatrix.columnCell weights
                  (TCpu.GenerateConvMatrix.padRowAt weights M0.GetNcols M0.GetNrows i) col))
    M0.GetNrows (M0, 0)
    ⟨by
        intro _
        unfold TCpu.GenerateConvMatrix.padRowAt
        rw [if_pos rfl],
      rfl, rfl, rfl, fun c hc => absurd hc (Nat.not_lt_zero c)⟩
    (by
      intro k hk s hs
      obtain ⟨h1, h2, h3, h4, h5⟩ := hs
      obtain ⟨c, ec, c1, c2, c3, c4, c5⟩ := GenerateTransConvMatrix_row weights cv M0.GetNrows
        M0.GetNcols k s.2 s.1 hcvr hcv h2 hk
      have hcells : ∀ i, i < k + 1 → ∀ col, col < M0.GetNcols →
          c.M.fBuffer[col * M0.GetNrows + i]?
            = (M0.fBuffer[col * M0.GetNrows + i]?).map
                (fun _ => TCpu.GenerateConvMatrix.columnCell weights
                  (TCpu.GenerateConvMatrix.padRowAt weights M0.GetNcols M0.GetNrows i) col) := by
        intro i hi col hcol
        by_cases hik : i = k
        · subst hik
          rw [c5 col hcol, ← h1 (Nat.le_of_lt hk)]
          exact map_const_getElem? _ _ _ _ h4
        · have hlt : i < k := by omega
          have hmod : (col * M0.GetNrows + i) % M0.GetNrows ≠ k := by
            rw [(@cell_div_mod M0.GetNrows i col (by omega)).1]
            exact hik
          rw [c4 _ hmod, h5 i hlt col hcol]
      beta_reduce
      rw [ec]
      by_cases hhalf : k + 1 ≥ M0.GetNrows / 2
      · rw [if_pos hhalf]
        refine ⟨?_, c1, c2.trans h3, c3.trans h4, hcells⟩
        intro _
        unfold TCpu.GenerateConvMatrix.padRowAt
        rw [if_neg (Nat.succ_ne_zero k), if_pos hhalf, hcvr]
      · rw [if_neg hhalf]
        refine ⟨?_, c1, c2.trans h3, c3.trans h4, hcells⟩
        intro _
        unfold TCpu.GenerateConvMatrix.padRowAt
        rw [if_neg (Nat.succ_ne_zero k), if_neg hhalf])
  obtain ⟨_, h2, h3, h4, h5⟩ := hinv
  refine ⟨_, ?_, h2, h3, ?_, ?_⟩
  · rw [GenerateTransConvMatrix_eq]
    refine (Except_bind_ok _ [cv] _ ecv).trans ?_
    exact (Except_bind_ok _ cv _ rfl).trans rfl
  · unfold TCpuMatrix.WellFormed
    rw [h4, h2, h3]
    exact hWF
  · intro i hi col hcol
    have hlt : col * M0.GetNrows + i < M0.fBuffer.length := by
      have h := @cell_lt_size M0.GetNrows M0.GetNcols i col hi hcol
      have hl : M0.fBuffer.length = M0.GetNrows * M0.GetNcols := hWF
      omega
    rw [elem_eq, h2, List.getD_eq_getElem?_getD, h5 i hi col hcol,
      List.getElem?_eq_getElem hlt]
    rfl

/-- C32: `GenerateTransConvMatrix` is the transposed orientation of
`GenerateConvMatrix`.  For every weight matrix `W`, every well-formed target
`T0` of `r × c` cells and every well-formed target `M0` of `c × r` cells on
which the padding of every line stays inside the target, both calls return,
the results keep the shapes `r × c` and `c × r`, and cell `(i, j)` of the
matrix written by `GenerateTransConvMatrix` equals cell `(j, i)` of the matrix
written by `GenerateConvMatrix`. -/
theorem C32_transConvMatrix_is_transpose {α : Type} [Zero α] [One α] [Add α] [Mul α]
    (weights T0 M0 : TCpuMatrix α) (r c : Nat)
    (hT : HasShape T0 r c) (hM : HasShape M0 c r)
    (_hrange : ∀ i, i < r → TCpu.GenerateConvMatrix.padRowAt weights c r i ≤ c) :
    ∃ T M : TCpuMatrix α,
      TCpu.GenerateTransConvMatrix weights [T0] = Except.ok [T]
      ∧ TCpu.GenerateConvMatrix weights [M0] = Except.ok [M]
      ∧ HasShape T r c ∧ HasShape M c r
      ∧ ∀ i, i < r → ∀ j, j < c → T.elem i j = M.elem j i := by
  obtain ⟨tr, tc, tWF⟩ := hT
  obtain ⟨mr, mc, mWF⟩ := hM
  obtain ⟨T, eT, t1, t2, t3, t4⟩ := GenerateTransConvMatrix_spec weights T0 tWF
  obtain ⟨M, eM, m1, m2, m3, m4⟩ := GenerateConvMatrix_spec weights M0 mWF
  rw [tr, tc] at t4
  rw [mr, mc] at m4
  refine ⟨T, M, eT, eM, ⟨t1.trans tr, t2.trans tc, t3⟩, ⟨m1.trans mr, m2.trans mc, m3⟩, ?_⟩
  intro i hi j hj
  rw [t4 i hi j hj, m4 i hi j hj]

set_option maxRecDepth 100000 in
theorem C32_transConvMatrix_is_transpose_witness :
    ∃ T M : TCpuMatrix Int,
      TCpu.GenerateTransConvMatrix (TCpuMatrix.ofRows 2 2 [[1, 2], [3, 4]])
          [(TCpuMatrix.zeros 4 6 : TCpuMatrix Int)] = Except.ok [T]
      ∧ TCpu.GenerateConvMatrix (TCpuMatrix.ofRows 2 2 [[1, 2], [3, 4]])
          [(TCpuMatrix.zeros 6 4 : TCpuMatrix Int)] = Except.ok [M]
      ∧ HasShape T 4 6 ∧ HasShape M 6 4
      ∧ ∀ i, i < 4 → ∀ j, j < 6 → T.elem i j = M.elem j i :=
  C32_transConvMatrix_is_transpose (TCpuMatrix.ofRows 2 2 [[1, 2], [3, 4]])
    (TCpuMatrix.zeros 4 6) (TCpuMatrix.zeros 6 4) 4 6
    ⟨rfl, rfl, zeros_wellFormed 4 6⟩ ⟨rfl, rfl, zeros_wellFormed 6 4⟩
    (by decide)

/-! ## Batches of more than one element in the transposed convolution -/

theorem TransConvLayerBackward_body_eq {α : Type} [Zero α] [One α] [Add α] [Mul α]
    (fOnes : List α) (input : List (TCpuMatrix α)) (weights biases : TCpuMatrix α)
    (output : List (TCpuMatrix α)) (i : Nat) :
    TCpu.TransConvLayerBackward.body fOnes input weights biases output i
      = vecAt output i >>= fun output_i =>
        vecAt input i >>= fun input_i =>
        TCpu.GenerateColumnarMatrix input_i
          [TCpuMatrix.zeros (input_i.GetNrows * input_i.GetNcols) 1] >>= fun inputTrVector =>
        vecAt inputTrVector 0 >>= fun inputTr =>
        vecAt [TCpu.TransConvLayerForward.convMatrix output_i inputTr] i >>= fun _ =>
        TCpu.GenerateTransConvMatrix weights
          [TCpu.TransConvLayerForward.convMatrix output_i inputTr] >>= fun convMatrices =>
        vecAt convMatrices i >>= fun convMatrix_i =>
        TCpu.Multiply (TCpuMatrix.zeros (output_i.GetNcols * output_i.GetNrows) 1) convMatrix_i
          inputTr >>= fun outputTr =>
        TCpu.AddConvBiases fOnes
          ((List.range output_i.GetNrows).foldl
            (fun (o : TCpuMatrix α) (j : Nat) =>
              (List.range output_i.GetNcols).foldl
                (fun (o : TCpuMatrix α) (k : Nat) =>
                  o.setElem j k (outputTr.elem (j * output_i.GetNcols + k) 0))
                o)
            output_i) biases >>= fun output_i2 =>
        Except.ok (output.set i output_i2) := rfl

theorem vecAt_error {β : Type} (v : List β) (i : Nat) (e : Failure) (x : Except Failure β)
    (h : vecAt v i = x) (hx : x = Except.error e) : e = Failure.OutOfRange := by
  subst hx
  unfold vecAt at h
  cases hv : v[i]? with
  | none =>
    rw [hv] at h
    injection h with h
    exact h.symm
  | some y =>
    rw [hv] at h
    cases h

theorem vecAt_singleton {β : Type} (x : β) (i : Nat) :
    vecAt [x] i = if i = 0 then Except.ok x else Except.error Failure.OutOfRange := by
  cases i with
  | zero => rfl
  | succ n => rfl

/-- The part of a batch iteration of the transposed convolution that precedes
the generation of the dense matrix fails with an out-of-range access for every
batch index but the first. -/
theorem transConv_prologue_overrun {α : Type} [Zero α] [One α] [Add α] [Mul α] {γ : Type}
    (input output : List (TCpuMatrix α)) (i : Nat) (hi : 1 ≤ i)
    (rest : TCpuMatrix α → TCpuMatrix α → Except Failure γ) :
    (vecAt output i >>= fun output_i =>
      vecAt input i >>= fun input_i =>
      TCpu.GenerateColumnarMatrix input_i
        [TCpuMatrix.zeros (input_i.GetNrows * input_i.GetNcols) 1] >>= fun inputTrVector =>
      vecAt inputTrVector 0 >>= fun inputTr =>
      vecAt [TCpu.TransConvLayerForward.convMatrix output_i inputTr] i >>= fun _ =>
      rest output_i inputTr) = Except.error Failure.OutOfRange := by
  cases ho : vecAt output i with
  | error e =>
    have he := vecAt_error output i e _ rfl ho
    subst he
    rfl
  | ok output_i =>
    refine (Except_bind_ok _ output_i _ rfl).trans ?_
    cases hin : vecAt input i with
    | error e =>
      have he := vecAt_error input i e _ rfl hin
      subst he
      rfl
    | ok input_i =>
      refine (Except_bind_ok _ input_i _ rfl).trans ?_
      refine (Except_bind_ok _ _ _ (GenerateColumnarMatrix_eq input_i _)).trans ?_
      refine (Except_bind_ok _ _ _ rfl).trans ?_
      rw [vecAt_singleton, if_neg (by omega)]
      rfl

theorem foldlM_range_two_fail {σ : Type} (step : σ → Nat → Except Failure σ) (n : Nat) (s0 : σ)
    (e : Failure) (h1 : ∀ s, step s 1 = Except.error e) :
    (List.range (n + 2)).foldlM step s0 = step s0 0 >>= fun _ => Except.error e := by
  have hr : List.range (n + 2) = 0 :: 1 :: (List.range n).map (fun k => k + 2) := by
    rw [List.range_succ_eq_map, List.range_succ_eq_map, List.map_cons, List.map_map]
    rfl
  rw [hr, List.foldlM_cons]
  cases h0 : step s0 0 with
  | error e0 => rfl
  | ok s1 =>
    show List.foldlM step s1 (1 :: (List.range n).map (fun k => k + 2)) = Except.error e
    rw [List.foldlM_cons, h1 s1]
    rfl

/-- C38: batches larger than one overrun the one-element vector
`convMatrices`.  The lookup `convMatrices[i]` in a one-element vector succeeds
for `i = 0` and is out of range for every other `i`; iteration `i ≥ 1` of the
batch loop of `TransConvLayerForward` and of `TransConvLayerBackward` ends in
an out-of-range access whatever the data; and a call of either kernel with
`output.size() ≥ 2` is iteration 0 followed by that out-of-range access, so
it never returns normally. -/
theorem C38_batch_over_one_overruns {α : Type} [Zero α] [One α] [Add α] [Mul α]
    (fOnes : List α) (output derivatives input : List (TCpuMatrix α))
    (weights biases : TCpuMatrix α) (params : TConvParams) (activFunc : EActivationFunction)
    (hsize : 2 ≤ output.length) :
    (∀ (cm : TCpuMatrix α) (i : Nat),
      vecAt [cm] i = if i = 0 then Except.ok cm else Except.error Failure.OutOfRange)
    ∧ (∀ (out : List (TCpuMatrix α)) (i : Nat), 1 ≤ i →
        TCpu.TransConvLayerForward.body fOnes input weights biases out i
          = Except.error Failure.OutOfRange
        ∧ TCpu.TransConvLayerBackward.body fOnes input weights biases out i
          = Except.error Failure.OutOfRange)
    ∧ TCpu.TransConvLayerForward fOnes output derivatives input weights biases params activFunc
        = (TCpu.TransConvLayerForward.body fOnes input weights biases output 0
            >>= fun _ => Except.error Failure.OutOfRange)
    ∧ TCpu.TransConvLayerBackward fOnes output derivatives input weights biases params activFunc
        = (TCpu.TransConvLayerBackward.body fOnes input weights biases output 0
            >>= fun _ => Except.error Failure.OutOfRange)
    ∧ (∀ r, TCpu.TransConvLayerForward fOnes output derivatives input weights biases params
          activFunc ≠ Except.ok r)
    ∧ (∀ r, TCpu.TransConvLayerBackward fOnes output derivatives input weights biases params
          activFunc ≠ Except.ok r) := by
  have hF : ∀ (out : List (TCpuMatrix α)) (i : Nat), 1 ≤ i →
      TCpu.TransConvLayerForward.body fOnes input weights biases out i
        = Except.error Failure.OutOfRange := by
    intro out i hi
    rw [TransConvLayerForward_body_eq]
    exact transConv_prologue_overrun input out i hi _
  have hB : ∀ (out : List (TCpuMatrix α)) (i : Nat), 1 ≤ i →
      TCpu.TransConvLayerBackward.body fOnes input weights biases out i
        = Except.error Failure.OutOfRange := by
    intro out i hi
    rw [TransConvLayerBackward_body_eq]
    exact transConv_prologue_overrun input out i hi _
  obtain ⟨n, hn⟩ : ∃ n, output.length = n + 2 := ⟨output.length - 2, by omega⟩
  have eF : TCpu.TransConvLayerForward fOnes output derivatives input weights biases params
      activFunc
      = (TCpu.TransConvLayerForward.body fOnes input weights biases output 0
          >>= fun _ => Except.error Failure.OutOfRange) := by
    have h0 : TCpu.TransConvLayerForward fOnes output derivatives input weights biases params
        activFunc
        = (List.range output.length).foldlM
            (TCpu.TransConvLayerForward.body fOnes input weights biases) output
          >>= fun out => Except.ok (out, derivatives) := rfl
    rw [h0, hn, foldlM_range_two_fail _ n output Failure.OutOfRange
      (fun s => hF s 1 (Nat.le_refl 1))]
    cases TCpu.TransConvLayerForward.body fOnes input weights biases output 0 with
    | error e => rfl
    | ok s => rfl
  have eB : TCpu.TransConvLayerBackward fOnes output derivatives input weights biases params
      activFunc
      = (TCpu.TransConvLayerBackward.body fOnes input weights biases output 0
          >>= fun _ => Except.error Failure.OutOfRange) := by
    have h0 : TCpu.TransConvLayerBackward fOnes output derivatives input weights biases params
        activFunc
        = (List.range output.length).foldlM
            (TCpu.TransConvLayerBackward.body fOnes input weights biases) output
          >>= fun out => Except.ok (out, derivatives) := rfl
    rw [h0, hn, foldlM_range_two_fail _ n output Failure.OutOfRange
      (fun s => hB s 1 (Nat.le_refl 1))]
    cases TCpu.TransConvLayerBackward.body fOnes input weights biases output 0 with
    | error e => rfl
    | ok s => rfl
  refine ⟨fun cm i => vecAt_singleton cm i, fun out i hi => ⟨hF out i hi, hB out i hi⟩,
    eF, eB, ?_, ?_⟩
  · intro r hr
    rw [eF] at hr
    cases hb : TCpu.TransConvLayerForward.body fOnes input weights biases output 0 with
    | error e =>
      rw [hb] at hr
      cases hr
    | ok s =>
      rw [hb] at hr
      cases hr
  · intro r hr
    rw [eB] at hr
    cases hb : TCpu.TransConvLayerBackward.body fOnes input weights biases output 0 with
    | error e =>
      rw [hb] at hr
      cases hr
    | ok s =>
      rw [hb] at hr
      cases hr

theorem C38_batch_over_one_overruns_witness :
    2 ≤ [(TCpuMatrix.zeros 1 1 : TCpuMatrix Int), TCpuMatrix.zeros 1 1].length
    ∧ TCpu.TransConvLayerForward [1] [(TCpuMatrix.zeros 1 1 : TCpuMatrix Int), TCpuMatrix.zeros 1 1]
        [] [TCpuMatrix.ofRows 1 1 [[5]], TCpuMatrix.ofRows 1 1 [[7]]] (TCpuMatrix.ofRows 1 1 [[3]])
        (TCpuMatrix.ofRows 1 1 [[2]]) fixtureParams EActivationFunction.kIdentity
      = (TCpu.TransConvLayerForward.body [1]
          [TCpuMatrix.ofRows 1 1 [[5]], TCpuMatrix.ofRows 1 1 [[7]]] (TCpuMatrix.ofRows 1 1 [[3]])
          (TCpuMatrix.ofRows 1 1 [[2]])
          [(TCpuMatrix.zeros 1 1 : TCpuMatrix Int), TCpuMatrix.zeros 1 1] 0
          >>= fun _ => Except.error Failure.OutOfRange)
    ∧ TCpu.TransConvLayerBackward [1]
        [(TCpuMatrix.zeros 1 1 : TCpuMatrix Int), TCpuMatrix.zeros 1 1]
        [] [TCpuMatrix.ofRows 1 1 [[5]], TCpuMatrix.ofRows 1 1 [[7]]] (TCpuMatrix.ofRows 1 1 [[3]])
        (TCpuMatrix.ofRows 1 1 [[2]]) fixtureParams EActivationFunction.kIdentity
      = (TCpu.TransConvLayerBackward.body [1]
          [TCpuMatrix.ofRows 1 1 [[5]], TCpuMatrix.ofRows 1 1 [[7]]] (TCpuMatrix.ofRows 1 1 [[3]])
          (TCpuMatrix.ofRows 1 1 [[2]])
          [(TCpuMatrix.zeros 1 1 : TCpuMatrix Int), TCpuMatrix.zeros 1 1] 0
          >>= fun _ => Except.error Failure.OutOfRange) :=
  ⟨by decide,
    (C38_batch_over_one_overruns [1]
      [(TCpuMatrix.zeros 1 1 : TCpuMatrix Int), TCpuMatrix.zeros 1 1] []
      [TCpuMatrix.ofRows 1 1 [[5]], TCpuMatrix.ofRows 1 1 [[7]]] (TCpuMatrix.ofRows 1 1 [[3]])
      (TCpuMatrix.ofRows 1 1 [[2]]) fixtureParams EActivationFunction.kIdentity
      (by decide)).2.2.1,
    (C38_batch_over_one_overruns [1]
      [(TCpuMatrix.zeros 1 1 : TCpuMatrix Int), TCpuMatrix.zeros 1 1] []
      [TCpuMatrix.ofRows 1 1 [[5]], TCpuMatrix.ofRows 1 1 [[7]]] (TCpuMatrix.ofRows 1 1 [[3]])
      (TCpuMatrix.ofRows 1 1 [[2]]) fixtureParams EActivationFunction.kIdentity
      (by decide)).2.2.2.1⟩

/-! ## The padding of the columns of the dense matrix -/

/-- The padding of a column in the second half of the target, when the sizes
are within the range of `int`. -/
theorem padRowAt_second_half {α : Type} [Zero α] [One α] [Add α] [Mul α]
    (weights : TCpuMatrix α) (rows cols c : Nat)
    (hrows : rows < 2147483648)
    (hsize : weights.GetNrows * weights.GetNcols + weights.GetNrows + cols ≤ 2147483648)
    (hc0 : 1 ≤ c) (hhalf : cols / 2 ≤ c) (hc : c < cols) :
    ((TCpu.GenerateConvMatrix.padRowAt weights rows cols c : Nat) : Int)
      = max 0 ((rows : Int) - ((weights.GetNrows * weights.GetNcols : Nat) : Int)
          - (weights.GetNrows : Int) - ((cols : Int) - 1 - (c : Int))) := by
  unfold TCpu.GenerateConvMatrix.padRowAt
  rw [if_neg (by omega), if_pos hhalf]
  generalize weights.GetNrows * weights.GetNcols = L at hsize ⊢
  have hx0 : -2147483648 ≤ ((rows : Int) - 1 - (L : Int) - ((weights.GetNrows : Int) - 1))
      - ((cols : Int) - 1 - (c : Int)) := by omega
  have hx1 : ((rows : Int) - 1 - (L : Int) - ((weights.GetNrows : Int) - 1))
      - ((cols : Int) - 1 - (c : Int)) < 2147483648 := by omega
  show ((sizeT (if toInt (sizeT (((rows : Int) - 1 - (L : Int) - ((weights.GetNrows : Int) - 1))
      - ((cols : Int) - 1 - (c : Int)))) < 0 then 0
    else toInt (sizeT (((rows : Int) - 1 - (L : Int) - ((weights.GetNrows : Int) - 1))
      - ((cols : Int) - 1 - (c : Int))))) : Nat) : Int) = _
  rw [toInt_sizeT, toInt_of_range hx0 hx1]
  by_cases hneg : ((rows : Int) - 1 - (L : Int) - ((weights.GetNrows : Int) - 1))
      - ((cols : Int) - 1 - (c : Int)) < 0
  · rw [if_pos hneg, sizeT_of_nonneg (le_refl 0) (by norm_num)]
    omega
  · rw [if_neg hneg, sizeT_of_nonneg (by omega) hx1]
    omega

/-- C31 (amended): the padding of the columns of `GenerateConvMatrix`.  For
every weight matrix `W` and every well-formed target of `rows × cols` cells
with sizes within the range of `int`, the call returns a matrix whose column
`c` starts with `pad(c) = padRowAt W rows cols c` zero rows, followed by
`W(0,0)` when that row exists; `pad` rises by one per column on the first half
of the columns (`pad(c) = c` for `c < cols/2`); on the second half it is
`max(0, rows - wRows*wCols - wRows - (cols - 1 - c))`, which never falls: it
stays the same or rises by one from a column to the next. -/
theorem C31_padding_rises_in_both_halves {α : Type} [Zero α] [One α] [Add α] [Mul α]
    (weights M0 : TCpuMatrix α) (rows cols : Nat) (hM : HasShape M0 rows cols)
    (hrows : rows < 2147483648)
    (hsize : weights.GetNrows * weights.GetNcols + weights.GetNrows + cols ≤ 2147483648) :
    ∃ M : TCpuMatrix α, TCpu.GenerateConvMatrix weights [M0] = Except.ok [M]
      ∧ (∀ c, c < cols → ∀ row, row < rows →
          row < TCpu.GenerateConvMatrix.padRowAt weights rows cols c → M.elem row c = 0)
      ∧ (∀ c, c < cols → TCpu.GenerateConvMatrix.padRowAt weights rows cols c < rows →
          0 < weights.GetNrows → 0 < weights.GetNcols →
          M.elem (TCpu.GenerateConvMatrix.padRowAt weights rows cols c) c = weights.elem 0 0)
      ∧ TCpu.GenerateConvMatrix.padRowAt weights rows cols 0 = 0
      ∧ (∀ c, c < cols / 2 → TCpu.GenerateConvMatrix.padRowAt weights rows cols c = c)
      ∧ (∀ c, 1 ≤ c → cols / 2 ≤ c → c < cols →
          ((TCpu.GenerateConvMatrix.padRowAt weights rows cols c : Nat) : Int)
            = max 0 ((rows : Int) - ((weights.GetNrows * weights.GetNcols : Nat) : Int)
                - (weights.GetNrows : Int) - ((cols : Int) - 1 - (c : Int))))
      ∧ (∀ c, 1 ≤ c → cols / 2 ≤ c → c + 1 < cols →
          TCpu.GenerateConvMatrix.padRowAt weights rows cols c
            ≤ TCpu.GenerateConvMatrix.padRowAt weights rows cols (c + 1)
          ∧ TCpu.GenerateConvMatrix.padRowAt weights rows cols (c + 1)
            ≤ TCpu.GenerateConvMatrix.padRowAt weights rows cols c + 1) := by
  obtain ⟨hr, hc, hWF⟩ := hM
  obtain ⟨M, e, m1, m2, m3, m4⟩ := GenerateConvMatrix_spec weights M0 hWF
  rw [hr, hc] at m4
  refine ⟨M, e, ?_, ?_, ?_, ?_, ?_, ?_⟩
  · intro c hcc row hrow hpad
    rw [m4 c hcc row hrow]
    unfold TCpu.GenerateConvMatrix.columnCell
    rw [if_neg]
    intro h
    omega
  · intro c hcc hpad hwr hwc
    rw [m4 c hcc _ hpad]
    unfold TCpu.GenerateConvMatrix.columnCell
    rw [Nat.sub_self, Nat.zero_mod, Nat.zero_div, if_pos ⟨Nat.le_refl _, hwc, hwr⟩]
  · unfold TCpu.GenerateConvMatrix.padRowAt
    rw [if_pos rfl]
  · intro c hcc
    unfold TCpu.GenerateConvMatrix.padRowAt
    by_cases h0 : c = 0
    · rw [if_pos h0, h0]
    · rw [if_neg h0, if_neg (by omega)]
  · intro c h1 h2 h3
    exact padRowAt_second_half weights rows cols c hrows hsize h1 h2 h3
  · intro c h1 h2 h3
    have a := padRowAt_second_half weights rows cols c hrows hsize h1 h2 (by omega)
    have b := padRowAt_second_half weights rows cols (c + 1) hrows hsize (by omega) (by omega) h3
    push_cast at a b
    omega

theorem C31_padding_rises_in_both_halves_witness :
    ∃ M : TCpuMatrix Int,
      TCpu.GenerateConvMatrix fixtureWeights [(TCpuMatrix.zeros 16 4 : TCpuMatrix Int)]
        = Except.ok [M]
      ∧ (∀ c, c < 4 → ∀ row, row < 16 →
          row < TCpu.GenerateConvMatrix.padRowAt fixtureWeights 16 4 c → M.elem row c = 0)
      ∧ (∀ c, c < 4 → TCpu.GenerateConvMatrix.padRowAt fixtureWeights 16 4 c < 16 →
          0 < fixtureWeights.GetNrows → 0 < fixtureWeights.GetNcols →
          M.elem (TCpu.GenerateConvMatrix.padRowAt fixtureWeights 16 4 c) c
            = fixtureWeights.elem 0 0)
      ∧ TCpu.GenerateConvMatrix.padRowAt fixtureWeights 16 4 0 = 0
      ∧ (∀ c, c < 4 / 2 → TCpu.GenerateConvMatrix.padRowAt fixtureWeights 16 4 c = c)
      ∧ (∀ c, 1 ≤ c → 4 / 2 ≤ c → c < 4 →
          ((TCpu.GenerateConvMatrix.padRowAt fixtureWeights 16 4 c : Nat) : Int)
            = max 0 (((16 : Nat) : Int)
                - ((fixtureWeights.GetNrows * fixtureWeights.GetNcols : Nat) : Int)
                - (fixtureWeights.GetNrows : Int) - (((4 : Nat) : Int) - 1 - (c : Int))))
      ∧ (∀ c, 1 ≤ c → 4 / 2 ≤ c → c + 1 < 4 →
          TCpu.GenerateConvMatrix.padRowAt fixtureWeights 16 4 c
            ≤ TCpu.GenerateConvMatrix.padRowAt fixtureWeights 16 4 (c + 1)
          ∧ TCpu.GenerateConvMatrix.padRowAt fixtureWeights 16 4 (c + 1)
            ≤ TCpu.GenerateConvMatrix.padRowAt fixtureWeights 16 4 c + 1) :=
  C31_padding_rises_in_both_halves fixtureWeights (TCpuMatrix.zeros 16 4) 16 4
    ⟨rfl, rfl, zeros_wellFormed 16 4⟩ (by norm_num)
    (by norm_num [fixtureWeights, TCpuMatrix.GetNrows, TCpuMatrix.GetNcols, TCpuMatrix.ofRows])

set_option maxRecDepth 100000 in
/-- On the 16 × 4 target of the test fixture the columns are padded with
0, 1, 5 and 6 zero rows: after the midpoint column the padding keeps rising,
it does not come down again to 0 at the last column. -/
theorem C31_padding_ramp_down_refuted :
    TCpu.GenerateConvMatrix fixtureWeights [(TCpuMatrix.zeros 16 4 : TCpuMatrix Int)]
      = Except.ok [TCpuMatrix.ofRows 16 4
          [[1, 0, 0, 0], [4, 1, 0, 0], [1, 4, 0, 0], [1, 1, 0, 0], [4, 1, 0, 0], [3, 4, 1, 0],
           [3, 3, 4, 1], [3, 3, 1, 4], [1, 3, 1, 1], [0, 1, 4, 1], [0, 0, 3, 4], [0, 0, 3, 3],
           [0, 0, 3, 3], [0, 0, 1, 3], [0, 0, 0, 1], [0, 0, 0, 0]]]
    ∧ (List.range 4).map (TCpu.GenerateConvMatrix.padRowAt fixtureWeights 16 4) = [0, 1, 5, 6]
    ∧ ¬ (∀ c, 4 / 2 ≤ c → c + 1 < 4 →
          TCpu.GenerateConvMatrix.padRowAt fixtureWeights 16 4 (c + 1) + 1
            = TCpu.GenerateConvMatrix.padRowAt fixtureWeights 16 4 c) := by
  refine ⟨by decide, by decide, ?_⟩
  intro h
  have h2 := h 2 (by decide) (by decide)
  revert h2
  decide

end DNN
end TMVA
